import Mathlib

/-!
# trajopt_sco: the trust-region SQP driver (`optimizers.cpp`)

A shallow embedding of `sco::BasicTrustRegionSQP` and of the helpers it is
built from, and of the joint velocity and acceleration terms of
`trajopt/src/kinematic_terms.cpp`, followed by theorems about them.

## Number model

C++ `double`s are modelled in exact arithmetic.

* A double that the program only ever obtains from finite data by `+`, `-`
  and `*` (iterates, cost values, violations, merits, most parameters) is a
  rational number, `ℚ`.
* A double that can be non-finite even in exact arithmetic is a `Dbl`: the
  variable bounds and the parameters whose documented value is infinite
  (`min_approx_improve_frac`, `max_time`), every quotient (the divisor may
  be zero), and `trust_box_size`, which the penalty escalation assigns from
  a quotient.  `Dbl` follows IEEE-754 for infinities and NaN (comparisons
  with NaN are false, `fmax`/`fmin` skip a NaN argument).
* Rounding and the sign of zero are not modelled: a zero divisor is `+0`.

C++ `int`s are `Int` (no overflow is modelled).

## Control flow

* The convex back end, the costs and the constraints are parameters: the
  theorems hold for every `Model`, `Cost` and `Constraint`.
* Each loop of `optimize` is a recursive function with a `fuel` bound on
  its number of passes; `none` means that the bound was reached.
* A `goto` or `break` is the exit value of the loop it leaves (`InnerExit`,
  `IterExit`, `SqpExit`); the local variable `retval` is a field of the
  state.
* Callbacks, log records and assertions do not change the state the code
  reads: they are recorded as `Event`s in the field `trace`, which no branch
  of the model inspects.
* A `ConvexObjective` carries the list of the calls that added terms to it,
  so that `cntsToCosts` can be followed call by call.
-/

namespace sco

/-! ## Doubles -/

/-- A double-precision value that may be infinite or NaN; finite values are
exact rationals. -/
inductive Dbl where
  | fin (q : ℚ)
  | pinf
  | ninf
  | nan
  deriving DecidableEq, Repr

namespace Dbl

/-- IEEE `a < b`: false as soon as one side is NaN. -/
def lt : Dbl → Dbl → Bool
  | fin a, fin b => decide (a < b)
  | fin _, pinf => true
  | ninf, fin _ => true
  | ninf, pinf => true
  | _, _ => false

/-- IEEE `a <= b`: false as soon as one side is NaN. -/
def le : Dbl → Dbl → Bool
  | fin a, fin b => decide (a ≤ b)
  | fin _, pinf => true
  | ninf, fin _ => true
  | ninf, pinf => true
  | pinf, pinf => true
  | ninf, ninf => true
  | _, _ => false

/-- IEEE `a >= b`. -/
def ge (a b : Dbl) : Bool := le b a

/-- IEEE negation. -/
def neg : Dbl → Dbl
  | fin a => fin (-a)
  | pinf => ninf
  | ninf => pinf
  | nan => nan

/-- IEEE `a + b` without rounding. -/
def add : Dbl → Dbl → Dbl
  | fin a, fin b => fin (a + b)
  | nan, _ => nan
  | _, nan => nan
  | pinf, ninf => nan
  | ninf, pinf => nan
  | pinf, _ => pinf
  | ninf, _ => ninf
  | fin _, pinf => pinf
  | fin _, ninf => ninf

/-- IEEE `a - b` without rounding. -/
def sub (a b : Dbl) : Dbl := add a (neg b)

/-- The product of an infinity of sign `pos` with the finite value `q`. -/
def infMul (pos : Bool) (q : ℚ) : Dbl :=
  if q = 0 then nan
  else if 0 < q then (if pos then pinf else ninf)
  else (if pos then ninf else pinf)

/-- IEEE `a * b` without rounding. -/
def mul : Dbl → Dbl → Dbl
  | fin a, fin b => fin (a * b)
  | nan, _ => nan
  | _, nan => nan
  | pinf, fin b => infMul true b
  | ninf, fin b => infMul false b
  | fin a, pinf => infMul true a
  | fin a, ninf => infMul false a
  | pinf, pinf => pinf
  | ninf, ninf => pinf
  | pinf, ninf => ninf
  | ninf, pinf => ninf

/-- IEEE `a / b` for finite operands, without rounding; the zero divisor is
`+0`. -/
def fdiv (a b : ℚ) : Dbl :=
  if b = 0 then
    (if 0 < a then pinf else if a < 0 then ninf else nan)
  else fin (a / b)

/-- C `fmax`: a NaN argument is skipped. -/
def fmax : Dbl → Dbl → Dbl
  | nan, b => b
  | a, nan => a
  | a, b => if lt a b then b else a

/-- C `fmin`: a NaN argument is skipped. -/
def fmin : Dbl → Dbl → Dbl
  | nan, b => b
  | a, nan => a
  | a, b => if lt b a then b else a

end Dbl

/-- `DblVec`: a `std::vector<double>` of finite values. -/
abbrev DblVec := List ℚ

/-! ## `setTrustBoxConstraints` -/

/-- `BasicTrustRegionSQP::setTrustBoxConstraints` (lines 189–201): the
vectors `lbtrust`, `ubtrust` handed to `model_->setVarBounds`.  The loop runs
over `i < x.size()`; a read of `lb[i]` or `ub[i]` past the end (undefined in
the source) is modelled as the unbounded value. -/
def setTrustBoxConstraints (x : DblVec) (trust_box_size : Dbl) (lb ub : List Dbl) :
    List Dbl × List Dbl :=
  ((List.range x.length).map fun i =>
      Dbl.fmax (Dbl.sub (Dbl.fin (x.getD i 0)) trust_box_size) (lb.getD i Dbl.ninf),
   (List.range x.length).map fun i =>
      Dbl.fmin (Dbl.add (Dbl.fin (x.getD i 0)) trust_box_size) (ub.getD i Dbl.pinf))

/-! ## Data model -/

/-- Modelled from the spec: `OptStatus`, the status returned by `optimize`
(the enum is declared in optimizers.hpp, which is not among the sources; its
five values are those the spec lists and `optimize` names). -/
inductive OptStatus where
  | OPT_CONVERGED
  | OPT_SCO_ITERATION_LIMIT
  | OPT_PENALTY_ITERATION_LIMIT
  | OPT_FAILED
  | INVALID
  deriving DecidableEq, Repr

/-- Modelled from the spec: `CvxOptStatus`, the status of one convex solve
(the enum is declared in solver_interface.hpp, which is not among the
sources).  `optimize` names `CVX_SOLVED` only; the other values are the
spec's `Failed`, `Infeasible` and `Unbounded`. -/
inductive CvxOptStatus where
  | CVX_SOLVED
  | CVX_INFEASIBLE
  | CVX_FAILED
  | CVX_UNBOUNDED
  deriving DecidableEq, Repr

/-- Modelled from the spec: `OptResults`, the snapshot the optimizer keeps
and returns (the struct is declared in optimizers.hpp, which is not among
the sources; the fields are those `optimizers.cpp` reads and writes). -/
structure OptResults where
  x : DblVec
  status : OptStatus
  total_cost : ℚ
  cost_vals : DblVec
  cnt_viols : DblVec
  n_func_evals : Int
  n_qp_solves : Int
  deriving DecidableEq, Repr

/-- Modelled from the spec: `BasicTrustRegionSQPParameters` (the struct is
declared in optimizers.hpp, which is not among the sources; the fields are
those its constructor sets).  `max_iter` and `max_merit_coeff_increases` are
the integer caps of the spec's table.  `log_results` stands for the whole
test `param_.log_results || util::GetLogLevel() >= util::LevelDebug`. -/
structure BasicTrustRegionSQPParameters where
  improve_ratio_threshold : ℚ
  min_trust_box_size : ℚ
  min_approx_improve : ℚ
  min_approx_improve_frac : Dbl
  max_iter : Int
  trust_shrink_ratio : ℚ
  trust_expand_ratio : ℚ
  cnt_tolerance : ℚ
  max_merit_coeff_increases : Int
  merit_coeff_increase_ratio : ℚ
  max_time : Dbl
  merit_error_coeff : ℚ
  trust_box_size : Dbl
  log_results : Bool
  log_dir : String
  deriving DecidableEq, Repr

/-- The constructor `BasicTrustRegionSQPParameters()` (lines 161–178). -/
def BasicTrustRegionSQPParameters.defaults : BasicTrustRegionSQPParameters where
  improve_ratio_threshold := 1 / 4
  min_trust_box_size := 1 / 10000
  min_approx_improve := 1 / 10000
  min_approx_improve_frac := Dbl.ninf
  max_iter := 50
  trust_shrink_ratio := 1 / 10
  trust_expand_ratio := 3 / 2
  cnt_tolerance := 1 / 10000
  max_merit_coeff_increases := 5
  merit_coeff_increase_ratio := 10
  max_time := Dbl.pinf
  merit_error_coeff := 10
  trust_box_size := Dbl.fin (1 / 10)
  log_results := false
  log_dir := "/tmp"

/-- Modelled from the spec: `AffExpr` (solver_interface.hpp, not among the
sources), a constant plus a linear combination of backend variables; a
variable is named by its index. -/
structure AffExpr where
  constant : ℚ
  coeffs : List ℚ
  vars : List Nat
  deriving DecidableEq, Repr

/-- Modelled from the spec: `QuadExpr` (solver_interface.hpp, not among the
sources), an affine expression plus products of pairs of variables. -/
structure QuadExpr where
  affexpr : AffExpr
  coeffs : List ℚ
  vars1 : List Nat
  vars2 : List Nat
  deriving DecidableEq, Repr

/-- Modelled from the spec: one call of a method of `ConvexObjective` that
adds a term to it (the methods are defined in modeling.cpp, which is not
among the sources; the spec lists affine, quadratic, hinge and abs terms). -/
inductive ObjectiveCall where
  | addAffExpr (aff : AffExpr)
  | addQuadExpr (quad : QuadExpr)
  | addHinge (aff : AffExpr) (coeff : ℚ)
  | addAbs (aff : AffExpr) (coeff : ℚ)
  deriving DecidableEq, Repr

/-- `ConvexObjective`, as far as the driver reads it: `value(x)` at the
backend's variable values, and the calls by which terms were added to the
object, in the order they were made. -/
structure ConvexObjective where
  value : DblVec → ℚ
  calls : List ObjectiveCall := []

/-- `ConvexConstraints`, as far as the driver reads it: `violation(x)` at
the backend's variable values, and the members `eqs_` and `ineqs_`. -/
structure ConvexConstraints where
  violation : DblVec → ℚ
  eqs_ : List AffExpr := []
  ineqs_ : List AffExpr := []

/-- `Cost`: exact value and local convexification at a point. -/
structure Cost where
  value : DblVec → ℚ
  convex : DblVec → ConvexObjective

/-- `Constraint`: exact violation and local convexification at a point. -/
structure Constraint where
  violation : DblVec → ℚ
  convex : DblVec → ConvexConstraints

/-- `OptProb`, as far as the driver reads it.  `getClosestFeasiblePoint` is
defined in modeling.cpp, which is not among the sources, and is taken as a
parameter of the problem. -/
structure OptProb where
  vars : List String
  lower_bounds : List Dbl
  upper_bounds : List Dbl
  costs : List Cost
  constraints : List Constraint
  getClosestFeasiblePoint : DblVec → DblVec

/-- The convex back end `Model`, a black box: `optimize` is given the number
of solves made before this one, the linearisation point and penalty
coefficient the objective was built from, and the variable bounds last set;
it answers with a status and the values `getVarValues(getVars())`. -/
structure Model where
  optimize : Int → DblVec → ℚ → List Dbl → List Dbl → CvxOptStatus × DblVec

/-- Modelled from the spec: `vecSum` (sco_common.hpp, not among the
sources), the sum of the entries. -/
def vecSum (v : DblVec) : ℚ := v.foldl (fun acc a => acc + a) 0

/-- Modelled from the spec: `vecMax` (sco_common.hpp, not among the
sources), the largest entry; the driver calls it on non-empty vectors only. -/
def vecMax (v : DblVec) : ℚ :=
  match v with
  | [] => 0
  | a :: t => t.foldl (fun acc b => if acc < b then b else acc) a

/-- `evaluateCosts` (lines 35–43). -/
def evaluateCosts (costs : List Cost) (x : DblVec) : DblVec :=
  costs.map fun c => c.value x

/-- `evaluateConstraintViols` (lines 44–52). -/
def evaluateConstraintViols (constraints : List Constraint) (x : DblVec) : DblVec :=
  constraints.map fun c => c.violation x

/-- `convexifyCosts` (lines 53–63). -/
def convexifyCosts (costs : List Cost) (x : DblVec) : List ConvexObjective :=
  costs.map fun c => c.convex x

/-- `convexifyConstraints` (lines 64–74). -/
def convexifyConstraints (cnts : List Constraint) (x : DblVec) : List ConvexConstraints :=
  cnts.map fun c => c.convex x

/-- `evaluateModelCosts` (lines 76–84). -/
def evaluateModelCosts (costs : List ConvexObjective) (x : DblVec) : DblVec :=
  costs.map fun c => c.value x

/-- `evaluateModelCntViols` (lines 85–93). -/
def evaluateModelCntViols (cnts : List ConvexConstraints) (x : DblVec) : DblVec :=
  cnts.map fun c => c.violation x

/-- Modelled from the spec: `new ConvexObjective(model)`, an objective to
which nothing was added yet. -/
def ConvexObjective.new : ConvexObjective where
  value := fun _ => 0
  calls := []

/-- Modelled from the spec: `ConvexObjective::addAbs` (modeling.cpp, not
among the sources), recorded as a call.  `value` is left as it is: the
driver reads it for the log only on the objects built this way. -/
def ConvexObjective.addAbs (obj : ConvexObjective) (aff : AffExpr) (coeff : ℚ) :
    ConvexObjective :=
  { obj with calls := obj.calls ++ [ObjectiveCall.addAbs aff coeff] }

/-- Modelled from the spec: `ConvexObjective::addHinge` (modeling.cpp, not
among the sources), recorded as a call.  `value` is left as it is. -/
def ConvexObjective.addHinge (obj : ConvexObjective) (aff : AffExpr) (coeff : ℚ) :
    ConvexObjective :=
  { obj with calls := obj.calls ++ [ObjectiveCall.addHinge aff coeff] }

/-- `cntsToCosts` (lines 119–139); each range-`for` is a left fold and
`push_back` appends. -/
def cntsToCosts (cnts : List ConvexConstraints) (err_coeff : ℚ) : List ConvexObjective :=
  cnts.foldl
    (fun out cnt =>
      let obj := ConvexObjective.new
      let obj1 := cnt.eqs_.foldl (fun o aff => o.addAbs aff err_coeff) obj
      let obj2 := cnt.ineqs_.foldl (fun o aff => o.addHinge aff err_coeff) obj1
      out ++ [obj2])
    []

/-- `BasicTrustRegionSQPResults`: the report of one trust-region step (the
name lists, used for printing only, are left out). -/
structure BasicTrustRegionSQPResults where
  model_var_vals : DblVec
  model_cost_vals : DblVec
  model_cnt_viols : DblVec
  new_x : DblVec
  new_cost_vals : DblVec
  old_cost_vals : DblVec
  new_cnt_viols : DblVec
  old_cnt_viols : DblVec
  old_merit : ℚ
  model_merit : ℚ
  new_merit : ℚ
  approx_merit_improve : ℚ
  exact_merit_improve : ℚ
  merit_improve_ratio : Dbl
  merit_error_coeff : ℚ
  deriving DecidableEq, Repr

/-- `BasicTrustRegionSQPResults::update` (lines 247–293).  `model_var_vals`
is `model.getVarValues(model.getVars())`; `new_x` is its first
`prev_opt_results.x.size()` entries. -/
def BasicTrustRegionSQPResults.update (prev_opt_results : OptResults) (model_var_vals : DblVec)
    (cost_models : List ConvexObjective) (cnt_models : List ConvexConstraints)
    (constraints : List Constraint) (costs : List Cost) (merit_error_coeff : ℚ) :
    BasicTrustRegionSQPResults :=
  let model_cost_vals := evaluateModelCosts cost_models model_var_vals
  let model_cnt_viols := evaluateModelCntViols cnt_models model_var_vals
  let new_x := model_var_vals.take prev_opt_results.x.length
  let old_cost_vals := prev_opt_results.cost_vals
  let old_cnt_viols := prev_opt_results.cnt_viols
  let new_cost_vals := evaluateCosts costs new_x
  let new_cnt_viols := evaluateConstraintViols constraints new_x
  let old_merit := vecSum old_cost_vals + merit_error_coeff * vecSum old_cnt_viols
  let model_merit := vecSum model_cost_vals + merit_error_coeff * vecSum model_cnt_viols
  let new_merit := vecSum new_cost_vals + merit_error_coeff * vecSum new_cnt_viols
  let approx_merit_improve := old_merit - model_merit
  let exact_merit_improve := old_merit - new_merit
  { model_var_vals := model_var_vals
    model_cost_vals := model_cost_vals
    model_cnt_viols := model_cnt_viols
    new_x := new_x
    new_cost_vals := new_cost_vals
    old_cost_vals := old_cost_vals
    new_cnt_viols := new_cnt_viols
    old_cnt_viols := old_cnt_viols
    old_merit := old_merit
    model_merit := model_merit
    new_merit := new_merit
    approx_merit_improve := approx_merit_improve
    exact_merit_improve := exact_merit_improve
    merit_improve_ratio := Dbl.fdiv exact_merit_improve approx_merit_improve
    merit_error_coeff := merit_error_coeff }

/-! ## The optimizer object and the run state -/

/-- The members of `BasicTrustRegionSQP` (with those of its base class
`Optimizer`) that `optimize` reads and writes.  A callback is named by a
number; callbacks are observers and do not change the results they are
passed. -/
structure BasicTrustRegionSQP where
  results_ : OptResults
  param_ : BasicTrustRegionSQPParameters
  callbacks_ : List Nat
  deriving DecidableEq, Repr

/-- What a run of `optimize` does, in order (ghost record, read by no
branch of the code). -/
inductive Event where
  /-- One callback called by `callCallbacks` with the results it is passed. -/
  | callback (cb : Nat) (r : OptResults)
  /-- The merit adjustment loop enters its body (line 505). -/
  | meritStage (merit_increases : Int)
  /-- The SQP loop enters its body (line 507). -/
  | sqpIteration (iter : Int)
  /-- The first-iteration evaluation of lines 517–520. -/
  | bootstrap
  /-- The call `model_->optimize()` of line 566 and its status. -/
  | qpSolve (status : CvxOptStatus)
  /-- The report built by `iteration_results.update` at line 580. -/
  | report (rep : BasicTrustRegionSQPResults)
  /-- One record written to each log, with the header flag (lines 589–602). -/
  | logRecord (header : Bool)
  /-- The gate of line 613 fired. -/
  | convergedApprox
  /-- The gate of line 622 fired. -/
  | convergedFrac
  /-- The step was rejected (lines 630–635). -/
  | shrunk
  /-- The step was accepted (lines 636–644). -/
  | accepted
  /-- The trust region is tiny (lines 647–652). -/
  | tiny
  /-- The SQP iteration limit was hit (lines 653–658). -/
  | iterationLimit
  /-- The constraints are satisfied at the penalty adjustment (lines 662–667). -/
  | satisfied
  /-- The penalty was escalated (lines 668–673). -/
  | escalated
  /-- The merit loop ran out (line 675). -/
  | penaltyLimit
  /-- An `assert` whose condition was false, by source line. -/
  | assertFailed (line : Nat)
  deriving DecidableEq, Repr

/-- The optimizer object during a run of `optimize`, with the local variable
`retval` and the ghost record of the run. -/
structure SQPState extends BasicTrustRegionSQP where
  retval : OptStatus
  trace : List Event
  deriving DecidableEq, Repr

/-- Where control goes when the trust-region `while` loop is left. -/
inductive InnerExit where
  /-- By `goto cleanup` (line 577). -/
  | cleanup
  /-- By `goto penaltyadjustment` (lines 619, 628). -/
  | penaltyadjustment
  /-- By `break` or by the loop condition. -/
  | fallthrough
  deriving DecidableEq, Repr

/-- Where control goes when the SQP `for` loop is left. -/
inductive SqpExit where
  | cleanup
  | penaltyadjustment
  deriving DecidableEq, Repr

/-- What the body of the trust-region loop did with one solve. -/
inductive StepKind where
  | failed
  | convergedApprox
  | convergedFrac
  | shrunk
  | accepted
  deriving DecidableEq, Repr

/-- Records that the assertion of source line `line` is checked with
condition `cond`. -/
def SQPState.assert (s : SQPState) (line : Nat) (cond : Bool) : SQPState :=
  if cond then s else { s with trace := s.trace ++ [Event.assertFailed line] }

/-- Appends one event to the ghost record. -/
def SQPState.emit (s : SQPState) (e : Event) : SQPState :=
  { s with trace := s.trace ++ [e] }

/-- `Optimizer::callCallbacks` (lines 142–148). -/
def callCallbacks (s : SQPState) : SQPState :=
  { s with trace := s.trace ++ s.callbacks_.map fun cb => Event.callback cb s.results_ }

/-- `BasicTrustRegionSQP::adjustTrustRegion` (line 188). -/
def adjustTrustRegion (s : SQPState) (ratio : ℚ) : SQPState :=
  { s with param_.trust_box_size := Dbl.mul s.param_.trust_box_size (Dbl.fin ratio) }

/-- `Optimizer::addCallback` (line 141). -/
def addCallback (o : BasicTrustRegionSQP) (cb : Nat) : BasicTrustRegionSQP :=
  { o with callbacks_ := o.callbacks_ ++ [cb] }

/-- `Optimizer::initialize` (lines 150–159) on the members `prob_` (`none`
when no problem was set) and `results_`; the result is the message thrown, if
any, and `results_` afterwards.  `OptResults::clear` is defined in
optimizers.hpp, which is not among the sources, and is the parameter
`clear`. -/
def Optimizer.init (clear : OptResults → OptResults) (prob_ : Option OptProb)
    (results_ : OptResults) (x : DblVec) : Option String × OptResults :=
  match prob_ with
  | none => (some "need to set the problem before initializing", results_)
  | some prob =>
    if prob.vars.length ≠ x.length then
      (some ("initialization vector has wrong length. expected " ++ toString prob.vars.length ++
          " got " ++ toString x.length), results_)
    else (none, { clear results_ with x := x })

/-! ## `optimize` -/

/-- The convex models of one SQP iteration (lines 535–552): the point and the
penalty coefficient the objective is built from, and the convexified costs
and constraints. -/
structure Convexified where
  x : DblVec
  merit_error_coeff : ℚ
  cost_models : List ConvexObjective
  cnt_models : List ConvexConstraints
  cnt_cost_models : List ConvexObjective

/-- Lines 535–538. -/
def convexify (prob : OptProb) (s : SQPState) : Convexified where
  x := s.results_.x
  merit_error_coeff := s.param_.merit_error_coeff
  cost_models := convexifyCosts prob.costs s.results_.x
  cnt_models := convexifyConstraints prob.constraints s.results_.x
  cnt_cost_models :=
    cntsToCosts (convexifyConstraints prob.constraints s.results_.x) s.param_.merit_error_coeff

/-- The branch taken at lines 613–644 for a report. -/
inductive Decision where
  | convergedApprox
  | convergedFrac
  | shrink
  | accept
  deriving DecidableEq, Repr

/-- The tests of lines 613, 622 and 630–631, in the order of the source. -/
def stepDecision (p : BasicTrustRegionSQPParameters) (r : BasicTrustRegionSQPResults) :
    Decision :=
  if r.approx_merit_improve < p.min_approx_improve then Decision.convergedApprox
  else if Dbl.lt (Dbl.fdiv r.approx_merit_improve r.old_merit) p.min_approx_improve_frac then
    Decision.convergedFrac
  else if r.exact_merit_improve < 0 ∨
      Dbl.lt r.merit_improve_ratio (Dbl.fin p.improve_ratio_threshold) = true then
    Decision.shrink
  else Decision.accept

/-- The kind of step a decision stands for. -/
def Decision.toStepKind : Decision → StepKind
  | Decision.convergedApprox => StepKind.convergedApprox
  | Decision.convergedFrac => StepKind.convergedFrac
  | Decision.shrink => StepKind.shrunk
  | Decision.accept => StepKind.accepted

/-- Lines 613–644: what the chosen branch does to the state. -/
def applyDecision (s : SQPState) (rep : BasicTrustRegionSQPResults) : StepKind × SQPState :=
  match stepDecision s.param_ rep with
  | Decision.convergedApprox =>
    (StepKind.convergedApprox,
      ({ s with retval := OptStatus.OPT_CONVERGED } : SQPState).emit Event.convergedApprox)
  | Decision.convergedFrac =>
    (StepKind.convergedFrac,
      ({ s with retval := OptStatus.OPT_CONVERGED } : SQPState).emit Event.convergedFrac)
  | Decision.shrink =>
    (StepKind.shrunk, (adjustTrustRegion s s.param_.trust_shrink_ratio).emit Event.shrunk)
  | Decision.accept =>
    let s1 : SQPState :=
      { s with
        results_.x := rep.new_x
        results_.cost_vals := rep.new_cost_vals
        results_.cnt_viols := rep.new_cnt_viols }
    (StepKind.accepted, (adjustTrustRegion s1 s1.param_.trust_expand_ratio).emit Event.accepted)

/-- Lines 565–568: set the trust box, solve, count the solve.  The result
is the status with the values `getVarValues(getVars())`, and the state. -/
def solveTrustBox (prob : OptProb) (model : Model) (cm : Convexified) (s : SQPState) :
    (CvxOptStatus × DblVec) × SQPState :=
  let s0 := s.assert 192 (decide (prob.vars.length = s.results_.x.length))
  let bounds := setTrustBoxConstraints s0.results_.x s0.param_.trust_box_size
    prob.lower_bounds prob.upper_bounds
  let sol := model.optimize s0.results_.n_qp_solves cm.x cm.merit_error_coeff bounds.1 bounds.2
  (sol, ({ s0 with results_.n_qp_solves := s0.results_.n_qp_solves + 1 } : SQPState).emit
      (Event.qpSolve sol.1))

/-- Lines 580–604 after a solve that gave the values `vals`: build the
report, write the log records, count the evaluation. -/
def buildReport (prob : OptProb) (cm : Convexified) (vals : DblVec) (s : SQPState) :
    BasicTrustRegionSQPResults × SQPState :=
  let rep := BasicTrustRegionSQPResults.update s.results_ vals cm.cost_models cm.cnt_models
    prob.constraints prob.costs s.param_.merit_error_coeff
  let s2 := s.emit (Event.report rep)
  let s3 :=
    if s2.param_.log_results then
      s2.emit (Event.logRecord (decide (s2.results_.n_func_evals = 1)))
    else s2
  (rep, { s3 with results_.n_func_evals := s3.results_.n_func_evals + 1 })

/-- The body of the trust-region loop, lines 565–644: one solve and what
follows from it. -/
def trustRegionStep (prob : OptProb) (model : Model) (cm : Convexified) (s : SQPState) :
    StepKind × SQPState :=
  let solved := solveTrustBox prob model cm s
  if solved.1.1 ≠ CvxOptStatus.CVX_SOLVED then
    (StepKind.failed, { solved.2 with retval := OptStatus.OPT_FAILED })
  else
    let built := buildReport prob cm solved.1.2 solved.2
    applyDecision built.2 built.1

/-- The trust-region loop, lines 563–645.  `fuel` bounds the number of
passes; `none` means the bound was reached. -/
def trustRegionLoop (prob : OptProb) (model : Model) (cm : Convexified) :
    Nat → SQPState → Option (InnerExit × SQPState)
  | 0, _ => none
  | fuel + 1, s =>
    if Dbl.ge s.param_.trust_box_size (Dbl.fin s.param_.min_trust_box_size) = true then
      match trustRegionStep prob model cm s with
      | (StepKind.failed, s1) => some (InnerExit.cleanup, s1)
      | (StepKind.convergedApprox, s1) => some (InnerExit.penaltyadjustment, s1)
      | (StepKind.convergedFrac, s1) => some (InnerExit.penaltyadjustment, s1)
      | (StepKind.shrunk, s1) => trustRegionLoop prob model cm fuel s1
      | (StepKind.accepted, s1) => some (InnerExit.fallthrough, s1)
    else some (InnerExit.fallthrough, s)

/-- Where control goes at the end of one pass through the SQP loop body. -/
inductive IterExit where
  | cleanup
  | penaltyadjustment
  /-- The `for` loop goes on with `++iter`. -/
  | next
  deriving DecidableEq, Repr

/-- Lines 515–521: the first-iteration evaluation. -/
def bootstrap (prob : OptProb) (s : SQPState) : SQPState :=
  if s.results_.cost_vals.isEmpty && s.results_.cnt_viols.isEmpty then
    let s1 : SQPState :=
      { s with
        results_.cnt_viols := evaluateConstraintViols prob.constraints s.results_.x
        results_.cost_vals := evaluateCosts prob.costs s.results_.x }
    let s2 := s1.assert 519 (decide (s1.results_.n_func_evals = 0))
    ({ s2 with results_.n_func_evals := s2.results_.n_func_evals + 1 } : SQPState).emit
      Event.bootstrap
  else s

/-- Lines 647–658: the tests made once the trust-region loop is left by
`break` or by its condition. -/
def afterTrustRegionLoop (iter : Int) (s : SQPState) : IterExit × SQPState :=
  if Dbl.lt s.param_.trust_box_size (Dbl.fin s.param_.min_trust_box_size) = true then
    (IterExit.penaltyadjustment,
      ({ s with retval := OptStatus.OPT_CONVERGED } : SQPState).emit Event.tiny)
  else if iter ≥ s.param_.max_iter then
    (IterExit.cleanup,
      ({ s with retval := OptStatus.OPT_SCO_ITERATION_LIMIT } : SQPState).emit
        Event.iterationLimit)
  else (IterExit.next, s)

/-- One pass through the body of the SQP loop, lines 508–658. -/
def sqpIteration (prob : OptProb) (model : Model) (fuel : Nat) (iter : Int) (s : SQPState) :
    Option (IterExit × SQPState) :=
  let s1 := bootstrap prob (callCallbacks (s.emit (Event.sqpIteration iter)))
  match trustRegionLoop prob model (convexify prob s1) fuel s1 with
  | none => none
  | some (InnerExit.cleanup, s2) => some (IterExit.cleanup, s2)
  | some (InnerExit.penaltyadjustment, s2) => some (IterExit.penaltyadjustment, s2)
  | some (InnerExit.fallthrough, s2) => some (afterTrustRegionLoop iter s2)

/-- The SQP loop `for (int iter = 1;; ++iter)`, lines 506–659, from the
value `iter`.  `fuel` bounds the number of passes of this loop and of each
trust-region loop in it. -/
def sqpLoop (prob : OptProb) (model : Model) (fuel : Nat) :
    Nat → Int → SQPState → Option (SqpExit × SQPState)
  | 0, _, _ => none
  | k + 1, iter, s =>
    match sqpIteration prob model fuel iter s with
    | none => none
    | some (IterExit.cleanup, s1) => some (SqpExit.cleanup, s1)
    | some (IterExit.penaltyadjustment, s1) => some (SqpExit.penaltyadjustment, s1)
    | some (IterExit.next, s1) => sqpLoop prob model fuel k (iter + 1) s1

/-- The escalation of lines 670–672. -/
def escalate (s : SQPState) : SQPState :=
  ({ s with
      param_.merit_error_coeff := s.param_.merit_error_coeff * s.param_.merit_coeff_increase_ratio
      param_.trust_box_size :=
        Dbl.fmax s.param_.trust_box_size
          (Dbl.mul (Dbl.fdiv s.param_.min_trust_box_size s.param_.trust_shrink_ratio)
            (Dbl.fin (3 / 2))) } : SQPState).emit Event.escalated

/-- The label `penaltyadjustment`, lines 661–673: `true` stands for
`goto cleanup`, `false` for the next pass of the merit loop. -/
def penaltyAdjustment (s : SQPState) : Bool × SQPState :=
  if s.results_.cnt_viols.isEmpty ∨ vecMax s.results_.cnt_viols < s.param_.cnt_tolerance then
    (true, s.emit Event.satisfied)
  else (false, escalate s)

/-- The merit adjustment loop, lines 504–674, from the value
`merit_increases`, and line 675 behind it; the result is the state at the
label `cleanup`. -/
def meritLoop (prob : OptProb) (model : Model) (fuel : Nat) :
    Nat → Int → SQPState → Option SQPState
  | 0, _, _ => none
  | k + 1, merit_increases, s =>
    if merit_increases < s.param_.max_merit_coeff_increases then
      match sqpLoop prob model fuel fuel 1 (s.emit (Event.meritStage merit_increases)) with
      | none => none
      | some (SqpExit.cleanup, s1) => some s1
      | some (SqpExit.penaltyadjustment, s1) =>
        match penaltyAdjustment s1 with
        | (true, s2) => some s2
        | (false, s2) => meritLoop prob model fuel k (merit_increases + 1) s2
    else
      some (({ s with retval := OptStatus.OPT_PENALTY_ITERATION_LIMIT } : SQPState).emit
        Event.penaltyLimit)

/-- The label `cleanup`, lines 678–683. -/
def cleanup (s : SQPState) : SQPState :=
  let s1 := s.assert 679 (decide (s.retval ≠ OptStatus.INVALID))
  callCallbacks
    { s1 with
      results_.status := s1.retval
      results_.total_cost := vecSum s1.results_.cost_vals }

/-- How a call of `optimize` ends. -/
inductive Run where
  /-- `PRINT_AND_THROW` was reached. -/
  | threw (msg : String)
  /-- `return retval`, with the final state. -/
  | returned (retval : OptStatus) (s : SQPState)
  deriving DecidableEq, Repr

/-- Lines 497–502: the state in which the merit loop is entered. -/
def startState (prob : OptProb) (o : BasicTrustRegionSQP) : SQPState :=
  let s0 : SQPState :=
    { o with
      results_.x := prob.getClosestFeasiblePoint o.results_.x
      retval := OptStatus.INVALID
      trace := [] }
  let s1 := s0.assert 499 (decide (s0.results_.x.length = prob.vars.length))
  s1.assert 500 (decide (prob.costs.length > 0 ∨ prob.constraints.length > 0))

/-- `BasicTrustRegionSQP::optimize` (lines 472–694) on the optimizer object
`o`; `none` means that a loop ran for more than `fuel` passes. -/
def optimize (prob : OptProb) (model : Model) (fuel : Nat) (o : BasicTrustRegionSQP) :
    Option Run :=
  if o.results_.x.length = 0 then some (Run.threw "you forgot to initialize!")
  else
    match meritLoop prob model fuel fuel 0 (startState prob o) with
    | none => none
    | some s3 => some (Run.returned s3.retval (cleanup s3))

/-- The report that `trustRegionStep` builds when its solve succeeds. -/
def stepReport (prob : OptProb) (model : Model) (cm : Convexified) (s : SQPState) :
    BasicTrustRegionSQPResults :=
  (buildReport prob cm (solveTrustBox prob model cm s).1.2 (solveTrustBox prob model cm s).2).1

/-! ## Relations between the states of a run -/

/-- The parameter block `q` differs from `p` at most in `trust_box_size`. -/
def BasicTrustRegionSQPParameters.sameStage (p q : BasicTrustRegionSQPParameters) : Prop :=
  q = { p with trust_box_size := q.trust_box_size }

/-- The parameter block `q` differs from `p` at most in `trust_box_size` and
`merit_error_coeff`. -/
def BasicTrustRegionSQPParameters.sameRun (p q : BasicTrustRegionSQPParameters) : Prop :=
  q = { p with trust_box_size := q.trust_box_size, merit_error_coeff := q.merit_error_coeff }

/-- Between `s` and `t` the callbacks are the same and the parameters differ
at most in `trust_box_size`. -/
def SQPState.stageFrame (s t : SQPState) : Prop :=
  s.param_.sameStage t.param_ ∧ t.callbacks_ = s.callbacks_

/-- Between `s` and `t` the callbacks are the same and the parameters differ
at most in `trust_box_size` and `merit_error_coeff`. -/
def SQPState.runFrame (s t : SQPState) : Prop :=
  s.param_.sameRun t.param_ ∧ t.callbacks_ = s.callbacks_

/-- The record of `t` is the record of `s` followed by events that all
satisfy `Q`. -/
def SQPState.extendsBy (Q : Event → Bool) (s t : SQPState) : Prop :=
  ∃ l, t.trace = s.trace ++ l ∧ ∀ e ∈ l, Q e = true

/-- The event is a penalty escalation. -/
def Event.isEscalated : Event → Bool
  | Event.escalated => true
  | _ => false

/-- The event is the start of a pass of the merit loop. -/
def Event.isMeritStage : Event → Bool
  | Event.meritStage _ => true
  | _ => false

/-- The event is the start of a pass of the SQP loop. -/
def Event.isSqpIteration : Event → Bool
  | Event.sqpIteration _ => true
  | _ => false

/-- The events recorded by the body of the trust-region loop. -/
def Event.inStep : Event → Bool
  | Event.qpSolve _ => true
  | Event.report _ => true
  | Event.logRecord _ => true
  | Event.convergedApprox => true
  | Event.convergedFrac => true
  | Event.shrunk => true
  | Event.accepted => true
  | Event.assertFailed line => decide (line = 192)
  | _ => false

/-- The events recorded by one pass of the SQP loop after its start. -/
def Event.inIterationBody (e : Event) : Bool :=
  e.inStep ||
    match e with
    | Event.callback _ _ => true
    | Event.bootstrap => true
    | Event.tiny => true
    | Event.iterationLimit => true
    | Event.assertFailed line => decide (line = 519)
    | _ => false

/-- The events recorded by one pass of the SQP loop. -/
def Event.inIteration (e : Event) : Bool :=
  e.inIterationBody || e.isSqpIteration

/-- The events recorded by the merit loop and line 675. -/
def Event.inStage (e : Event) : Bool :=
  e.inIteration ||
    match e with
    | Event.meritStage _ => true
    | Event.satisfied => true
    | Event.escalated => true
    | Event.penaltyLimit => true
    | _ => false

/-- The event is the call of one callback. -/
def Event.isCallback : Event → Bool
  | Event.callback _ _ => true
  | _ => false

/-- The event is a call of `model_->optimize()`. -/
def Event.isQpSolve : Event → Bool
  | Event.qpSolve _ => true
  | _ => false

/-- The event is a call of `model_->optimize()` whose status is not
`CVX_SOLVED`. -/
def Event.isFailedSolve : Event → Bool
  | Event.qpSolve status => decide (status ≠ CvxOptStatus.CVX_SOLVED)
  | _ => false

/-- The event is a report built by `iteration_results.update`. -/
def Event.isReport : Event → Bool
  | Event.report _ => true
  | _ => false

/-- The event is the first-iteration evaluation. -/
def Event.isBootstrap : Event → Bool
  | Event.bootstrap => true
  | _ => false

/-- The event is an accepted step. -/
def Event.isAccepted : Event → Bool
  | Event.accepted => true
  | _ => false

/-- The event is a rejected step. -/
def Event.isShrunk : Event → Bool
  | Event.shrunk => true
  | _ => false

/-- The event is a convergence gate of lines 613 or 622 firing. -/
def Event.isGate : Event → Bool
  | Event.convergedApprox => true
  | Event.convergedFrac => true
  | _ => false

/-- The event that ends the body of the trust-region loop: a failed solve,
a convergence gate, a rejection or an acceptance. -/
def Event.endsStep (e : Event) : Bool :=
  e.isFailedSolve || e.isGate || e.isShrunk || e.isAccepted

/-- The event recorded by the branch of lines 613–644 that a decision
stands for. -/
def Decision.event : Decision → Event
  | Decision.convergedApprox => Event.convergedApprox
  | Decision.convergedFrac => Event.convergedFrac
  | Decision.shrink => Event.shrunk
  | Decision.accept => Event.accepted

/-- The event records where control goes between the trust-region steps. -/
def Event.isControl : Event → Bool
  | Event.meritStage _ => true
  | Event.tiny => true
  | Event.iterationLimit => true
  | Event.satisfied => true
  | Event.escalated => true
  | Event.penaltyLimit => true
  | _ => false

/-- In the list of events `l`, every start of a pass of the SQP loop is
directly followed by one call of each callback of `cbs`, in the order of
`cbs`, all with the same results. -/
def callbacksFollow (cbs : List Nat) (l : List Event) : Prop :=
  ∀ pre iter post, l = pre ++ Event.sqpIteration iter :: post →
    ∃ res rest, post = cbs.map (fun cb => Event.callback cb res) ++ rest

/-- Between `s` and `t` the callbacks are the same, the calls of callbacks
recorded are as many as the callbacks times the passes of the SQP loop
recorded, and every recorded pass is directly followed by one call of each
callback. -/
def SQPState.callbacksCalled (s t : SQPState) : Prop :=
  t.callbacks_ = s.callbacks_ ∧ ∃ l, t.trace = s.trace ++ l ∧
    l.countP Event.isCallback = s.callbacks_.length * l.countP Event.isSqpIteration ∧
    callbacksFollow s.callbacks_ l

/-- The test of line 516: the results hold no cost value and no violation
yet. -/
def SQPState.fresh (s : SQPState) : Bool :=
  s.results_.cost_vals.isEmpty && s.results_.cnt_viols.isEmpty

/-- The state in which the first trust-region loop of a run of `optimize`
on the object `o` is entered: lines 497–521 of the first pass of the merit
loop and of the SQP loop. -/
def firstIterate (prob : OptProb) (o : BasicTrustRegionSQP) : SQPState :=
  bootstrap prob
    (callCallbacks (((startState prob o).emit (Event.meritStage 0)).emit (Event.sqpIteration 1)))

/-- The state after `j` passes of the body of the trust-region loop from
`s`. -/
def stepIterate (prob : OptProb) (model : Model) (cm : Convexified) : Nat → SQPState → SQPState
  | 0, s => s
  | j + 1, s => stepIterate prob model cm j (trustRegionStep prob model cm s).2

/-! ## The convex subproblem and its minimisers -/

/-- Modelled from the spec: the objective of the convex subproblem at the
backend values `vals`, the sum of the convexified costs plus the penalty
coefficient times the sum of the convexified violations (the `model_merit`
of `update`). -/
def modelMerit (cm : Convexified) (vals : DblVec) : ℚ :=
  vecSum (evaluateModelCosts cm.cost_models vals) +
    cm.merit_error_coeff * vecSum (evaluateModelCntViols cm.cnt_models vals)

/-- The backend values `vals` hold a value for each bound of `lo`, `up`, and
each value lies between its bounds. -/
def withinBounds (lo up : List Dbl) (vals : DblVec) : Prop :=
  lo.length ≤ vals.length ∧
    ∀ i, i < lo.length →
      Dbl.le (lo.getD i Dbl.ninf) (Dbl.fin (vals.getD i 0)) = true ∧
      Dbl.le (Dbl.fin (vals.getD i 0)) (up.getD i Dbl.pinf) = true

/-- Modelled from the spec: the backend minimises the convex subproblem.
Whenever the solve of lines 565–566 is made in a state `s` with the models
convexified at `s` and reports `CVX_SOLVED`, its values lie within the
bounds set for the solve and no values within these bounds have a smaller
objective. -/
def Model.minimises (prob : OptProb) (model : Model) : Prop :=
  ∀ s : SQPState,
    (solveTrustBox prob model (convexify prob s) s).1.1 = CvxOptStatus.CVX_SOLVED →
    withinBounds
        (setTrustBoxConstraints s.results_.x s.param_.trust_box_size prob.lower_bounds
          prob.upper_bounds).1
        (setTrustBoxConstraints s.results_.x s.param_.trust_box_size prob.lower_bounds
          prob.upper_bounds).2
        (solveTrustBox prob model (convexify prob s) s).1.2 ∧
      ∀ w : DblVec,
        withinBounds
          (setTrustBoxConstraints s.results_.x s.param_.trust_box_size prob.lower_bounds
            prob.upper_bounds).1
          (setTrustBoxConstraints s.results_.x s.param_.trust_box_size prob.lower_bounds
            prob.upper_bounds).2 w →
        modelMerit (convexify prob s) (solveTrustBox prob model (convexify prob s) s).1.2 ≤
          modelMerit (convexify prob s) w

/-- The stored `cost_vals` and `cnt_viols` are the exact values at the
stored `x`. -/
def SQPState.evaluated (prob : OptProb) (s : SQPState) : Prop :=
  s.results_.cost_vals = evaluateCosts prob.costs s.results_.x ∧
    s.results_.cnt_viols = evaluateConstraintViols prob.constraints s.results_.x

/-- The point and the parameters of `t` are those of a state with current
values in which the solve succeeds and the gate of line 613 fires. -/
def SQPState.gateFired (prob : OptProb) (model : Model) (t : SQPState) : Prop :=
  ∃ u : SQPState, u.evaluated prob ∧
    (solveTrustBox prob model (convexify prob u) u).1.1 = CvxOptStatus.CVX_SOLVED ∧
    stepDecision u.param_ (stepReport prob model (convexify prob u) u) =
      Decision.convergedApprox ∧
    u.results_.x = t.results_.x ∧ u.param_ = t.param_

/-- The values of `t` are current, and if the last event on record is the
gate of line 613, alone or followed by the test of line 662 passing, then
the gate fired at the point and the parameters of `t`. -/
def SQPState.gateInv (prob : OptProb) (model : Model) (t : SQPState) : Prop :=
  t.evaluated prob ∧
    (t.trace.getLast? = some Event.convergedApprox → t.gateFired prob model) ∧
    ((∃ pre, t.trace = pre ++ [Event.convergedApprox, Event.satisfied]) →
      t.gateFired prob model)

/-- The L1 merit of the stored iterate with the current penalty coefficient,
`vecSum(cost_vals) + merit_error_coeff * vecSum(cnt_viols)`: the value that
`update` computes as `old_merit` from the results (line 281). -/
def SQPState.storedMerit (s : SQPState) : ℚ :=
  vecSum s.results_.cost_vals + s.param_.merit_error_coeff * vecSum s.results_.cnt_viols

/-- The state in which the first trust-region loop of the pass
`merit_increases` of the merit loop is entered from `s`: lines 505–521 of
that pass and of its first pass of the SQP loop. -/
def stageFirstIterate (prob : OptProb) (merit_increases : Int) (s : SQPState) : SQPState :=
  bootstrap prob
    (callCallbacks ((s.emit (Event.meritStage merit_increases)).emit (Event.sqpIteration 1)))

/-- The stored `x` has one entry for each bound of the problem, and every
entry lies between its bounds. -/
def SQPState.withinProblemBounds (prob : OptProb) (s : SQPState) : Prop :=
  prob.lower_bounds.length = s.results_.x.length ∧
    prob.upper_bounds.length = s.results_.x.length ∧
    ∀ i, i < s.results_.x.length →
      Dbl.le (prob.lower_bounds.getD i Dbl.ninf) (Dbl.fin (s.results_.x.getD i 0)) = true ∧
      Dbl.le (Dbl.fin (s.results_.x.getD i 0)) (prob.upper_bounds.getD i Dbl.pinf) = true

/-- Modelled from the spec: the backend respects the variable bounds.
Whenever a solve of lines 565–566 reports `CVX_SOLVED`, its values lie
within the bounds that `setTrustBoxConstraints` set for it. -/
def Model.respectsBox (prob : OptProb) (model : Model) : Prop :=
  ∀ (cm : Convexified) (s : SQPState),
    (solveTrustBox prob model cm s).1.1 = CvxOptStatus.CVX_SOLVED →
    withinBounds
      (setTrustBoxConstraints s.results_.x s.param_.trust_box_size prob.lower_bounds
        prob.upper_bounds).1
      (setTrustBoxConstraints s.results_.x s.param_.trust_box_size prob.lower_bounds
        prob.upper_bounds).2
      (solveTrustBox prob model cm s).1.2

/-- The event is neither the first-iteration evaluation nor a failure of the
assertion made in it (line 519). -/
def Event.notBootstrap (e : Event) : Bool :=
  !e.isBootstrap && !decide (e = Event.assertFailed 519)

/-- The header flags of the log records in a list of events, in the order
the records were written. -/
def logFlags (l : List Event) : List Bool :=
  l.filterMap fun e =>
    match e with
    | Event.logRecord header => some header
    | _ => none

/-! ## Joint velocity and acceleration terms (`trajopt/src/kinematic_terms.cpp`)

An Eigen vector is a list, and an Eigen matrix is a table of entries with
its numbers of rows and columns.  A block or an entry outside its vector or
matrix, a matrix with a negative dimension (Eigen asserts against each of
these) and a failed `assert` make the result `none`. -/

/-- `VectorXd::segment(start, n)`: the `n` entries from position `start`. -/
def segment (v : DblVec) (start n : Int) : Option DblVec :=
  if 0 ≤ start ∧ 0 ≤ n ∧ start + n ≤ v.length then
    some ((v.drop start.toNat).take n.toNat)
  else none

/-- The entry `v(i)` of a vector. -/
def coeffAt {α : Type} (v : List α) (i : Int) : Option α :=
  if 0 ≤ i then v[i.toNat]? else none

/-- A dense matrix (`Eigen::MatrixXd`) with entries in `α`. -/
structure MatrixX (α : Type) where
  rows : Nat
  cols : Nat
  coeff : Nat → Nat → α

/-- `MatrixXd::Zero(rows, cols)`. -/
def MatrixX.Zero {α : Type} (zero : α) (rows cols : Int) : Option (MatrixX α) :=
  if 0 ≤ rows ∧ 0 ≤ cols then
    some { rows := rows.toNat, cols := cols.toNat, coeff := fun _ _ => zero }
  else none

/-- The entry `m(i, j)` of a matrix, read. -/
def MatrixX.coeffAt {α : Type} (m : MatrixX α) (i j : Int) : Option α :=
  if 0 ≤ i ∧ i < m.rows ∧ 0 ≤ j ∧ j < m.cols then some (m.coeff i.toNat j.toNat) else none

/-- The assignment `m(i, j) = x`. -/
def MatrixX.setCoeff {α : Type} (m : MatrixX α) (i j : Int) (x : α) : Option (MatrixX α) :=
  if 0 ≤ i ∧ i < m.rows ∧ 0 ≤ j ∧ j < m.cols then
    some { m with coeff := fun r c => if r = i.toNat ∧ c = j.toNat then x else m.coeff r c }
  else none

/-- The assignment `m.bottomRows(n) = -m.topRows(n)`; the two blocks do not
overlap where the source makes it (`m` has `2 n` rows). -/
def MatrixX.bottomRowsNegTop (m : MatrixX ℚ) (n : Int) : Option (MatrixX ℚ) :=
  if 0 ≤ n ∧ n ≤ m.rows then
    some { m with
      coeff := fun r c =>
        if m.rows - n.toNat ≤ r ∧ r < m.rows then -m.coeff (r - (m.rows - n.toNat)) c
        else m.coeff r c }
  else none

/-- The data members of `JointVelErrCalculator` (declared in
kinematic_terms.hpp, which is not among the sources; they are those
`operator()` reads). -/
structure JointVelErrCalculator where
  target_ : ℚ
  upper_tol_ : ℚ
  lower_tol_ : ℚ
  deriving DecidableEq, Repr

/-- `JointVelErrCalculator::operator()` (lines 286–301). -/
def JointVelErrCalculator.call (c : JointVelErrCalculator) (var_vals : DblVec) :
    Option DblVec :=
  if var_vals.length % 2 ≠ 0 then none
  else
    let half : Int := (var_vals.length : Int) / 2
    let num_vels : Int := half - 1
    match segment var_vals 1 num_vels, segment var_vals 0 num_vels,
      segment var_vals (half + 1) num_vels with
    | some a, some b, some t =>
      let vel := List.zipWith (fun d s => d * s) (List.zipWith (fun p q => p - q) a b) t
      some (vel.map (fun x => -(c.upper_tol_ - (x - c.target_))) ++
        vel.map (fun x => c.lower_tol_ - (x - c.target_)))
    | _, _, _ => none

/-- The body of the loop of `JointVelJacCalculator::operator()` (lines
313–323) for the row `i`. -/
def JointVelJacCalculator.row (var_vals : DblVec) (half : Int) (jac : MatrixX ℚ) (i : Nat) :
    Option (MatrixX ℚ) :=
  let time_index : Int := (i : Int) + half + 1
  match coeffAt var_vals time_index with
  | none => none
  | some t =>
    match jac.setCoeff i i (-1 * t) with
    | none => none
    | some jac1 =>
      match jac1.setCoeff i ((i : Int) + 1) (1 * t) with
      | none => none
      | some jac2 =>
        match coeffAt var_vals ((i : Int) + 1), coeffAt var_vals i with
        | some a, some b => jac2.setCoeff i time_index (a - b)
        | _, _ => none

/-- `JointVelJacCalculator::operator()` (lines 303–329); the `for` loop over
`i < num_vels` is a fold over the row numbers. -/
def JointVelJacCalculator.call (var_vals : DblVec) : Option (MatrixX ℚ) :=
  let num_vals : Int := var_vals.length
  let half : Int := num_vals / 2
  let num_vels : Int := half - 1
  match MatrixX.Zero (0 : ℚ) (num_vels * 2) num_vals with
  | none => none
  | some jac0 =>
    match (List.range num_vels.toNat).foldlM (JointVelJacCalculator.row var_vals half) jac0 with
    | none => none
    | some jac => jac.bottomRowsNegTop num_vels

/-- Modelled from the spec: `sq` (a helper declared outside the sources), the
square of its argument. -/
def sq (x : ℚ) : ℚ := x * x

/-- The data members of `JointAccErrCalculator` (declared in
kinematic_terms.hpp, which is not among the sources; they are those
`operator()` reads). -/
structure JointAccErrCalculator where
  limit_ : ℚ
  vel_calc : JointVelErrCalculator
  deriving DecidableEq, Repr

/-- `JointAccErrCalculator::operator()` (lines 332–347).  The quotient is
the floating-point one: each entry is a `Dbl`. -/
def JointAccErrCalculator.call (c : JointAccErrCalculator) (var_vals : DblVec) :
    Option (List Dbl) :=
  if var_vals.length % 2 ≠ 0 then none
  else
    let half : Int := (var_vals.length : Int) / 2
    let num_acc : Int := half - 2
    match c.vel_calc.call var_vals with
    | none => none
    | some vels =>
      match segment vels 1 num_acc, segment vels 0 num_acc,
        segment var_vals (half + 1) num_acc, segment var_vals (half + 2) num_acc with
      | some v1, some v0, some d1, some d2 =>
        let vel_diff := List.zipWith (fun p q => p - q) v1 v0
        let acc := List.zipWith (fun vd t => Dbl.fdiv (2 * vd) t) vel_diff
          (List.zipWith (fun p q => p + q) d1 d2)
        some (acc.map fun a => Dbl.sub a (Dbl.fin c.limit_))
      | _, _, _, _ => none

/-- The data members of `JointAccJacCalculator` (declared in
kinematic_terms.hpp, which is not among the sources); its member
`vel_jac_calc` has no data. -/
structure JointAccJacCalculator where
  vel_calc : JointVelErrCalculator
  deriving DecidableEq, Repr

/-- The body of the loop of `JointAccJacCalculator::operator()` (lines
356–373) for the row `i`. -/
def JointAccJacCalculator.row (var_vals : DblVec) (half : Int) (vels : DblVec)
    (vel_jac : MatrixX ℚ) (jac : MatrixX Dbl) (i : Nat) : Option (MatrixX Dbl) :=
  let dt_1_index : Int := (i : Int) + half + 1
  let dt_2_index : Int := dt_1_index + 1
  match coeffAt var_vals dt_1_index, coeffAt var_vals dt_2_index with
  | some dt_1, some dt_2 =>
    let total_dt := dt_1 + dt_2
    match vel_jac.coeffAt ((i : Int) + 1) i, vel_jac.coeffAt i i,
      vel_jac.coeffAt ((i : Int) + 1) ((i : Int) + 1), vel_jac.coeffAt i ((i : Int) + 1),
      vel_jac.coeffAt ((i : Int) + 1) ((i : Int) + 2), vel_jac.coeffAt i ((i : Int) + 2),
      vel_jac.coeffAt ((i : Int) + 1) dt_1_index, vel_jac.coeffAt i dt_1_index,
      vel_jac.coeffAt ((i : Int) + 1) dt_2_index, vel_jac.coeffAt i dt_2_index,
      coeffAt vels ((i : Int) + 1), coeffAt vels i with
    | some a0, some b0, some a1, some b1, some a2, some b2, some a3, some b3, some a4, some b4,
        some w1, some w0 =>
      match jac.setCoeff i i (Dbl.fdiv (2 * (a0 - b0)) total_dt) with
      | none => none
      | some j1 =>
        match j1.setCoeff i ((i : Int) + 1) (Dbl.fdiv (2 * (a1 - b1)) total_dt) with
        | none => none
        | some j2 =>
          match j2.setCoeff i ((i : Int) + 2) (Dbl.fdiv (2 * (a2 - b2)) total_dt) with
          | none => none
          | some j3 =>
            match j3.setCoeff i dt_1_index
                (Dbl.mul (Dbl.fin 2)
                  (Dbl.sub (Dbl.fdiv (a3 - b3) total_dt) (Dbl.fdiv (w1 - w0) (sq total_dt)))) with
            | none => none
            | some j4 =>
              j4.setCoeff i dt_2_index
                (Dbl.mul (Dbl.fin 2)
                  (Dbl.sub (Dbl.fdiv (a4 - b4) total_dt) (Dbl.fdiv (w1 - w0) (sq total_dt))))
    | _, _, _, _, _, _, _, _, _, _, _, _ => none
  | _, _ => none

/-- `JointAccJacCalculator::operator()` (lines 349–376); the `for` loop over
`i < jac.rows()` is a fold over the row numbers. -/
def JointAccJacCalculator.call (c : JointAccJacCalculator) (var_vals : DblVec) :
    Option (MatrixX Dbl) :=
  let num_vals : Int := var_vals.length
  let half : Int := num_vals / 2
  match MatrixX.Zero (Dbl.fin 0) (half - 2) num_vals with
  | none => none
  | some jac0 =>
    match c.vel_calc.call var_vals, JointVelJacCalculator.call var_vals with
    | some vels, some vel_jac =>
      (List.range jac0.rows).foldlM (JointAccJacCalculator.row var_vals half vels vel_jac) jac0
    | _, _ => none

/-- The vector `v + s · e_j`: `v` with `s` added to its entry `j`. -/
def addCoord (v : DblVec) (j : Nat) (s : ℚ) : DblVec :=
  v.set j (v.getD j 0 + s)

/-- The value of a double that is a number; `0` for an infinity or NaN. -/
def Dbl.toRat : Dbl → ℚ
  | Dbl.fin q => q
  | _ => 0

/-- The entry `i` of the vector returned by `JointAccErrCalculator` at `v`,
as a number (`0` where there is no such entry or it is not a number). -/
def JointAccErrCalculator.entry (c : JointAccErrCalculator) (v : DblVec) (i : Nat) : ℚ :=
  (((c.call v).getD []).getD i Dbl.nan).toRat

/-! ## Cartesian velocity terms (trajopt/src/kinematic_terms.cpp)

`CartVelJacCalculator::operator()` works on rigid transforms
(`Eigen::Isometry3d`), asks the kinematics object `manip_` for poses and
Jacobians, and moves the Jacobians with two functions of
`tesseract_kinematics`.  Eigen and tesseract are not among the sources: a
transform is its linear part and its translation, with the product of Eigen
(the composition of the two maps), and the kinematics, the two functions on
Jacobians and the test `isZero()` are parameters. -/

/-- `Eigen::Vector3d`. -/
abbrev Vector3d := Fin 3 → ℚ

/-- `Eigen::Matrix3d`. -/
abbrev Matrix3d := Matrix (Fin 3) (Fin 3) ℚ

/-- `Eigen::Isometry3d`: the map `x ↦ linear · x + translation`, read
through `linear()` and `translation()`. -/
structure Isometry3d where
  linear : Matrix3d
  translation : Vector3d

/-- The product `a * b` of two transforms: `b` first, then `a`. -/
def Isometry3d.mul (a b : Isometry3d) : Isometry3d :=
  { linear := a.linear * b.linear
    translation := a.linear.mulVec b.translation + a.translation }

/-- `m.topRows(n)` of a matrix, read. -/
def MatrixX.topRows {α : Type} (m : MatrixX α) (n : Int) : Option (MatrixX α) :=
  if 0 ≤ n ∧ n ≤ m.rows then some { m with rows := n.toNat } else none

/-- The matrix `-m`. -/
def MatrixX.neg (m : MatrixX ℚ) : MatrixX ℚ :=
  { m with coeff := fun r c => -m.coeff r c }

/-- The assignment `m.block(i, j, p, q) = src`: the block lies inside `m`
and `src` has its size. -/
def MatrixX.setBlock (m : MatrixX ℚ) (i j p q : Int) (src : MatrixX ℚ) :
    Option (MatrixX ℚ) :=
  if 0 ≤ i ∧ 0 ≤ j ∧ 0 ≤ p ∧ 0 ≤ q ∧ i + p ≤ m.rows ∧ j + q ≤ m.cols ∧
      (src.rows : Int) = p ∧ (src.cols : Int) = q then
    some { m with
      coeff := fun r c =>
        if i.toNat ≤ r ∧ r < (i + p).toNat ∧ j.toNat ≤ c ∧ c < (j + q).toNat then
          src.coeff (r - i.toNat) (c - j.toNat)
        else m.coeff r c }
  else none

/-- The kinematics object `manip_`: the number of joints, and the pose and
the Jacobian of a link at given joint values (`calcFwdKin`, `calcJacobian`,
which write their result through their first argument). -/
structure ForwardKinematics where
  numJoints : Nat
  calcFwdKin : DblVec → String → Isometry3d
  calcJacobian : DblVec → String → MatrixX ℚ

/-- The link `kin_link_` points to: its name and its transform. -/
structure KinLink where
  link_name : String
  transform : Isometry3d

/-- The functions `CartVelJacCalculator::operator()` calls that are defined
outside the sources: `tesseract_kinematics::jacobianChangeBase`,
`tesseract_kinematics::jacobianChangeRefPoint` (both return here the
Jacobian they change in place) and the test `isZero()` of Eigen. -/
structure KinematicsTools where
  jacobianChangeBase : MatrixX ℚ → Isometry3d → MatrixX ℚ
  jacobianChangeRefPoint : MatrixX ℚ → Vector3d → MatrixX ℚ
  isZero : Vector3d → Bool

/-- The data members of `CartVelJacCalculator` that `operator()` reads. -/
structure CartVelJacCalculator where
  manip_ : ForwardKinematics
  kin_link_ : KinLink
  world_to_base_ : Isometry3d
  tcp_ : Isometry3d

/-- Lines 235–245 of `CartVelJacCalculator::operator()`, the branch taken
when `tcp_.translation().isZero()`: the Jacobians `jac0` and `jac1` at the
top and the bottom `n_dof` entries of `dof_vals`, moved to the point
`kin_link_->transform.translation()` of the link. -/
def CartVelJacCalculator.zeroTcpJacobians (k : KinematicsTools) (c : CartVelJacCalculator)
    (dof_vals : DblVec) (n_dof : Int) : Option (MatrixX ℚ × MatrixX ℚ) :=
  match segment dof_vals 0 n_dof with
  | none => none
  | some top =>
    let tf0 := c.manip_.calcFwdKin top c.kin_link_.link_name
    let jac0 := c.manip_.calcJacobian top c.kin_link_.link_name
    let jac0 := k.jacobianChangeBase jac0 c.world_to_base_
    let jac0 := k.jacobianChangeRefPoint jac0
      ((c.world_to_base_.mul tf0).linear.mulVec c.kin_link_.transform.translation)
    match segment dof_vals (dof_vals.length - n_dof) n_dof with
    | none => none
    | some bottom =>
      let tf1 := c.manip_.calcFwdKin bottom c.kin_link_.link_name
      let jac1 := c.manip_.calcJacobian bottom c.kin_link_.link_name
      let jac1 := k.jacobianChangeBase jac1 c.world_to_base_
      let jac1 := k.jacobianChangeRefPoint jac1
        ((c.world_to_base_.mul tf1).linear.mulVec c.kin_link_.transform.translation)
      some (jac0, jac1)

/-- Lines 249–259 of `CartVelJacCalculator::operator()`, the other branch:
the same Jacobians, moved to the point
`(kin_link_->transform * tcp_).translation()`. -/
def CartVelJacCalculator.tcpJacobians (k : KinematicsTools) (c : CartVelJacCalculator)
    (dof_vals : DblVec) (n_dof : Int) : Option (MatrixX ℚ × MatrixX ℚ) :=
  match segment dof_vals 0 n_dof with
  | none => none
  | some top =>
    let tf0 := c.manip_.calcFwdKin top c.kin_link_.link_name
    let jac0 := c.manip_.calcJacobian top c.kin_link_.link_name
    let jac0 := k.jacobianChangeBase jac0 c.world_to_base_
    let jac0 := k.jacobianChangeRefPoint jac0
      ((c.world_to_base_.mul tf0).linear.mulVec (c.kin_link_.transform.mul c.tcp_).translation)
    match segment dof_vals (dof_vals.length - n_dof) n_dof with
    | none => none
    | some bottom =>
      let tf1 := c.manip_.calcFwdKin bottom c.kin_link_.link_name
      let jac1 := c.manip_.calcJacobian bottom c.kin_link_.link_name
      let jac1 := k.jacobianChangeBase jac1 c.world_to_base_
      let jac1 := k.jacobianChangeRefPoint jac1
        ((c.world_to_base_.mul tf1).linear.mulVec (c.kin_link_.transform.mul c.tcp_).translation)
      some (jac0, jac1)

/-- Lines 262–265 of `CartVelJacCalculator::operator()`: the four blocks of
`out` are assigned from the top three rows of `jac0` and `jac1`. -/
def CartVelJacCalculator.assignBlocks (out : MatrixX ℚ) (n_dof : Int)
    (jac0 jac1 : MatrixX ℚ) : Option (MatrixX ℚ) :=
  match jac0.topRows 3, jac1.topRows 3 with
  | some top0, some top1 =>
    match out.setBlock 0 0 3 n_dof top0.neg with
    | none => none
    | some out =>
      match out.setBlock 0 n_dof 3 n_dof top1 with
      | none => none
      | some out =>
        match out.setBlock 3 0 3 n_dof top0 with
        | none => none
        | some out => out.setBlock 3 n_dof 3 n_dof top1.neg
  | _, _ => none

/-- `CartVelJacCalculator::operator()` (lines 222–267).  The entries of
`out`, which the source leaves uninitialised, start at zero here; the four
blocks assign every one of them. -/
def CartVelJacCalculator.call (k : KinematicsTools) (c : CartVelJacCalculator)
    (dof_vals : DblVec) : Option (MatrixX ℚ) :=
  let n_dof : Int := c.manip_.numJoints
  match MatrixX.Zero (0 : ℚ) 6 (2 * n_dof) with
  | none => none
  | some out =>
    match (if k.isZero c.tcp_.translation then c.zeroTcpJacobians k dof_vals n_dof
        else c.tcpJacobians k dof_vals n_dof) with
    | none => none
    | some (jac0, jac1) => CartVelJacCalculator.assignBlocks out n_dof jac0 jac1

/-! ## Concrete problems, back ends and states

Small instances on which the definitions above are evaluated. -/

/-- A cost whose value is 1 everywhere and whose convex model at `x0`,
`v ↦ 1 - (v₀ - x0₀)`, promises an improvement the cost does not deliver. -/
def flatCost : Cost where
  value := fun _ => 1
  convex := fun x0 => { value := fun v => 1 - (v.getD 0 0 - x0.getD 0 0) }

/-- One unbounded variable, the cost `flatCost`, no constraint. -/
def flatProb : OptProb where
  vars := ["x"]
  lower_bounds := [Dbl.ninf]
  upper_bounds := [Dbl.pinf]
  costs := [flatCost]
  constraints := []
  getClosestFeasiblePoint := fun x => x

/-- A back end that always reports `CVX_SOLVED` with the linearisation point
moved by `step` in every coordinate. -/
def shiftModel (step : ℚ) : Model where
  optimize := fun _ x _ _ _ => (CvxOptStatus.CVX_SOLVED, x.map fun a => a + step)

/-- A back end whose every solve fails. -/
def failingModel : Model where
  optimize := fun _ _ _ _ _ => (CvxOptStatus.CVX_FAILED, [])

/-- The default parameters with a trust box of size 1. -/
def unitBoxParams : BasicTrustRegionSQPParameters :=
  { BasicTrustRegionSQPParameters.defaults with trust_box_size := Dbl.fin 1 }

/-- `unitBoxParams` with `improve_ratio_threshold = 0`. -/
def zeroThresholdParams : BasicTrustRegionSQPParameters :=
  { unitBoxParams with improve_ratio_threshold := 0 }

/-- The state of `flatProb` at `x = 0` after the first-iteration evaluation,
with the parameters `p`. -/
def flatState (p : BasicTrustRegionSQPParameters) : SQPState where
  results_ :=
    { x := [0], status := OptStatus.INVALID, total_cost := 0, cost_vals := [1], cnt_viols := [],
      n_func_evals := 1, n_qp_solves := 0 }
  param_ := p
  callbacks_ := []
  retval := OptStatus.INVALID
  trace := []

/-- The cost `(x₀ - 3)²`, with itself as convex model. -/
def quadCost : Cost where
  value := fun x => (x.getD 0 0 - 3) ^ 2
  convex := fun _ => { value := fun v => (v.getD 0 0 - 3) ^ 2 }

/-- One unbounded variable, the cost `quadCost`, no constraint. -/
def quadProb : OptProb where
  vars := ["x"]
  lower_bounds := [Dbl.ninf]
  upper_bounds := [Dbl.pinf]
  costs := [quadCost]
  constraints := []
  getClosestFeasiblePoint := fun x => x

/-- The state of `quadProb` at `x = 0` after the first-iteration evaluation,
with the parameters `p`. -/
def quadState (p : BasicTrustRegionSQPParameters) : SQPState where
  results_ :=
    { x := [0], status := OptStatus.INVALID, total_cost := 0, cost_vals := [9], cnt_viols := [],
      n_func_evals := 1, n_qp_solves := 0 }
  param_ := p
  callbacks_ := []
  retval := OptStatus.INVALID
  trace := []

/-- `unitBoxParams` with `min_approx_improve_frac = 2`. -/
def fracGateParams : BasicTrustRegionSQPParameters :=
  { unitBoxParams with min_approx_improve_frac := Dbl.fin 2 }

/-- A constraint whose violation is `v` everywhere, also in its convex
model. -/
def constCnt (v : ℚ) : Constraint where
  violation := fun _ => v
  convex := fun _ => { violation := fun _ => v }

/-- `flatProb` with the constraint `constCnt v`. -/
def constrainedProb (v : ℚ) : OptProb :=
  { flatProb with constraints := [constCnt v] }

/-- The optimizer object right after `initialize([0])`, with the parameters
`p` and the callbacks `cbs`. -/
def freshOptimizer (p : BasicTrustRegionSQPParameters) (cbs : List Nat) :
    BasicTrustRegionSQP where
  results_ :=
    { x := [0], status := OptStatus.INVALID, total_cost := 0, cost_vals := [], cnt_viols := [],
      n_func_evals := 0, n_qp_solves := 0 }
  param_ := p
  callbacks_ := cbs

/-- `unitBoxParams` with `max_merit_coeff_increases = 2`. -/
def twoStageParams : BasicTrustRegionSQPParameters :=
  { unitBoxParams with max_merit_coeff_increases := 2 }

/-- `zeroThresholdParams` with `max_iter = 2`. -/
def twoIterParams : BasicTrustRegionSQPParameters :=
  { zeroThresholdParams with max_iter := 2 }

/-- `unitBoxParams` with `max_merit_coeff_increases = 0`. -/
def noStageParams : BasicTrustRegionSQPParameters :=
  { unitBoxParams with max_merit_coeff_increases := 0 }

/-- The point of `[lo, up]` nearest to `t`. -/
def clampTo (t : ℚ) (lo up : Dbl) : ℚ :=
  match lo, up with
  | Dbl.fin l, Dbl.fin u => if t < l then l else if u < t then u else t
  | Dbl.fin l, _ => if t < l then l else t
  | _, Dbl.fin u => if u < t then u else t
  | _, _ => t

/-- A back end for one variable that returns the minimiser of `(v₀ - 3)²`
within the bounds set, and reports `CVX_INFEASIBLE` when the bounds admit no
value. -/
def quadMinModel : Model where
  optimize := fun _ _ _ lb ub =>
    match lb, ub with
    | [l], [u] =>
      if Dbl.le l (Dbl.fin (clampTo 3 l u)) = true ∧ Dbl.le (Dbl.fin (clampTo 3 l u)) u = true
      then (CvxOptStatus.CVX_SOLVED, [clampTo 3 l u])
      else (CvxOptStatus.CVX_INFEASIBLE, [])
    | _, _ => (CvxOptStatus.CVX_FAILED, [])

/-- `unitBoxParams` with `max_iter = 1`. -/
def oneIterParams : BasicTrustRegionSQPParameters :=
  { unitBoxParams with max_iter := 1 }

/-- The optimizer object right after `initialize(x)`, with the parameters
`p` and no callback. -/
def freshOptimizerAt (x : DblVec) (p : BasicTrustRegionSQPParameters) : BasicTrustRegionSQP where
  results_ :=
    { x := x, status := OptStatus.INVALID, total_cost := 0, cost_vals := [], cnt_viols := [],
      n_func_evals := 0, n_qp_solves := 0 }
  param_ := p
  callbacks_ := []

/-- A cost that is `(x₀ - 3)²` at `x₀ = 0, 1, 2, 3` and 100 elsewhere, with
the convex model `(v₀ - 3)²`, which is exact at these four points. -/
def spikeCost : Cost where
  value := fun x =>
    if x.getD 0 0 = 0 ∨ x.getD 0 0 = 1 ∨ x.getD 0 0 = 2 ∨ x.getD 0 0 = 3 then
      (x.getD 0 0 - 3) ^ 2
    else 100
  convex := fun _ => { value := fun v => (v.getD 0 0 - 3) ^ 2 }

/-- One unbounded variable, the cost `spikeCost`, no constraint. -/
def spikeProb : OptProb where
  vars := ["x"]
  lower_bounds := [Dbl.ninf]
  upper_bounds := [Dbl.pinf]
  costs := [spikeCost]
  constraints := []
  getClosestFeasiblePoint := fun x => x

/-- `unitBoxParams` with logging enabled. -/
def loggingParams : BasicTrustRegionSQPParameters :=
  { unitBoxParams with log_results := true }

/-- A one-joint arm: the link sits at height `q` and its Jacobian has the
entry `q + r` in row `r`. -/
def sliderArm : ForwardKinematics :=
  { numJoints := 1
    calcFwdKin := fun q _ => ⟨1, fun _ => q.getD 0 0⟩
    calcJacobian := fun q _ => ⟨6, 1, fun r _ => q.getD 0 0 + r⟩ }

/-- Tools that leave the base of a Jacobian alone and add the first
coordinate of the reference point to every entry; the test for zero is
exact. -/
def plainTools : KinematicsTools :=
  { jacobianChangeBase := fun m _ => m
    jacobianChangeRefPoint := fun m p => { m with coeff := fun r c => m.coeff r c + p 0 }
    isZero := fun p => decide (p 0 = 0 ∧ p 1 = 0 ∧ p 2 = 0) }

/-- A calculator on `sliderArm` whose link is moved by `(1, 2, 3)` and whose
TCP is a quarter turn about the third axis, without translation. -/
def turnedTcpCalc : CartVelJacCalculator :=
  { manip_ := sliderArm
    kin_link_ := ⟨"tool0", ⟨1, ![1, 2, 3]⟩⟩
    world_to_base_ := ⟨1, 0⟩
    tcp_ := ⟨!![0, -1, 0; 1, 0, 0; 0, 0, 1], 0⟩ }

/-! # Theorems

## Facts about `Dbl` -/

namespace Dbl

theorem fmax_fin_fin (a b : ℚ) : fmax (fin a) (fin b) = fin (max a b) := by
  by_cases h : a < b
  · simp [fmax, lt, h, max_eq_right (le_of_lt h)]
  · simp [fmax, lt, h, max_eq_left (not_lt.mp h)]

theorem fmin_fin_fin (a b : ℚ) : fmin (fin a) (fin b) = fin (min a b) := by
  by_cases h : b < a
  · simp [fmin, lt, h, min_eq_right (le_of_lt h)]
  · simp [fmin, lt, h, min_eq_left (not_lt.mp h)]

theorem fmax_le_iff (a b y : Dbl) (ha : a ≠ nan) (hb : b ≠ nan) :
    le (fmax a b) y = true ↔ le a y = true ∧ le b y = true := by
  cases a <;> cases b <;> cases y <;> (try rw [fmax_fin_fin]) <;> simp_all [fmax, lt, le]

theorem le_fmin_iff (a b y : Dbl) (ha : a ≠ nan) (hb : b ≠ nan) :
    le y (fmin a b) = true ↔ le y a = true ∧ le y b = true := by
  cases a <;> cases b <;> cases y <;> (try rw [fmin_fin_fin]) <;> simp_all [fmin, lt, le]

theorem le_refl (a : Dbl) (ha : a ≠ nan) : le a a = true := by
  cases a <;> simp_all [le]

theorem fmax_eq_or (a b : Dbl) : fmax a b = a ∨ fmax a b = b := by
  cases a <;> cases b <;> first
    | (simp [fmax, lt]; done)
    | (rw [fmax_fin_fin]; simp; exact le_total _ _)

theorem fmin_eq_or (a b : Dbl) : fmin a b = a ∨ fmin a b = b := by
  cases a <;> cases b <;> first
    | (simp [fmin, lt]; done)
    | (rw [fmin_fin_fin]; simp; exact le_total _ _)

theorem fmax_ne_nan (a b : Dbl) (ha : a ≠ nan) (hb : b ≠ nan) : fmax a b ≠ nan := by
  rcases fmax_eq_or a b with h | h <;> rw [h] <;> assumption

theorem fmin_ne_nan (a b : Dbl) (ha : a ≠ nan) (hb : b ≠ nan) : fmin a b ≠ nan := by
  rcases fmin_eq_or a b with h | h <;> rw [h] <;> assumption

theorem sub_fin_ne_nan (a : ℚ) (d : Dbl) (h : d ≠ nan) : sub (fin a) d ≠ nan := by
  cases d <;> simp_all [sub, add, neg]

theorem add_fin_ne_nan (a : ℚ) (d : Dbl) (h : d ≠ nan) : add (fin a) d ≠ nan := by
  cases d <;> simp_all [add]

end Dbl

/-! ## The trust box -/

theorem setTrustBoxConstraints_getElem_fst (x : DblVec) (d : Dbl) (lb ub : List Dbl) (i : Nat)
    (xi l : _) (hx : x[i]? = some xi) (hl : lb[i]? = some l) :
    (setTrustBoxConstraints x d lb ub).1[i]? = some (Dbl.fmax (Dbl.sub (Dbl.fin xi) d) l) := by
  have hi : i < x.length := (List.getElem?_eq_some_iff.mp hx).1
  simp [setTrustBoxConstraints, List.getElem?_range hi, List.getD_eq_getElem?_getD, hx, hl]

theorem setTrustBoxConstraints_getElem_snd (x : DblVec) (d : Dbl) (lb ub : List Dbl) (i : Nat)
    (xi u : _) (hx : x[i]? = some xi) (hu : ub[i]? = some u) :
    (setTrustBoxConstraints x d lb ub).2[i]? = some (Dbl.fmin (Dbl.add (Dbl.fin xi) d) u) := by
  have hi : i < x.length := (List.getElem?_eq_some_iff.mp hx).1
  simp [setTrustBoxConstraints, List.getElem?_range hi, List.getD_eq_getElem?_getD, hx, hu]

/-- C1: for a point `x`, a trust-box size `d` and bound vectors `lb`, `ub`
of the length of `x` (none of them NaN), `setTrustBoxConstraints` hands the
model two vectors of that length whose entries `i` are
`max (x_i - d) lb_i` and `min (x_i + d) ub_i`: each is the larger (smaller)
of its two arguments, and a value lies between them exactly when it lies in
`[lb_i, ub_i]` and in `[x_i - d, x_i + d]`.  For `x = 0.5`, `d = 0.1` and
bounds `[0, 1]` the box is `[0.4, 0.6]`. -/
theorem setTrustBoxConstraints_box (x : DblVec) (d : Dbl) (lb ub : List Dbl)
    (hlb : lb.length = x.length) (hub : ub.length = x.length) (hd : d ≠ Dbl.nan) :
    (setTrustBoxConstraints x d lb ub).1.length = x.length ∧
    (setTrustBoxConstraints x d lb ub).2.length = x.length ∧
    (∀ i, i < x.length → ∃ xi l u lo up,
      x[i]? = some xi ∧ lb[i]? = some l ∧ ub[i]? = some u ∧
      (setTrustBoxConstraints x d lb ub).1[i]? = some lo ∧
      (setTrustBoxConstraints x d lb ub).2[i]? = some up ∧
      lo = Dbl.fmax (Dbl.sub (Dbl.fin xi) d) l ∧
      up = Dbl.fmin (Dbl.add (Dbl.fin xi) d) u ∧
      (l ≠ Dbl.nan → u ≠ Dbl.nan →
        (Dbl.le (Dbl.sub (Dbl.fin xi) d) lo = true ∧ Dbl.le l lo = true ∧
          (lo = Dbl.sub (Dbl.fin xi) d ∨ lo = l)) ∧
        (Dbl.le up (Dbl.add (Dbl.fin xi) d) = true ∧ Dbl.le up u = true ∧
          (up = Dbl.add (Dbl.fin xi) d ∨ up = u)) ∧
        ∀ y : Dbl, (Dbl.le lo y = true ∧ Dbl.le y up = true) ↔
          ((Dbl.le l y = true ∧ Dbl.le y u = true) ∧
            (Dbl.le (Dbl.sub (Dbl.fin xi) d) y = true ∧
              Dbl.le y (Dbl.add (Dbl.fin xi) d) = true)))) ∧
    setTrustBoxConstraints [1 / 2] (Dbl.fin (1 / 10)) [Dbl.fin 0] [Dbl.fin 1] =
      ([Dbl.fin (2 / 5)], [Dbl.fin (3 / 5)]) := by
  refine ⟨by simp [setTrustBoxConstraints], by simp [setTrustBoxConstraints], ?_, ?_⟩
  · intro i hi
    have hx : x[i]? = some x[i] := List.getElem?_eq_getElem hi
    have hl : lb[i]? = some (lb[i]) := List.getElem?_eq_getElem (hlb ▸ hi)
    have hu : ub[i]? = some (ub[i]) := List.getElem?_eq_getElem (hub ▸ hi)
    refine ⟨x[i], lb[i], ub[i], _, _, hx, hl, hu,
      setTrustBoxConstraints_getElem_fst x d lb ub i _ _ hx hl,
      setTrustBoxConstraints_getElem_snd x d lb ub i _ _ hx hu, rfl, rfl, ?_⟩
    intro hln hun
    have hm := Dbl.sub_fin_ne_nan x[i] d hd
    have hp := Dbl.add_fin_ne_nan x[i] d hd
    have h1 := (Dbl.fmax_le_iff _ _ _ hm hln).mp (Dbl.le_refl _ (Dbl.fmax_ne_nan _ _ hm hln))
    have h2 := (Dbl.le_fmin_iff _ _ _ hp hun).mp (Dbl.le_refl _ (Dbl.fmin_ne_nan _ _ hp hun))
    refine ⟨⟨h1.1, h1.2, Dbl.fmax_eq_or _ _⟩, ⟨h2.1, h2.2, Dbl.fmin_eq_or _ _⟩, ?_⟩
    intro y
    rw [Dbl.fmax_le_iff _ _ _ hm hln, Dbl.le_fmin_iff _ _ _ hp hun]
    tauto
  · norm_num [setTrustBoxConstraints, Dbl.sub, Dbl.add, Dbl.neg, Dbl.fmax_fin_fin,
      Dbl.fmin_fin_fin, List.range, List.range.loop]

/-- Witness for C1: the one-variable problem of scenario S5. -/
theorem setTrustBoxConstraints_box_witness :
    (setTrustBoxConstraints [1 / 2] (Dbl.fin (1 / 10)) [Dbl.fin 0] [Dbl.fin 1]).1[0]? =
      some (Dbl.fin (2 / 5)) ∧
    (setTrustBoxConstraints [1 / 2] (Dbl.fin (1 / 10)) [Dbl.fin 0] [Dbl.fin 1]).2[0]? =
      some (Dbl.fin (3 / 5)) := by
  have h := (setTrustBoxConstraints_box [1 / 2] (Dbl.fin (1 / 10)) [Dbl.fin 0] [Dbl.fin 1]
    rfl rfl (by simp)).2.2.2
  rw [h]
  exact ⟨rfl, rfl⟩

/-! ## One trust-region step -/

theorem stepDecision_convergedApprox_iff (p : BasicTrustRegionSQPParameters)
    (r : BasicTrustRegionSQPResults) :
    stepDecision p r = Decision.convergedApprox ↔
      r.approx_merit_improve < p.min_approx_improve := by
  by_cases h1 : r.approx_merit_improve < p.min_approx_improve <;>
  by_cases h2 : Dbl.lt (Dbl.fdiv r.approx_merit_improve r.old_merit)
      p.min_approx_improve_frac = true <;>
  by_cases h3 : r.exact_merit_improve < 0 <;>
  by_cases h4 : Dbl.lt r.merit_improve_ratio (Dbl.fin p.improve_ratio_threshold) = true <;>
  simp [stepDecision, h1, h2, h3, h4]

theorem stepDecision_convergedFrac_iff (p : BasicTrustRegionSQPParameters)
    (r : BasicTrustRegionSQPResults) :
    stepDecision p r = Decision.convergedFrac ↔
      (¬ r.approx_merit_improve < p.min_approx_improve ∧
        Dbl.lt (Dbl.fdiv r.approx_merit_improve r.old_merit) p.min_approx_improve_frac = true) := by
  by_cases h1 : r.approx_merit_improve < p.min_approx_improve <;>
  by_cases h2 : Dbl.lt (Dbl.fdiv r.approx_merit_improve r.old_merit)
      p.min_approx_improve_frac = true <;>
  by_cases h3 : r.exact_merit_improve < 0 <;>
  by_cases h4 : Dbl.lt r.merit_improve_ratio (Dbl.fin p.improve_ratio_threshold) = true <;>
  simp [stepDecision, h1, h2, h3, h4]

theorem stepDecision_shrink_iff (p : BasicTrustRegionSQPParameters)
    (r : BasicTrustRegionSQPResults) :
    stepDecision p r = Decision.shrink ↔
      (¬ r.approx_merit_improve < p.min_approx_improve ∧
        Dbl.lt (Dbl.fdiv r.approx_merit_improve r.old_merit) p.min_approx_improve_frac = false ∧
        (r.exact_merit_improve < 0 ∨
          Dbl.lt r.merit_improve_ratio (Dbl.fin p.improve_ratio_threshold) = true)) := by
  by_cases h1 : r.approx_merit_improve < p.min_approx_improve <;>
  by_cases h2 : Dbl.lt (Dbl.fdiv r.approx_merit_improve r.old_merit)
      p.min_approx_improve_frac = true <;>
  by_cases h3 : r.exact_merit_improve < 0 <;>
  by_cases h4 : Dbl.lt r.merit_improve_ratio (Dbl.fin p.improve_ratio_threshold) = true <;>
  simp [stepDecision, h1, h2, h3, h4]

theorem stepDecision_accept_iff (p : BasicTrustRegionSQPParameters)
    (r : BasicTrustRegionSQPResults) :
    stepDecision p r = Decision.accept ↔
      (¬ r.approx_merit_improve < p.min_approx_improve ∧
        Dbl.lt (Dbl.fdiv r.approx_merit_improve r.old_merit) p.min_approx_improve_frac = false ∧
        ¬ r.exact_merit_improve < 0 ∧
        Dbl.lt r.merit_improve_ratio (Dbl.fin p.improve_ratio_threshold) = false) := by
  by_cases h1 : r.approx_merit_improve < p.min_approx_improve <;>
  by_cases h2 : Dbl.lt (Dbl.fdiv r.approx_merit_improve r.old_merit)
      p.min_approx_improve_frac = true <;>
  by_cases h3 : r.exact_merit_improve < 0 <;>
  by_cases h4 : Dbl.lt r.merit_improve_ratio (Dbl.fin p.improve_ratio_threshold) = true <;>
  simp [stepDecision, h1, h2, h3, h4]

theorem solveTrustBox_frame (prob : OptProb) (model : Model) (cm : Convexified) (s : SQPState) :
    (solveTrustBox prob model cm s).2.param_ = s.param_ ∧
    (solveTrustBox prob model cm s).2.results_.x = s.results_.x ∧
    (solveTrustBox prob model cm s).2.results_.cost_vals = s.results_.cost_vals ∧
    (solveTrustBox prob model cm s).2.results_.cnt_viols = s.results_.cnt_viols ∧
    (solveTrustBox prob model cm s).2.results_.n_func_evals = s.results_.n_func_evals ∧
    (solveTrustBox prob model cm s).2.results_.n_qp_solves = s.results_.n_qp_solves + 1 ∧
    (solveTrustBox prob model cm s).2.retval = s.retval ∧
    (solveTrustBox prob model cm s).2.callbacks_ = s.callbacks_ := by
  unfold solveTrustBox SQPState.assert SQPState.emit
  split_ifs <;> simp

theorem buildReport_frame (prob : OptProb) (cm : Convexified) (vals : DblVec) (s : SQPState) :
    (buildReport prob cm vals s).2.param_ = s.param_ ∧
    (buildReport prob cm vals s).2.results_.x = s.results_.x ∧
    (buildReport prob cm vals s).2.results_.cost_vals = s.results_.cost_vals ∧
    (buildReport prob cm vals s).2.results_.cnt_viols = s.results_.cnt_viols ∧
    (buildReport prob cm vals s).2.results_.n_func_evals = s.results_.n_func_evals + 1 ∧
    (buildReport prob cm vals s).2.results_.n_qp_solves = s.results_.n_qp_solves ∧
    (buildReport prob cm vals s).2.retval = s.retval ∧
    (buildReport prob cm vals s).2.callbacks_ = s.callbacks_ := by
  unfold buildReport SQPState.emit
  simp only []
  split_ifs <;> simp

/-- The state in which the decision of lines 613–644 is taken: after the
solve and the report. -/
theorem decisionState_frame (prob : OptProb) (model : Model) (cm : Convexified) (s : SQPState) :
    (buildReport prob cm (solveTrustBox prob model cm s).1.2
        (solveTrustBox prob model cm s).2).2.param_ = s.param_ ∧
    (buildReport prob cm (solveTrustBox prob model cm s).1.2
        (solveTrustBox prob model cm s).2).2.results_.x = s.results_.x ∧
    (buildReport prob cm (solveTrustBox prob model cm s).1.2
        (solveTrustBox prob model cm s).2).2.results_.cost_vals = s.results_.cost_vals ∧
    (buildReport prob cm (solveTrustBox prob model cm s).1.2
        (solveTrustBox prob model cm s).2).2.results_.cnt_viols = s.results_.cnt_viols ∧
    (buildReport prob cm (solveTrustBox prob model cm s).1.2
        (solveTrustBox prob model cm s).2).2.retval = s.retval ∧
    (buildReport prob cm (solveTrustBox prob model cm s).1.2
        (solveTrustBox prob model cm s).2).2.callbacks_ = s.callbacks_ := by
  obtain ⟨a1, a2, a3, a4, -, -, a7, a8⟩ := solveTrustBox_frame prob model cm s
  obtain ⟨b1, b2, b3, b4, -, -, b7, b8⟩ :=
    buildReport_frame prob cm (solveTrustBox prob model cm s).1.2 (solveTrustBox prob model cm s).2
  exact ⟨b1.trans a1, b2.trans a2, b3.trans a3, b4.trans a4, b7.trans a7, b8.trans a8⟩

theorem trustRegionStep_failed (prob : OptProb) (model : Model) (cm : Convexified) (s : SQPState)
    (h : (solveTrustBox prob model cm s).1.1 ≠ CvxOptStatus.CVX_SOLVED) :
    trustRegionStep prob model cm s =
      (StepKind.failed, { (solveTrustBox prob model cm s).2 with retval := OptStatus.OPT_FAILED }) := by
  simp [trustRegionStep, h]

theorem trustRegionStep_solved (prob : OptProb) (model : Model) (cm : Convexified) (s : SQPState)
    (h : (solveTrustBox prob model cm s).1.1 = CvxOptStatus.CVX_SOLVED) :
    trustRegionStep prob model cm s =
      applyDecision (buildReport prob cm (solveTrustBox prob model cm s).1.2
        (solveTrustBox prob model cm s).2).2 (stepReport prob model cm s) := by
  simp [trustRegionStep, h, stepReport]

theorem applyDecision_fst (s : SQPState) (rep : BasicTrustRegionSQPResults) :
    (applyDecision s rep).1 = (stepDecision s.param_ rep).toStepKind := by
  unfold applyDecision
  cases stepDecision s.param_ rep <;> rfl

theorem trustRegionStep_fst_solved (prob : OptProb) (model : Model) (cm : Convexified)
    (s : SQPState) (h : (solveTrustBox prob model cm s).1.1 = CvxOptStatus.CVX_SOLVED) :
    (trustRegionStep prob model cm s).1 =
      (stepDecision s.param_ (stepReport prob model cm s)).toStepKind := by
  rw [trustRegionStep_solved prob model cm s h, applyDecision_fst,
    (decisionState_frame prob model cm s).1]

/-- A step that is not `failed` had a successful solve. -/
theorem solved_of_kind (prob : OptProb) (model : Model) (cm : Convexified) (s : SQPState)
    (h : (trustRegionStep prob model cm s).1 ≠ StepKind.failed) :
    (solveTrustBox prob model cm s).1.1 = CvxOptStatus.CVX_SOLVED := by
  by_contra hs
  exact h (by rw [trustRegionStep_failed prob model cm s hs])

theorem trustRegionStep_accepted_iff (prob : OptProb) (model : Model) (cm : Convexified)
    (s : SQPState) :
    (trustRegionStep prob model cm s).1 = StepKind.accepted ↔
      ((solveTrustBox prob model cm s).1.1 = CvxOptStatus.CVX_SOLVED ∧
        stepDecision s.param_ (stepReport prob model cm s) = Decision.accept) := by
  constructor
  · intro h
    have hs := solved_of_kind prob model cm s (by rw [h]; decide)
    refine ⟨hs, ?_⟩
    rw [trustRegionStep_fst_solved prob model cm s hs] at h
    cases hd : stepDecision s.param_ (stepReport prob model cm s) <;> simp_all [Decision.toStepKind]
  · rintro ⟨hs, hd⟩
    rw [trustRegionStep_fst_solved prob model cm s hs, hd]; rfl

theorem trustRegionStep_shrunk_iff (prob : OptProb) (model : Model) (cm : Convexified)
    (s : SQPState) :
    (trustRegionStep prob model cm s).1 = StepKind.shrunk ↔
      ((solveTrustBox prob model cm s).1.1 = CvxOptStatus.CVX_SOLVED ∧
        stepDecision s.param_ (stepReport prob model cm s) = Decision.shrink) := by
  constructor
  · intro h
    have hs := solved_of_kind prob model cm s (by rw [h]; decide)
    refine ⟨hs, ?_⟩
    rw [trustRegionStep_fst_solved prob model cm s hs] at h
    cases hd : stepDecision s.param_ (stepReport prob model cm s) <;> simp_all [Decision.toStepKind]
  · rintro ⟨hs, hd⟩
    rw [trustRegionStep_fst_solved prob model cm s hs, hd]; rfl

/-- What an accepting step does to the state. -/
theorem trustRegionStep_accept_state (prob : OptProb) (model : Model) (cm : Convexified)
    (s : SQPState) (hs : (solveTrustBox prob model cm s).1.1 = CvxOptStatus.CVX_SOLVED)
    (hd : stepDecision s.param_ (stepReport prob model cm s) = Decision.accept) :
    (trustRegionStep prob model cm s).2.results_.x = (stepReport prob model cm s).new_x ∧
    (trustRegionStep prob model cm s).2.results_.cost_vals =
      (stepReport prob model cm s).new_cost_vals ∧
    (trustRegionStep prob model cm s).2.results_.cnt_viols =
      (stepReport prob model cm s).new_cnt_viols ∧
    (trustRegionStep prob model cm s).2.param_ =
      { s.param_ with
        trust_box_size := Dbl.mul s.param_.trust_box_size (Dbl.fin s.param_.trust_expand_ratio) } ∧
    (trustRegionStep prob model cm s).2.retval = s.retval ∧
    (trustRegionStep prob model cm s).2.callbacks_ = s.callbacks_ := by
  obtain ⟨f1, -, -, -, f5, f6⟩ := decisionState_frame prob model cm s
  rw [trustRegionStep_solved prob model cm s hs]
  simp [applyDecision, hd, adjustTrustRegion, SQPState.emit, f1, f5, f6]

/-- What a rejecting step does to the state. -/
theorem trustRegionStep_shrink_state (prob : OptProb) (model : Model) (cm : Convexified)
    (s : SQPState) (hs : (solveTrustBox prob model cm s).1.1 = CvxOptStatus.CVX_SOLVED)
    (hd : stepDecision s.param_ (stepReport prob model cm s) = Decision.shrink) :
    (trustRegionStep prob model cm s).2.results_.x = s.results_.x ∧
    (trustRegionStep prob model cm s).2.results_.cost_vals = s.results_.cost_vals ∧
    (trustRegionStep prob model cm s).2.results_.cnt_viols = s.results_.cnt_viols ∧
    (trustRegionStep prob model cm s).2.param_ =
      { s.param_ with
        trust_box_size := Dbl.mul s.param_.trust_box_size (Dbl.fin s.param_.trust_shrink_ratio) } ∧
    (trustRegionStep prob model cm s).2.retval = s.retval ∧
    (trustRegionStep prob model cm s).2.callbacks_ = s.callbacks_ := by
  obtain ⟨f1, f2, f3, f4, f5, f6⟩ := decisionState_frame prob model cm s
  rw [trustRegionStep_solved prob model cm s hs]
  simp [applyDecision, hd, adjustTrustRegion, SQPState.emit, f1, f2, f3, f4, f5, f6]

/-- What a step that fires a convergence gate does to the state. -/
theorem trustRegionStep_converged_state (prob : OptProb) (model : Model) (cm : Convexified)
    (s : SQPState) (hs : (solveTrustBox prob model cm s).1.1 = CvxOptStatus.CVX_SOLVED)
    (hd : stepDecision s.param_ (stepReport prob model cm s) = Decision.convergedApprox ∨
      stepDecision s.param_ (stepReport prob model cm s) = Decision.convergedFrac) :
    (trustRegionStep prob model cm s).2.results_.x = s.results_.x ∧
    (trustRegionStep prob model cm s).2.results_.cost_vals = s.results_.cost_vals ∧
    (trustRegionStep prob model cm s).2.results_.cnt_viols = s.results_.cnt_viols ∧
    (trustRegionStep prob model cm s).2.param_ = s.param_ ∧
    (trustRegionStep prob model cm s).2.retval = OptStatus.OPT_CONVERGED ∧
    (trustRegionStep prob model cm s).2.callbacks_ = s.callbacks_ := by
  obtain ⟨f1, f2, f3, f4, -, f6⟩ := decisionState_frame prob model cm s
  rw [trustRegionStep_solved prob model cm s hs]
  rcases hd with hd | hd <;>
    simp [applyDecision, hd, SQPState.emit, f1, f2, f3, f4, f6]

/-! ## The trust-region loop, one pass at a time -/

theorem trustRegionLoop_exit (prob : OptProb) (model : Model) (cm : Convexified) (fuel : Nat)
    (s : SQPState)
    (hc : ¬ Dbl.ge s.param_.trust_box_size (Dbl.fin s.param_.min_trust_box_size) = true) :
    trustRegionLoop prob model cm (fuel + 1) s = some (InnerExit.fallthrough, s) := by
  simp [trustRegionLoop, hc]

theorem trustRegionLoop_pass (prob : OptProb) (model : Model) (cm : Convexified) (fuel : Nat)
    (s : SQPState)
    (hc : Dbl.ge s.param_.trust_box_size (Dbl.fin s.param_.min_trust_box_size) = true) :
    trustRegionLoop prob model cm (fuel + 1) s =
      match (trustRegionStep prob model cm s).1 with
      | StepKind.failed => some (InnerExit.cleanup, (trustRegionStep prob model cm s).2)
      | StepKind.convergedApprox =>
        some (InnerExit.penaltyadjustment, (trustRegionStep prob model cm s).2)
      | StepKind.convergedFrac =>
        some (InnerExit.penaltyadjustment, (trustRegionStep prob model cm s).2)
      | StepKind.shrunk => trustRegionLoop prob model cm fuel (trustRegionStep prob model cm s).2
      | StepKind.accepted => some (InnerExit.fallthrough, (trustRegionStep prob model cm s).2) := by
  rw [trustRegionLoop]
  simp only [hc, if_true]
  rcases trustRegionStep prob model cm s with ⟨k, s1⟩
  cases k <;> rfl

/-! ## The concrete steps, evaluated -/

theorem flat_step_solved (step : ℚ) (p : BasicTrustRegionSQPParameters) :
    (solveTrustBox flatProb (shiftModel step) (convexify flatProb (flatState p))
      (flatState p)).1.1 = CvxOptStatus.CVX_SOLVED := rfl

theorem flat_step_report (step : ℚ) (p : BasicTrustRegionSQPParameters) :
    stepReport flatProb (shiftModel step) (convexify flatProb (flatState p)) (flatState p) =
      { model_var_vals := [step], model_cost_vals := [1 - step], model_cnt_viols := [],
        new_x := [step], new_cost_vals := [1], old_cost_vals := [1], new_cnt_viols := [],
        old_cnt_viols := [], old_merit := 1, model_merit := 1 - step, new_merit := 1,
        approx_merit_improve := step, exact_merit_improve := 0,
        merit_improve_ratio := Dbl.fdiv 0 step, merit_error_coeff := p.merit_error_coeff } := by
  norm_num [stepReport, solveTrustBox, buildReport, convexify, flatProb, flatState, shiftModel,
    flatCost, BasicTrustRegionSQPResults.update, SQPState.assert, SQPState.emit, evaluateCosts,
    evaluateModelCosts, evaluateConstraintViols, evaluateModelCntViols, convexifyCosts,
    convexifyConstraints, vecSum]

theorem quad_step_solved (p : BasicTrustRegionSQPParameters) :
    (solveTrustBox quadProb (shiftModel 1) (convexify quadProb (quadState p))
      (quadState p)).1.1 = CvxOptStatus.CVX_SOLVED := rfl

theorem quad_step_report (p : BasicTrustRegionSQPParameters) :
    stepReport quadProb (shiftModel 1) (convexify quadProb (quadState p)) (quadState p) =
      { model_var_vals := [1], model_cost_vals := [4], model_cnt_viols := [],
        new_x := [1], new_cost_vals := [4], old_cost_vals := [9], new_cnt_viols := [],
        old_cnt_viols := [], old_merit := 9, model_merit := 4, new_merit := 4,
        approx_merit_improve := 5, exact_merit_improve := 5,
        merit_improve_ratio := Dbl.fin 1, merit_error_coeff := p.merit_error_coeff } := by
  norm_num [stepReport, solveTrustBox, buildReport, convexify, quadProb, quadState, shiftModel,
    quadCost, BasicTrustRegionSQPResults.update, SQPState.assert, SQPState.emit, evaluateCosts,
    evaluateModelCosts, evaluateConstraintViols, evaluateModelCntViols, convexifyCosts,
    convexifyConstraints, vecSum, Dbl.fdiv]

theorem stepReport_ratio (prob : OptProb) (model : Model) (cm : Convexified) (s : SQPState) :
    (stepReport prob model cm s).merit_improve_ratio =
      Dbl.fdiv (stepReport prob model cm s).exact_merit_improve
        (stepReport prob model cm s).approx_merit_improve := rfl

/-! ## Acceptance (C2, C8), rejection (C7), convergence gates (C9) -/

/-- C2, as amended: when a solved trust-region step is accepted (`results.x`
is replaced by `new_x`), `exact_merit_improve ≥ 0` and `merit_improve_ratio`
is not below `improve_ratio_threshold`; it is `≥ improve_ratio_threshold`
unless the ratio is `0/0`.  `exact_merit_improve > 0` holds when
`improve_ratio_threshold > 0` and `approx_merit_improve ≠ 0`. -/
theorem accepted_step_merit (prob : OptProb) (model : Model) (cm : Convexified) (s : SQPState)
    (h : (trustRegionStep prob model cm s).1 = StepKind.accepted) :
    (trustRegionStep prob model cm s).2.results_.x = (stepReport prob model cm s).new_x ∧
    0 ≤ (stepReport prob model cm s).exact_merit_improve ∧
    Dbl.lt (stepReport prob model cm s).merit_improve_ratio
      (Dbl.fin s.param_.improve_ratio_threshold) = false ∧
    (((stepReport prob model cm s).approx_merit_improve ≠ 0 ∨
        (stepReport prob model cm s).exact_merit_improve ≠ 0) →
      Dbl.ge (stepReport prob model cm s).merit_improve_ratio
        (Dbl.fin s.param_.improve_ratio_threshold) = true) ∧
    (0 < s.param_.improve_ratio_threshold →
      (stepReport prob model cm s).approx_merit_improve ≠ 0 →
      0 < (stepReport prob model cm s).exact_merit_improve) := by
  obtain ⟨hs, hd⟩ := (trustRegionStep_accepted_iff prob model cm s).mp h
  obtain ⟨-, -, he, hr⟩ := (stepDecision_accept_iff _ _).mp hd
  have he0 : 0 ≤ (stepReport prob model cm s).exact_merit_improve := not_lt.mp he
  refine ⟨(trustRegionStep_accept_state prob model cm s hs hd).1, he0, hr, ?_, ?_⟩
  · intro hne
    rw [stepReport_ratio] at hr ⊢
    by_cases ha : (stepReport prob model cm s).approx_merit_improve = 0
    · have hpos : 0 < (stepReport prob model cm s).exact_merit_improve :=
        lt_of_le_of_ne he0 (Ne.symm (hne.resolve_left (fun hx => hx ha)))
      simp [Dbl.fdiv, ha, hpos, Dbl.ge, Dbl.le]
    · simp only [Dbl.fdiv, ha, if_false, Dbl.lt, decide_eq_false_iff_not, not_lt] at hr
      simp [Dbl.fdiv, ha, Dbl.ge, Dbl.le, hr]
  · intro hpos ha
    rw [stepReport_ratio] at hr
    simp only [Dbl.fdiv, ha, if_false, Dbl.lt, decide_eq_false_iff_not, not_lt] at hr
    rcases lt_or_eq_of_le he0 with hlt | heq
    · exact hlt
    · rw [← heq, zero_div] at hr
      exact absurd hr (not_le.mpr hpos)

/-- Witness for C2 (amended): on `(x - 3)²` from `x = 0` the step to `x = 1`
is accepted, with exact improvement `5 ≥ 0`. -/
theorem accepted_step_merit_witness :
    (trustRegionStep quadProb (shiftModel 1) (convexify quadProb (quadState unitBoxParams))
      (quadState unitBoxParams)).1 = StepKind.accepted ∧
    (0 : ℚ) ≤ (stepReport quadProb (shiftModel 1) (convexify quadProb (quadState unitBoxParams))
      (quadState unitBoxParams)).exact_merit_improve := by
  have h : (trustRegionStep quadProb (shiftModel 1)
      (convexify quadProb (quadState unitBoxParams)) (quadState unitBoxParams)).1 =
      StepKind.accepted := by
    rw [trustRegionStep_accepted_iff]
    refine ⟨quad_step_solved _, ?_⟩
    rw [stepDecision_accept_iff, quad_step_report]
    norm_num [quadState, unitBoxParams, BasicTrustRegionSQPParameters.defaults, Dbl.fdiv, Dbl.lt]
  exact ⟨h, (accepted_step_merit _ _ _ _ h).2.1⟩

/-- Counterexample to C2 as stated: with `improve_ratio_threshold = 0`, on the
flat cost, the step from `x = 0` to `x = 1` is accepted (`x` is replaced by
`new_x = [1]`) although `exact_merit_improve = 0`, which is not `> 0`. -/
theorem accepted_step_counterexample :
    (trustRegionStep flatProb (shiftModel 1) (convexify flatProb (flatState zeroThresholdParams))
      (flatState zeroThresholdParams)).1 = StepKind.accepted ∧
    (stepReport flatProb (shiftModel 1) (convexify flatProb (flatState zeroThresholdParams))
      (flatState zeroThresholdParams)).new_x = [1] ∧
    (trustRegionStep flatProb (shiftModel 1) (convexify flatProb (flatState zeroThresholdParams))
      (flatState zeroThresholdParams)).2.results_.x = [1] ∧
    ¬ (0 < (stepReport flatProb (shiftModel 1)
      (convexify flatProb (flatState zeroThresholdParams))
      (flatState zeroThresholdParams)).exact_merit_improve) := by
  have hd : stepDecision (flatState zeroThresholdParams).param_
      (stepReport flatProb (shiftModel 1) (convexify flatProb (flatState zeroThresholdParams))
        (flatState zeroThresholdParams)) = Decision.accept := by
    rw [stepDecision_accept_iff, flat_step_report]
    norm_num [flatState, zeroThresholdParams, unitBoxParams,
      BasicTrustRegionSQPParameters.defaults, Dbl.fdiv, Dbl.lt]
  have hx := (trustRegionStep_accept_state _ _ _ _ (flat_step_solved 1 zeroThresholdParams) hd).1
  refine ⟨(trustRegionStep_accepted_iff _ _ _ _).mpr ⟨flat_step_solved 1 _, hd⟩, ?_, ?_, ?_⟩
  · rw [flat_step_report]
  · rw [hx, flat_step_report]
  · rw [flat_step_report]; norm_num

/-- C7: a solved step that passes both convergence gates and has
`exact_merit_improve < 0` or `merit_improve_ratio < improve_ratio_threshold`
is rejected: `trust_box_size` becomes `Δ · trust_shrink_ratio` (nothing else
in the parameters changes), `results.x`, `results.cost_vals` and
`results.cnt_viols` are left as they were, and the inner loop repeats from
the new state. -/
theorem rejected_step_shrinks (prob : OptProb) (model : Model) (cm : Convexified) (s : SQPState)
    (hs : (solveTrustBox prob model cm s).1.1 = CvxOptStatus.CVX_SOLVED)
    (hg1 : ¬ (stepReport prob model cm s).approx_merit_improve < s.param_.min_approx_improve)
    (hg2 : Dbl.lt (Dbl.fdiv (stepReport prob model cm s).approx_merit_improve
      (stepReport prob model cm s).old_merit) s.param_.min_approx_improve_frac = false)
    (hsh : (stepReport prob model cm s).exact_merit_improve < 0 ∨
      Dbl.lt (stepReport prob model cm s).merit_improve_ratio
        (Dbl.fin s.param_.improve_ratio_threshold) = true) :
    (trustRegionStep prob model cm s).1 = StepKind.shrunk ∧
    (trustRegionStep prob model cm s).2.param_.trust_box_size =
      Dbl.mul s.param_.trust_box_size (Dbl.fin s.param_.trust_shrink_ratio) ∧
    (trustRegionStep prob model cm s).2.param_ =
      { s.param_ with
        trust_box_size := Dbl.mul s.param_.trust_box_size (Dbl.fin s.param_.trust_shrink_ratio) } ∧
    (trustRegionStep prob model cm s).2.results_.x = s.results_.x ∧
    (trustRegionStep prob model cm s).2.results_.cost_vals = s.results_.cost_vals ∧
    (trustRegionStep prob model cm s).2.results_.cnt_viols = s.results_.cnt_viols ∧
    (∀ fuel,
      Dbl.ge s.param_.trust_box_size (Dbl.fin s.param_.min_trust_box_size) = true →
      trustRegionLoop prob model cm (fuel + 1) s =
        trustRegionLoop prob model cm fuel (trustRegionStep prob model cm s).2) := by
  have hd : stepDecision s.param_ (stepReport prob model cm s) = Decision.shrink :=
    (stepDecision_shrink_iff _ _).mpr ⟨hg1, hg2, hsh⟩
  have hk := (trustRegionStep_shrunk_iff prob model cm s).mpr ⟨hs, hd⟩
  obtain ⟨e1, e2, e3, e4, -, -⟩ := trustRegionStep_shrink_state prob model cm s hs hd
  refine ⟨hk, by rw [e4], e4, e1, e2, e3, ?_⟩
  intro fuel hc
  rw [trustRegionLoop_pass prob model cm fuel s hc, hk]

/-- Witness for C7: with the default threshold `0.25`, the step on the flat
cost (ratio `0`) is rejected and the box shrinks from `1` to `1 · 0.1`. -/
theorem rejected_step_shrinks_witness :
    (trustRegionStep flatProb (shiftModel 1) (convexify flatProb (flatState unitBoxParams))
      (flatState unitBoxParams)).1 = StepKind.shrunk ∧
    (trustRegionStep flatProb (shiftModel 1) (convexify flatProb (flatState unitBoxParams))
      (flatState unitBoxParams)).2.param_.trust_box_size =
      Dbl.mul (Dbl.fin 1) (Dbl.fin (1 / 10)) ∧
    (trustRegionStep flatProb (shiftModel 1) (convexify flatProb (flatState unitBoxParams))
      (flatState unitBoxParams)).2.results_.x = [0] := by
  have h := rejected_step_shrinks flatProb (shiftModel 1)
    (convexify flatProb (flatState unitBoxParams)) (flatState unitBoxParams)
    (flat_step_solved 1 _)
    (by rw [flat_step_report]
        norm_num [flatState, unitBoxParams, BasicTrustRegionSQPParameters.defaults])
    (by rw [flat_step_report]
        norm_num [flatState, unitBoxParams, BasicTrustRegionSQPParameters.defaults, Dbl.fdiv,
          Dbl.lt])
    (by rw [flat_step_report]
        norm_num [flatState, unitBoxParams, BasicTrustRegionSQPParameters.defaults, Dbl.fdiv,
          Dbl.lt])
  exact ⟨h.1, h.2.1, h.2.2.2.1⟩

/-- C8: a solved step that passes both convergence gates and does not meet
the shrink condition is accepted: `results.x`, `results.cost_vals` and
`results.cnt_viols` become `new_x`, `new_cost_vals` and `new_cnt_viols`,
`trust_box_size` becomes `Δ · trust_expand_ratio`, nothing else in the
parameters changes (so `merit_error_coeff` is as before), and the inner
loop is left. -/
theorem accepted_step_expands (prob : OptProb) (model : Model) (cm : Convexified) (s : SQPState)
    (hs : (solveTrustBox prob model cm s).1.1 = CvxOptStatus.CVX_SOLVED)
    (hg1 : ¬ (stepReport prob model cm s).approx_merit_improve < s.param_.min_approx_improve)
    (hg2 : Dbl.lt (Dbl.fdiv (stepReport prob model cm s).approx_merit_improve
      (stepReport prob model cm s).old_merit) s.param_.min_approx_improve_frac = false)
    (hsh : ¬ ((stepReport prob model cm s).exact_merit_improve < 0 ∨
      Dbl.lt (stepReport prob model cm s).merit_improve_ratio
        (Dbl.fin s.param_.improve_ratio_threshold) = true)) :
    (trustRegionStep prob model cm s).1 = StepKind.accepted ∧
    (trustRegionStep prob model cm s).2.results_.x = (stepReport prob model cm s).new_x ∧
    (trustRegionStep prob model cm s).2.results_.cost_vals =
      (stepReport prob model cm s).new_cost_vals ∧
    (trustRegionStep prob model cm s).2.results_.cnt_viols =
      (stepReport prob model cm s).new_cnt_viols ∧
    (trustRegionStep prob model cm s).2.param_.trust_box_size =
      Dbl.mul s.param_.trust_box_size (Dbl.fin s.param_.trust_expand_ratio) ∧
    (trustRegionStep prob model cm s).2.param_.merit_error_coeff = s.param_.merit_error_coeff ∧
    (trustRegionStep prob model cm s).2.param_ =
      { s.param_ with
        trust_box_size := Dbl.mul s.param_.trust_box_size (Dbl.fin s.param_.trust_expand_ratio) } ∧
    (∀ fuel,
      Dbl.ge s.param_.trust_box_size (Dbl.fin s.param_.min_trust_box_size) = true →
      trustRegionLoop prob model cm (fuel + 1) s =
        some (InnerExit.fallthrough, (trustRegionStep prob model cm s).2)) := by
  have hd : stepDecision s.param_ (stepReport prob model cm s) = Decision.accept := by
    rw [stepDecision_accept_iff]
    refine ⟨hg1, hg2, fun h => hsh (Or.inl h), ?_⟩
    cases hr : Dbl.lt (stepReport prob model cm s).merit_improve_ratio
      (Dbl.fin s.param_.improve_ratio_threshold)
    · rfl
    · exact absurd (Or.inr hr) hsh
  have hk := (trustRegionStep_accepted_iff prob model cm s).mpr ⟨hs, hd⟩
  obtain ⟨e1, e2, e3, e4, -, -⟩ := trustRegionStep_accept_state prob model cm s hs hd
  refine ⟨hk, e1, e2, e3, by rw [e4], by rw [e4], e4, ?_⟩
  intro fuel hc
  rw [trustRegionLoop_pass prob model cm fuel s hc, hk]

/-- Witness for C8: on `(x - 3)²` the step from `0` to `1` is accepted, the
cost value becomes `4` and the box grows from `1` to `1 · 1.5`. -/
theorem accepted_step_expands_witness :
    (trustRegionStep quadProb (shiftModel 1) (convexify quadProb (quadState unitBoxParams))
      (quadState unitBoxParams)).2.results_.x = [1] ∧
    (trustRegionStep quadProb (shiftModel 1) (convexify quadProb (quadState unitBoxParams))
      (quadState unitBoxParams)).2.results_.cost_vals = [4] ∧
    (trustRegionStep quadProb (shiftModel 1) (convexify quadProb (quadState unitBoxParams))
      (quadState unitBoxParams)).2.param_.trust_box_size =
      Dbl.mul (Dbl.fin 1) (Dbl.fin (3 / 2)) := by
  have h := accepted_step_expands quadProb (shiftModel 1)
    (convexify quadProb (quadState unitBoxParams)) (quadState unitBoxParams)
    (quad_step_solved _)
    (by rw [quad_step_report]
        norm_num [quadState, unitBoxParams, BasicTrustRegionSQPParameters.defaults])
    (by rw [quad_step_report]
        norm_num [quadState, unitBoxParams, BasicTrustRegionSQPParameters.defaults, Dbl.fdiv,
          Dbl.lt])
    (by rw [quad_step_report]
        norm_num [quadState, unitBoxParams, BasicTrustRegionSQPParameters.defaults, Dbl.lt])
  rw [quad_step_report] at h
  exact ⟨h.2.1, h.2.2.1, h.2.2.2.2.1⟩

theorem trustRegionStep_converged_kind (prob : OptProb) (model : Model) (cm : Convexified)
    (s : SQPState) (hs : (solveTrustBox prob model cm s).1.1 = CvxOptStatus.CVX_SOLVED) :
    ((stepReport prob model cm s).approx_merit_improve < s.param_.min_approx_improve →
      (trustRegionStep prob model cm s).1 = StepKind.convergedApprox) ∧
    (¬ (stepReport prob model cm s).approx_merit_improve < s.param_.min_approx_improve →
      Dbl.lt (Dbl.fdiv (stepReport prob model cm s).approx_merit_improve
        (stepReport prob model cm s).old_merit) s.param_.min_approx_improve_frac = true →
      (trustRegionStep prob model cm s).1 = StepKind.convergedFrac) := by
  constructor
  · intro h
    rw [trustRegionStep_fst_solved prob model cm s hs,
      (stepDecision_convergedApprox_iff _ _).mpr h]
    rfl
  · intro h1 h2
    rw [trustRegionStep_fst_solved prob model cm s hs,
      (stepDecision_convergedFrac_iff _ _).mpr ⟨h1, h2⟩]
    rfl

/-- The SQP loop hands a `goto penaltyadjustment` of its trust-region loop
on. -/
theorem sqpLoop_of_inner_penaltyadjustment (prob : OptProb) (model : Model) (fuel k : Nat)
    (iter : Int) (s0 t : SQPState)
    (h : trustRegionLoop prob model
      (convexify prob (bootstrap prob (callCallbacks (s0.emit (Event.sqpIteration iter))))) fuel
      (bootstrap prob (callCallbacks (s0.emit (Event.sqpIteration iter)))) =
        some (InnerExit.penaltyadjustment, t)) :
    sqpLoop prob model fuel (k + 1) iter s0 = some (SqpExit.penaltyadjustment, t) := by
  simp [sqpLoop, sqpIteration, h]

/-- C9: for a solved step, if `approx_merit_improve < min_approx_improve`,
or otherwise `approx_merit_improve / old_merit < min_approx_improve_frac`,
the stage is declared `OPT_CONVERGED` and control goes to the penalty
adjustment, with `results.x`, `results.cost_vals`, `results.cnt_viols` and
the parameters (so `trust_box_size`) as before the step.  The first gate
fires whatever the second test and the shrink test would say, the second
whatever the shrink test would say. -/
theorem convergence_gates (prob : OptProb) (model : Model) (cm : Convexified) (s : SQPState)
    (hs : (solveTrustBox prob model cm s).1.1 = CvxOptStatus.CVX_SOLVED)
    (hg : (stepReport prob model cm s).approx_merit_improve < s.param_.min_approx_improve ∨
      (¬ (stepReport prob model cm s).approx_merit_improve < s.param_.min_approx_improve ∧
        Dbl.lt (Dbl.fdiv (stepReport prob model cm s).approx_merit_improve
          (stepReport prob model cm s).old_merit) s.param_.min_approx_improve_frac = true)) :
    ((stepReport prob model cm s).approx_merit_improve < s.param_.min_approx_improve →
      (trustRegionStep prob model cm s).1 = StepKind.convergedApprox) ∧
    (¬ (stepReport prob model cm s).approx_merit_improve < s.param_.min_approx_improve →
      (trustRegionStep prob model cm s).1 = StepKind.convergedFrac) ∧
    (trustRegionStep prob model cm s).2.retval = OptStatus.OPT_CONVERGED ∧
    (trustRegionStep prob model cm s).2.results_.x = s.results_.x ∧
    (trustRegionStep prob model cm s).2.results_.cost_vals = s.results_.cost_vals ∧
    (trustRegionStep prob model cm s).2.results_.cnt_viols = s.results_.cnt_viols ∧
    (trustRegionStep prob model cm s).2.param_ = s.param_ ∧
    (∀ fuel,
      Dbl.ge s.param_.trust_box_size (Dbl.fin s.param_.min_trust_box_size) = true →
      trustRegionLoop prob model cm (fuel + 1) s =
        some (InnerExit.penaltyadjustment, (trustRegionStep prob model cm s).2)) ∧
    (∀ fuel k iter s0,
      bootstrap prob (callCallbacks (s0.emit (Event.sqpIteration iter))) = s →
      cm = convexify prob s →
      Dbl.ge s.param_.trust_box_size (Dbl.fin s.param_.min_trust_box_size) = true →
      sqpLoop prob model (fuel + 1) (k + 1) iter s0 =
        some (SqpExit.penaltyadjustment, (trustRegionStep prob model cm s).2)) := by
  obtain ⟨k1, k2⟩ := trustRegionStep_converged_kind prob model cm s hs
  have hd : stepDecision s.param_ (stepReport prob model cm s) = Decision.convergedApprox ∨
      stepDecision s.param_ (stepReport prob model cm s) = Decision.convergedFrac := by
    rcases hg with h | ⟨h1, h2⟩
    · exact Or.inl ((stepDecision_convergedApprox_iff _ _).mpr h)
    · exact Or.inr ((stepDecision_convergedFrac_iff _ _).mpr ⟨h1, h2⟩)
  obtain ⟨e1, e2, e3, e4, e5, -⟩ := trustRegionStep_converged_state prob model cm s hs hd
  have hloop : ∀ fuel,
      Dbl.ge s.param_.trust_box_size (Dbl.fin s.param_.min_trust_box_size) = true →
      trustRegionLoop prob model cm (fuel + 1) s =
        some (InnerExit.penaltyadjustment, (trustRegionStep prob model cm s).2) := by
    intro fuel hc
    rw [trustRegionLoop_pass prob model cm fuel s hc]
    rcases hg with h | ⟨h1, h2⟩
    · rw [k1 h]
    · rw [k2 h1 h2]
  refine ⟨k1, ?_, e5, e1, e2, e3, e4, hloop, ?_⟩
  · intro h1
    rcases hg with h | ⟨-, h2⟩
    · exact absurd h h1
    · exact k2 h1 h2
  · intro fuel k iter s0 hpre hcm hc
    apply sqpLoop_of_inner_penaltyadjustment
    rw [hpre, ← hcm]
    exact hloop fuel hc

/-- Witness for C9: on the flat cost, a back end that does not move
(`approx_merit_improve = 0 < 1e-4`) fires the first gate; with
`min_approx_improve_frac = 2`, a move by 1 (`1 / 1 < 2`) fires the second.
In both the point stays `[0]`. -/
theorem convergence_gates_witness :
    ((trustRegionStep flatProb (shiftModel 0) (convexify flatProb (flatState unitBoxParams))
        (flatState unitBoxParams)).1 = StepKind.convergedApprox ∧
      (trustRegionStep flatProb (shiftModel 0) (convexify flatProb (flatState unitBoxParams))
        (flatState unitBoxParams)).2.results_.x = [0]) ∧
    ((trustRegionStep flatProb (shiftModel 1) (convexify flatProb (flatState fracGateParams))
        (flatState fracGateParams)).1 = StepKind.convergedFrac ∧
      (trustRegionStep flatProb (shiftModel 1) (convexify flatProb (flatState fracGateParams))
        (flatState fracGateParams)).2.results_.x = [0]) := by
  have ha : (stepReport flatProb (shiftModel 0) (convexify flatProb (flatState unitBoxParams))
      (flatState unitBoxParams)).approx_merit_improve <
      (flatState unitBoxParams).param_.min_approx_improve := by
    rw [flat_step_report]
    norm_num [flatState, unitBoxParams, BasicTrustRegionSQPParameters.defaults]
  have hb : ¬ (stepReport flatProb (shiftModel 1) (convexify flatProb (flatState fracGateParams))
      (flatState fracGateParams)).approx_merit_improve <
      (flatState fracGateParams).param_.min_approx_improve := by
    rw [flat_step_report]
    norm_num [flatState, fracGateParams, unitBoxParams, BasicTrustRegionSQPParameters.defaults]
  have hc : Dbl.lt (Dbl.fdiv (stepReport flatProb (shiftModel 1)
      (convexify flatProb (flatState fracGateParams)) (flatState fracGateParams)).approx_merit_improve
      (stepReport flatProb (shiftModel 1) (convexify flatProb (flatState fracGateParams))
        (flatState fracGateParams)).old_merit)
      (flatState fracGateParams).param_.min_approx_improve_frac = true := by
    rw [flat_step_report]
    norm_num [flatState, fracGateParams, unitBoxParams, BasicTrustRegionSQPParameters.defaults,
      Dbl.fdiv, Dbl.lt]
  have h1 := convergence_gates flatProb (shiftModel 0)
    (convexify flatProb (flatState unitBoxParams)) (flatState unitBoxParams)
    (flat_step_solved 0 _) (Or.inl ha)
  have h2 := convergence_gates flatProb (shiftModel 1)
    (convexify flatProb (flatState fracGateParams)) (flatState fracGateParams)
    (flat_step_solved 1 _) (Or.inr ⟨hb, hc⟩)
  exact ⟨⟨h1.1 ha, h1.2.2.2.1⟩, ⟨h2.2.1 hb, h2.2.2.2.1⟩⟩

/-! ## Induction over the loops -/

/-- A reflexive and transitive relation kept by every pass of the
trust-region loop relates the state before the loop to the state after. -/
theorem trustRegionLoop_rel (prob : OptProb) (model : Model) (cm : Convexified)
    (R : SQPState → SQPState → Prop) (hrefl : ∀ s, R s s)
    (htrans : ∀ a b c, R a b → R b c → R a c)
    (hstep : ∀ s, R s (trustRegionStep prob model cm s).2) :
    ∀ fuel s e t, trustRegionLoop prob model cm fuel s = some (e, t) → R s t := by
  intro fuel
  induction fuel with
  | zero => intro s e t h; simp [trustRegionLoop] at h
  | succ n ih =>
    intro s e t h
    by_cases hc : Dbl.ge s.param_.trust_box_size (Dbl.fin s.param_.min_trust_box_size) = true
    · rw [trustRegionLoop_pass prob model cm n s hc] at h
      cases hk : (trustRegionStep prob model cm s).1 <;> rw [hk] at h <;>
        simp only [Option.some.injEq, Prod.mk.injEq] at h
      · rw [← h.2]; exact hstep s
      · rw [← h.2]; exact hstep s
      · rw [← h.2]; exact hstep s
      · exact htrans _ _ _ (hstep s) (ih _ _ _ h)
      · rw [← h.2]; exact hstep s
    · rw [trustRegionLoop_exit prob model cm n s hc] at h
      simp only [Option.some.injEq, Prod.mk.injEq] at h
      rw [← h.2]; exact hrefl s

/-- One pass of the SQP loop, by the exit of its trust-region loop. -/
theorem sqpIteration_eq (prob : OptProb) (model : Model) (fuel : Nat) (iter : Int)
    (s : SQPState) (x : IterExit) (t : SQPState)
    (h : sqpIteration prob model fuel iter s = some (x, t)) :
    ∃ e u, trustRegionLoop prob model
        (convexify prob (bootstrap prob (callCallbacks (s.emit (Event.sqpIteration iter))))) fuel
        (bootstrap prob (callCallbacks (s.emit (Event.sqpIteration iter)))) = some (e, u) ∧
      ((e = InnerExit.cleanup ∧ x = IterExit.cleanup ∧ t = u) ∨
        (e = InnerExit.penaltyadjustment ∧ x = IterExit.penaltyadjustment ∧ t = u) ∨
        (e = InnerExit.fallthrough ∧ (x, t) = afterTrustRegionLoop iter u)) := by
  unfold sqpIteration at h
  simp only [] at h
  split at h
  · simp at h
  · rename_i u hu
    simp only [Option.some.injEq, Prod.mk.injEq] at h
    exact ⟨_, u, hu, Or.inl ⟨rfl, h.1.symm, h.2.symm⟩⟩
  · rename_i u hu
    simp only [Option.some.injEq, Prod.mk.injEq] at h
    exact ⟨_, u, hu, Or.inr (Or.inl ⟨rfl, h.1.symm, h.2.symm⟩)⟩
  · rename_i u hu
    simp only [Option.some.injEq] at h
    exact ⟨_, u, hu, Or.inr (Or.inr ⟨rfl, h.symm⟩)⟩

theorem sqpIteration_rel (prob : OptProb) (model : Model)
    (R : SQPState → SQPState → Prop) (hrefl : ∀ s, R s s)
    (htrans : ∀ a b c, R a b → R b c → R a c)
    (hstep : ∀ cm s, R s (trustRegionStep prob model cm s).2)
    (hpre : ∀ iter s, R s (bootstrap prob (callCallbacks (s.emit (Event.sqpIteration iter)))))
    (hafter : ∀ iter s, R s (afterTrustRegionLoop iter s).2)
    (fuel : Nat) (iter : Int) (s : SQPState) (x : IterExit) (t : SQPState)
    (h : sqpIteration prob model fuel iter s = some (x, t)) : R s t := by
  obtain ⟨e, u, hu, hcase⟩ := sqpIteration_eq prob model fuel iter s x t h
  have h1 := trustRegionLoop_rel prob model _ R hrefl htrans (hstep _) fuel _ e u hu
  have h0 := htrans _ _ _ (hpre iter s) h1
  rcases hcase with ⟨-, -, ht⟩ | ⟨-, -, ht⟩ | ⟨-, ht⟩
  · rw [ht]; exact h0
  · rw [ht]; exact h0
  · have : t = (afterTrustRegionLoop iter u).2 := by rw [← ht]
    rw [this]; exact htrans _ _ _ h0 (hafter iter u)

theorem sqpLoop_succ (prob : OptProb) (model : Model) (fuel k : Nat) (iter : Int)
    (s : SQPState) :
    sqpLoop prob model fuel (k + 1) iter s =
      match sqpIteration prob model fuel iter s with
      | none => none
      | some (IterExit.cleanup, s1) => some (SqpExit.cleanup, s1)
      | some (IterExit.penaltyadjustment, s1) => some (SqpExit.penaltyadjustment, s1)
      | some (IterExit.next, s1) => sqpLoop prob model fuel k (iter + 1) s1 := by
  rw [sqpLoop]

/-- A reflexive and transitive relation kept by every part of a pass of the
SQP loop relates the state before the loop to the state after. -/
theorem sqpLoop_rel (prob : OptProb) (model : Model)
    (R : SQPState → SQPState → Prop) (hrefl : ∀ s, R s s)
    (htrans : ∀ a b c, R a b → R b c → R a c)
    (hstep : ∀ cm s, R s (trustRegionStep prob model cm s).2)
    (hpre : ∀ iter s, R s (bootstrap prob (callCallbacks (s.emit (Event.sqpIteration iter)))))
    (hafter : ∀ iter s, R s (afterTrustRegionLoop iter s).2) (fuel : Nat) :
    ∀ k iter s e t, sqpLoop prob model fuel k iter s = some (e, t) → R s t := by
  intro k
  induction k with
  | zero => intro iter s e t h; simp [sqpLoop] at h
  | succ n ih =>
    intro iter s e t h
    rw [sqpLoop_succ] at h
    cases hi : sqpIteration prob model fuel iter s with
    | none => rw [hi] at h; simp at h
    | some r =>
      obtain ⟨x, u⟩ := r
      have hr := sqpIteration_rel prob model R hrefl htrans hstep hpre hafter fuel iter s x u hi
      rw [hi] at h
      cases x <;> simp only [Option.some.injEq, Prod.mk.injEq] at h
      · rw [← h.2]; exact hr
      · rw [← h.2]; exact hr
      · exact htrans _ _ _ hr (ih _ _ _ _ h)

/-- The merit loop stops when `merit_increases` has reached the cap. -/
theorem meritLoop_limit (prob : OptProb) (model : Model) (fuel k : Nat) (m : Int) (s : SQPState)
    (hm : ¬ m < s.param_.max_merit_coeff_increases) :
    meritLoop prob model fuel (k + 1) m s =
      some (({ s with retval := OptStatus.OPT_PENALTY_ITERATION_LIMIT } : SQPState).emit
        Event.penaltyLimit) := by
  simp [meritLoop, hm]

/-- One pass of the merit loop, by the exit of its SQP loop. -/
theorem meritLoop_pass (prob : OptProb) (model : Model) (fuel k : Nat) (m : Int) (s : SQPState)
    (hm : m < s.param_.max_merit_coeff_increases) :
    meritLoop prob model fuel (k + 1) m s =
      match sqpLoop prob model fuel fuel 1 (s.emit (Event.meritStage m)) with
      | none => none
      | some (SqpExit.cleanup, s1) => some s1
      | some (SqpExit.penaltyadjustment, s1) =>
        if (penaltyAdjustment s1).1 = true then some (penaltyAdjustment s1).2
        else meritLoop prob model fuel k (m + 1) (penaltyAdjustment s1).2 := by
  rw [meritLoop]
  simp only [hm, if_true]
  split
  · rfl
  · rfl
  · rename_i s1 _
    rcases penaltyAdjustment s1 with ⟨b, s2⟩
    cases b <;> simp

/-- A reflexive and transitive relation kept by every part of the merit loop
relates the state before the loop to the state at the label `cleanup`. -/
theorem meritLoop_rel (prob : OptProb) (model : Model)
    (R : SQPState → SQPState → Prop) (hrefl : ∀ s, R s s)
    (htrans : ∀ a b c, R a b → R b c → R a c)
    (hstep : ∀ cm s, R s (trustRegionStep prob model cm s).2)
    (hpre : ∀ iter s, R s (bootstrap prob (callCallbacks (s.emit (Event.sqpIteration iter)))))
    (hafter : ∀ iter s, R s (afterTrustRegionLoop iter s).2)
    (hstage : ∀ m s, R s (s.emit (Event.meritStage m)))
    (hpa : ∀ s, R s (penaltyAdjustment s).2)
    (hlimit : ∀ s, R s (({ s with retval := OptStatus.OPT_PENALTY_ITERATION_LIMIT } :
      SQPState).emit Event.penaltyLimit)) (fuel : Nat) :
    ∀ k m s t, meritLoop prob model fuel k m s = some t → R s t := by
  intro k
  induction k with
  | zero => intro m s t h; simp [meritLoop] at h
  | succ n ih =>
    intro m s t h
    by_cases hm : m < s.param_.max_merit_coeff_increases
    · rw [meritLoop_pass prob model fuel n m s hm] at h
      cases hq : sqpLoop prob model fuel fuel 1 (s.emit (Event.meritStage m)) with
      | none => rw [hq] at h; simp at h
      | some r =>
        obtain ⟨x, u⟩ := r
        have hr := htrans _ _ _ (hstage m s)
          (sqpLoop_rel prob model R hrefl htrans hstep hpre hafter fuel fuel 1 _ x u hq)
        rw [hq] at h
        cases x
        · simp only [Option.some.injEq] at h
          rw [← h]; exact hr
        · simp only [] at h
          split_ifs at h
          · simp only [Option.some.injEq] at h
            rw [← h]; exact htrans _ _ _ hr (hpa u)
          · exact htrans _ _ _ (htrans _ _ _ hr (hpa u)) (ih _ _ _ h)
    · rw [meritLoop_limit prob model fuel n m s hm] at h
      simp only [Option.some.injEq] at h
      rw [← h]; exact hlimit s

/-! ## What a run leaves unchanged -/

theorem sameStage_refl (p : BasicTrustRegionSQPParameters) : p.sameStage p := by
  cases p; rfl

theorem sameStage_trans (p q r : BasicTrustRegionSQPParameters) (h1 : p.sameStage q)
    (h2 : q.sameStage r) : p.sameStage r := by
  unfold BasicTrustRegionSQPParameters.sameStage at *
  rw [h2, h1]

theorem sameRun_refl (p : BasicTrustRegionSQPParameters) : p.sameRun p := by
  cases p; rfl

theorem sameRun_trans (p q r : BasicTrustRegionSQPParameters) (h1 : p.sameRun q)
    (h2 : q.sameRun r) : p.sameRun r := by
  unfold BasicTrustRegionSQPParameters.sameRun at *
  rw [h2, h1]

theorem sameStage_sameRun (p q : BasicTrustRegionSQPParameters) (h : p.sameStage q) :
    p.sameRun q := by
  unfold BasicTrustRegionSQPParameters.sameStage at h
  unfold BasicTrustRegionSQPParameters.sameRun
  rw [h]

theorem sameStage_of_eq_with (p : BasicTrustRegionSQPParameters) (d : Dbl) :
    p.sameStage { p with trust_box_size := d } := rfl

theorem stageFrame_refl (s : SQPState) : s.stageFrame s := ⟨sameStage_refl _, rfl⟩

theorem stageFrame_trans (a b c : SQPState) (h1 : a.stageFrame b) (h2 : b.stageFrame c) :
    a.stageFrame c :=
  ⟨sameStage_trans _ _ _ h1.1 h2.1, h2.2.trans h1.2⟩

theorem runFrame_refl (s : SQPState) : s.runFrame s := ⟨sameRun_refl _, rfl⟩

theorem runFrame_trans (a b c : SQPState) (h1 : a.runFrame b) (h2 : b.runFrame c) :
    a.runFrame c :=
  ⟨sameRun_trans _ _ _ h1.1 h2.1, h2.2.trans h1.2⟩

theorem stageFrame_runFrame (s t : SQPState) (h : s.stageFrame t) : s.runFrame t :=
  ⟨sameStage_sameRun _ _ h.1, h.2⟩

/-- A state with the same parameters and callbacks is in the frame. -/
theorem stageFrame_of_eq (s t : SQPState) (hp : t.param_ = s.param_)
    (hc : t.callbacks_ = s.callbacks_) : s.stageFrame t := by
  refine ⟨?_, hc⟩
  rw [hp]; exact sameStage_refl _

theorem trustRegionStep_stageFrame (prob : OptProb) (model : Model) (cm : Convexified)
    (s : SQPState) : s.stageFrame (trustRegionStep prob model cm s).2 := by
  by_cases hs : (solveTrustBox prob model cm s).1.1 = CvxOptStatus.CVX_SOLVED
  · cases hd : stepDecision s.param_ (stepReport prob model cm s) with
    | convergedApprox =>
      obtain ⟨-, -, -, e4, -, e6⟩ :=
        trustRegionStep_converged_state prob model cm s hs (Or.inl hd)
      exact stageFrame_of_eq _ _ e4 e6
    | convergedFrac =>
      obtain ⟨-, -, -, e4, -, e6⟩ :=
        trustRegionStep_converged_state prob model cm s hs (Or.inr hd)
      exact stageFrame_of_eq _ _ e4 e6
    | shrink =>
      obtain ⟨-, -, -, e4, -, e6⟩ := trustRegionStep_shrink_state prob model cm s hs hd
      refine ⟨?_, e6⟩
      rw [e4]; exact sameStage_of_eq_with _ _
    | accept =>
      obtain ⟨-, -, -, e4, -, e6⟩ := trustRegionStep_accept_state prob model cm s hs hd
      refine ⟨?_, e6⟩
      rw [e4]; exact sameStage_of_eq_with _ _
  · rw [trustRegionStep_failed prob model cm s hs]
    obtain ⟨a1, -, -, -, -, -, -, a8⟩ := solveTrustBox_frame prob model cm s
    exact stageFrame_of_eq _ _ a1 a8

theorem bootstrap_frame (prob : OptProb) (s : SQPState) :
    (bootstrap prob s).param_ = s.param_ ∧ (bootstrap prob s).callbacks_ = s.callbacks_ ∧
    (bootstrap prob s).retval = s.retval ∧ (bootstrap prob s).results_.x = s.results_.x ∧
    (bootstrap prob s).results_.n_qp_solves = s.results_.n_qp_solves := by
  unfold bootstrap SQPState.assert SQPState.emit
  by_cases h1 : (s.results_.cost_vals.isEmpty && s.results_.cnt_viols.isEmpty) = true <;>
    by_cases h2 : s.results_.n_func_evals = 0 <;> simp [h1, h2]

theorem iterationStart_frame (prob : OptProb) (iter : Int) (s : SQPState) :
    (bootstrap prob (callCallbacks (s.emit (Event.sqpIteration iter)))).param_ = s.param_ ∧
    (bootstrap prob (callCallbacks (s.emit (Event.sqpIteration iter)))).callbacks_ =
      s.callbacks_ ∧
    (bootstrap prob (callCallbacks (s.emit (Event.sqpIteration iter)))).retval = s.retval := by
  obtain ⟨b1, b2, b3, -, -⟩ :=
    bootstrap_frame prob (callCallbacks (s.emit (Event.sqpIteration iter)))
  exact ⟨b1, b2, b3⟩

theorem afterTrustRegionLoop_frame (iter : Int) (s : SQPState) :
    (afterTrustRegionLoop iter s).2.param_ = s.param_ ∧
    (afterTrustRegionLoop iter s).2.callbacks_ = s.callbacks_ ∧
    (afterTrustRegionLoop iter s).2.results_ = s.results_ := by
  unfold afterTrustRegionLoop SQPState.emit
  split_ifs <;> simp

/-- The SQP loop of a penalty stage changes no parameter but
`trust_box_size`, and no callback. -/
theorem sqpLoop_stageFrame (prob : OptProb) (model : Model) (fuel k : Nat) (iter : Int)
    (s : SQPState) (e : SqpExit) (t : SQPState)
    (h : sqpLoop prob model fuel k iter s = some (e, t)) : s.stageFrame t :=
  sqpLoop_rel prob model SQPState.stageFrame stageFrame_refl stageFrame_trans
    (fun cm s => trustRegionStep_stageFrame prob model cm s)
    (fun iter s => stageFrame_of_eq _ _ (iterationStart_frame prob iter s).1
      (iterationStart_frame prob iter s).2.1)
    (fun iter s => stageFrame_of_eq _ _ (afterTrustRegionLoop_frame iter s).1
      (afterTrustRegionLoop_frame iter s).2.1)
    fuel k iter s e t h

theorem penaltyAdjustment_runFrame (s : SQPState) : s.runFrame (penaltyAdjustment s).2 := by
  unfold penaltyAdjustment escalate SQPState.emit
  split_ifs
  · exact runFrame_refl s
  · exact ⟨rfl, rfl⟩

/-- The merit loop changes no parameter but `trust_box_size` and
`merit_error_coeff`, and no callback. -/
theorem meritLoop_runFrame (prob : OptProb) (model : Model) (fuel k : Nat) (m : Int)
    (s t : SQPState) (h : meritLoop prob model fuel k m s = some t) : s.runFrame t :=
  meritLoop_rel prob model SQPState.runFrame runFrame_refl runFrame_trans
    (fun cm s => stageFrame_runFrame _ _ (trustRegionStep_stageFrame prob model cm s))
    (fun iter s => stageFrame_runFrame _ _ (stageFrame_of_eq _ _
      (iterationStart_frame prob iter s).1 (iterationStart_frame prob iter s).2.1))
    (fun iter s => stageFrame_runFrame _ _ (stageFrame_of_eq _ _
      (afterTrustRegionLoop_frame iter s).1 (afterTrustRegionLoop_frame iter s).2.1))
    (fun _ s => runFrame_refl s)
    penaltyAdjustment_runFrame
    (fun s => runFrame_refl s)
    fuel k m s t h

/-! ## The value of `retval` where a loop is left -/

theorem Dbl.ne_nan_of_ge (a b : Dbl) (h : Dbl.ge a b = true) : a ≠ Dbl.nan := by
  intro ha
  rw [ha] at h
  cases b <;> simp [Dbl.ge, Dbl.le] at h

theorem Dbl.ne_nan_of_lt (a b : Dbl) (h : Dbl.lt a b = true) : a ≠ Dbl.nan := by
  intro ha
  rw [ha] at h
  cases b <;> simp [Dbl.lt] at h

theorem trustRegionStep_retval (prob : OptProb) (model : Model) (cm : Convexified)
    (s : SQPState) :
    ((trustRegionStep prob model cm s).1 = StepKind.failed →
      (trustRegionStep prob model cm s).2.retval = OptStatus.OPT_FAILED) ∧
    ((trustRegionStep prob model cm s).1 = StepKind.convergedApprox ∨
        (trustRegionStep prob model cm s).1 = StepKind.convergedFrac →
      (trustRegionStep prob model cm s).2.retval = OptStatus.OPT_CONVERGED ∧
      (trustRegionStep prob model cm s).2.param_ = s.param_) ∧
    ((trustRegionStep prob model cm s).1 = StepKind.shrunk ∨
        (trustRegionStep prob model cm s).1 = StepKind.accepted →
      (trustRegionStep prob model cm s).2.retval = s.retval) := by
  by_cases hs : (solveTrustBox prob model cm s).1.1 = CvxOptStatus.CVX_SOLVED
  · have hk := trustRegionStep_fst_solved prob model cm s hs
    cases hd : stepDecision s.param_ (stepReport prob model cm s) with
    | convergedApprox =>
      obtain ⟨-, -, -, e4, e5, -⟩ :=
        trustRegionStep_converged_state prob model cm s hs (Or.inl hd)
      rw [hd] at hk
      simp [hk, Decision.toStepKind, e4, e5]
    | convergedFrac =>
      obtain ⟨-, -, -, e4, e5, -⟩ :=
        trustRegionStep_converged_state prob model cm s hs (Or.inr hd)
      rw [hd] at hk
      simp [hk, Decision.toStepKind, e4, e5]
    | shrink =>
      obtain ⟨-, -, -, -, e5, -⟩ := trustRegionStep_shrink_state prob model cm s hs hd
      rw [hd] at hk
      simp [hk, Decision.toStepKind, e5]
    | accept =>
      obtain ⟨-, -, -, -, e5, -⟩ := trustRegionStep_accept_state prob model cm s hs hd
      rw [hd] at hk
      simp [hk, Decision.toStepKind, e5]
  · rw [trustRegionStep_failed prob model cm s hs]
    simp

/-- Where the trust-region loop is left: by `goto cleanup` with
`retval = OPT_FAILED`, by `goto penaltyadjustment` with
`retval = OPT_CONVERGED` and a trust box that passed the loop test, or by
`break` or the loop test with `retval` as before. -/
theorem trustRegionLoop_retval (prob : OptProb) (model : Model) (cm : Convexified) :
    ∀ fuel s e t, trustRegionLoop prob model cm fuel s = some (e, t) →
      (e = InnerExit.cleanup → t.retval = OptStatus.OPT_FAILED) ∧
      (e = InnerExit.penaltyadjustment →
        t.retval = OptStatus.OPT_CONVERGED ∧
        Dbl.ge t.param_.trust_box_size (Dbl.fin t.param_.min_trust_box_size) = true) ∧
      (e = InnerExit.fallthrough → t.retval = s.retval) := by
  intro fuel
  induction fuel with
  | zero => intro s e t h; simp [trustRegionLoop] at h
  | succ n ih =>
    intro s e t h
    by_cases hc : Dbl.ge s.param_.trust_box_size (Dbl.fin s.param_.min_trust_box_size) = true
    · rw [trustRegionLoop_pass prob model cm n s hc] at h
      obtain ⟨r1, r2, r3⟩ := trustRegionStep_retval prob model cm s
      cases hk : (trustRegionStep prob model cm s).1 <;> rw [hk] at h <;>
        simp only [Option.some.injEq, Prod.mk.injEq] at h
      · obtain ⟨he, ht⟩ := h
        subst he; subst ht
        simp [r1 hk]
      · obtain ⟨he, ht⟩ := h
        subst he; subst ht
        obtain ⟨q1, q2⟩ := r2 (Or.inl hk)
        simp [q1, q2, hc]
      · obtain ⟨he, ht⟩ := h
        subst he; subst ht
        obtain ⟨q1, q2⟩ := r2 (Or.inr hk)
        simp [q1, q2, hc]
      · obtain ⟨i1, i2, i3⟩ := ih _ _ _ h
        exact ⟨i1, i2, fun he => (i3 he).trans (r3 (Or.inl hk))⟩
      · obtain ⟨he, ht⟩ := h
        subst he; subst ht
        simp [r3 (Or.inr hk)]
    · rw [trustRegionLoop_exit prob model cm n s hc] at h
      simp only [Option.some.injEq, Prod.mk.injEq] at h
      obtain ⟨he, ht⟩ := h
      subst he; subst ht
      simp

theorem afterTrustRegionLoop_cases (iter : Int) (s : SQPState) :
    (Dbl.lt s.param_.trust_box_size (Dbl.fin s.param_.min_trust_box_size) = true ∧
      afterTrustRegionLoop iter s = (IterExit.penaltyadjustment,
        ({ s with retval := OptStatus.OPT_CONVERGED } : SQPState).emit Event.tiny)) ∨
    (Dbl.lt s.param_.trust_box_size (Dbl.fin s.param_.min_trust_box_size) = false ∧
      iter ≥ s.param_.max_iter ∧
      afterTrustRegionLoop iter s = (IterExit.cleanup,
        ({ s with retval := OptStatus.OPT_SCO_ITERATION_LIMIT } : SQPState).emit
          Event.iterationLimit)) ∨
    (Dbl.lt s.param_.trust_box_size (Dbl.fin s.param_.min_trust_box_size) = false ∧
      iter < s.param_.max_iter ∧ afterTrustRegionLoop iter s = (IterExit.next, s)) := by
  unfold afterTrustRegionLoop
  by_cases h1 : Dbl.lt s.param_.trust_box_size (Dbl.fin s.param_.min_trust_box_size) = true
  · simp [h1]
  · have h1f : Dbl.lt s.param_.trust_box_size (Dbl.fin s.param_.min_trust_box_size) = false := by
      simpa using h1
    by_cases h2 : iter ≥ s.param_.max_iter
    · simp [h1f, h2]
    · have h2lt : iter < s.param_.max_iter := not_le.mp h2
      simp [h1f, h2lt, not_le.mpr h2lt]

/-- Where one pass of the SQP loop ends. -/
theorem sqpIteration_retval (prob : OptProb) (model : Model) (fuel : Nat) (iter : Int)
    (s : SQPState) (x : IterExit) (t : SQPState)
    (h : sqpIteration prob model fuel iter s = some (x, t)) :
    (x = IterExit.cleanup →
      t.retval = OptStatus.OPT_FAILED ∨ t.retval = OptStatus.OPT_SCO_ITERATION_LIMIT) ∧
    (x = IterExit.penaltyadjustment →
      t.retval = OptStatus.OPT_CONVERGED ∧ t.param_.trust_box_size ≠ Dbl.nan) ∧
    (x = IterExit.next → t.retval = s.retval) := by
  obtain ⟨e, u, hu, hcase⟩ := sqpIteration_eq prob model fuel iter s x t h
  obtain ⟨p1, p2, p3⟩ := trustRegionLoop_retval prob model _ fuel _ e u hu
  rcases hcase with ⟨he, hx, ht⟩ | ⟨he, hx, ht⟩ | ⟨he, ht⟩
  · subst hx; subst ht
    simp [p1 he]
  · subst hx; subst ht
    obtain ⟨q1, q2⟩ := p2 he
    simp [q1, Dbl.ne_nan_of_ge _ _ q2]
  · have hr := (p3 he).trans (iterationStart_frame prob iter s).2.2
    rcases afterTrustRegionLoop_cases iter u with ⟨c1, c2⟩ | ⟨-, -, c2⟩ | ⟨-, -, c2⟩ <;>
      rw [c2] at ht <;> simp only [Prod.mk.injEq] at ht <;> obtain ⟨hx, ht⟩ := ht <;>
      subst hx <;> subst ht
    · simp [SQPState.emit, Dbl.ne_nan_of_lt _ _ c1]
    · simp [SQPState.emit]
    · simp [hr]

/-- Where the SQP loop is left: by `goto cleanup` with `retval` one of
`OPT_FAILED`, `OPT_SCO_ITERATION_LIMIT`, or by `goto penaltyadjustment` with
`retval = OPT_CONVERGED` and a trust box that is a number. -/
theorem sqpLoop_retval (prob : OptProb) (model : Model) (fuel : Nat) :
    ∀ k iter s e t, sqpLoop prob model fuel k iter s = some (e, t) →
      (e = SqpExit.cleanup →
        t.retval = OptStatus.OPT_FAILED ∨ t.retval = OptStatus.OPT_SCO_ITERATION_LIMIT) ∧
      (e = SqpExit.penaltyadjustment →
        t.retval = OptStatus.OPT_CONVERGED ∧ t.param_.trust_box_size ≠ Dbl.nan) := by
  intro k
  induction k with
  | zero => intro iter s e t h; simp [sqpLoop] at h
  | succ n ih =>
    intro iter s e t h
    rw [sqpLoop_succ] at h
    cases hi : sqpIteration prob model fuel iter s with
    | none => rw [hi] at h; simp at h
    | some r =>
      obtain ⟨x, u⟩ := r
      obtain ⟨q1, q2, -⟩ := sqpIteration_retval prob model fuel iter s x u hi
      rw [hi] at h
      cases x <;> simp only [Option.some.injEq, Prod.mk.injEq] at h
      · obtain ⟨he, ht⟩ := h
        subst he; subst ht
        simp [q1 rfl]
      · obtain ⟨he, ht⟩ := h
        subst he; subst ht
        simp [q2 rfl]
      · exact ih _ _ _ _ h

/-! ## What a run records -/

theorem extendsBy_refl (Q : Event → Bool) (s : SQPState) : s.extendsBy Q s :=
  ⟨[], by simp, by simp⟩

theorem extendsBy_trans (Q : Event → Bool) (a b c : SQPState) (h1 : a.extendsBy Q b)
    (h2 : b.extendsBy Q c) : a.extendsBy Q c := by
  obtain ⟨l1, e1, q1⟩ := h1
  obtain ⟨l2, e2, q2⟩ := h2
  refine ⟨l1 ++ l2, by rw [e2, e1, List.append_assoc], ?_⟩
  intro e he
  rcases List.mem_append.mp he with h | h
  · exact q1 e h
  · exact q2 e h

theorem extendsBy_mono (Q Q2 : Event → Bool) (hQ : ∀ e, Q e = true → Q2 e = true)
    (s t : SQPState) (h : s.extendsBy Q t) : s.extendsBy Q2 t := by
  obtain ⟨l, e1, q1⟩ := h
  exact ⟨l, e1, fun e he => hQ e (q1 e he)⟩

theorem extendsBy_of_trace_eq (Q : Event → Bool) (s t : SQPState) (h : t.trace = s.trace) :
    s.extendsBy Q t :=
  ⟨[], by simp [h], by simp⟩

theorem extendsBy_emit (Q : Event → Bool) (s : SQPState) (e : Event) (h : Q e = true) :
    s.extendsBy Q (s.emit e) :=
  ⟨[e], rfl, by simpa using h⟩

theorem extendsBy_assert (Q : Event → Bool) (s : SQPState) (line : Nat) (c : Bool)
    (h : Q (Event.assertFailed line) = true) : s.extendsBy Q (s.assert line c) := by
  unfold SQPState.assert
  split_ifs
  · exact extendsBy_refl Q s
  · exact ⟨[Event.assertFailed line], rfl, by simpa using h⟩

theorem extendsBy_callCallbacks (Q : Event → Bool) (s : SQPState)
    (h : ∀ cb r, Q (Event.callback cb r) = true) : s.extendsBy Q (callCallbacks s) := by
  refine ⟨s.callbacks_.map fun cb => Event.callback cb s.results_, rfl, ?_⟩
  intro e he
  obtain ⟨cb, -, rfl⟩ := List.mem_map.mp he
  exact h cb _

theorem solveTrustBox_extends (prob : OptProb) (model : Model) (cm : Convexified)
    (s : SQPState) : s.extendsBy Event.inStep (solveTrustBox prob model cm s).2 := by
  by_cases hc : prob.vars.length = s.results_.x.length
  · refine ⟨[Event.qpSolve (solveTrustBox prob model cm s).1.1], ?_, ?_⟩
    · simp [solveTrustBox, SQPState.assert, SQPState.emit, hc]
    · simp [Event.inStep]
  · refine ⟨[Event.assertFailed 192, Event.qpSolve (solveTrustBox prob model cm s).1.1], ?_, ?_⟩
    · simp [solveTrustBox, SQPState.assert, SQPState.emit, hc]
    · simp [Event.inStep]

theorem buildReport_extends (prob : OptProb) (cm : Convexified) (vals : DblVec)
    (s : SQPState) : s.extendsBy Event.inStep (buildReport prob cm vals s).2 := by
  by_cases hl : s.param_.log_results = true
  · refine ⟨[Event.report (buildReport prob cm vals s).1,
      Event.logRecord (decide (s.results_.n_func_evals = 1))], ?_, ?_⟩
    · simp [buildReport, SQPState.emit, hl]
    · simp [Event.inStep]
  · refine ⟨[Event.report (buildReport prob cm vals s).1], ?_, ?_⟩
    · simp [buildReport, SQPState.emit, hl]
    · simp [Event.inStep]

theorem applyDecision_extends (s : SQPState) (rep : BasicTrustRegionSQPResults) :
    s.extendsBy Event.inStep (applyDecision s rep).2 := by
  unfold applyDecision
  cases stepDecision s.param_ rep
  · exact ⟨[Event.convergedApprox], rfl, by simp [Event.inStep]⟩
  · exact ⟨[Event.convergedFrac], rfl, by simp [Event.inStep]⟩
  · exact ⟨[Event.shrunk], rfl, by simp [Event.inStep]⟩
  · exact ⟨[Event.accepted], rfl, by simp [Event.inStep]⟩

theorem trustRegionStep_extends (prob : OptProb) (model : Model) (cm : Convexified)
    (s : SQPState) : s.extendsBy Event.inStep (trustRegionStep prob model cm s).2 := by
  by_cases hs : (solveTrustBox prob model cm s).1.1 = CvxOptStatus.CVX_SOLVED
  · rw [trustRegionStep_solved prob model cm s hs]
    exact extendsBy_trans _ _ _ _ (solveTrustBox_extends prob model cm s)
      (extendsBy_trans _ _ _ _ (buildReport_extends prob cm _ _) (applyDecision_extends _ _))
  · rw [trustRegionStep_failed prob model cm s hs]
    exact extendsBy_trans _ _ _ _ (solveTrustBox_extends prob model cm s)
      (extendsBy_of_trace_eq _ _ _ rfl)

theorem inStep_inIterationBody (e : Event) (h : e.inStep = true) :
    e.inIterationBody = true := by
  simp [Event.inIterationBody, h]

theorem inIterationBody_inIteration (e : Event) (h : e.inIterationBody = true) :
    e.inIteration = true := by
  simp [Event.inIteration, h]

theorem inStep_inIteration (e : Event) (h : e.inStep = true) : e.inIteration = true :=
  inIterationBody_inIteration e (inStep_inIterationBody e h)

theorem inIteration_inStage (e : Event) (h : e.inIteration = true) : e.inStage = true := by
  simp [Event.inStage, h]

theorem bootstrap_extends (prob : OptProb) (s : SQPState) :
    s.extendsBy Event.inIterationBody (bootstrap prob s) := by
  by_cases h1 : (s.results_.cost_vals.isEmpty && s.results_.cnt_viols.isEmpty) = true
  · by_cases h2 : s.results_.n_func_evals = 0
    · refine ⟨[Event.bootstrap], ?_, ?_⟩
      · simp [bootstrap, SQPState.assert, SQPState.emit, h1, h2]
      · simp [Event.inIterationBody, Event.inStep]
    · refine ⟨[Event.assertFailed 519, Event.bootstrap], ?_, ?_⟩
      · simp [bootstrap, SQPState.assert, SQPState.emit, h1, h2]
      · simp [Event.inIterationBody, Event.inStep]
  · refine ⟨[], ?_, ?_⟩
    · simp [bootstrap, h1]
    · simp

/-- After the start of a pass of the SQP loop, the callbacks and the
first-iteration evaluation record events of the body only. -/
theorem iterationStart_extends_body (prob : OptProb) (iter : Int) (s : SQPState) :
    (s.emit (Event.sqpIteration iter)).extendsBy Event.inIterationBody
      (bootstrap prob (callCallbacks (s.emit (Event.sqpIteration iter)))) :=
  extendsBy_trans _ _ _ _
    (extendsBy_callCallbacks Event.inIterationBody (s.emit (Event.sqpIteration iter))
      (fun _ _ => rfl))
    (bootstrap_extends prob (callCallbacks (s.emit (Event.sqpIteration iter))))

theorem iterationStart_extends (prob : OptProb) (iter : Int) (s : SQPState) :
    s.extendsBy Event.inIteration
      (bootstrap prob (callCallbacks (s.emit (Event.sqpIteration iter)))) :=
  extendsBy_trans _ _ _ _ (extendsBy_emit Event.inIteration s (Event.sqpIteration iter) rfl)
    (extendsBy_mono _ _ inIterationBody_inIteration _ _ (iterationStart_extends_body prob iter s))

theorem afterTrustRegionLoop_extends_body (iter : Int) (s : SQPState) :
    s.extendsBy Event.inIterationBody (afterTrustRegionLoop iter s).2 := by
  rcases afterTrustRegionLoop_cases iter s with ⟨-, c⟩ | ⟨-, -, c⟩ | ⟨-, -, c⟩ <;> rw [c]
  · exact ⟨[Event.tiny], rfl, by simp [Event.inIterationBody, Event.inStep]⟩
  · exact ⟨[Event.iterationLimit], rfl, by simp [Event.inIterationBody, Event.inStep]⟩
  · exact extendsBy_refl _ s

theorem afterTrustRegionLoop_extends (iter : Int) (s : SQPState) :
    s.extendsBy Event.inIteration (afterTrustRegionLoop iter s).2 :=
  extendsBy_mono _ _ inIterationBody_inIteration _ _ (afterTrustRegionLoop_extends_body iter s)

/-- The SQP loop only records events of an SQP iteration. -/
theorem sqpLoop_extends (prob : OptProb) (model : Model) (fuel k : Nat) (iter : Int)
    (s : SQPState) (e : SqpExit) (t : SQPState)
    (h : sqpLoop prob model fuel k iter s = some (e, t)) : s.extendsBy Event.inIteration t :=
  sqpLoop_rel prob model (SQPState.extendsBy Event.inIteration) (extendsBy_refl _)
    (extendsBy_trans _)
    (fun cm s => extendsBy_mono _ _ inStep_inIteration _ _ (trustRegionStep_extends prob model cm s))
    (iterationStart_extends prob) afterTrustRegionLoop_extends fuel k iter s e t h

theorem penaltyAdjustment_extends (s : SQPState) :
    s.extendsBy Event.inStage (penaltyAdjustment s).2 := by
  unfold penaltyAdjustment escalate
  split_ifs
  · exact ⟨[Event.satisfied], rfl, by simp [Event.inStage, Event.inIteration, Event.inIterationBody, Event.isSqpIteration, Event.inStep]⟩
  · exact ⟨[Event.escalated], rfl, by simp [Event.inStage, Event.inIteration, Event.inIterationBody, Event.isSqpIteration, Event.inStep]⟩

/-- The merit loop only records events of a penalty stage. -/
theorem meritLoop_extends (prob : OptProb) (model : Model) (fuel k : Nat) (m : Int)
    (s t : SQPState) (h : meritLoop prob model fuel k m s = some t) :
    s.extendsBy Event.inStage t :=
  meritLoop_rel prob model (SQPState.extendsBy Event.inStage) (extendsBy_refl _)
    (extendsBy_trans _)
    (fun cm s => extendsBy_mono _ _ (fun e he => inIteration_inStage e (inStep_inIteration e he))
      _ _ (trustRegionStep_extends prob model cm s))
    (fun iter s => extendsBy_mono _ _ inIteration_inStage _ _ (iterationStart_extends prob iter s))
    (fun iter s => extendsBy_mono _ _ inIteration_inStage _ _ (afterTrustRegionLoop_extends iter s))
    (fun m s => extendsBy_emit Event.inStage s (Event.meritStage m) rfl)
    penaltyAdjustment_extends
    (fun s => ⟨[Event.penaltyLimit], rfl, by simp [Event.inStage, Event.inIteration, Event.inIterationBody, Event.isSqpIteration, Event.inStep]⟩)
    fuel k m s t h

/-! ## The merit loop -/

theorem countP_of_extends (Q p : Event → Bool) (s t : SQPState) (h : s.extendsBy Q t)
    (hp : ∀ e, Q e = true → p e = false) : t.trace.countP p = s.trace.countP p := by
  obtain ⟨l, e1, q1⟩ := h
  rw [e1, List.countP_append]
  have : l.countP p = 0 := by
    rw [List.countP_eq_zero]
    intro e he
    simp [hp e (q1 e he)]
  omega

theorem inIteration_not_escalated (e : Event) (h : e.inIteration = true) :
    e.isEscalated = false := by
  cases e <;> simp_all [Event.inIteration, Event.inIterationBody, Event.isSqpIteration, Event.inStep, Event.isEscalated]

theorem inIteration_not_meritStage (e : Event) (h : e.inIteration = true) :
    e.isMeritStage = false := by
  cases e <;> simp_all [Event.inIteration, Event.inIterationBody, Event.isSqpIteration, Event.inStep, Event.isMeritStage]

theorem penaltyAdjustment_cases (s : SQPState) :
    ((s.results_.cnt_viols.isEmpty = true ∨ vecMax s.results_.cnt_viols < s.param_.cnt_tolerance) ∧
      penaltyAdjustment s = (true, s.emit Event.satisfied)) ∨
    (¬ (s.results_.cnt_viols.isEmpty = true ∨
        vecMax s.results_.cnt_viols < s.param_.cnt_tolerance) ∧
      penaltyAdjustment s = (false, escalate s)) := by
  unfold penaltyAdjustment
  by_cases h : s.results_.cnt_viols.isEmpty = true ∨
      vecMax s.results_.cnt_viols < s.param_.cnt_tolerance
  · exact Or.inl ⟨h, if_pos h⟩
  · exact Or.inr ⟨h, if_neg h⟩

theorem escalate_fields (s : SQPState) :
    (escalate s).param_.merit_error_coeff =
      s.param_.merit_error_coeff * s.param_.merit_coeff_increase_ratio ∧
    (escalate s).param_.trust_box_size =
      Dbl.fmax s.param_.trust_box_size
        (Dbl.mul (Dbl.fdiv s.param_.min_trust_box_size s.param_.trust_shrink_ratio)
          (Dbl.fin (3 / 2))) ∧
    (escalate s).results_ = s.results_ ∧ (escalate s).retval = s.retval ∧
    (escalate s).trace = s.trace ++ [Event.escalated] := by
  simp [escalate, SQPState.emit]

theorem sameRun_fields (p q : BasicTrustRegionSQPParameters) (h : p.sameRun q) :
    q.max_merit_coeff_increases = p.max_merit_coeff_increases ∧
    q.merit_coeff_increase_ratio = p.merit_coeff_increase_ratio ∧
    q.max_iter = p.max_iter ∧ q.cnt_tolerance = p.cnt_tolerance ∧
    q.min_trust_box_size = p.min_trust_box_size ∧
    q.trust_shrink_ratio = p.trust_shrink_ratio := by
  unfold BasicTrustRegionSQPParameters.sameRun at h
  rw [h]
  simp

theorem sameStage_fields (p q : BasicTrustRegionSQPParameters) (h : p.sameStage q) :
    q.merit_error_coeff = p.merit_error_coeff ∧ q.max_iter = p.max_iter := by
  unfold BasicTrustRegionSQPParameters.sameStage at h
  rw [h]
  simp

/-- The state at the label `cleanup`: the value of `retval`, and what it
says about the constraint violations and the penalty coefficient. -/
theorem meritLoop_retval (prob : OptProb) (model : Model) (fuel : Nat) :
    ∀ k m s t, meritLoop prob model fuel k m s = some t →
      (t.retval = OptStatus.OPT_CONVERGED ∨ t.retval = OptStatus.OPT_SCO_ITERATION_LIMIT ∨
        t.retval = OptStatus.OPT_PENALTY_ITERATION_LIMIT ∨ t.retval = OptStatus.OPT_FAILED) ∧
      (t.retval = OptStatus.OPT_CONVERGED →
        t.results_.cnt_viols.isEmpty = true ∨
          vecMax t.results_.cnt_viols < t.param_.cnt_tolerance) ∧
      (t.retval = OptStatus.OPT_PENALTY_ITERATION_LIMIT →
        t.param_.merit_error_coeff =
          s.param_.merit_error_coeff *
            s.param_.merit_coeff_increase_ratio ^ (s.param_.max_merit_coeff_increases - m).toNat ∧
        t.trace.countP Event.isEscalated =
          s.trace.countP Event.isEscalated + (s.param_.max_merit_coeff_increases - m).toNat ∧
        t.trace.countP Event.isMeritStage =
          s.trace.countP Event.isMeritStage +
            (s.param_.max_merit_coeff_increases - m).toNat) := by
  intro k
  induction k with
  | zero => intro m s t h; simp [meritLoop] at h
  | succ n ih =>
    intro m s t h
    by_cases hm : m < s.param_.max_merit_coeff_increases
    · rw [meritLoop_pass prob model fuel n m s hm] at h
      cases hq : sqpLoop prob model fuel fuel 1 (s.emit (Event.meritStage m)) with
      | none => rw [hq] at h; simp at h
      | some r =>
        obtain ⟨x, u⟩ := r
        obtain ⟨q1, q2⟩ := sqpLoop_retval prob model fuel fuel 1 _ x u hq
        have hfr := sqpLoop_stageFrame prob model fuel fuel 1 _ x u hq
        have hex := sqpLoop_extends prob model fuel fuel 1 _ x u hq
        rw [hq] at h
        cases x
        · simp only [Option.some.injEq] at h
          subst h
          rcases q1 rfl with hr | hr <;> simp [hr]
        · simp only [] at h
          obtain ⟨hconv, -⟩ := q2 rfl
          rcases penaltyAdjustment_cases u with ⟨hc, hpa⟩ | ⟨hc, hpa⟩
          · rw [hpa] at h
            simp only [if_true, Option.some.injEq] at h
            subst h
            refine ⟨Or.inl hconv, fun _ => hc, ?_⟩
            intro hlim
            rw [show (u.emit Event.satisfied).retval = u.retval from rfl, hconv] at hlim
            exact absurd hlim (by decide)
          · rw [hpa] at h
            simp only [Bool.false_eq_true, if_false] at h
            obtain ⟨i1, i2, i3⟩ := ih _ _ _ h
            refine ⟨i1, i2, ?_⟩
            intro hlim
            obtain ⟨j1, j2, j3⟩ := i3 hlim
            obtain ⟨f1, f2, f3, f4, f5⟩ := escalate_fields u
            have hrun := sameRun_fields _ _ (stageFrame_runFrame _ _ hfr).1
            have hst := sameStage_fields _ _ hfr.1
            have hN : (escalate u).param_.max_merit_coeff_increases =
                s.param_.max_merit_coeff_increases := by
              have := (sameRun_fields _ _ (penaltyAdjustment_runFrame u).1).1
              rw [hpa] at this
              rw [this]; exact hrun.1
            have hK : (escalate u).param_.merit_coeff_increase_ratio =
                s.param_.merit_coeff_increase_ratio := by
              have := (sameRun_fields _ _ (penaltyAdjustment_runFrame u).1).2.1
              rw [hpa] at this
              rw [this]; exact hrun.2.1
            have hnat : (s.param_.max_merit_coeff_increases - m).toNat =
                (s.param_.max_merit_coeff_increases - (m + 1)).toNat + 1 := by omega
            have hce : u.trace.countP Event.isEscalated = s.trace.countP Event.isEscalated := by
              rw [countP_of_extends Event.inIteration Event.isEscalated _ u hex
                inIteration_not_escalated]
              simp [SQPState.emit, List.countP_append, Event.isEscalated]
            have hcm : u.trace.countP Event.isMeritStage =
                s.trace.countP Event.isMeritStage + 1 := by
              rw [countP_of_extends Event.inIteration Event.isMeritStage _ u hex
                inIteration_not_meritStage]
              simp [SQPState.emit, List.countP_append, Event.isMeritStage]
            rw [hN, hK] at j1
            rw [hN] at j2 j3
            refine ⟨?_, ?_, ?_⟩
            · have hκ : u.param_.merit_coeff_increase_ratio =
                  s.param_.merit_coeff_increase_ratio := hrun.2.1
              have hμ : u.param_.merit_error_coeff = s.param_.merit_error_coeff := hst.1
              rw [j1, f1, hκ, hμ, hnat, pow_succ]
              ring
            · rw [j2, f5, List.countP_append, hce, hnat]
              simp [Event.isEscalated]
              omega
            · rw [j3, f5, List.countP_append, hcm, hnat]
              simp [Event.isMeritStage]
              omega
    · rw [meritLoop_limit prob model fuel n m s hm] at h
      simp only [Option.some.injEq] at h
      subst h
      have hz : (s.param_.max_merit_coeff_increases - m).toNat = 0 := by omega
      simp [SQPState.emit, hz, List.countP_append, Event.isEscalated, Event.isMeritStage]

/-! ## A whole run -/

/-- A run that returns has gone through the merit loop to the label
`cleanup`. -/
theorem optimize_returned (prob : OptProb) (model : Model) (fuel : Nat)
    (o : BasicTrustRegionSQP) (r : OptStatus) (s : SQPState)
    (h : optimize prob model fuel o = some (Run.returned r s)) :
    ∃ s3, meritLoop prob model fuel fuel 0 (startState prob o) = some s3 ∧
      r = s3.retval ∧ s = cleanup s3 := by
  unfold optimize at h
  split_ifs at h
  · simp at h
  · cases hm : meritLoop prob model fuel fuel 0 (startState prob o) with
    | none => rw [hm] at h; simp at h
    | some s3 =>
      rw [hm] at h
      simp only [Option.some.injEq, Run.returned.injEq] at h
      exact ⟨s3, rfl, h.1.symm, h.2.symm⟩

theorem startState_fields (prob : OptProb) (o : BasicTrustRegionSQP) :
    (startState prob o).param_ = o.param_ ∧
    (startState prob o).callbacks_ = o.callbacks_ ∧
    (startState prob o).retval = OptStatus.INVALID ∧
    (startState prob o).results_ =
      { o.results_ with x := prob.getClosestFeasiblePoint o.results_.x } ∧
    (∀ e ∈ (startState prob o).trace, e = Event.assertFailed 499 ∨ e = Event.assertFailed 500) := by
  unfold startState SQPState.assert
  simp only []
  split_ifs <;> simp

theorem cleanup_fields (s : SQPState) (h : s.retval ≠ OptStatus.INVALID) :
    (cleanup s).param_ = s.param_ ∧ (cleanup s).callbacks_ = s.callbacks_ ∧
    (cleanup s).retval = s.retval ∧ (cleanup s).results_.status = s.retval ∧
    (cleanup s).results_.total_cost = vecSum s.results_.cost_vals ∧
    (cleanup s).results_.x = s.results_.x ∧
    (cleanup s).results_.cost_vals = s.results_.cost_vals ∧
    (cleanup s).results_.cnt_viols = s.results_.cnt_viols ∧
    (cleanup s).results_.n_func_evals = s.results_.n_func_evals ∧
    (cleanup s).results_.n_qp_solves = s.results_.n_qp_solves ∧
    (cleanup s).trace = s.trace ++ s.callbacks_.map fun cb =>
      Event.callback cb
        { s.results_ with status := s.retval, total_cost := vecSum s.results_.cost_vals } := by
  simp [cleanup, SQPState.assert, h, callCallbacks]

/-! ## Concrete runs, evaluated -/

theorem cvx_failed_ne_solved : CvxOptStatus.CVX_FAILED ≠ CvxOptStatus.CVX_SOLVED := by decide

theorem opt_failed_ne_invalid : OptStatus.OPT_FAILED ≠ OptStatus.INVALID := by decide

theorem opt_converged_ne_invalid : OptStatus.OPT_CONVERGED ≠ OptStatus.INVALID := by decide

theorem opt_sco_limit_ne_invalid : OptStatus.OPT_SCO_ITERATION_LIMIT ≠ OptStatus.INVALID := by
  decide

theorem opt_penalty_limit_ne_invalid :
    OptStatus.OPT_PENALTY_ITERATION_LIMIT ≠ OptStatus.INVALID := by decide

set_option maxRecDepth 8000 in
set_option maxHeartbeats 1000000 in
theorem run_failed_eval : ∃ s, optimize flatProb failingModel 1 (freshOptimizer unitBoxParams []) =
      some (Run.returned OptStatus.OPT_FAILED s) := by
  norm_num [optimize, startState, meritLoop, sqpLoop, sqpIteration, trustRegionLoop,
    afterTrustRegionLoop, bootstrap, callCallbacks, cleanup, penaltyAdjustment, escalate,
    freshOptimizer, trustRegionStep, solveTrustBox, buildReport, applyDecision, stepDecision,
    convexify, flatProb, failingModel, flatCost, unitBoxParams,
    BasicTrustRegionSQPParameters.defaults, BasicTrustRegionSQPResults.update, SQPState.assert,
    SQPState.emit, evaluateCosts, evaluateModelCosts, evaluateConstraintViols,
    evaluateModelCntViols, convexifyCosts, convexifyConstraints, vecSum, vecMax, Dbl.fdiv,
    Dbl.lt, Dbl.le, Dbl.ge, Dbl.mul, setTrustBoxConstraints, adjustTrustRegion,
    cvx_failed_ne_solved, opt_failed_ne_invalid, opt_converged_ne_invalid,
    opt_sco_limit_ne_invalid, opt_penalty_limit_ne_invalid]

set_option maxRecDepth 8000 in
set_option maxHeartbeats 1000000 in
theorem run_converged_eval : ∃ s, optimize (constrainedProb 0) (shiftModel 0) 1 (freshOptimizer unitBoxParams [7]) =
      some (Run.returned OptStatus.OPT_CONVERGED s) := by
  norm_num [optimize, startState, meritLoop, sqpLoop, sqpIteration, trustRegionLoop,
    afterTrustRegionLoop, bootstrap, callCallbacks, cleanup, penaltyAdjustment, escalate,
    freshOptimizer, trustRegionStep, solveTrustBox, buildReport, applyDecision, stepDecision,
    convexify, flatProb, constrainedProb, constCnt, shiftModel, flatCost, unitBoxParams,
    BasicTrustRegionSQPParameters.defaults, BasicTrustRegionSQPResults.update, SQPState.assert,
    SQPState.emit, evaluateCosts, evaluateModelCosts, evaluateConstraintViols,
    evaluateModelCntViols, convexifyCosts, convexifyConstraints, vecSum, vecMax, Dbl.fdiv,
    Dbl.lt, Dbl.le, Dbl.ge, Dbl.mul, setTrustBoxConstraints, adjustTrustRegion,
    cvx_failed_ne_solved, opt_failed_ne_invalid, opt_converged_ne_invalid,
    opt_sco_limit_ne_invalid, opt_penalty_limit_ne_invalid]

set_option maxRecDepth 8000 in
set_option maxHeartbeats 1000000 in
theorem run_penalty_eval : ∃ s, optimize (constrainedProb 1) (shiftModel 0) 3 (freshOptimizer twoStageParams []) =
      some (Run.returned OptStatus.OPT_PENALTY_ITERATION_LIMIT s) := by
  norm_num [optimize, startState, meritLoop, sqpLoop, sqpIteration, trustRegionLoop,
    afterTrustRegionLoop, bootstrap, callCallbacks, cleanup, penaltyAdjustment, escalate,
    freshOptimizer, trustRegionStep, solveTrustBox, buildReport, applyDecision, stepDecision,
    convexify, flatProb, constrainedProb, constCnt, shiftModel, flatCost, unitBoxParams, twoStageParams,
    BasicTrustRegionSQPParameters.defaults, BasicTrustRegionSQPResults.update, SQPState.assert,
    SQPState.emit, evaluateCosts, evaluateModelCosts, evaluateConstraintViols,
    evaluateModelCntViols, convexifyCosts, convexifyConstraints, vecSum, vecMax, Dbl.fdiv,
    Dbl.lt, Dbl.le, Dbl.ge, Dbl.mul, Dbl.fmax_fin_fin, setTrustBoxConstraints, adjustTrustRegion,
    cvx_failed_ne_solved, opt_failed_ne_invalid, opt_converged_ne_invalid,
    opt_sco_limit_ne_invalid, opt_penalty_limit_ne_invalid]

/-! ## Return status (C3, C4, C5) -/

/-- The state at `cleanup` of a run that returns, with what the merit loop
guarantees about it. -/
theorem optimize_cleanup_state (prob : OptProb) (model : Model) (fuel : Nat)
    (o : BasicTrustRegionSQP) (r : OptStatus) (s : SQPState)
    (h : optimize prob model fuel o = some (Run.returned r s)) :
    ∃ s3, meritLoop prob model fuel fuel 0 (startState prob o) = some s3 ∧
      r = s3.retval ∧ s = cleanup s3 ∧ s3.retval ≠ OptStatus.INVALID := by
  obtain ⟨s3, hm, hr, hs⟩ := optimize_returned prob model fuel o r s h
  refine ⟨s3, hm, hr, hs, ?_⟩
  rcases (meritLoop_retval prob model fuel fuel 0 _ s3 hm).1 with h1 | h1 | h1 | h1 <;>
    rw [h1] <;> decide

/-- C3: whenever `optimize` returns `OPT_CONVERGED`, the final
`results.cnt_viols` is empty or `max(cnt_viols) < cnt_tolerance`; a penalty
stage that is declared converged with a violation `≥ cnt_tolerance` does not
end the run: the merit loop goes on from the escalated state. -/
theorem converged_run_feasible (prob : OptProb) (model : Model) (fuel : Nat)
    (o : BasicTrustRegionSQP) (s : SQPState)
    (h : optimize prob model fuel o = some (Run.returned OptStatus.OPT_CONVERGED s)) :
    (s.results_.cnt_viols = [] ∨ vecMax s.results_.cnt_viols < s.param_.cnt_tolerance) ∧
    (∀ k m s0 u, m < s0.param_.max_merit_coeff_increases →
      sqpLoop prob model fuel fuel 1 (s0.emit (Event.meritStage m)) =
        some (SqpExit.penaltyadjustment, u) →
      u.results_.cnt_viols ≠ [] →
      u.param_.cnt_tolerance ≤ vecMax u.results_.cnt_viols →
      meritLoop prob model fuel (k + 1) m s0 =
        meritLoop prob model fuel k (m + 1) (escalate u)) := by
  obtain ⟨s3, hm, hr, hs, hne⟩ := optimize_cleanup_state prob model fuel o _ s h
  constructor
  · obtain ⟨c1, -, -, -, -, -, -, c8, -⟩ := cleanup_fields s3 hne
    have := (meritLoop_retval prob model fuel fuel 0 _ s3 hm).2.1 hr.symm
    rw [hs, c8, c1]
    rcases this with h1 | h1
    · exact Or.inl (List.isEmpty_iff.mp h1)
    · exact Or.inr h1
  · intro k m s0 u hlt hq hv htol
    rw [meritLoop_pass prob model fuel k m s0 hlt, hq]
    rcases penaltyAdjustment_cases u with ⟨hc, -⟩ | ⟨-, hpa⟩
    · rcases hc with h1 | h1
      · exact absurd (List.isEmpty_iff.mp h1) hv
      · exact absurd h1 (not_lt.mpr htol)
    · simp [hpa]

/-- Witness for C3: with a constraint whose violation is `0` and a back end
that does not move, the run returns `OPT_CONVERGED` and the final violation
`0` is below `cnt_tolerance`. -/
theorem converged_run_feasible_witness :
    ∃ s, optimize (constrainedProb 0) (shiftModel 0) 1 (freshOptimizer unitBoxParams [7]) =
        some (Run.returned OptStatus.OPT_CONVERGED s) ∧
      (s.results_.cnt_viols = [] ∨ vecMax s.results_.cnt_viols < s.param_.cnt_tolerance) := by
  obtain ⟨s, hs⟩ := run_converged_eval
  exact ⟨s, hs, (converged_run_feasible _ _ _ _ s hs).1⟩

/-- C4: if `optimize` returns, the returned status is one of
`OPT_CONVERGED`, `OPT_SCO_ITERATION_LIMIT`, `OPT_PENALTY_ITERATION_LIMIT`,
`OPT_FAILED`, it is not `INVALID`, it is stored in `results.status`, and the
assertion `retval != INVALID` at the label `cleanup` (line 679) did not
fail. -/
theorem returned_status_valid (prob : OptProb) (model : Model) (fuel : Nat)
    (o : BasicTrustRegionSQP) (r : OptStatus) (s : SQPState)
    (h : optimize prob model fuel o = some (Run.returned r s)) :
    (r = OptStatus.OPT_CONVERGED ∨ r = OptStatus.OPT_SCO_ITERATION_LIMIT ∨
      r = OptStatus.OPT_PENALTY_ITERATION_LIMIT ∨ r = OptStatus.OPT_FAILED) ∧
    r ≠ OptStatus.INVALID ∧ s.results_.status = r ∧ s.retval = r ∧
    Event.assertFailed 679 ∉ s.trace := by
  obtain ⟨s3, hm, hr, hs, hne⟩ := optimize_cleanup_state prob model fuel o r s h
  obtain ⟨-, -, c3, c4, -, -, -, -, -, -, c11⟩ := cleanup_fields s3 hne
  refine ⟨?_, hr ▸ hne, by rw [hs, c4, hr], by rw [hs, c3, hr], ?_⟩
  · rw [hr]; exact (meritLoop_retval prob model fuel fuel 0 _ s3 hm).1
  · obtain ⟨l, e1, q1⟩ := meritLoop_extends prob model fuel fuel 0 _ s3 hm
    rw [hs, c11, e1]
    intro hmem
    rcases List.mem_append.mp hmem with hmem | hmem
    · rcases List.mem_append.mp hmem with hmem | hmem
      · rcases (startState_fields prob o).2.2.2.2 _ hmem with h1 | h1 <;> simp at h1
      · have := q1 _ hmem
        simp [Event.inStage, Event.inIteration, Event.inIterationBody, Event.isSqpIteration, Event.inStep] at this
    · obtain ⟨cb, -, hcb⟩ := List.mem_map.mp hmem
      simp at hcb

/-- Witness for C4: a run whose first solve fails returns `OPT_FAILED`, which
is not `INVALID` and is stored in `results.status`. -/
theorem returned_status_valid_witness :
    ∃ s, optimize flatProb failingModel 1 (freshOptimizer unitBoxParams []) =
        some (Run.returned OptStatus.OPT_FAILED s) ∧
      s.results_.status = OptStatus.OPT_FAILED ∧ Event.assertFailed 679 ∉ s.trace := by
  obtain ⟨s, hs⟩ := run_failed_eval
  have h := returned_status_valid _ _ _ _ _ s hs
  exact ⟨s, hs, h.2.2.1, h.2.2.2.2⟩

/-- C5: whenever `optimize` returns `OPT_PENALTY_ITERATION_LIMIT`, with
`N = max_merit_coeff_increases` (counted as `0` when negative), the merit
loop made `N` passes, each of them ended in a penalty escalation, and the
final `merit_error_coeff` is the initial one times
`merit_coeff_increase_ratio ^ N`. -/
theorem penalty_limit_run (prob : OptProb) (model : Model) (fuel : Nat)
    (o : BasicTrustRegionSQP) (s : SQPState)
    (h : optimize prob model fuel o =
      some (Run.returned OptStatus.OPT_PENALTY_ITERATION_LIMIT s)) :
    s.param_.merit_error_coeff =
      o.param_.merit_error_coeff *
        o.param_.merit_coeff_increase_ratio ^ o.param_.max_merit_coeff_increases.toNat ∧
    s.trace.countP Event.isMeritStage = o.param_.max_merit_coeff_increases.toNat ∧
    s.trace.countP Event.isEscalated = o.param_.max_merit_coeff_increases.toNat := by
  obtain ⟨s3, hm, hr, hs, hne⟩ := optimize_cleanup_state prob model fuel o _ s h
  obtain ⟨c1, -, -, -, -, -, -, -, -, -, c11⟩ := cleanup_fields s3 hne
  obtain ⟨j1, j2, j3⟩ := (meritLoop_retval prob model fuel fuel 0 _ s3 hm).2.2 hr.symm
  obtain ⟨p1, -, -, -, p5⟩ := startState_fields prob o
  have hz1 : (startState prob o).trace.countP Event.isEscalated = 0 := by
    rw [List.countP_eq_zero]
    intro e he
    rcases p5 e he with h1 | h1 <;> rw [h1] <;> simp [Event.isEscalated]
  have hz2 : (startState prob o).trace.countP Event.isMeritStage = 0 := by
    rw [List.countP_eq_zero]
    intro e he
    rcases p5 e he with h1 | h1 <;> rw [h1] <;> simp [Event.isMeritStage]
  have hcb1 : ∀ (r : OptResults) (cbs : List Nat),
      (cbs.map fun cb => Event.callback cb r).countP Event.isEscalated = 0 := by
    intro r cbs
    rw [List.countP_eq_zero]
    intro e he
    obtain ⟨cb, -, rfl⟩ := List.mem_map.mp he
    simp [Event.isEscalated]
  have hcb2 : ∀ (r : OptResults) (cbs : List Nat),
      (cbs.map fun cb => Event.callback cb r).countP Event.isMeritStage = 0 := by
    intro r cbs
    rw [List.countP_eq_zero]
    intro e he
    obtain ⟨cb, -, rfl⟩ := List.mem_map.mp he
    simp [Event.isMeritStage]
  rw [p1, sub_zero] at j1 j2 j3
  refine ⟨by rw [hs, c1, j1], ?_, ?_⟩
  · rw [hs, c11, List.countP_append, j3, hz2, hcb2]; omega
  · rw [hs, c11, List.countP_append, j2, hz1, hcb1]; omega

/-- Witness for C5: with a constraint that is violated by `1` everywhere and
`max_merit_coeff_increases = 2`, the run returns
`OPT_PENALTY_ITERATION_LIMIT` and the coefficient has gone from `10` to
`10 · 10²`. -/
theorem penalty_limit_run_witness :
    ∃ s, optimize (constrainedProb 1) (shiftModel 0) 3 (freshOptimizer twoStageParams []) =
        some (Run.returned OptStatus.OPT_PENALTY_ITERATION_LIMIT s) ∧
      s.param_.merit_error_coeff = 10 * 10 ^ 2 ∧ s.trace.countP Event.isEscalated = 2 := by
  obtain ⟨s, hs⟩ := run_penalty_eval
  have h := penalty_limit_run _ _ _ _ s hs
  exact ⟨s, hs, h.1, h.2.2⟩

/-! ## Penalty escalation (C6) -/

theorem Dbl.ge_fmax_left (a b : Dbl) (ha : a ≠ Dbl.nan) : Dbl.ge (Dbl.fmax a b) a = true := by
  cases a <;> cases b <;> (try rw [Dbl.fmax_fin_fin]) <;>
    simp_all [Dbl.fmax, Dbl.lt, Dbl.le, Dbl.ge]

set_option maxRecDepth 8000 in
set_option maxHeartbeats 1000000 in
theorem stage_violated_eval :
    ∃ u, sqpLoop (constrainedProb 1) (shiftModel 0) 1 1 1
        ((startState (constrainedProb 1) (freshOptimizer unitBoxParams [])).emit
          (Event.meritStage 0)) = some (SqpExit.penaltyadjustment, u) ∧
      u.results_.cnt_viols = [1] ∧ u.param_ = unitBoxParams := by
  norm_num [startState, sqpLoop, sqpIteration, trustRegionLoop,
    afterTrustRegionLoop, bootstrap, callCallbacks,
    freshOptimizer, trustRegionStep, solveTrustBox, buildReport, applyDecision, stepDecision,
    convexify, flatProb, constrainedProb, constCnt, shiftModel, flatCost, unitBoxParams,
    BasicTrustRegionSQPParameters.defaults, BasicTrustRegionSQPResults.update, SQPState.assert,
    SQPState.emit, evaluateCosts, evaluateModelCosts, evaluateConstraintViols,
    evaluateModelCntViols, convexifyCosts, convexifyConstraints, vecSum, vecMax, Dbl.fdiv,
    Dbl.lt, Dbl.le, Dbl.ge, Dbl.mul, setTrustBoxConstraints, adjustTrustRegion,
    cvx_failed_ne_solved, opt_failed_ne_invalid, opt_converged_ne_invalid,
    opt_sco_limit_ne_invalid, opt_penalty_limit_ne_invalid]

/-- C6: in a penalty escalation of `optimize` (the SQP loop of a stage was
left for the penalty adjustment, `cnt_viols` is non-empty and
`max(cnt_viols) ≥ cnt_tolerance`), `merit_error_coeff` becomes
`μ · merit_coeff_increase_ratio`, `trust_box_size` becomes
`fmax(Δ, min_trust_box_size / trust_shrink_ratio · 1.5)`, nothing else
changes in the parameters and the results, and the trust box does not get
smaller: `Δ_next ≥ Δ_prev`. -/
theorem escalation_effect (prob : OptProb) (model : Model) (fuel k : Nat) (iter : Int)
    (s0 u : SQPState)
    (hq : sqpLoop prob model fuel k iter s0 = some (SqpExit.penaltyadjustment, u))
    (hv : u.results_.cnt_viols ≠ [])
    (htol : u.param_.cnt_tolerance ≤ vecMax u.results_.cnt_viols) :
    penaltyAdjustment u = (false, escalate u) ∧
    (escalate u).param_.merit_error_coeff =
      u.param_.merit_error_coeff * u.param_.merit_coeff_increase_ratio ∧
    (escalate u).param_.trust_box_size =
      Dbl.fmax u.param_.trust_box_size
        (Dbl.mul (Dbl.fdiv u.param_.min_trust_box_size u.param_.trust_shrink_ratio)
          (Dbl.fin (3 / 2))) ∧
    Dbl.ge (escalate u).param_.trust_box_size u.param_.trust_box_size = true ∧
    (escalate u).param_ =
      { u.param_ with
        merit_error_coeff := u.param_.merit_error_coeff * u.param_.merit_coeff_increase_ratio
        trust_box_size :=
          Dbl.fmax u.param_.trust_box_size
            (Dbl.mul (Dbl.fdiv u.param_.min_trust_box_size u.param_.trust_shrink_ratio)
              (Dbl.fin (3 / 2))) } ∧
    (escalate u).results_ = u.results_ := by
  obtain ⟨f1, f2, f3, -, -⟩ := escalate_fields u
  have hnan := ((sqpLoop_retval prob model fuel k iter s0 _ u hq).2 rfl).2
  refine ⟨?_, f1, f2, ?_, rfl, f3⟩
  · rcases penaltyAdjustment_cases u with ⟨hc, -⟩ | ⟨-, hpa⟩
    · rcases hc with h1 | h1
      · exact absurd (List.isEmpty_iff.mp h1) hv
      · exact absurd h1 (not_lt.mpr htol)
    · exact hpa
  · rw [f2]
    exact Dbl.ge_fmax_left _ _ hnan

/-- Witness for C6: the first stage of the run with a constraint violated by
`1` ends in an escalation; the coefficient goes from `10` to `10 · 10` and
the trust box does not shrink. -/
theorem escalation_effect_witness :
    ∃ u, sqpLoop (constrainedProb 1) (shiftModel 0) 1 1 1
        ((startState (constrainedProb 1) (freshOptimizer unitBoxParams [])).emit
          (Event.meritStage 0)) = some (SqpExit.penaltyadjustment, u) ∧
      (escalate u).param_.merit_error_coeff = 10 * 10 ∧
      Dbl.ge (escalate u).param_.trust_box_size u.param_.trust_box_size = true := by
  obtain ⟨u, hu, hv, hp⟩ := stage_violated_eval
  have h := escalation_effect _ _ _ _ _ _ u hu (by rw [hv]; simp)
    (by rw [hv, hp]; norm_num [vecMax, unitBoxParams, BasicTrustRegionSQPParameters.defaults])
  refine ⟨u, hu, ?_, h.2.2.2.1⟩
  rw [h.2.1, hp]
  rfl

/-! ## After the trust-region loop (C10) -/

/-- One pass of the SQP loop records its start once and then events of the
body only. -/
theorem sqpIteration_extends_body (prob : OptProb) (model : Model) (fuel : Nat) (iter : Int)
    (s : SQPState) (x : IterExit) (t : SQPState)
    (h : sqpIteration prob model fuel iter s = some (x, t)) :
    (s.emit (Event.sqpIteration iter)).extendsBy Event.inIterationBody t := by
  obtain ⟨e, u, hu, hcase⟩ := sqpIteration_eq prob model fuel iter s x t h
  have h1 := trustRegionLoop_rel prob model _ (SQPState.extendsBy Event.inIterationBody)
    (extendsBy_refl _) (extendsBy_trans _)
    (fun s => extendsBy_mono _ _ inStep_inIterationBody _ _ (trustRegionStep_extends prob model _ s))
    fuel _ e u hu
  have h0 := extendsBy_trans _ _ _ _ (iterationStart_extends_body prob iter s) h1
  rcases hcase with ⟨-, -, ht⟩ | ⟨-, -, ht⟩ | ⟨-, ht⟩
  · rw [ht]; exact h0
  · rw [ht]; exact h0
  · have : t = (afterTrustRegionLoop iter u).2 := by rw [← ht]
    rw [this]; exact extendsBy_trans _ _ _ _ h0 (afterTrustRegionLoop_extends_body iter u)

theorem inIterationBody_not_sqpIteration (e : Event) (h : e.inIterationBody = true) :
    e.isSqpIteration = false := by
  cases e <;> simp_all [Event.inIterationBody, Event.inStep, Event.isSqpIteration]

theorem sqpIteration_count (prob : OptProb) (model : Model) (fuel : Nat) (iter : Int)
    (s : SQPState) (x : IterExit) (t : SQPState)
    (h : sqpIteration prob model fuel iter s = some (x, t)) :
    t.trace.countP Event.isSqpIteration = s.trace.countP Event.isSqpIteration + 1 := by
  rw [countP_of_extends Event.inIterationBody Event.isSqpIteration _ t
    (sqpIteration_extends_body prob model fuel iter s x t h) inIterationBody_not_sqpIteration]
  simp [SQPState.emit, List.countP_append, Event.isSqpIteration]

/-- The SQP loop goes on only below the iteration limit. -/
theorem sqpIteration_next (prob : OptProb) (model : Model) (fuel : Nat) (iter : Int)
    (s : SQPState) (t : SQPState)
    (h : sqpIteration prob model fuel iter s = some (IterExit.next, t)) :
    iter < s.param_.max_iter ∧ t.param_.max_iter = s.param_.max_iter := by
  have hfr := sqpIteration_rel prob model SQPState.stageFrame stageFrame_refl stageFrame_trans
    (fun cm s => trustRegionStep_stageFrame prob model cm s)
    (fun iter s => stageFrame_of_eq _ _ (iterationStart_frame prob iter s).1
      (iterationStart_frame prob iter s).2.1)
    (fun iter s => stageFrame_of_eq _ _ (afterTrustRegionLoop_frame iter s).1
      (afterTrustRegionLoop_frame iter s).2.1)
    fuel iter s _ t h
  have hmax := (sameStage_fields _ _ hfr.1).2
  refine ⟨?_, hmax⟩
  obtain ⟨e, u, -, hcase⟩ := sqpIteration_eq prob model fuel iter s _ t h
  rcases hcase with ⟨-, hx, -⟩ | ⟨-, hx, -⟩ | ⟨-, ht⟩
  · exact absurd hx (by decide)
  · exact absurd hx (by decide)
  · rcases afterTrustRegionLoop_cases iter u with ⟨-, c⟩ | ⟨-, -, c⟩ | ⟨-, c1, c⟩ <;>
      rw [c] at ht <;> simp only [Prod.mk.injEq] at ht
    · exact absurd ht.1 (by decide)
    · exact absurd ht.1 (by decide)
    · rw [← ht.2] at c1
      rw [← hmax]; exact c1

/-- From the index `iter`, the SQP loop makes at most
`max(1, max_iter - iter + 1)` passes. -/
theorem sqpLoop_count (prob : OptProb) (model : Model) (fuel : Nat) :
    ∀ k iter s e t, sqpLoop prob model fuel k iter s = some (e, t) →
      (t.trace.countP Event.isSqpIteration : Int) ≤
        s.trace.countP Event.isSqpIteration + max 1 (s.param_.max_iter - iter + 1) := by
  intro k
  induction k with
  | zero => intro iter s e t h; simp [sqpLoop] at h
  | succ n ih =>
    intro iter s e t h
    rw [sqpLoop_succ] at h
    cases hi : sqpIteration prob model fuel iter s with
    | none => rw [hi] at h; simp at h
    | some r =>
      obtain ⟨x, u⟩ := r
      have hc := sqpIteration_count prob model fuel iter s x u hi
      rw [hi] at h
      cases x <;> simp only [Option.some.injEq, Prod.mk.injEq] at h
      · rw [← h.2, hc]
        have := le_max_left (1 : Int) (s.param_.max_iter - iter + 1)
        push_cast
        omega
      · rw [← h.2, hc]
        have := le_max_left (1 : Int) (s.param_.max_iter - iter + 1)
        push_cast
        omega
      · obtain ⟨hlt, hmax⟩ := sqpIteration_next prob model fuel iter s u hi
        have := ih _ _ _ _ h
        rw [hc, hmax] at this
        push_cast at this
        have h1 : max 1 (s.param_.max_iter - (iter + 1) + 1) = s.param_.max_iter - iter := by
          rw [max_eq_right] <;> omega
        have h2 : max 1 (s.param_.max_iter - iter + 1) = s.param_.max_iter - iter + 1 := by
          rw [max_eq_right]; omega
        rw [h1] at this
        rw [h2]
        omega

set_option maxRecDepth 8000 in
set_option maxHeartbeats 1000000 in
theorem stage_iteration_limit_eval :
    ∃ t, sqpLoop flatProb (shiftModel 1) 2 2 1
        ((startState flatProb (freshOptimizer twoIterParams [])).emit (Event.meritStage 0)) =
        some (SqpExit.cleanup, t) ∧
      t.retval = OptStatus.OPT_SCO_ITERATION_LIMIT ∧ t.results_.x = [2] := by
  norm_num [startState, sqpLoop, sqpIteration, trustRegionLoop,
    afterTrustRegionLoop, bootstrap, callCallbacks,
    freshOptimizer, trustRegionStep, solveTrustBox, buildReport, applyDecision, stepDecision,
    convexify, flatProb, shiftModel, flatCost, unitBoxParams, zeroThresholdParams,
    twoIterParams,
    BasicTrustRegionSQPParameters.defaults, BasicTrustRegionSQPResults.update, SQPState.assert,
    SQPState.emit, evaluateCosts, evaluateModelCosts, evaluateConstraintViols,
    evaluateModelCntViols, convexifyCosts, convexifyConstraints, vecSum, vecMax, Dbl.fdiv,
    Dbl.lt, Dbl.le, Dbl.ge, Dbl.mul, setTrustBoxConstraints, adjustTrustRegion,
    cvx_failed_ne_solved, opt_failed_ne_invalid, opt_converged_ne_invalid,
    opt_sco_limit_ne_invalid, opt_penalty_limit_ne_invalid]

/-- C10: when the trust-region loop of SQP iteration `iter` is left by
`break` or by its test, in state `u`: if `trust_box_size < min_trust_box_size`
the stage is declared `OPT_CONVERGED` and control goes to the penalty
adjustment; otherwise, if `iter ≥ max_iter`, `retval` is
`OPT_SCO_ITERATION_LIMIT` and control goes to `cleanup`; otherwise the SQP
loop goes on with `iter + 1`.  A stage left for `cleanup` returns its state
with no penalty adjustment.  Each stage starts its SQP loop at index 1 and
makes at most `max(1, max_iter)` passes. -/
theorem after_inner_loop (prob : OptProb) (model : Model) (fuel : Nat) :
    (∀ k iter s u,
      trustRegionLoop prob model
        (convexify prob (bootstrap prob (callCallbacks (s.emit (Event.sqpIteration iter))))) fuel
        (bootstrap prob (callCallbacks (s.emit (Event.sqpIteration iter)))) =
          some (InnerExit.fallthrough, u) →
      (Dbl.lt u.param_.trust_box_size (Dbl.fin u.param_.min_trust_box_size) = true →
        sqpLoop prob model fuel (k + 1) iter s =
          some (SqpExit.penaltyadjustment,
            ({ u with retval := OptStatus.OPT_CONVERGED } : SQPState).emit Event.tiny)) ∧
      (Dbl.lt u.param_.trust_box_size (Dbl.fin u.param_.min_trust_box_size) = false →
        iter ≥ u.param_.max_iter →
        sqpLoop prob model fuel (k + 1) iter s =
          some (SqpExit.cleanup,
            ({ u with retval := OptStatus.OPT_SCO_ITERATION_LIMIT } : SQPState).emit
              Event.iterationLimit)) ∧
      (Dbl.lt u.param_.trust_box_size (Dbl.fin u.param_.min_trust_box_size) = false →
        iter < u.param_.max_iter →
        sqpLoop prob model fuel (k + 1) iter s = sqpLoop prob model fuel k (iter + 1) u)) ∧
    (∀ k m s0 t, m < s0.param_.max_merit_coeff_increases →
      sqpLoop prob model fuel fuel 1 (s0.emit (Event.meritStage m)) = some (SqpExit.cleanup, t) →
      meritLoop prob model fuel (k + 1) m s0 = some t) ∧
    (∀ k s e t, sqpLoop prob model fuel k 1 s = some (e, t) →
      (t.trace.countP Event.isSqpIteration : Int) ≤
        s.trace.countP Event.isSqpIteration + max 1 s.param_.max_iter) := by
  refine ⟨?_, ?_, ?_⟩
  · intro k iter s u hu
    have hsq : sqpLoop prob model fuel (k + 1) iter s =
        match afterTrustRegionLoop iter u with
        | (IterExit.cleanup, s1) => some (SqpExit.cleanup, s1)
        | (IterExit.penaltyadjustment, s1) => some (SqpExit.penaltyadjustment, s1)
        | (IterExit.next, s1) => sqpLoop prob model fuel k (iter + 1) s1 := by
      rw [sqpLoop_succ]
      simp only [sqpIteration, hu]
      rcases afterTrustRegionLoop iter u with ⟨x, s1⟩
      cases x <;> rfl
    rcases afterTrustRegionLoop_cases iter u with ⟨c1, c⟩ | ⟨c1, c2, c⟩ | ⟨c1, c2, c⟩
    · refine ⟨fun _ => by rw [hsq, c], fun h => ?_, fun h => ?_⟩ <;>
        rw [c1] at h <;> exact absurd h (by decide)
    · refine ⟨fun h => ?_, fun _ _ => by rw [hsq, c], fun _ h => ?_⟩
      · rw [c1] at h; exact absurd h (by decide)
      · exact absurd c2 (not_le.mpr h)
    · refine ⟨fun h => ?_, fun _ h => ?_, fun _ _ => by rw [hsq, c]⟩
      · rw [c1] at h; exact absurd h (by decide)
      · exact absurd h (not_le.mpr c2)
  · intro k m s0 t hlt hq
    rw [meritLoop_pass prob model fuel k m s0 hlt, hq]
  · intro k s e t h
    have := sqpLoop_count prob model fuel k 1 s e t h
    simpa using this

/-- Witness for C10: with `max_iter = 2` the stage accepts two steps, hits
the iteration limit after its second pass and is left for `cleanup`; the
merit loop returns that state, and the stage has made `2 ≤ max(1, 2)`
passes. -/
theorem after_inner_loop_witness :
    ∃ t, meritLoop flatProb (shiftModel 1) 2 1 0
        (startState flatProb (freshOptimizer twoIterParams [])) = some t ∧
      t.retval = OptStatus.OPT_SCO_ITERATION_LIMIT ∧
      (t.trace.countP Event.isSqpIteration : Int) ≤ 0 + max 1 2 := by
  obtain ⟨t, ht, hr, -⟩ := stage_iteration_limit_eval
  obtain ⟨-, h2, h3⟩ := after_inner_loop flatProb (shiftModel 1) 2
  have hp := (startState_fields flatProb (freshOptimizer twoIterParams [])).1
  have htr : (startState flatProb (freshOptimizer twoIterParams [])).trace = [] := by
    simp [startState, SQPState.assert, freshOptimizer, flatProb]
  refine ⟨t, ?_, hr, ?_⟩
  · refine h2 0 0 _ t ?_ ht
    rw [hp]
    decide
  · have := h3 2 _ _ t ht
    have e1 : ((startState flatProb (freshOptimizer twoIterParams [])).emit
        (Event.meritStage 0)).trace = [Event.meritStage 0] := by
      show (startState flatProb (freshOptimizer twoIterParams [])).trace ++ _ = _
      rw [htr]; rfl
    have e2 : ((startState flatProb (freshOptimizer twoIterParams [])).emit
        (Event.meritStage 0)).param_.max_iter = 2 := by
      show (startState flatProb (freshOptimizer twoIterParams [])).param_.max_iter = 2
      rw [hp]; rfl
    rw [e1, e2] at this
    simpa [Event.isSqpIteration] using this

/-! ## The merits of a report (C12) -/

/-- `vecSum` is the sum of the entries. -/
theorem vecSum_eq_sum (v : DblVec) : vecSum v = v.sum := by
  unfold vecSum
  rw [List.sum_eq_foldl]

/-- A merit is the sum of the cost values plus `μ` times the sum of the
violations. -/
theorem merit_eq_sum (a b : DblVec) (μ : ℚ) :
    vecSum a + μ * vecSum b = a.sum + μ * b.sum := by
  rw [vecSum_eq_sum, vecSum_eq_sum]

/-- The quotient of two finite doubles, by cases on a zero divisor. -/
theorem fdiv_cases (a b : ℚ) :
    Dbl.fdiv a b =
      (if b = 0 then (if a = 0 then Dbl.nan else if 0 < a then Dbl.pinf else Dbl.ninf)
      else Dbl.fin (a / b)) := by
  unfold Dbl.fdiv
  by_cases h : b = 0
  · rcases lt_trichotomy a 0 with h1 | h1 | h1
    · simp [h, h1, h1.ne, not_lt.mpr h1.le]
    · simp [h, h1]
    · simp [h, h1, h1.ne', not_lt.mpr h1.le]
  · simp [h]

/-- C12: `BasicTrustRegionSQPResults::update` with coefficient `μ` copies
`old_cost_vals` and `old_cnt_viols` from the previous results, evaluates the
convex models at the backend's values and the exact costs and violations at
`new_x`, and sets each merit to `Σ cost values + μ · Σ violations`,
`approx_merit_improve = old_merit − model_merit`,
`exact_merit_improve = old_merit − new_merit` and
`merit_improve_ratio = exact_merit_improve / approx_merit_improve` (the
floating-point quotient; the rational quotient when the divisor is not 0). -/
theorem update_merits (prev : OptResults) (vals : DblVec) (cost_models : List ConvexObjective)
    (cnt_models : List ConvexConstraints) (constraints : List Constraint) (costs : List Cost)
    (μ : ℚ) :
    let r := BasicTrustRegionSQPResults.update prev vals cost_models cnt_models constraints costs μ
    r.old_cost_vals = prev.cost_vals ∧ r.old_cnt_viols = prev.cnt_viols ∧
    r.model_cost_vals = cost_models.map (fun c => c.value vals) ∧
    r.model_cnt_viols = cnt_models.map (fun c => c.violation vals) ∧
    r.new_cost_vals = costs.map (fun c => c.value r.new_x) ∧
    r.new_cnt_viols = constraints.map (fun c => c.violation r.new_x) ∧
    r.old_merit = r.old_cost_vals.sum + μ * r.old_cnt_viols.sum ∧
    r.model_merit = r.model_cost_vals.sum + μ * r.model_cnt_viols.sum ∧
    r.new_merit = r.new_cost_vals.sum + μ * r.new_cnt_viols.sum ∧
    r.approx_merit_improve = r.old_merit - r.model_merit ∧
    r.exact_merit_improve = r.old_merit - r.new_merit ∧
    r.merit_improve_ratio = Dbl.fdiv r.exact_merit_improve r.approx_merit_improve ∧
    r.merit_improve_ratio =
      (if r.approx_merit_improve = 0 then
        (if r.exact_merit_improve = 0 then Dbl.nan
          else if 0 < r.exact_merit_improve then Dbl.pinf else Dbl.ninf)
      else Dbl.fin (r.exact_merit_improve / r.approx_merit_improve)) ∧
    r.merit_error_coeff = μ := by
  intro r
  exact ⟨rfl, rfl, rfl, rfl, rfl, rfl, merit_eq_sum _ _ _, merit_eq_sum _ _ _, merit_eq_sum _ _ _,
    rfl, rfl, rfl, fdiv_cases _ _, rfl⟩
/-! ## `cntsToCosts` (C13) -/

/-- A loop of `push_back` builds the list of the pushed values, in order. -/
theorem foldl_push_eq_map {α β : Type} (f : α → β) (l : List α) (init : List β) :
    l.foldl (fun out a => out ++ [f a]) init = init ++ l.map f := by
  induction l generalizing init with
  | nil => simp
  | cons a t ih => simp [ih]

/-- The calls recorded by a loop of `addAbs`. -/
theorem foldl_addAbs_calls (l : List AffExpr) (μ : ℚ) (obj : ConvexObjective) :
    (l.foldl (fun o aff => o.addAbs aff μ) obj).calls =
      obj.calls ++ l.map (fun aff => ObjectiveCall.addAbs aff μ) := by
  induction l generalizing obj with
  | nil => simp
  | cons a t ih =>
    rw [List.foldl_cons, ih]
    simp [ConvexObjective.addAbs]

/-- The calls recorded by a loop of `addHinge`. -/
theorem foldl_addHinge_calls (l : List AffExpr) (μ : ℚ) (obj : ConvexObjective) :
    (l.foldl (fun o aff => o.addHinge aff μ) obj).calls =
      obj.calls ++ l.map (fun aff => ObjectiveCall.addHinge aff μ) := by
  induction l generalizing obj with
  | nil => simp
  | cons a t ih =>
    rw [List.foldl_cons, ih]
    simp [ConvexObjective.addHinge]

/-- C13: for every list `cnts` and every coefficient `μ`, `cntsToCosts`
returns one objective per element of `cnts`, in the same order, and the calls
made on the `i`-th objective are exactly one `addAbs(aff, μ)` for each `aff`
of `cnts[i].eqs_`, in order, followed by one `addHinge(aff, μ)` for each
`aff` of `cnts[i].ineqs_`, in order: the same `μ` in all of them, and no
`addQuadExpr` or `addAffExpr`. -/
theorem cntsToCosts_calls (cnts : List ConvexConstraints) (μ : ℚ) :
    (cntsToCosts cnts μ).length = cnts.length ∧
    (cntsToCosts cnts μ).map (fun obj => obj.calls) =
      cnts.map (fun cnt =>
        cnt.eqs_.map (fun aff => ObjectiveCall.addAbs aff μ) ++
          cnt.ineqs_.map (fun aff => ObjectiveCall.addHinge aff μ)) ∧
    ∀ i : Nat, ((cntsToCosts cnts μ)[i]?).map (fun obj => obj.calls) =
      (cnts[i]?).map (fun cnt =>
        cnt.eqs_.map (fun aff => ObjectiveCall.addAbs aff μ) ++
          cnt.ineqs_.map (fun aff => ObjectiveCall.addHinge aff μ)) := by
  have h : (cntsToCosts cnts μ).map (fun obj => obj.calls) =
      cnts.map (fun cnt =>
        cnt.eqs_.map (fun aff => ObjectiveCall.addAbs aff μ) ++
          cnt.ineqs_.map (fun aff => ObjectiveCall.addHinge aff μ)) := by
    unfold cntsToCosts
    rw [foldl_push_eq_map (fun cnt : ConvexConstraints =>
      cnt.ineqs_.foldl (fun o aff => o.addHinge aff μ)
        (cnt.eqs_.foldl (fun o aff => o.addAbs aff μ) ConvexObjective.new))]
    simp [List.map_map, Function.comp_def, foldl_addHinge_calls, foldl_addAbs_calls,
      ConvexObjective.new]
  refine ⟨?_, h, ?_⟩
  · have := congrArg List.length h
    simpa using this
  · intro i
    have := congrArg (fun l => l[i]?) h
    simpa [List.getElem?_map] using this

/-! ## The trial point of a solve (C14) -/

/-- The solve of lines 565–566 is made on the bounds that
`setTrustBoxConstraints` computes from the current `x` and `trust_box_size`. -/
theorem solveTrustBox_fst (prob : OptProb) (model : Model) (cm : Convexified) (s : SQPState) :
    (solveTrustBox prob model cm s).1 =
      model.optimize s.results_.n_qp_solves cm.x cm.merit_error_coeff
        (setTrustBoxConstraints s.results_.x s.param_.trust_box_size prob.lower_bounds
          prob.upper_bounds).1
        (setTrustBoxConstraints s.results_.x s.param_.trust_box_size prob.lower_bounds
          prob.upper_bounds).2 := by
  unfold solveTrustBox SQPState.assert
  split_ifs <;> rfl

/-- The trial point of a report is the first `|x|` values of the backend. -/
theorem stepReport_new_x (prob : OptProb) (model : Model) (cm : Convexified) (s : SQPState) :
    (stepReport prob model cm s).new_x =
      (solveTrustBox prob model cm s).1.2.take s.results_.x.length := by
  have h := (solveTrustBox_frame prob model cm s).2.1
  unfold stepReport buildReport BasicTrustRegionSQPResults.update
  simp only []
  rw [h]

/-- C14: take a solve of the trust-region loop (so `trust_box_size` passed
the loop test) on a problem whose bound vectors have the length `n` of
`results.x` and hold no NaN.  If the backend reports `CVX_SOLVED`, holds at
least `n` values and its first `n` values respect the bounds set for this
solve, then the `new_x` of the report built from it has length `n`, consists
of the first `n` backend values, and entry `i` lies in
`[x_i − Δ, x_i + Δ]` and in `[lb_i, ub_i]` for the `x` and `Δ` of this solve;
when the step is accepted this `new_x` is the new `results.x`. -/
theorem new_x_in_trust_box (prob : OptProb) (model : Model) (cm : Convexified) (s : SQPState)
    (hlb : prob.lower_bounds.length = s.results_.x.length)
    (hub : prob.upper_bounds.length = s.results_.x.length)
    (hlbn : ∀ l ∈ prob.lower_bounds, l ≠ Dbl.nan) (hubn : ∀ u ∈ prob.upper_bounds, u ≠ Dbl.nan)
    (hloop : Dbl.ge s.param_.trust_box_size (Dbl.fin s.param_.min_trust_box_size) = true)
    (hs : (solveTrustBox prob model cm s).1.1 = CvxOptStatus.CVX_SOLVED)
    (hn : s.results_.x.length ≤ (solveTrustBox prob model cm s).1.2.length)
    (hres : (solveTrustBox prob model cm s).1.1 = CvxOptStatus.CVX_SOLVED →
      ∀ (i : Nat) (lo up : Dbl) (v : ℚ),
      (setTrustBoxConstraints s.results_.x s.param_.trust_box_size prob.lower_bounds
        prob.upper_bounds).1[i]? = some lo →
      (setTrustBoxConstraints s.results_.x s.param_.trust_box_size prob.lower_bounds
        prob.upper_bounds).2[i]? = some up →
      (solveTrustBox prob model cm s).1.2[i]? = some v →
      Dbl.le lo (Dbl.fin v) = true ∧ Dbl.le (Dbl.fin v) up = true) :
    (stepReport prob model cm s).new_x.length = s.results_.x.length ∧
    (stepReport prob model cm s).new_x =
      (solveTrustBox prob model cm s).1.2.take s.results_.x.length ∧
    (∀ i, i < s.results_.x.length → ∃ xi l u y,
      s.results_.x[i]? = some xi ∧ prob.lower_bounds[i]? = some l ∧
      prob.upper_bounds[i]? = some u ∧ (stepReport prob model cm s).new_x[i]? = some y ∧
      (solveTrustBox prob model cm s).1.2[i]? = some y ∧
      Dbl.le (Dbl.sub (Dbl.fin xi) s.param_.trust_box_size) (Dbl.fin y) = true ∧
      Dbl.le (Dbl.fin y) (Dbl.add (Dbl.fin xi) s.param_.trust_box_size) = true ∧
      Dbl.le l (Dbl.fin y) = true ∧ Dbl.le (Dbl.fin y) u = true) ∧
    ((trustRegionStep prob model cm s).1 = StepKind.accepted →
      (trustRegionStep prob model cm s).2.results_.x = (stepReport prob model cm s).new_x) := by
  have hnx := stepReport_new_x prob model cm s
  have hd : s.param_.trust_box_size ≠ Dbl.nan := Dbl.ne_nan_of_ge _ _ hloop
  refine ⟨?_, hnx, ?_, ?_⟩
  · rw [hnx, List.length_take]
    exact min_eq_left hn
  · intro i hi
    have hx : s.results_.x[i]? = some s.results_.x[i] := List.getElem?_eq_getElem hi
    have hl : prob.lower_bounds[i]? = some (prob.lower_bounds[i]) :=
      List.getElem?_eq_getElem (hlb ▸ hi)
    have hu : prob.upper_bounds[i]? = some (prob.upper_bounds[i]) :=
      List.getElem?_eq_getElem (hub ▸ hi)
    have hv : (solveTrustBox prob model cm s).1.2[i]? = some ((solveTrustBox prob model cm s).1.2[i]) :=
      List.getElem?_eq_getElem (lt_of_lt_of_le hi hn)
    have hln : prob.lower_bounds[i] ≠ Dbl.nan := hlbn _ (List.getElem_mem _)
    have hun : prob.upper_bounds[i] ≠ Dbl.nan := hubn _ (List.getElem_mem _)
    have hb := hres hs i _ _ _
      (setTrustBoxConstraints_getElem_fst _ s.param_.trust_box_size _ prob.upper_bounds i _ _ hx hl)
      (setTrustBoxConstraints_getElem_snd _ s.param_.trust_box_size prob.lower_bounds _ i _ _ hx hu)
      hv
    have h1 := (Dbl.fmax_le_iff _ _ _ (Dbl.sub_fin_ne_nan _ _ hd) hln).mp hb.1
    have h2 := (Dbl.le_fmin_iff _ _ _ (Dbl.add_fin_ne_nan _ _ hd) hun).mp hb.2
    refine ⟨_, _, _, _, hx, hl, hu, ?_, hv, h1.1, h2.1, h1.2, h2.2⟩
    rw [hnx, List.getElem?_take_of_lt hi]
    exact hv
  · intro hk
    have hacc := (trustRegionStep_accepted_iff prob model cm s).mp hk
    exact (trustRegionStep_accept_state prob model cm s hacc.1 hacc.2).1

/-- Witness for C14: the step of `shiftModel 1` on `flatProb` from `x = 0`
with `Δ = 1`; the trial point 1 lies in the box `[-1, 1]`. -/
theorem new_x_in_trust_box_witness :
    (stepReport flatProb (shiftModel 1) (convexify flatProb (flatState unitBoxParams))
      (flatState unitBoxParams)).new_x.length = 1 ∧
    (stepReport flatProb (shiftModel 1) (convexify flatProb (flatState unitBoxParams))
      (flatState unitBoxParams)).new_x = [1] := by
  have h := new_x_in_trust_box flatProb (shiftModel 1)
    (convexify flatProb (flatState unitBoxParams)) (flatState unitBoxParams) rfl rfl
    (by simp [flatProb]) (by simp [flatProb])
    (by norm_num [flatState, unitBoxParams, BasicTrustRegionSQPParameters.defaults, Dbl.ge, Dbl.le])
    (flat_step_solved 1 unitBoxParams) (by simp [solveTrustBox_fst, shiftModel, convexify, flatState])
    (by
      intro _ i lo up v h1 h2 h3
      have e1 : (setTrustBoxConstraints (flatState unitBoxParams).results_.x
          (flatState unitBoxParams).param_.trust_box_size flatProb.lower_bounds
          flatProb.upper_bounds) = ([Dbl.fin (-1)], [Dbl.fin 1]) := by
        norm_num [setTrustBoxConstraints, flatState, unitBoxParams, flatProb, Dbl.sub, Dbl.add,
          Dbl.neg, Dbl.fmax, Dbl.fmin, Dbl.lt, List.range, List.range.loop]
      have e2 : (solveTrustBox flatProb (shiftModel 1)
          (convexify flatProb (flatState unitBoxParams)) (flatState unitBoxParams)).1.2 = [1] := by
        norm_num [solveTrustBox_fst, shiftModel, convexify, flatState]
      rw [e1] at h1 h2
      rw [e2] at h3
      cases i with
      | zero =>
        simp at h1 h2 h3
        subst h1 h2 h3
        norm_num [Dbl.le]
      | succ j => simp at h3)
  refine ⟨h.1, ?_⟩
  rw [h.2.1]
  norm_num [solveTrustBox_fst, shiftModel, convexify, flatState]

/-! ## The record of one step -/

/-- What one pass of the body of the trust-region loop records: the solve,
and after a successful solve the report and the event of the branch taken
(with a failed assertion before, and a log record between, if any). -/
theorem trustRegionStep_trace (prob : OptProb) (model : Model) (cm : Convexified)
    (s : SQPState) :
    ∃ pre post, (∀ e ∈ pre, e = Event.assertFailed 192) ∧
      (∀ e ∈ post, ∃ h, e = Event.logRecord h) ∧
      (trustRegionStep prob model cm s).2.trace =
        s.trace ++ pre ++ [Event.qpSolve (solveTrustBox prob model cm s).1.1] ++
          (if (solveTrustBox prob model cm s).1.1 = CvxOptStatus.CVX_SOLVED then
            [Event.report (stepReport prob model cm s)] ++ post ++
              [(stepDecision s.param_ (stepReport prob model cm s)).event]
          else []) := by
  by_cases hs : (solveTrustBox prob model cm s).1.1 = CvxOptStatus.CVX_SOLVED
  · obtain ⟨f1, -⟩ := decisionState_frame prob model cm s
    have hsol : ∃ pre, (∀ e ∈ pre, e = Event.assertFailed 192) ∧
        (solveTrustBox prob model cm s).2.trace =
          s.trace ++ pre ++ [Event.qpSolve (solveTrustBox prob model cm s).1.1] := by
      by_cases hc : prob.vars.length = s.results_.x.length
      · exact ⟨[], by simp, by simp [solveTrustBox, SQPState.assert, SQPState.emit, hc]⟩
      · exact ⟨[Event.assertFailed 192], by simp,
          by simp [solveTrustBox, SQPState.assert, SQPState.emit, hc]⟩
    obtain ⟨pre, hpre, htr⟩ := hsol
    have hrep : ∃ post, (∀ e ∈ post, ∃ h, e = Event.logRecord h) ∧
        (buildReport prob cm (solveTrustBox prob model cm s).1.2
          (solveTrustBox prob model cm s).2).2.trace =
          (solveTrustBox prob model cm s).2.trace ++
            [Event.report (stepReport prob model cm s)] ++ post := by
      by_cases hl : (solveTrustBox prob model cm s).2.param_.log_results = true
      · exact ⟨[Event.logRecord
          (decide ((solveTrustBox prob model cm s).2.results_.n_func_evals = 1))],
          (by intro e he; exact ⟨_, List.mem_singleton.mp he⟩),
          by simp [buildReport, stepReport, SQPState.emit, hl]⟩
      · exact ⟨[], by simp, by simp [buildReport, stepReport, SQPState.emit, hl]⟩
    obtain ⟨post, hpost, htr2⟩ := hrep
    refine ⟨pre, post, hpre, hpost, ?_⟩
    rw [trustRegionStep_solved prob model cm s hs, if_pos hs]
    have hdec : ∀ (u : SQPState) (rep : BasicTrustRegionSQPResults),
        (applyDecision u rep).2.trace = u.trace ++ [(stepDecision u.param_ rep).event] := by
      intro u rep
      unfold applyDecision
      cases stepDecision u.param_ rep <;> rfl
    rw [hdec, htr2, htr, f1]
    simp [List.append_assoc]
  · by_cases hc : prob.vars.length = s.results_.x.length
    · refine ⟨[], [], by simp, by simp, ?_⟩
      rw [trustRegionStep_failed prob model cm s hs, if_neg hs]
      simp [solveTrustBox, SQPState.assert, SQPState.emit, hc]
    · refine ⟨[Event.assertFailed 192], [], by simp, by simp, ?_⟩
      rw [trustRegionStep_failed prob model cm s hs, if_neg hs]
      simp [solveTrustBox, SQPState.assert, SQPState.emit, hc]
/-- One pass of the body of the trust-region loop counts one solve, and one
evaluation when the solve succeeded. -/
theorem trustRegionStep_counters (prob : OptProb) (model : Model) (cm : Convexified)
    (s : SQPState) :
    (trustRegionStep prob model cm s).2.results_.n_qp_solves = s.results_.n_qp_solves + 1 ∧
    (trustRegionStep prob model cm s).2.results_.n_func_evals =
      s.results_.n_func_evals +
        (if (solveTrustBox prob model cm s).1.1 = CvxOptStatus.CVX_SOLVED then 1 else 0) := by
  obtain ⟨-, -, -, -, a5, a6, -, -⟩ := solveTrustBox_frame prob model cm s
  by_cases hs : (solveTrustBox prob model cm s).1.1 = CvxOptStatus.CVX_SOLVED
  · obtain ⟨-, -, -, -, b5, b6, -, -⟩ := buildReport_frame prob cm
      (solveTrustBox prob model cm s).1.2 (solveTrustBox prob model cm s).2
    have hdec : ∀ (u : SQPState) (rep : BasicTrustRegionSQPResults),
        (applyDecision u rep).2.results_.n_qp_solves = u.results_.n_qp_solves ∧
        (applyDecision u rep).2.results_.n_func_evals = u.results_.n_func_evals := by
      intro u rep
      unfold applyDecision
      cases stepDecision u.param_ rep <;> simp [SQPState.emit, adjustTrustRegion]
    rw [trustRegionStep_solved prob model cm s hs, if_pos hs, (hdec _ _).1, (hdec _ _).2, b5, b6,
      a5, a6]
    exact ⟨rfl, rfl⟩
  · rw [trustRegionStep_failed prob model cm s hs, if_neg hs]
    simp [a5, a6]

theorem countP_eq_zero_of_forall (c : Event → Bool) (l : List Event)
    (h : ∀ e ∈ l, c e = false) : l.countP c = 0 := by
  rw [List.countP_eq_zero]
  intro e he
  simp [h e he]

/-- Every pass of the body of the trust-region loop records one solve. -/
theorem trustRegionStep_count_qpSolve (prob : OptProb) (model : Model) (cm : Convexified)
    (s : SQPState) :
    (trustRegionStep prob model cm s).2.trace.countP Event.isQpSolve =
      s.trace.countP Event.isQpSolve + 1 := by
  obtain ⟨pre, post, hpre, hpost, htr⟩ := trustRegionStep_trace prob model cm s
  have h1 : pre.countP Event.isQpSolve = 0 :=
    countP_eq_zero_of_forall _ _ (fun e he => by rw [hpre e he]; rfl)
  have h2 : post.countP Event.isQpSolve = 0 :=
    countP_eq_zero_of_forall _ _ (fun e he => by obtain ⟨h, rfl⟩ := hpost e he; rfl)
  rw [htr]
  by_cases hs : (solveTrustBox prob model cm s).1.1 = CvxOptStatus.CVX_SOLVED
  · rw [if_pos hs]
    cases stepDecision s.param_ (stepReport prob model cm s) <;>
      simp [List.countP_append, h1, h2, Event.isQpSolve, Decision.event]
  · rw [if_neg hs]
    simp [List.countP_append, h1, Event.isQpSolve]

/-- Every pass of the body of the trust-region loop records one event that
ends it. -/
theorem trustRegionStep_count_endsStep (prob : OptProb) (model : Model) (cm : Convexified)
    (s : SQPState) :
    (trustRegionStep prob model cm s).2.trace.countP Event.endsStep =
      s.trace.countP Event.endsStep + 1 := by
  obtain ⟨pre, post, hpre, hpost, htr⟩ := trustRegionStep_trace prob model cm s
  have h1 : pre.countP Event.endsStep = 0 :=
    countP_eq_zero_of_forall _ _ (fun e he => by rw [hpre e he]; rfl)
  have h2 : post.countP Event.endsStep = 0 :=
    countP_eq_zero_of_forall _ _ (fun e he => by obtain ⟨h, rfl⟩ := hpost e he; rfl)
  rw [htr]
  by_cases hs : (solveTrustBox prob model cm s).1.1 = CvxOptStatus.CVX_SOLVED
  · rw [if_pos hs, hs]
    cases stepDecision s.param_ (stepReport prob model cm s) <;>
      simp [List.countP_append, h1, h2, Event.endsStep, Event.isFailedSolve, Event.isGate,
        Event.isShrunk, Event.isAccepted, Decision.event]
  · rw [if_neg hs]
    simp [List.countP_append, h1, Event.endsStep, Event.isFailedSolve, hs]

/-! ## What is recorded outside the trust-region steps -/

theorem iterationStart_outside (prob : OptProb) (iter : Int) (s : SQPState) :
    s.extendsBy (fun e => !e.inStep)
      (bootstrap prob (callCallbacks (s.emit (Event.sqpIteration iter)))) := by
  refine extendsBy_trans _ _ _ _ (extendsBy_emit _ s (Event.sqpIteration iter) rfl)
    (extendsBy_trans _ _ _ _
      (extendsBy_callCallbacks _ (s.emit (Event.sqpIteration iter)) (fun _ _ => rfl)) ?_)
  generalize callCallbacks (s.emit (Event.sqpIteration iter)) = u
  by_cases h1 : (u.results_.cost_vals.isEmpty && u.results_.cnt_viols.isEmpty) = true
  · by_cases h2 : u.results_.n_func_evals = 0
    · refine ⟨[Event.bootstrap], ?_, ?_⟩
      · simp [bootstrap, SQPState.assert, SQPState.emit, h1, h2]
      · simp [Event.inStep]
    · refine ⟨[Event.assertFailed 519, Event.bootstrap], ?_, ?_⟩
      · simp [bootstrap, SQPState.assert, SQPState.emit, h1, h2]
      · simp [Event.inStep]
  · exact ⟨[], by simp [bootstrap, h1], by simp⟩

theorem afterTrustRegionLoop_outside (iter : Int) (s : SQPState) :
    s.extendsBy (fun e => !e.inStep) (afterTrustRegionLoop iter s).2 := by
  rcases afterTrustRegionLoop_cases iter s with ⟨-, c⟩ | ⟨-, -, c⟩ | ⟨-, -, c⟩ <;> rw [c]
  · exact ⟨[Event.tiny], rfl, by simp [Event.inStep]⟩
  · exact ⟨[Event.iterationLimit], rfl, by simp [Event.inStep]⟩
  · exact extendsBy_refl _ s

theorem penaltyAdjustment_outside (s : SQPState) :
    s.extendsBy (fun e => !e.inStep) (penaltyAdjustment s).2 := by
  unfold penaltyAdjustment escalate
  split_ifs
  · exact ⟨[Event.satisfied], rfl, by simp [Event.inStep]⟩
  · exact ⟨[Event.escalated], rfl, by simp [Event.inStep]⟩

/-- The penalty adjustment leaves the results as they are. -/
theorem penaltyAdjustment_results (s : SQPState) :
    (penaltyAdjustment s).2.results_ = s.results_ ∧
    (penaltyAdjustment s).2.callbacks_ = s.callbacks_ := by
  unfold penaltyAdjustment escalate SQPState.emit
  split_ifs <;> simp

/-- A classifier of events of the trust-region steps counts nothing outside
them. -/
theorem countP_outside (c : Event → Bool) (hc : ∀ e, c e = true → e.inStep = true)
    (s t : SQPState) (h : s.extendsBy (fun e => !e.inStep) t) :
    t.trace.countP c = s.trace.countP c := by
  refine countP_of_extends _ c s t h ?_
  intro e he
  cases hce : c e
  · rfl
  · have := hc e hce
    simp [this] at he
set_option maxRecDepth 8000 in
set_option maxHeartbeats 1000000 in
theorem run_converged_counts : ∃ s, optimize (constrainedProb 0) (shiftModel 0) 1 (freshOptimizer unitBoxParams [7]) =
      some (Run.returned OptStatus.OPT_CONVERGED s) ∧ s.results_.n_qp_solves = 1 ∧
      s.results_.n_func_evals = 2 ∧
      s.trace.countP Event.isAccepted = 0 ∧ s.trace.countP Event.isShrunk = 0 ∧
      s.trace.countP Event.isGate = 1 ∧ s.trace.countP Event.isReport = 1 ∧
      s.trace.countP Event.isSqpIteration = 1 ∧ s.trace.countP Event.isCallback = 2 := by
  norm_num [optimize, startState, meritLoop, sqpLoop, sqpIteration, trustRegionLoop,
    afterTrustRegionLoop, bootstrap, callCallbacks, cleanup, penaltyAdjustment, escalate,
    freshOptimizer, trustRegionStep, solveTrustBox, buildReport, applyDecision, stepDecision,
    convexify, flatProb, constrainedProb, constCnt, shiftModel, flatCost, unitBoxParams,
    BasicTrustRegionSQPParameters.defaults, BasicTrustRegionSQPResults.update, SQPState.assert,
    SQPState.emit, evaluateCosts, evaluateModelCosts, evaluateConstraintViols,
    evaluateModelCntViols, convexifyCosts, convexifyConstraints, vecSum, vecMax, Dbl.fdiv,
    Dbl.lt, Dbl.le, Dbl.ge, Dbl.mul, setTrustBoxConstraints, adjustTrustRegion,
    cvx_failed_ne_solved, opt_failed_ne_invalid, opt_converged_ne_invalid,
    opt_sco_limit_ne_invalid, opt_penalty_limit_ne_invalid, List.countP_cons,
    Event.isAccepted, Event.isShrunk, Event.isGate, Event.isReport, Event.isSqpIteration,
    Event.isCallback]
/-! ## The counter of solves (C15) -/

/-- Along the merit loop, `n_qp_solves` grows by the number of recorded
events of a class `c` of which every trust-region step records exactly one
and which are recorded nowhere else. -/
theorem meritLoop_solves (prob : OptProb) (model : Model) (c : Event → Bool)
    (hc : ∀ e, c e = true → e.inStep = true)
    (hstep : ∀ cm s, (trustRegionStep prob model cm s).2.trace.countP c = s.trace.countP c + 1)
    (fuel k : Nat) (m : Int) (s t : SQPState) (h : meritLoop prob model fuel k m s = some t) :
    t.results_.n_qp_solves - s.results_.n_qp_solves =
      (t.trace.countP c : Int) - (s.trace.countP c : Int) := by
  refine meritLoop_rel prob model
    (fun s t => t.results_.n_qp_solves - s.results_.n_qp_solves =
      (t.trace.countP c : Int) - (s.trace.countP c : Int))
    (fun s => by simp) (fun a b d h1 h2 => by linarith) ?_ ?_ ?_ ?_ ?_ ?_ fuel k m s t h
  · intro cm s
    rw [hstep cm s, (trustRegionStep_counters prob model cm s).1]
    push_cast
    ring
  · intro iter s
    rw [countP_outside c hc _ _ (iterationStart_outside prob iter s),
      (bootstrap_frame prob _).2.2.2.2]
    simp [callCallbacks, SQPState.emit]
  · intro iter s
    rw [countP_outside c hc _ _ (afterTrustRegionLoop_outside iter s),
      (afterTrustRegionLoop_frame iter s).2.2]
    ring
  · intro m s
    rw [countP_outside c hc _ _ (extendsBy_emit _ s (Event.meritStage m) rfl)]
    simp [SQPState.emit]
  · intro s
    rw [countP_outside c hc _ _ (penaltyAdjustment_outside s), (penaltyAdjustment_results s).1]
    ring
  · intro s
    rw [countP_outside c hc s _ ⟨[Event.penaltyLimit], rfl, by simp [Event.inStep]⟩]
    simp [SQPState.emit]

/-- The events that end a step are the failed solves, the gates, the
rejections and the acceptances, and no event is two of these. -/
theorem countP_endsStep (l : List Event) :
    l.countP Event.endsStep =
      l.countP Event.isAccepted + l.countP Event.isShrunk + l.countP Event.isGate +
        l.countP Event.isFailedSolve := by
  induction l with
  | nil => rfl
  | cons e t ih =>
    simp only [List.countP_cons, ih]
    cases e with
    | qpSolve status =>
      by_cases hs : status = CvxOptStatus.CVX_SOLVED
      · simp [Event.endsStep, Event.isAccepted, Event.isShrunk, Event.isGate,
          Event.isFailedSolve, hs]
      · simp [Event.endsStep, Event.isAccepted, Event.isShrunk, Event.isGate,
          Event.isFailedSolve, hs]
        omega
    | _ =>
      simp [Event.endsStep, Event.isAccepted, Event.isShrunk, Event.isGate, Event.isFailedSolve] <;>
        omega

/-- The record of a run that returns counts as the record at the label
`cleanup` for every class of events of the trust-region steps, and starts
with none of them. -/
theorem run_countP_inStep (prob : OptProb) (o : BasicTrustRegionSQP) (c : Event → Bool)
    (hc : ∀ e, c e = true → e.inStep = true) (s3 : SQPState)
    (h3 : s3.retval ≠ OptStatus.INVALID) :
    (startState prob o).trace.countP c = 0 ∧ (cleanup s3).trace.countP c = s3.trace.countP c := by
  constructor
  · refine countP_eq_zero_of_forall c _ ?_
    intro e he
    cases hce : c e
    · rfl
    · have h1 := hc e hce
      rcases (startState_fields prob o).2.2.2.2 e he with h | h <;> rw [h] at h1 <;>
        simp [Event.inStep] at h1
  · rw [(cleanup_fields s3 h3).2.2.2.2.2.2.2.2.2.2, List.countP_append]
    have : (s3.callbacks_.map fun cb => Event.callback cb
        { s3.results_ with status := s3.retval, total_cost := vecSum s3.results_.cost_vals }).countP c
        = 0 := by
      refine countP_eq_zero_of_forall c _ ?_
      intro e he
      obtain ⟨cb, -, rfl⟩ := List.mem_map.mp he
      cases hce : c (Event.callback cb
        { s3.results_ with status := s3.retval, total_cost := vecSum s3.results_.cost_vals })
      · rfl
      · have h1 := hc _ hce
        simp [Event.inStep] at h1
    omega

/-- Counterexample to C15 as stated: the run of `shiftModel 0` on
`constrainedProb 0`, started right after `initialize`, makes one solve, which
fires the gate of line 613; it returns with `n_qp_solves = 1` and with no
accepted and no shrunk step. -/
theorem qp_solves_counterexample :
    ∃ s, optimize (constrainedProb 0) (shiftModel 0) 1 (freshOptimizer unitBoxParams [7]) =
        some (Run.returned OptStatus.OPT_CONVERGED s) ∧
      (freshOptimizer unitBoxParams [7]).results_.n_qp_solves = 0 ∧
      s.results_.n_qp_solves = 1 ∧
      (s.trace.countP Event.isAccepted : Int) + s.trace.countP Event.isShrunk = 0 ∧
      s.results_.n_qp_solves ≠
        (s.trace.countP Event.isAccepted : Int) + s.trace.countP Event.isShrunk := by
  obtain ⟨s, h, hq, -, ha, hs, -⟩ := run_converged_counts
  refine ⟨s, h, rfl, hq, ?_, ?_⟩
  · rw [ha, hs]; rfl
  · rw [ha, hs, hq]; decide

/-- C15, amended: at the return of every run of `optimize` started with
`n_qp_solves = 0` (right after `initialize`), `n_qp_solves` is the number of
calls of `model_->optimize()` recorded in the run, which is the number of
accepted steps plus the number of shrunk steps plus the number of steps that
fired a convergence gate plus the number of failed solves. -/
theorem qp_solves_counted (prob : OptProb) (model : Model) (fuel : Nat)
    (o : BasicTrustRegionSQP) (r : OptStatus) (s : SQPState)
    (h0 : o.results_.n_qp_solves = 0)
    (h : optimize prob model fuel o = some (Run.returned r s)) :
    s.results_.n_qp_solves = (s.trace.countP Event.isQpSolve : Int) ∧
    s.results_.n_qp_solves =
      (s.trace.countP Event.isAccepted : Int) + s.trace.countP Event.isShrunk +
        s.trace.countP Event.isGate + s.trace.countP Event.isFailedSolve := by
  obtain ⟨s3, hm, -, hs, h3⟩ := optimize_cleanup_state prob model fuel o r s h
  have hstart : (startState prob o).results_.n_qp_solves = 0 := by
    rw [(startState_fields prob o).2.2.2.1]; exact h0
  have hq : s.results_.n_qp_solves = s3.results_.n_qp_solves := by
    rw [hs]; exact (cleanup_fields s3 h3).2.2.2.2.2.2.2.2.2.1
  have hin1 : ∀ e, Event.isQpSolve e = true → e.inStep = true := by
    intro e he; cases e <;> simp_all [Event.isQpSolve, Event.inStep]
  have hin2 : ∀ e, Event.endsStep e = true → e.inStep = true := by
    intro e he
    cases e <;> simp_all [Event.endsStep, Event.isFailedSolve, Event.isGate, Event.isShrunk,
      Event.isAccepted, Event.inStep]
  have c1 := meritLoop_solves prob model Event.isQpSolve hin1
    (trustRegionStep_count_qpSolve prob model) fuel fuel 0 _ s3 hm
  have c2 := meritLoop_solves prob model Event.endsStep hin2
    (trustRegionStep_count_endsStep prob model) fuel fuel 0 _ s3 hm
  obtain ⟨z1, e1⟩ := run_countP_inStep prob o Event.isQpSolve hin1 s3 h3
  obtain ⟨z2, e2⟩ := run_countP_inStep prob o Event.endsStep hin2 s3 h3
  rw [hstart, z1] at c1
  rw [hstart, z2] at c2
  have hsum := countP_endsStep s.trace
  rw [hs] at hsum ⊢
  rw [e2] at hsum
  rw [e1]
  rw [hs] at hq
  constructor
  · rw [hq]; simpa using c1
  · rw [hq]
    have : (s3.trace.countP Event.endsStep : Int) =
        ((cleanup s3).trace.countP Event.isAccepted : Int) +
          (cleanup s3).trace.countP Event.isShrunk + (cleanup s3).trace.countP Event.isGate +
          (cleanup s3).trace.countP Event.isFailedSolve := by
      rw [hsum]; push_cast; ring
    rw [← this]
    simpa using c2

/-- Witness for C15 as amended: the run of the counterexample, with one
solve, which fires a gate. -/
theorem qp_solves_counted_witness :
    ∃ s, optimize (constrainedProb 0) (shiftModel 0) 1 (freshOptimizer unitBoxParams [7]) =
        some (Run.returned OptStatus.OPT_CONVERGED s) ∧
      s.results_.n_qp_solves =
        (s.trace.countP Event.isAccepted : Int) + s.trace.countP Event.isShrunk +
          s.trace.countP Event.isGate + s.trace.countP Event.isFailedSolve := by
  obtain ⟨s, h, -⟩ := run_converged_counts
  exact ⟨s, h, (qp_solves_counted _ _ _ _ _ s rfl h).2⟩

/-! ## The calls of the callbacks (C18) -/

theorem afterTrustRegionLoop_control (iter : Int) (s : SQPState) :
    s.extendsBy Event.isControl (afterTrustRegionLoop iter s).2 := by
  rcases afterTrustRegionLoop_cases iter s with ⟨-, c⟩ | ⟨-, -, c⟩ | ⟨-, -, c⟩ <;> rw [c]
  · exact ⟨[Event.tiny], rfl, by simp [Event.isControl]⟩
  · exact ⟨[Event.iterationLimit], rfl, by simp [Event.isControl]⟩
  · exact extendsBy_refl _ s

theorem penaltyAdjustment_control (s : SQPState) :
    s.extendsBy Event.isControl (penaltyAdjustment s).2 := by
  unfold penaltyAdjustment escalate
  split_ifs
  · exact ⟨[Event.satisfied], rfl, by simp [Event.isControl]⟩
  · exact ⟨[Event.escalated], rfl, by simp [Event.isControl]⟩

/-- What the first-iteration evaluation records. -/
theorem bootstrap_trace (prob : OptProb) (s : SQPState) :
    ∃ boot, (bootstrap prob s).trace = s.trace ++ boot ∧
      (∀ e ∈ boot, e = Event.bootstrap ∨ e = Event.assertFailed 519) ∧
      boot.countP Event.isBootstrap =
        (if (s.results_.cost_vals.isEmpty && s.results_.cnt_viols.isEmpty) = true then 1 else 0) := by
  by_cases h1 : (s.results_.cost_vals.isEmpty && s.results_.cnt_viols.isEmpty) = true
  · by_cases h2 : s.results_.n_func_evals = 0
    · refine ⟨[Event.bootstrap], ?_, by simp, ?_⟩
      · simp [bootstrap, SQPState.assert, SQPState.emit, h1, h2]
      · rw [if_pos h1]; rfl
    · refine ⟨[Event.assertFailed 519, Event.bootstrap], ?_, by simp, ?_⟩
      · simp [bootstrap, SQPState.assert, SQPState.emit, h1, h2]
      · rw [if_pos h1]; rfl
  · refine ⟨[], ?_, by simp, ?_⟩
    · simp [bootstrap, h1]
    · rw [if_neg h1]; rfl

/-- What the start of a pass of the SQP loop records: the pass, one call of
each callback with the results at that moment, and the first-iteration
evaluation if it is made. -/
theorem iterationStart_trace (prob : OptProb) (iter : Int) (s : SQPState) :
    ∃ boot, (bootstrap prob (callCallbacks (s.emit (Event.sqpIteration iter)))).trace =
        s.trace ++ Event.sqpIteration iter ::
          (s.callbacks_.map (fun cb => Event.callback cb s.results_) ++ boot) ∧
      (∀ e ∈ boot, e = Event.bootstrap ∨ e = Event.assertFailed 519) ∧
      boot.countP Event.isBootstrap =
        (if (s.results_.cost_vals.isEmpty && s.results_.cnt_viols.isEmpty) = true then 1 else 0) := by
  obtain ⟨boot, h1, h2, h3⟩ := bootstrap_trace prob (callCallbacks (s.emit (Event.sqpIteration iter)))
  refine ⟨boot, ?_, h2, ?_⟩
  · rw [h1]
    simp [callCallbacks, SQPState.emit]
  · rw [h3]
    simp [callCallbacks, SQPState.emit]

theorem callbacksFollow_of_none (cbs : List Nat) (l : List Event)
    (h : ∀ e ∈ l, e.isSqpIteration = false) : callbacksFollow cbs l := by
  intro pre iter post hl
  have hm : Event.sqpIteration iter ∈ l := by rw [hl]; simp
  have := h _ hm
  simp [Event.isSqpIteration] at this

theorem callbacksFollow_append (cbs : List Nat) (l1 l2 : List Event)
    (h1 : callbacksFollow cbs l1) (h2 : callbacksFollow cbs l2) :
    callbacksFollow cbs (l1 ++ l2) := by
  intro pre iter post hl
  rcases List.append_eq_append_iff.mp hl with ⟨a, -, ha⟩ | ⟨c, hc, hc2⟩
  · exact h2 a iter post ha
  · cases c with
    | nil =>
      simp only [List.nil_append] at hc2
      exact h2 [] iter post (by simpa using hc2.symm)
    | cons x c2 =>
      simp only [List.cons_append, List.cons.injEq] at hc2
      obtain ⟨hx, hpost⟩ := hc2
      subst hx
      obtain ⟨res, rest, hr⟩ := h1 pre iter c2 hc
      exact ⟨res, rest ++ l2, by rw [hpost, hr, List.append_assoc]⟩

theorem callbacksCalled_refl (s : SQPState) : s.callbacksCalled s :=
  ⟨rfl, [], by simp, by simp, callbacksFollow_of_none _ _ (by simp)⟩

theorem callbacksCalled_trans (a b c : SQPState) (h1 : a.callbacksCalled b)
    (h2 : b.callbacksCalled c) : a.callbacksCalled c := by
  obtain ⟨e1, l1, t1, c1, f1⟩ := h1
  obtain ⟨e2, l2, t2, c2, f2⟩ := h2
  rw [e1] at c2 f2
  refine ⟨e2.trans e1, l1 ++ l2, by rw [t2, t1, List.append_assoc], ?_,
    callbacksFollow_append _ _ _ f1 f2⟩
  rw [List.countP_append, List.countP_append, c1, c2, Nat.mul_add]

/-- A part of the run that keeps the callbacks and records neither a call of
a callback nor a pass of the SQP loop. -/
theorem callbacksCalled_of_quiet (Q : Event → Bool) (s t : SQPState)
    (hcb : t.callbacks_ = s.callbacks_) (h : s.extendsBy Q t)
    (hQ : ∀ e, Q e = true → e.isCallback = false ∧ e.isSqpIteration = false) :
    s.callbacksCalled t := by
  obtain ⟨l, hl, hq⟩ := h
  refine ⟨hcb, l, hl, ?_, callbacksFollow_of_none _ _ (fun e he => (hQ e (hq e he)).2)⟩
  rw [countP_eq_zero_of_forall _ l (fun e he => (hQ e (hq e he)).1),
    countP_eq_zero_of_forall _ l (fun e he => (hQ e (hq e he)).2)]
  simp

/-- The start of a pass of the SQP loop calls each callback once. -/
theorem callbacksCalled_iterationStart (prob : OptProb) (iter : Int) (s : SQPState) :
    s.callbacksCalled (bootstrap prob (callCallbacks (s.emit (Event.sqpIteration iter)))) := by
  obtain ⟨boot, htr, hboot, -⟩ := iterationStart_trace prob iter s
  have hb1 : boot.countP Event.isCallback = 0 :=
    countP_eq_zero_of_forall _ _ (fun e he => by rcases hboot e he with h | h <;> rw [h] <;> rfl)
  have hb2 : ∀ e ∈ boot, e.isSqpIteration = false :=
    fun e he => by rcases hboot e he with h | h <;> rw [h] <;> rfl
  have hc1 : (s.callbacks_.map (fun cb => Event.callback cb s.results_)).countP Event.isCallback =
      s.callbacks_.length := by
    rw [List.countP_map]
    simp [Function.comp_def, Event.isCallback]
  have hc2 : ∀ e ∈ s.callbacks_.map (fun cb => Event.callback cb s.results_),
      e.isSqpIteration = false := by
    intro e he
    obtain ⟨cb, -, rfl⟩ := List.mem_map.mp he
    rfl
  refine ⟨(iterationStart_frame prob iter s).2.1, _, htr, ?_, ?_⟩
  · rw [List.countP_cons, List.countP_cons, List.countP_append, List.countP_append, hb1, hc1,
      countP_eq_zero_of_forall _ boot hb2, countP_eq_zero_of_forall _ _ hc2]
    simp [Event.isCallback, Event.isSqpIteration]
  · intro pre it post hl
    cases pre with
    | nil =>
      simp only [List.nil_append, List.cons.injEq] at hl
      exact ⟨s.results_, boot, hl.2.symm⟩
    | cons x pre2 =>
      simp only [List.cons_append, List.cons.injEq] at hl
      have hm : Event.sqpIteration it ∈
          s.callbacks_.map (fun cb => Event.callback cb s.results_) ++ boot := by
        rw [hl.2]; simp
      rcases List.mem_append.mp hm with h | h
      · have := hc2 _ h
        simp [Event.isSqpIteration] at this
      · have := hb2 _ h
        simp [Event.isSqpIteration] at this

theorem inStep_quiet (e : Event) (h : e.inStep = true) :
    e.isCallback = false ∧ e.isSqpIteration = false := by
  cases e <;> simp_all [Event.inStep, Event.isCallback, Event.isSqpIteration]

theorem isControl_quiet (e : Event) (h : e.isControl = true) :
    e.isCallback = false ∧ e.isSqpIteration = false := by
  cases e <;> simp_all [Event.isControl, Event.isCallback, Event.isSqpIteration]

/-- Along the merit loop every pass of the SQP loop calls each callback once,
and nothing else calls a callback. -/
theorem meritLoop_callbacksCalled (prob : OptProb) (model : Model) (fuel k : Nat) (m : Int)
    (s t : SQPState) (h : meritLoop prob model fuel k m s = some t) : s.callbacksCalled t :=
  meritLoop_rel prob model SQPState.callbacksCalled callbacksCalled_refl callbacksCalled_trans
    (fun cm s => callbacksCalled_of_quiet Event.inStep _ _
      (trustRegionStep_stageFrame prob model cm s).2 (trustRegionStep_extends prob model cm s)
      inStep_quiet)
    (fun iter s => callbacksCalled_iterationStart prob iter s)
    (fun iter s => callbacksCalled_of_quiet Event.isControl _ _
      (afterTrustRegionLoop_frame iter s).2.1 (afterTrustRegionLoop_control iter s)
      isControl_quiet)
    (fun m s => callbacksCalled_of_quiet Event.isControl _ _ rfl
      (extendsBy_emit _ s (Event.meritStage m) rfl) isControl_quiet)
    (fun s => callbacksCalled_of_quiet Event.isControl _ _ (penaltyAdjustment_results s).2
      (penaltyAdjustment_control s) isControl_quiet)
    (fun s => callbacksCalled_of_quiet Event.isControl _ _ rfl
      ⟨[Event.penaltyLimit], rfl, by simp [Event.isControl]⟩ isControl_quiet)
    fuel k m s t h

/-- The results at the label `cleanup`, once the status and the total cost
are stored. -/
theorem cleanup_results (s : SQPState) (h : s.retval ≠ OptStatus.INVALID) :
    (cleanup s).results_ =
      { s.results_ with status := s.retval, total_cost := vecSum s.results_.cost_vals } := by
  simp [cleanup, SQPState.assert, h, callCallbacks]

/-- C18: `addCallback` appends to the list of callbacks, and `callCallbacks`
calls each callback of the list once, in the order of the list, with the
current results.  In a run of `optimize` that returns, every pass of the SQP
loop is directly followed by one call of each callback; the run ends with one
more call of each, made with the final results, whose `status` is the value
returned and whose `total_cost` is the sum of `cost_vals`; and there is no
other call: with `c` callbacks and `k` passes of the SQP loop the run makes
`c · (k + 1)` calls. -/
theorem callbacks_invoked (prob : OptProb) (model : Model) (fuel : Nat)
    (o : BasicTrustRegionSQP) (r : OptStatus) (s : SQPState)
    (h : optimize prob model fuel o = some (Run.returned r s)) :
    (∀ cb, (addCallback o cb).callbacks_ = o.callbacks_ ++ [cb]) ∧
    (∀ u : SQPState, (callCallbacks u).trace =
      u.trace ++ u.callbacks_.map (fun cb => Event.callback cb u.results_)) ∧
    callbacksFollow o.callbacks_ s.trace ∧
    (∃ pre, s.trace = pre ++ o.callbacks_.map (fun cb => Event.callback cb s.results_) ∧
      pre.countP Event.isSqpIteration = s.trace.countP Event.isSqpIteration ∧
      pre.countP Event.isCallback = o.callbacks_.length * pre.countP Event.isSqpIteration) ∧
    s.results_.status = r ∧ s.results_.total_cost = vecSum s.results_.cost_vals ∧
    s.trace.countP Event.isCallback =
      o.callbacks_.length * (s.trace.countP Event.isSqpIteration + 1) := by
  obtain ⟨s3, hm, hr, hs, h3⟩ := optimize_cleanup_state prob model fuel o r s h
  obtain ⟨hcb, l, hl, hcount, hfollow⟩ := meritLoop_callbacksCalled prob model fuel fuel 0 _ s3 hm
  obtain ⟨-, g2, -, -, g5⟩ := startState_fields prob o
  rw [g2] at hcb hcount hfollow
  have hres := cleanup_results s3 h3
  obtain ⟨-, -, -, c4, c5, -, c7, -, -, -, c11⟩ := cleanup_fields s3 h3
  have hst1 : ∀ e ∈ (startState prob o).trace, e.isSqpIteration = false := by
    intro e he
    rcases g5 e he with h | h <;> rw [h] <;> rfl
  have hst2 : (startState prob o).trace.countP Event.isCallback = 0 :=
    countP_eq_zero_of_forall _ _ (fun e he => by rcases g5 e he with h | h <;> rw [h] <;> rfl)
  have hfin1 : ∀ e ∈ o.callbacks_.map (fun cb => Event.callback cb s.results_),
      e.isSqpIteration = false := by
    intro e he
    obtain ⟨cb, -, rfl⟩ := List.mem_map.mp he
    rfl
  have hfin2 : (o.callbacks_.map (fun cb => Event.callback cb s.results_)).countP
      Event.isCallback = o.callbacks_.length := by
    rw [List.countP_map]
    simp [Function.comp_def, Event.isCallback]
  have htrace : s.trace = s3.trace ++ o.callbacks_.map (fun cb => Event.callback cb s.results_) := by
    rw [hs, c11, hres, hcb]
  have hpre1 : s3.trace.countP Event.isSqpIteration = l.countP Event.isSqpIteration := by
    rw [hl, List.countP_append, countP_eq_zero_of_forall _ _ hst1]
    omega
  have hpre2 : s3.trace.countP Event.isCallback = l.countP Event.isCallback := by
    rw [hl, List.countP_append, hst2]
    omega
  have hk : s.trace.countP Event.isSqpIteration = s3.trace.countP Event.isSqpIteration := by
    rw [htrace, List.countP_append, countP_eq_zero_of_forall _ _ hfin1]
    rfl
  refine ⟨fun cb => rfl, fun u => rfl, ?_, ⟨s3.trace, htrace, hk.symm, ?_⟩, ?_, ?_, ?_⟩
  · rw [htrace, hl]
    exact callbacksFollow_append _ _ _
      (callbacksFollow_append _ _ _ (callbacksFollow_of_none _ _ hst1) hfollow)
      (callbacksFollow_of_none _ _ hfin1)
  · rw [hpre1, hpre2, hcount]
  · rw [hs, c4, hr]
  · rw [hs, c5, c7]
  · rw [hk, htrace, List.countP_append, hfin2, hpre1, hpre2, hcount, Nat.mul_add, Nat.mul_one]

/-- Witness for C18: the run of `shiftModel 0` on `constrainedProb 0` with
one callback makes one pass of the SQP loop and two calls. -/
theorem callbacks_invoked_witness :
    ∃ s, optimize (constrainedProb 0) (shiftModel 0) 1 (freshOptimizer unitBoxParams [7]) =
        some (Run.returned OptStatus.OPT_CONVERGED s) ∧
      s.trace.countP Event.isCallback =
        (freshOptimizer unitBoxParams [7]).callbacks_.length *
          (s.trace.countP Event.isSqpIteration + 1) ∧
      s.trace.countP Event.isCallback = 2 := by
  obtain ⟨s, h, -, -, -, -, -, -, -, hc⟩ := run_converged_counts
  exact ⟨s, h, (callbacks_invoked _ _ _ _ _ s h).2.2.2.2.2.2, hc⟩

/-! ## `initialize` and the uninitialised run (C17) -/

/-- C17: `Optimizer::initialize(x)` throws when no problem is set, and throws
when the length of `x` differs from the number of variables of the problem,
in both cases with `results_` as it was; otherwise it does not throw and
leaves `results_` cleared with `x` stored in `results_.x`.  `optimize` on an
object whose `results_.x` is empty throws, whatever the bound on the loop
passes (also 0): no pass of a loop is made, so no callback is called and
nothing is evaluated or solved. -/
theorem initialize_and_uninitialised (clear : OptResults → OptResults) (results_ : OptResults)
    (x : DblVec) (prob : OptProb) (model : Model) (fuel : Nat) (o : BasicTrustRegionSQP) :
    Optimizer.init clear none results_ x =
      (some "need to set the problem before initializing", results_) ∧
    (prob.vars.length ≠ x.length →
      (∃ msg, (Optimizer.init clear (some prob) results_ x).1 = some msg) ∧
      (Optimizer.init clear (some prob) results_ x).2 = results_) ∧
    (prob.vars.length = x.length →
      Optimizer.init clear (some prob) results_ x = (none, { clear results_ with x := x }) ∧
      (Optimizer.init clear (some prob) results_ x).2.x = x) ∧
    (o.results_.x = [] →
      optimize prob model fuel o = some (Run.threw "you forgot to initialize!") ∧
      optimize prob model 0 o = some (Run.threw "you forgot to initialize!")) := by
  refine ⟨rfl, ?_, ?_, ?_⟩
  · intro hne
    simp [Optimizer.init, hne]
  · intro heq
    simp [Optimizer.init, heq]
  · intro hx
    simp [optimize, hx]

/-- Witness for C17: on the one-variable problem `flatProb`, `initialize`
rejects a vector of length 2 and accepts one of length 1; `optimize` on the
object with empty `x` throws. -/
theorem initialize_and_uninitialised_witness :
    (Optimizer.init (fun r => { r with x := [], cost_vals := [], cnt_viols := [] }) (some flatProb)
      (freshOptimizer unitBoxParams []).results_ [1, 2]).2 =
        (freshOptimizer unitBoxParams []).results_ ∧
    (Optimizer.init (fun r => { r with x := [], cost_vals := [], cnt_viols := [] }) (some flatProb)
      (freshOptimizer unitBoxParams []).results_ [5]).2.x = [5] ∧
    optimize flatProb failingModel 3
        { freshOptimizer unitBoxParams [] with results_.x := [] } =
      some (Run.threw "you forgot to initialize!") := by
  have h := initialize_and_uninitialised
    (fun r => { r with x := [], cost_vals := [], cnt_viols := [] })
    (freshOptimizer unitBoxParams []).results_
  exact ⟨((h [1, 2] flatProb failingModel 3 (freshOptimizer unitBoxParams [])).2.1
      (by decide)).2,
    ((h [5] flatProb failingModel 3 (freshOptimizer unitBoxParams [])).2.2.1 (by decide)).2,
    ((h [5] flatProb failingModel 3
      { freshOptimizer unitBoxParams [] with results_.x := [] }).2.2.2 rfl).1⟩

/-! ## The counter of evaluations (C16) -/

/-- The first-iteration evaluation: made exactly when the results hold no
value yet, and then it stores the exact values at `x` and counts one
evaluation. -/
theorem bootstrap_fresh (prob : OptProb) (s : SQPState) :
    (s.fresh = false → bootstrap prob s = s) ∧
    (s.fresh = true →
      (bootstrap prob s).results_.cost_vals = evaluateCosts prob.costs s.results_.x ∧
      (bootstrap prob s).results_.cnt_viols =
        evaluateConstraintViols prob.constraints s.results_.x ∧
      (bootstrap prob s).results_.n_func_evals = s.results_.n_func_evals + 1) := by
  constructor
  · intro h
    unfold SQPState.fresh at h
    simp [bootstrap, h]
  · intro h
    unfold SQPState.fresh at h
    by_cases h2 : s.results_.n_func_evals = 0 <;>
      simp [bootstrap, SQPState.assert, SQPState.emit, h, h2]

theorem bootstrap_evals (prob : OptProb) (s : SQPState) :
    (bootstrap prob s).results_.n_func_evals =
      s.results_.n_func_evals + (if s.fresh = true then 1 else 0) := by
  cases hf : s.fresh
  · rw [(bootstrap_fresh prob s).1 hf]; simp
  · rw [((bootstrap_fresh prob s).2 hf).2.2]; simp

/-- Every pass of the body of the trust-region loop records a report exactly
when its solve succeeded, and no first-iteration evaluation. -/
theorem trustRegionStep_count_report (prob : OptProb) (model : Model) (cm : Convexified)
    (s : SQPState) :
    (trustRegionStep prob model cm s).2.trace.countP Event.isReport =
      s.trace.countP Event.isReport +
        (if (solveTrustBox prob model cm s).1.1 = CvxOptStatus.CVX_SOLVED then 1 else 0) ∧
    (trustRegionStep prob model cm s).2.trace.countP Event.isBootstrap =
      s.trace.countP Event.isBootstrap := by
  obtain ⟨pre, post, hpre, hpost, htr⟩ := trustRegionStep_trace prob model cm s
  have h1 : pre.countP Event.isReport = 0 :=
    countP_eq_zero_of_forall _ _ (fun e he => by rw [hpre e he]; rfl)
  have h2 : post.countP Event.isReport = 0 :=
    countP_eq_zero_of_forall _ _ (fun e he => by obtain ⟨h, rfl⟩ := hpost e he; rfl)
  have h3 : pre.countP Event.isBootstrap = 0 :=
    countP_eq_zero_of_forall _ _ (fun e he => by rw [hpre e he]; rfl)
  have h4 : post.countP Event.isBootstrap = 0 :=
    countP_eq_zero_of_forall _ _ (fun e he => by obtain ⟨h, rfl⟩ := hpost e he; rfl)
  rw [htr]
  by_cases hs : (solveTrustBox prob model cm s).1.1 = CvxOptStatus.CVX_SOLVED
  · rw [if_pos hs, if_pos hs]
    cases stepDecision s.param_ (stepReport prob model cm s) <;>
      simp [List.countP_append, h1, h2, h3, h4, Event.isReport, Event.isBootstrap,
        Decision.event]
  · rw [if_neg hs, if_neg hs]
    simp [List.countP_append, h1, h3, Event.isReport, Event.isBootstrap]

/-- The start of a pass of the SQP loop: what it counts and records. -/
theorem iterationStart_evals (prob : OptProb) (iter : Int) (s : SQPState) :
    (bootstrap prob (callCallbacks (s.emit (Event.sqpIteration iter)))).results_.n_func_evals =
      s.results_.n_func_evals + (if s.fresh = true then 1 else 0) ∧
    (bootstrap prob (callCallbacks (s.emit (Event.sqpIteration iter)))).trace.countP
        Event.isBootstrap =
      s.trace.countP Event.isBootstrap + (if s.fresh = true then 1 else 0) ∧
    (bootstrap prob (callCallbacks (s.emit (Event.sqpIteration iter)))).trace.countP
        Event.isReport = s.trace.countP Event.isReport := by
  obtain ⟨boot, htr, hboot, hcount⟩ := iterationStart_trace prob iter s
  have hb : boot.countP Event.isReport = 0 :=
    countP_eq_zero_of_forall _ _ (fun e he => by rcases hboot e he with h | h <;> rw [h] <;> rfl)
  have hcb1 : (s.callbacks_.map (fun cb => Event.callback cb s.results_)).countP
      Event.isReport = 0 :=
    countP_eq_zero_of_forall _ _ (fun e he => by obtain ⟨cb, -, rfl⟩ := List.mem_map.mp he; rfl)
  have hcb2 : (s.callbacks_.map (fun cb => Event.callback cb s.results_)).countP
      Event.isBootstrap = 0 :=
    countP_eq_zero_of_forall _ _ (fun e he => by obtain ⟨cb, -, rfl⟩ := List.mem_map.mp he; rfl)
  refine ⟨?_, ?_, ?_⟩
  · rw [bootstrap_evals]
    simp [callCallbacks, SQPState.emit, SQPState.fresh]
  · rw [htr, List.countP_append, List.countP_cons, List.countP_append, hcb2, hcount]
    simp [Event.isBootstrap, SQPState.fresh]
  · rw [htr, List.countP_append, List.countP_cons, List.countP_append, hcb1, hb]
    simp [Event.isReport]

theorem isControl_not_eval (e : Event) (h : e.isControl = true) :
    e.isBootstrap = false ∧ e.isReport = false := by
  cases e <;> simp_all [Event.isControl, Event.isBootstrap, Event.isReport]

/-- A part of the run that keeps the results and records control events
only keeps the three numbers. -/
theorem evalsCounted_of_control (s t : SQPState) (hres : t.results_ = s.results_)
    (h : s.extendsBy Event.isControl t) :
    t.results_.n_func_evals - s.results_.n_func_evals =
      ((t.trace.countP Event.isBootstrap : Int) - s.trace.countP Event.isBootstrap) +
        ((t.trace.countP Event.isReport : Int) - s.trace.countP Event.isReport) := by
  rw [countP_of_extends _ Event.isBootstrap s t h (fun e he => (isControl_not_eval e he).1),
    countP_of_extends _ Event.isReport s t h (fun e he => (isControl_not_eval e he).2), hres]
  ring

/-- Along the merit loop, `n_func_evals` grows by the number of
first-iteration evaluations plus the number of reports recorded. -/
theorem meritLoop_evals (prob : OptProb) (model : Model) (fuel k : Nat) (m : Int)
    (s t : SQPState) (h : meritLoop prob model fuel k m s = some t) :
    t.results_.n_func_evals - s.results_.n_func_evals =
      ((t.trace.countP Event.isBootstrap : Int) - s.trace.countP Event.isBootstrap) +
        ((t.trace.countP Event.isReport : Int) - s.trace.countP Event.isReport) := by
  refine meritLoop_rel prob model
    (fun s t => t.results_.n_func_evals - s.results_.n_func_evals =
      ((t.trace.countP Event.isBootstrap : Int) - s.trace.countP Event.isBootstrap) +
        ((t.trace.countP Event.isReport : Int) - s.trace.countP Event.isReport))
    (fun s => by simp) (fun a b d h1 h2 => by linarith) ?_ ?_ ?_ ?_ ?_ ?_ fuel k m s t h
  · intro cm s
    rw [(trustRegionStep_count_report prob model cm s).1,
      (trustRegionStep_count_report prob model cm s).2,
      (trustRegionStep_counters prob model cm s).2]
    split_ifs <;> push_cast <;> ring
  · intro iter s
    obtain ⟨h1, h2, h3⟩ := iterationStart_evals prob iter s
    rw [h1, h2, h3]
    split_ifs <;> push_cast <;> ring
  · intro iter s
    exact evalsCounted_of_control _ _ (afterTrustRegionLoop_frame iter s).2.2
      (afterTrustRegionLoop_control iter s)
  · intro m s
    exact evalsCounted_of_control _ _ rfl (extendsBy_emit _ s (Event.meritStage m) rfl)
  · intro s
    exact evalsCounted_of_control _ _ (penaltyAdjustment_results s).1
      (penaltyAdjustment_control s)
  · intro s
    exact evalsCounted_of_control _ _ rfl ⟨[Event.penaltyLimit], rfl, by simp [Event.isControl]⟩

/-! ## After the start of the first pass -/

/-- A reflexive and transitive relation kept by every part of a pass of the
SQP loop relates the state in which the first trust-region loop is entered
to the state after the SQP loop. -/
theorem sqpLoop_rel_first (prob : OptProb) (model : Model)
    (R : SQPState → SQPState → Prop) (hrefl : ∀ s, R s s)
    (htrans : ∀ a b c, R a b → R b c → R a c)
    (hstep : ∀ cm s, R s (trustRegionStep prob model cm s).2)
    (hpre : ∀ iter s, R s (bootstrap prob (callCallbacks (s.emit (Event.sqpIteration iter)))))
    (hafter : ∀ iter s, R s (afterTrustRegionLoop iter s).2) (fuel k : Nat) (iter : Int)
    (s : SQPState) (e : SqpExit) (t : SQPState)
    (h : sqpLoop prob model fuel k iter s = some (e, t)) :
    R (bootstrap prob (callCallbacks (s.emit (Event.sqpIteration iter)))) t := by
  cases k with
  | zero => simp [sqpLoop] at h
  | succ n =>
    rw [sqpLoop_succ] at h
    cases hi : sqpIteration prob model fuel iter s with
    | none => rw [hi] at h; simp at h
    | some r =>
      obtain ⟨y, v⟩ := r
      obtain ⟨e2, w, hw, hcase⟩ := sqpIteration_eq prob model fuel iter s y v hi
      have h1 := trustRegionLoop_rel prob model _ R hrefl htrans (hstep _) fuel _ e2 w hw
      have hv : R (bootstrap prob (callCallbacks (s.emit (Event.sqpIteration iter)))) v := by
        rcases hcase with ⟨-, -, ht⟩ | ⟨-, -, ht⟩ | ⟨-, ht⟩
        · rw [ht]; exact h1
        · rw [ht]; exact h1
        · have : v = (afterTrustRegionLoop iter w).2 := by rw [← ht]
          rw [this]; exact htrans _ _ _ h1 (hafter iter w)
      rw [hi] at h
      cases y <;> simp only [Option.some.injEq, Prod.mk.injEq] at h
      · rw [← h.2]; exact hv
      · rw [← h.2]; exact hv
      · exact htrans _ _ _ hv
          (sqpLoop_rel prob model R hrefl htrans hstep hpre hafter fuel n _ _ _ _ h)

/-- A reflexive and transitive relation kept by every part of the merit loop
relates the state in which the first trust-region loop is entered to the
state at the label `cleanup`, when the merit loop makes a pass at all. -/
theorem meritLoop_rel_first (prob : OptProb) (model : Model)
    (R : SQPState → SQPState → Prop) (hrefl : ∀ s, R s s)
    (htrans : ∀ a b c, R a b → R b c → R a c)
    (hstep : ∀ cm s, R s (trustRegionStep prob model cm s).2)
    (hpre : ∀ iter s, R s (bootstrap prob (callCallbacks (s.emit (Event.sqpIteration iter)))))
    (hafter : ∀ iter s, R s (afterTrustRegionLoop iter s).2)
    (hstage : ∀ m s, R s (s.emit (Event.meritStage m)))
    (hpa : ∀ s, R s (penaltyAdjustment s).2)
    (hlimit : ∀ s, R s (({ s with retval := OptStatus.OPT_PENALTY_ITERATION_LIMIT } :
      SQPState).emit Event.penaltyLimit)) (fuel k : Nat) (m : Int) (s t : SQPState)
    (h : meritLoop prob model fuel k m s = some t)
    (hm : m < s.param_.max_merit_coeff_increases) :
    R (bootstrap prob
      (callCallbacks ((s.emit (Event.meritStage m)).emit (Event.sqpIteration 1)))) t := by
  cases k with
  | zero => simp [meritLoop] at h
  | succ n =>
    rw [meritLoop_pass prob model fuel n m s hm] at h
    cases hq : sqpLoop prob model fuel fuel 1 (s.emit (Event.meritStage m)) with
    | none => rw [hq] at h; simp at h
    | some r =>
      obtain ⟨x, u⟩ := r
      have hu := sqpLoop_rel_first prob model R hrefl htrans hstep hpre hafter fuel fuel 1 _ x u hq
      rw [hq] at h
      cases x
      · simp only [Option.some.injEq] at h
        rw [← h]; exact hu
      · simp only [] at h
        split_ifs at h
        · simp only [Option.some.injEq] at h
          rw [← h]; exact htrans _ _ _ hu (hpa u)
        · exact htrans _ _ _ (htrans _ _ _ hu (hpa u))
            (meritLoop_rel prob model R hrefl htrans hstep hpre hafter hstage hpa hlimit
              fuel n _ _ t h)

/-! ## The first-iteration evaluation is made once -/

/-- On a problem with a cost or a constraint, the exact values at a point
are not both empty. -/
theorem evaluated_not_fresh (prob : OptProb)
    (hprob : prob.costs ≠ [] ∨ prob.constraints ≠ []) (x y : DblVec) :
    ((evaluateCosts prob.costs x).isEmpty &&
      (evaluateConstraintViols prob.constraints y).isEmpty) = false := by
  rcases hprob with h | h
  · cases hc : prob.costs with
    | nil => exact absurd hc h
    | cons a t => simp [evaluateCosts]
  · cases hc : prob.constraints with
    | nil => exact absurd hc h
    | cons a t => simp [evaluateConstraintViols]

/-- A trust-region step on results that hold values leaves results that
hold values. -/
theorem trustRegionStep_fresh (prob : OptProb) (model : Model) (cm : Convexified)
    (hprob : prob.costs ≠ [] ∨ prob.constraints ≠ []) (s : SQPState) (hf : s.fresh = false) :
    (trustRegionStep prob model cm s).2.fresh = false := by
  unfold SQPState.fresh at hf ⊢
  by_cases hs : (solveTrustBox prob model cm s).1.1 = CvxOptStatus.CVX_SOLVED
  · cases hd : stepDecision s.param_ (stepReport prob model cm s)
    · obtain ⟨-, h2, h3, -⟩ := trustRegionStep_converged_state prob model cm s hs (Or.inl hd)
      rw [h2, h3]; exact hf
    · obtain ⟨-, h2, h3, -⟩ := trustRegionStep_converged_state prob model cm s hs (Or.inr hd)
      rw [h2, h3]; exact hf
    · obtain ⟨-, h2, h3, -⟩ := trustRegionStep_shrink_state prob model cm s hs hd
      rw [h2, h3]; exact hf
    · obtain ⟨-, h2, h3, -⟩ := trustRegionStep_accept_state prob model cm s hs hd
      rw [h2, h3]
      exact evaluated_not_fresh prob hprob _ _
  · rw [trustRegionStep_failed prob model cm s hs]
    obtain ⟨-, -, a3, a4, -⟩ := solveTrustBox_frame prob model cm s
    show ((solveTrustBox prob model cm s).2.results_.cost_vals.isEmpty &&
      (solveTrustBox prob model cm s).2.results_.cnt_viols.isEmpty) = false
    rw [a3, a4]; exact hf

/-- From results that hold values on, the results hold values and no
first-iteration evaluation is recorded: the relation kept by every part of
the run on a problem with a cost or a constraint. -/
theorem meritLoop_evaluated_first (prob : OptProb) (model : Model)
    (hprob : prob.costs ≠ [] ∨ prob.constraints ≠ []) (fuel k : Nat) (m : Int)
    (s t : SQPState) (h : meritLoop prob model fuel k m s = some t)
    (hm : m < s.param_.max_merit_coeff_increases) (hf : s.fresh = true) :
    t.fresh = false ∧
      t.trace.countP Event.isBootstrap = s.trace.countP Event.isBootstrap + 1 := by
  have hR := meritLoop_rel_first prob model
    (fun s t => s.fresh = false →
      t.fresh = false ∧ t.trace.countP Event.isBootstrap = s.trace.countP Event.isBootstrap)
    (fun s hs => ⟨hs, rfl⟩)
    (fun a b c h1 h2 ha => ⟨(h2 (h1 ha).1).1, ((h2 (h1 ha).1).2).trans (h1 ha).2⟩)
    (fun cm s hs => ⟨trustRegionStep_fresh prob model cm hprob s hs,
      (trustRegionStep_count_report prob model cm s).2⟩)
    (fun iter s hs => by
      have h2 := (iterationStart_evals prob iter s).2.1
      rw [hs] at h2
      have hb : bootstrap prob (callCallbacks (s.emit (Event.sqpIteration iter))) =
          callCallbacks (s.emit (Event.sqpIteration iter)) :=
        (bootstrap_fresh prob _).1 (by simpa [SQPState.fresh, callCallbacks, SQPState.emit] using hs)
      refine ⟨?_, by simpa using h2⟩
      rw [hb]
      simpa [SQPState.fresh, callCallbacks, SQPState.emit] using hs)
    (fun iter s hs => ⟨by
        unfold SQPState.fresh at hs ⊢
        rw [(afterTrustRegionLoop_frame iter s).2.2]; exact hs,
      countP_of_extends _ _ _ _ (afterTrustRegionLoop_control iter s)
        (fun e he => (isControl_not_eval e he).1)⟩)
    (fun m s hs => ⟨hs, countP_of_extends _ _ _ _ (extendsBy_emit Event.isControl s
      (Event.meritStage m) rfl) (fun e he => (isControl_not_eval e he).1)⟩)
    (fun s hs => ⟨by
        unfold SQPState.fresh at hs ⊢
        rw [(penaltyAdjustment_results s).1]; exact hs,
      countP_of_extends _ _ _ _ (penaltyAdjustment_control s)
        (fun e he => (isControl_not_eval e he).1)⟩)
    (fun s hs => ⟨hs, countP_of_extends Event.isControl _ s _
      ⟨[Event.penaltyLimit], rfl, by simp [Event.isControl]⟩
      (fun e he => (isControl_not_eval e he).1)⟩)
    fuel k m s t h hm
  have hfs : ((s.emit (Event.meritStage m)).emit (Event.sqpIteration 1)).fresh = true := hf
  obtain ⟨-, e2, -⟩ := iterationStart_evals prob 1 (s.emit (Event.meritStage m))
  have hf2 : (s.emit (Event.meritStage m)).fresh = true := hf
  rw [hf2] at e2
  have hp : (bootstrap prob (callCallbacks ((s.emit (Event.meritStage m)).emit
      (Event.sqpIteration 1)))).fresh = false := by
    have hc : (callCallbacks ((s.emit (Event.meritStage m)).emit (Event.sqpIteration 1))).fresh
        = true := hf
    obtain ⟨b1, b2, -⟩ := (bootstrap_fresh prob _).2 hc
    unfold SQPState.fresh
    rw [b1, b2]
    exact evaluated_not_fresh prob hprob _ _
  obtain ⟨r1, r2⟩ := hR hp
  refine ⟨r1, ?_⟩
  rw [r2, e2]
  simp [SQPState.emit, List.countP_append, Event.isBootstrap]

set_option maxRecDepth 8000 in
set_option maxHeartbeats 1000000 in
theorem run_no_stage_counts : ∃ s, optimize flatProb (shiftModel 0) 1 (freshOptimizer noStageParams []) =
      some (Run.returned OptStatus.OPT_PENALTY_ITERATION_LIMIT s) ∧
      s.results_.n_func_evals = 0 ∧ s.results_.n_qp_solves = 0 ∧
      s.trace.countP Event.isReport = 0 ∧ s.trace.countP Event.isQpSolve = 0 ∧
      s.results_.x = [0] := by
  norm_num [optimize, startState, meritLoop, callCallbacks, cleanup,
    freshOptimizer, flatProb, flatCost, unitBoxParams, noStageParams,
    BasicTrustRegionSQPParameters.defaults, SQPState.assert,
    SQPState.emit, vecSum,
    cvx_failed_ne_solved, opt_failed_ne_invalid, opt_converged_ne_invalid,
    opt_sco_limit_ne_invalid, opt_penalty_limit_ne_invalid, List.countP_cons,
    Event.isReport, Event.isQpSolve]

/-- Counterexample to C16 as stated: with `max_merit_coeff_increases = 0` the
run started right after `initialize` enters no loop and returns
`OPT_PENALTY_ITERATION_LIMIT` with `n_func_evals = 0` and no report built,
not with `n_func_evals = 1 + 0`. -/
theorem func_evals_counterexample :
    ∃ s, optimize flatProb (shiftModel 0) 1 (freshOptimizer noStageParams []) =
        some (Run.returned OptStatus.OPT_PENALTY_ITERATION_LIMIT s) ∧
      (freshOptimizer noStageParams []).results_.n_func_evals = 0 ∧
      (freshOptimizer noStageParams []).results_.cost_vals = [] ∧
      (freshOptimizer noStageParams []).results_.cnt_viols = [] ∧
      s.results_.n_func_evals = 0 ∧ s.trace.countP Event.isReport = 0 ∧
      s.results_.n_func_evals ≠ 1 + (s.trace.countP Event.isReport : Int) := by
  obtain ⟨s, h, hf, -, hr, -⟩ := run_no_stage_counts
  refine ⟨s, h, rfl, rfl, rfl, hf, hr, ?_⟩
  rw [hf, hr]; decide

/-- C16, amended: at the return of every run of `optimize` started right
after `initialize` (no cost value, no violation, `n_func_evals = 0`) on a
problem with at least one cost or constraint: when
`max_merit_coeff_increases ≥ 1`, the first-iteration evaluation is made
exactly once and `n_func_evals` is 1 plus the number of reports built (the
solved trust-region steps); when `max_merit_coeff_increases ≤ 0`, nothing is
evaluated, no report is built and `n_func_evals = 0`. -/
theorem func_evals_counted (prob : OptProb) (model : Model) (fuel : Nat)
    (o : BasicTrustRegionSQP) (r : OptStatus) (s : SQPState)
    (hcv : o.results_.cost_vals = []) (hcn : o.results_.cnt_viols = [])
    (h0 : o.results_.n_func_evals = 0)
    (hprob : prob.costs ≠ [] ∨ prob.constraints ≠ [])
    (h : optimize prob model fuel o = some (Run.returned r s)) :
    (1 ≤ o.param_.max_merit_coeff_increases →
      s.trace.countP Event.isBootstrap = 1 ∧
      s.results_.n_func_evals = 1 + (s.trace.countP Event.isReport : Int)) ∧
    (o.param_.max_merit_coeff_increases ≤ 0 →
      s.trace.countP Event.isReport = 0 ∧ s.results_.n_func_evals = 0) := by
  obtain ⟨s3, hm, -, hs, h3⟩ := optimize_cleanup_state prob model fuel o r s h
  obtain ⟨g1, -, -, g4, -⟩ := startState_fields prob o
  have hin1 : ∀ e, Event.isReport e = true → e.inStep = true := by
    intro e he; cases e <;> simp_all [Event.isReport, Event.inStep]
  have hstart0 : (startState prob o).results_.n_func_evals = 0 := by rw [g4]; exact h0
  have hfresh : (startState prob o).fresh = true := by
    unfold SQPState.fresh
    rw [g4]
    simp [hcv, hcn]
  have hbs : (startState prob o).trace.countP Event.isBootstrap = 0 :=
    countP_eq_zero_of_forall _ _ (fun e he => by
      rcases (startState_fields prob o).2.2.2.2 e he with h | h <;> rw [h] <;> rfl)
  obtain ⟨z1, e1⟩ := run_countP_inStep prob o Event.isReport hin1 s3 h3
  have hbc : (cleanup s3).trace.countP Event.isBootstrap = s3.trace.countP Event.isBootstrap := by
    rw [(cleanup_fields s3 h3).2.2.2.2.2.2.2.2.2.2, List.countP_append]
    have : (s3.callbacks_.map fun cb => Event.callback cb
        { s3.results_ with status := s3.retval, total_cost := vecSum s3.results_.cost_vals }).countP
        Event.isBootstrap = 0 :=
      countP_eq_zero_of_forall _ _ (fun e he => by
        obtain ⟨cb, -, rfl⟩ := List.mem_map.mp he; rfl)
    omega
  have hnf : (cleanup s3).results_.n_func_evals = s3.results_.n_func_evals :=
    (cleanup_fields s3 h3).2.2.2.2.2.2.2.2.1
  have hev := meritLoop_evals prob model fuel fuel 0 _ s3 hm
  rw [hstart0, hbs, z1] at hev
  rw [hs, hbc, e1, hnf]
  constructor
  · intro hN
    have hm0 : (0 : Int) < (startState prob o).param_.max_merit_coeff_increases := by
      rw [g1]; omega
    obtain ⟨-, hb1⟩ := meritLoop_evaluated_first prob model hprob fuel fuel 0 _ s3 hm hm0 hfresh
    rw [hbs] at hb1
    refine ⟨hb1, ?_⟩
    rw [hb1] at hev
    push_cast at hev
    linarith
  · intro hN
    have hm0 : ¬ (0 : Int) < (startState prob o).param_.max_merit_coeff_increases := by
      rw [g1]; omega
    cases fuel with
    | zero => simp [meritLoop] at hm
    | succ n =>
      rw [meritLoop_limit prob model (n + 1) n 0 _ hm0] at hm
      simp only [Option.some.injEq] at hm
      have htr : s3.trace = (startState prob o).trace ++ [Event.penaltyLimit] := by
        rw [← hm]; rfl
      have hres : s3.results_ = (startState prob o).results_ := by rw [← hm]; rfl
      refine ⟨?_, ?_⟩
      · rw [htr, List.countP_append, z1]; rfl
      · rw [hres, hstart0]

/-- Witness for C16 as amended: the run of `shiftModel 0` on
`constrainedProb 0` with the default cap 5 builds one report and returns with
`n_func_evals = 2`. -/
theorem func_evals_counted_witness :
    ∃ s, optimize (constrainedProb 0) (shiftModel 0) 1 (freshOptimizer unitBoxParams [7]) =
        some (Run.returned OptStatus.OPT_CONVERGED s) ∧
      s.results_.n_func_evals = 1 + (s.trace.countP Event.isReport : Int) ∧
      s.results_.n_func_evals = 2 := by
  obtain ⟨s, h, -, hf, -⟩ := run_converged_counts
  exact ⟨s, h, ((func_evals_counted (constrainedProb 0) _ _ _ _ s rfl rfl rfl
    (Or.inl (by simp [constrainedProb, flatProb])) h).1 (by decide)).2, hf⟩

/-! ## A failed solve (C11) -/

/-- A pass of the body of the trust-region loop records a failed solve
exactly when its solve failed. -/
theorem trustRegionStep_count_failed (prob : OptProb) (model : Model) (cm : Convexified)
    (s : SQPState) :
    (trustRegionStep prob model cm s).2.trace.countP Event.isFailedSolve =
      s.trace.countP Event.isFailedSolve +
        (if (solveTrustBox prob model cm s).1.1 = CvxOptStatus.CVX_SOLVED then 0 else 1) := by
  obtain ⟨pre, post, hpre, hpost, htr⟩ := trustRegionStep_trace prob model cm s
  have h1 : pre.countP Event.isFailedSolve = 0 :=
    countP_eq_zero_of_forall _ _ (fun e he => by rw [hpre e he]; rfl)
  have h2 : post.countP Event.isFailedSolve = 0 :=
    countP_eq_zero_of_forall _ _ (fun e he => by obtain ⟨h, rfl⟩ := hpost e he; rfl)
  rw [htr]
  by_cases hs : (solveTrustBox prob model cm s).1.1 = CvxOptStatus.CVX_SOLVED
  · rw [if_pos hs, if_pos hs, hs]
    cases stepDecision s.param_ (stepReport prob model cm s) <;>
      simp [List.countP_append, h1, h2, Event.isFailedSolve, Decision.event]
  · rw [if_neg hs, if_neg hs]
    simp [List.countP_append, h1, Event.isFailedSolve, hs]

/-- Outside the trust-region steps no failed solve is recorded. -/
theorem isFailedSolve_inStep (e : Event) (h : e.isFailedSolve = true) : e.inStep = true := by
  cases e <;> simp_all [Event.isFailedSolve, Event.inStep]

/-- The trust-region loop entered with no failed solve on record is left
with none, or is left by `goto cleanup` in the state of a failed solve. -/
theorem trustRegionLoop_failed (prob : OptProb) (model : Model) (cm : Convexified) :
    ∀ fuel s e t, s.trace.countP Event.isFailedSolve = 0 →
      trustRegionLoop prob model cm fuel s = some (e, t) →
      t.trace.countP Event.isFailedSolve = 0 ∨
        (e = InnerExit.cleanup ∧ ∃ u cm2, u.trace.countP Event.isFailedSolve = 0 ∧
          (solveTrustBox prob model cm2 u).1.1 ≠ CvxOptStatus.CVX_SOLVED ∧
          t = { (solveTrustBox prob model cm2 u).2 with retval := OptStatus.OPT_FAILED }) := by
  intro fuel
  induction fuel with
  | zero => intro s e t _ h; simp [trustRegionLoop] at h
  | succ n ih =>
    intro s e t h0 h
    by_cases hc : Dbl.ge s.param_.trust_box_size (Dbl.fin s.param_.min_trust_box_size) = true
    · rw [trustRegionLoop_pass prob model cm n s hc] at h
      have hcount := trustRegionStep_count_failed prob model cm s
      by_cases hs : (solveTrustBox prob model cm s).1.1 = CvxOptStatus.CVX_SOLVED
      · rw [if_pos hs, h0] at hcount
        cases hk : (trustRegionStep prob model cm s).1 <;> rw [hk] at h <;>
          simp only [Option.some.injEq, Prod.mk.injEq] at h
        · rw [← h.2]; exact Or.inl hcount
        · rw [← h.2]; exact Or.inl hcount
        · rw [← h.2]; exact Or.inl hcount
        · exact ih _ _ _ hcount h
        · rw [← h.2]; exact Or.inl hcount
      · have hf := trustRegionStep_failed prob model cm s hs
        rw [hf] at h
        simp only [Option.some.injEq, Prod.mk.injEq] at h
        exact Or.inr ⟨h.1.symm, s, cm, h0, hs, h.2.symm⟩
    · rw [trustRegionLoop_exit prob model cm n s hc] at h
      simp only [Option.some.injEq, Prod.mk.injEq] at h
      rw [← h.2]; exact Or.inl h0

/-- The same for the SQP loop. -/
theorem sqpLoop_failed (prob : OptProb) (model : Model) (fuel : Nat) :
    ∀ k iter s e t, s.trace.countP Event.isFailedSolve = 0 →
      sqpLoop prob model fuel k iter s = some (e, t) →
      t.trace.countP Event.isFailedSolve = 0 ∨
        (e = SqpExit.cleanup ∧ ∃ u cm2, u.trace.countP Event.isFailedSolve = 0 ∧
          (solveTrustBox prob model cm2 u).1.1 ≠ CvxOptStatus.CVX_SOLVED ∧
          t = { (solveTrustBox prob model cm2 u).2 with retval := OptStatus.OPT_FAILED }) := by
  intro k
  induction k with
  | zero => intro iter s e t _ h; simp [sqpLoop] at h
  | succ n ih =>
    intro iter s e t h0 h
    rw [sqpLoop_succ] at h
    cases hi : sqpIteration prob model fuel iter s with
    | none => rw [hi] at h; simp at h
    | some r =>
      obtain ⟨y, v⟩ := r
      obtain ⟨e2, w, hw, hcase⟩ := sqpIteration_eq prob model fuel iter s y v hi
      have hp : (bootstrap prob (callCallbacks (s.emit (Event.sqpIteration iter)))).trace.countP
          Event.isFailedSolve = 0 := by
        rw [countP_outside _ isFailedSolve_inStep _ _ (iterationStart_outside prob iter s)]
        exact h0
      have hloop := trustRegionLoop_failed prob model _ fuel _ e2 w hp hw
      rw [hi] at h
      rcases hcase with ⟨he2, hy, ht⟩ | ⟨he2, hy, ht⟩ | ⟨he2, ht⟩
      · subst hy; subst ht
        simp only [Option.some.injEq, Prod.mk.injEq] at h
        rcases hloop with hl | ⟨-, hl⟩
        · rw [← h.2]; exact Or.inl hl
        · rw [← h.2]; exact Or.inr ⟨h.1.symm, hl⟩
      · subst hy; subst ht
        simp only [Option.some.injEq, Prod.mk.injEq] at h
        rcases hloop with hl | ⟨hl, -⟩
        · rw [← h.2]; exact Or.inl hl
        · rw [he2] at hl; cases hl
      · have hw0 : w.trace.countP Event.isFailedSolve = 0 := by
          rcases hloop with hl | ⟨hl, -⟩
          · exact hl
          · rw [he2] at hl; cases hl
        have hv0 : v.trace.countP Event.isFailedSolve = 0 := by
          have : v = (afterTrustRegionLoop iter w).2 := by rw [← ht]
          rw [this, countP_outside _ isFailedSolve_inStep _ _
            (afterTrustRegionLoop_outside iter w)]
          exact hw0
        cases y <;> simp only [Option.some.injEq, Prod.mk.injEq] at h
        · rw [← h.2]; exact Or.inl hv0
        · rw [← h.2]; exact Or.inl hv0
        · exact ih _ _ _ _ hv0 h

/-- The same for the merit loop. -/
theorem meritLoop_failed (prob : OptProb) (model : Model) (fuel : Nat) :
    ∀ k m s t, s.trace.countP Event.isFailedSolve = 0 →
      meritLoop prob model fuel k m s = some t →
      t.trace.countP Event.isFailedSolve = 0 ∨
        (∃ u cm2, u.trace.countP Event.isFailedSolve = 0 ∧
          (solveTrustBox prob model cm2 u).1.1 ≠ CvxOptStatus.CVX_SOLVED ∧
          t = { (solveTrustBox prob model cm2 u).2 with retval := OptStatus.OPT_FAILED }) := by
  intro k
  induction k with
  | zero => intro m s t _ h; simp [meritLoop] at h
  | succ n ih =>
    intro m s t h0 h
    by_cases hm : m < s.param_.max_merit_coeff_increases
    · rw [meritLoop_pass prob model fuel n m s hm] at h
      cases hq : sqpLoop prob model fuel fuel 1 (s.emit (Event.meritStage m)) with
      | none => rw [hq] at h; simp at h
      | some r =>
        obtain ⟨x, u⟩ := r
        have hs0 : (s.emit (Event.meritStage m)).trace.countP Event.isFailedSolve = 0 := by
          rw [countP_outside _ isFailedSolve_inStep _ _
            (extendsBy_emit _ s (Event.meritStage m) rfl)]
          exact h0
        have hloop := sqpLoop_failed prob model fuel fuel 1 _ x u hs0 hq
        rw [hq] at h
        cases x
        · simp only [Option.some.injEq] at h
          rw [← h]
          rcases hloop with hl | ⟨-, hl⟩
          · exact Or.inl hl
          · exact Or.inr hl
        · have hu0 : u.trace.countP Event.isFailedSolve = 0 := by
            rcases hloop with hl | ⟨hl, -⟩
            · exact hl
            · cases hl
          have hpa0 : (penaltyAdjustment u).2.trace.countP Event.isFailedSolve = 0 := by
            rw [countP_outside _ isFailedSolve_inStep _ _ (penaltyAdjustment_outside u)]
            exact hu0
          simp only [] at h
          split_ifs at h
          · simp only [Option.some.injEq] at h
            rw [← h]; exact Or.inl hpa0
          · exact ih _ _ _ hpa0 h
    · rw [meritLoop_limit prob model fuel n m s hm] at h
      simp only [Option.some.injEq] at h
      rw [← h]
      left
      rw [countP_outside _ isFailedSolve_inStep s _
        ⟨[Event.penaltyLimit], rfl, by simp [Event.inStep]⟩]
      exact h0

/-- What the solve of lines 565–568 records. -/
theorem solveTrustBox_trace (prob : OptProb) (model : Model) (cm : Convexified) (s : SQPState) :
    ∃ pre, (∀ e ∈ pre, e = Event.assertFailed 192) ∧
      (solveTrustBox prob model cm s).2.trace =
        s.trace ++ pre ++ [Event.qpSolve (solveTrustBox prob model cm s).1.1] := by
  by_cases hc : prob.vars.length = s.results_.x.length
  · exact ⟨[], by simp, by simp [solveTrustBox, SQPState.assert, SQPState.emit, hc]⟩
  · exact ⟨[Event.assertFailed 192], by simp,
      by simp [solveTrustBox, SQPState.assert, SQPState.emit, hc]⟩

/-- A failed solve is on record exactly when the count of failed solves is
positive. -/
theorem failedSolve_mem_iff (l : List Event) :
    (∃ status, status ≠ CvxOptStatus.CVX_SOLVED ∧ Event.qpSolve status ∈ l) ↔
      0 < l.countP Event.isFailedSolve := by
  rw [List.countP_pos_iff]
  constructor
  · rintro ⟨status, hs, hm⟩
    exact ⟨_, hm, by simp [Event.isFailedSolve, hs]⟩
  · rintro ⟨e, hm, he⟩
    cases e <;> simp [Event.isFailedSolve] at he
    exact ⟨_, he, hm⟩

set_option maxRecDepth 8000 in
set_option maxHeartbeats 1000000 in
theorem run_failed_counts : ∃ s, optimize flatProb failingModel 1 (freshOptimizer unitBoxParams []) =
      some (Run.returned OptStatus.OPT_FAILED s) ∧
      s.trace.countP Event.isFailedSolve = 1 ∧ s.results_.n_qp_solves = 1 ∧
      s.results_.n_func_evals = 1 ∧ s.results_.x = [0] ∧ s.results_.total_cost = 1 := by
  norm_num [optimize, startState, meritLoop, sqpLoop, sqpIteration, trustRegionLoop,
    afterTrustRegionLoop, bootstrap, callCallbacks, cleanup, penaltyAdjustment, escalate,
    freshOptimizer, trustRegionStep, solveTrustBox, buildReport, applyDecision, stepDecision,
    convexify, flatProb, failingModel, flatCost, unitBoxParams,
    BasicTrustRegionSQPParameters.defaults, BasicTrustRegionSQPResults.update, SQPState.assert,
    SQPState.emit, evaluateCosts, evaluateModelCosts, evaluateConstraintViols,
    evaluateModelCntViols, convexifyCosts, convexifyConstraints, vecSum, vecMax, Dbl.fdiv,
    Dbl.lt, Dbl.le, Dbl.ge, Dbl.mul, setTrustBoxConstraints, adjustTrustRegion,
    cvx_failed_ne_solved, opt_failed_ne_invalid, opt_converged_ne_invalid,
    opt_sco_limit_ne_invalid, opt_penalty_limit_ne_invalid, List.countP_cons,
    Event.isFailedSolve]

/-- C11: a solve whose status is not `CVX_SOLVED` makes the trust-region
loop leave by `goto cleanup` with `retval = OPT_FAILED`, whatever the bound
on the passes; an SQP loop whose trust-region loop is left so is left so at
once, the merit loop then ends at once, and `optimize` returns.  In a run of
`optimize` that returns with such a solve on record, the value returned is
`OPT_FAILED`, and the solve was made in a state `u` with no failed solve
before it such that nothing but the final calls of the callbacks is recorded
after the solve, `results.x`, `cost_vals`, `cnt_viols` and the parameters
(`trust_box_size` and `merit_error_coeff` among them) are those of `u`,
`n_qp_solves` is that of `u` plus one, `n_func_evals` is that of `u`,
`results.status` is `OPT_FAILED` and `results.total_cost` is the sum of the
`cost_vals` of `u`. -/
theorem failed_solve_ends_run (prob : OptProb) (model : Model) (fuel : Nat)
    (o : BasicTrustRegionSQP) (r : OptStatus) (s : SQPState)
    (h : optimize prob model fuel o = some (Run.returned r s))
    (hfail : ∃ status, status ≠ CvxOptStatus.CVX_SOLVED ∧ Event.qpSolve status ∈ s.trace) :
    (∀ cm u n, (solveTrustBox prob model cm u).1.1 ≠ CvxOptStatus.CVX_SOLVED →
      Dbl.ge u.param_.trust_box_size (Dbl.fin u.param_.min_trust_box_size) = true →
      trustRegionLoop prob model cm (n + 1) u =
        some (InnerExit.cleanup,
          { (solveTrustBox prob model cm u).2 with retval := OptStatus.OPT_FAILED })) ∧
    (∀ (fuel2 k : Nat) (iter : Int) (s0 t : SQPState),
      trustRegionLoop prob model
        (convexify prob (bootstrap prob (callCallbacks (s0.emit (Event.sqpIteration iter)))))
        fuel2 (bootstrap prob (callCallbacks (s0.emit (Event.sqpIteration iter)))) =
          some (InnerExit.cleanup, t) →
      sqpLoop prob model fuel2 (k + 1) iter s0 = some (SqpExit.cleanup, t)) ∧
    (∀ (fuel2 k : Nat) (m : Int) (s0 t : SQPState), m < s0.param_.max_merit_coeff_increases →
      sqpLoop prob model fuel2 fuel2 1 (s0.emit (Event.meritStage m)) =
        some (SqpExit.cleanup, t) →
      meritLoop prob model fuel2 (k + 1) m s0 = some t) ∧
    (∀ (fuel2 : Nat) (o2 : BasicTrustRegionSQP) (t : SQPState), o2.results_.x ≠ [] →
      meritLoop prob model fuel2 fuel2 0 (startState prob o2) = some t →
      optimize prob model fuel2 o2 = some (Run.returned t.retval (cleanup t))) ∧
    r = OptStatus.OPT_FAILED ∧
    ∃ u cm pre, (solveTrustBox prob model cm u).1.1 ≠ CvxOptStatus.CVX_SOLVED ∧
      (∀ e ∈ u.trace, e.isFailedSolve = false) ∧ (∀ e ∈ pre, e = Event.assertFailed 192) ∧
      s.trace = u.trace ++ pre ++ [Event.qpSolve (solveTrustBox prob model cm u).1.1] ++
        u.callbacks_.map (fun cb => Event.callback cb s.results_) ∧
      s.results_.x = u.results_.x ∧ s.results_.cost_vals = u.results_.cost_vals ∧
      s.results_.cnt_viols = u.results_.cnt_viols ∧ s.param_ = u.param_ ∧
      s.param_.trust_box_size = u.param_.trust_box_size ∧
      s.param_.merit_error_coeff = u.param_.merit_error_coeff ∧
      s.results_.n_qp_solves = u.results_.n_qp_solves + 1 ∧
      s.results_.n_func_evals = u.results_.n_func_evals ∧
      s.results_.status = OptStatus.OPT_FAILED ∧
      s.results_.total_cost = vecSum u.results_.cost_vals := by
  refine ⟨?_, ?_, ?_, ?_, ?_⟩
  · intro cm u n hs hc
    rw [trustRegionLoop_pass prob model cm n u hc, trustRegionStep_failed prob model cm u hs]
  · intro fuel2 k iter s0 t hl
    rw [sqpLoop_succ]
    unfold sqpIteration
    simp only []
    rw [hl]
  · intro fuel2 k m s0 t hm hq
    rw [meritLoop_pass prob model fuel2 k m s0 hm, hq]
  · intro fuel2 o2 t hx hm
    unfold optimize
    rw [if_neg (by intro hl; exact hx (List.length_eq_zero.mp hl)), hm]
  · obtain ⟨s3, hm, hr, hs, h3⟩ := optimize_cleanup_state prob model fuel o r s h
    have hin := isFailedSolve_inStep
    obtain ⟨z1, e1⟩ := run_countP_inStep prob o Event.isFailedSolve hin s3 h3
    have hpos := (failedSolve_mem_iff s.trace).mp hfail
    rw [hs, e1] at hpos
    rcases meritLoop_failed prob model fuel fuel 0 _ s3 z1 hm with h0 | ⟨u, cm, hu0, hus, ht⟩
    · omega
    · obtain ⟨a1, a2, a3, a4, a5, a6, -, a8⟩ := solveTrustBox_frame prob model cm u
      obtain ⟨pre, hpre, htr⟩ := solveTrustBox_trace prob model cm u
      have hret : s3.retval = OptStatus.OPT_FAILED := by rw [ht]
      have hres3 : s3.results_ = (solveTrustBox prob model cm u).2.results_ := by rw [ht]
      have hpar3 : s3.param_ = (solveTrustBox prob model cm u).2.param_ := by rw [ht]
      have hcb3 : s3.callbacks_ = (solveTrustBox prob model cm u).2.callbacks_ := by rw [ht]
      have htr3 : s3.trace = (solveTrustBox prob model cm u).2.trace := by rw [ht]
      obtain ⟨c1, -, -, c4, c5, c6, c7, c8, c9, c10, c11⟩ := cleanup_fields s3 h3
      have hres := cleanup_results s3 h3
      refine ⟨by rw [hr, hret], u, cm, pre, hus, ?_, hpre, ?_, ?_, ?_, ?_, ?_, ?_, ?_, ?_, ?_, ?_,
        ?_⟩
      · intro e he
        have := (List.countP_eq_zero.mp hu0) e he
        simpa using this
      · rw [hs, c11, hres, htr3, htr, hcb3, a8]
      · rw [hs, c6, hres3, a2]
      · rw [hs, c7, hres3, a3]
      · rw [hs, c8, hres3, a4]
      · rw [hs, c1, hpar3, a1]
      · rw [hs, c1, hpar3, a1]
      · rw [hs, c1, hpar3, a1]
      · rw [hs, c10, hres3, a6]
      · rw [hs, c9, hres3, a5]
      · rw [hs, c4, hret]
      · rw [hs, c5, hres3, a3]

/-- Witness for C11: the run of `failingModel` on `flatProb`; its first
solve fails and it returns `OPT_FAILED` with `x = [0]`, one solve and one
evaluation counted and `total_cost = 1`. -/
theorem failed_solve_ends_run_witness :
    ∃ s, optimize flatProb failingModel 1 (freshOptimizer unitBoxParams []) =
        some (Run.returned OptStatus.OPT_FAILED s) ∧
      s.results_.status = OptStatus.OPT_FAILED ∧ s.results_.n_qp_solves = 1 ∧
      s.results_.n_func_evals = 1 ∧ s.results_.x = [0] ∧ s.results_.total_cost = 1 := by
  obtain ⟨s, h, hc, hq, hf, hx, ht⟩ := run_failed_counts
  obtain ⟨-, -, -, -, -, u, cm, pre, -, -, -, -, -, -, -, -, -, -, -, -, hst, -⟩ :=
    failed_solve_ends_run _ _ _ _ _ s h ((failedSolve_mem_iff s.trace).mpr (by rw [hc]; decide))
  exact ⟨s, h, hst, hq, hf, hx, ht⟩

/-! ## Shrinking until the trust region is tiny (C19) -/

/-- A rejected step records one rejection and no acceptance. -/
theorem trustRegionStep_shrunk_counts (prob : OptProb) (model : Model) (cm : Convexified)
    (s : SQPState) (hk : (trustRegionStep prob model cm s).1 = StepKind.shrunk) :
    (trustRegionStep prob model cm s).2.trace.countP Event.isShrunk =
      s.trace.countP Event.isShrunk + 1 ∧
    (trustRegionStep prob model cm s).2.trace.countP Event.isAccepted =
      s.trace.countP Event.isAccepted := by
  obtain ⟨hs, hd⟩ := (trustRegionStep_shrunk_iff prob model cm s).mp hk
  obtain ⟨pre, post, hpre, hpost, htr⟩ := trustRegionStep_trace prob model cm s
  have h1 : pre.countP Event.isShrunk = 0 :=
    countP_eq_zero_of_forall _ _ (fun e he => by rw [hpre e he]; rfl)
  have h2 : post.countP Event.isShrunk = 0 :=
    countP_eq_zero_of_forall _ _ (fun e he => by obtain ⟨h, rfl⟩ := hpost e he; rfl)
  have h3 : pre.countP Event.isAccepted = 0 :=
    countP_eq_zero_of_forall _ _ (fun e he => by rw [hpre e he]; rfl)
  have h4 : post.countP Event.isAccepted = 0 :=
    countP_eq_zero_of_forall _ _ (fun e he => by obtain ⟨h, rfl⟩ := hpost e he; rfl)
  rw [htr, if_pos hs, hd]
  simp [List.countP_append, h1, h2, h3, h4, Event.isShrunk, Event.isAccepted, Decision.event]

/-- The state after `j` rejected steps in a row: the trust box has shrunk
`j` times, `j` solves and `j` rejections are counted, and the iterate is
where it was. -/
theorem stepIterate_shrunk (prob : OptProb) (model : Model) (cm : Convexified) :
    ∀ (j : Nat) (s : SQPState) (d : ℚ), s.param_.trust_box_size = Dbl.fin d →
      (∀ i, i < j → (trustRegionStep prob model cm (stepIterate prob model cm i s)).1 =
        StepKind.shrunk) →
      (stepIterate prob model cm j s).param_ =
        { s.param_ with trust_box_size := Dbl.fin (d * s.param_.trust_shrink_ratio ^ j) } ∧
      (stepIterate prob model cm j s).results_.x = s.results_.x ∧
      (stepIterate prob model cm j s).results_.cost_vals = s.results_.cost_vals ∧
      (stepIterate prob model cm j s).results_.cnt_viols = s.results_.cnt_viols ∧
      (stepIterate prob model cm j s).retval = s.retval ∧
      (stepIterate prob model cm j s).callbacks_ = s.callbacks_ ∧
      (stepIterate prob model cm j s).results_.n_qp_solves = s.results_.n_qp_solves + j ∧
      (stepIterate prob model cm j s).trace.countP Event.isQpSolve =
        s.trace.countP Event.isQpSolve + j ∧
      (stepIterate prob model cm j s).trace.countP Event.isShrunk =
        s.trace.countP Event.isShrunk + j ∧
      (stepIterate prob model cm j s).trace.countP Event.isAccepted =
        s.trace.countP Event.isAccepted ∧
      (stepIterate prob model cm j s).trace.countP Event.isSqpIteration =
        s.trace.countP Event.isSqpIteration := by
  intro j
  induction j with
  | zero =>
    intro s d hd _
    refine ⟨?_, rfl, rfl, rfl, rfl, rfl, by simp [stepIterate], rfl, rfl, rfl, rfl⟩
    show s.param_ = _
    rw [pow_zero, mul_one, ← hd]
  | succ n ih =>
    intro s d hd hall
    have h0 : (trustRegionStep prob model cm s).1 = StepKind.shrunk := hall 0 (Nat.succ_pos n)
    obtain ⟨hs, hdec⟩ := (trustRegionStep_shrunk_iff prob model cm s).mp h0
    obtain ⟨f1, f2, f3, f4, f5, f6⟩ := trustRegionStep_shrink_state prob model cm s hs hdec
    obtain ⟨c1, c2⟩ := trustRegionStep_shrunk_counts prob model cm s h0
    have hq := (trustRegionStep_counters prob model cm s).1
    have hqc := trustRegionStep_count_qpSolve prob model cm s
    have hit := countP_of_extends Event.inStep Event.isSqpIteration _ _
      (trustRegionStep_extends prob model cm s) (fun e he => (inStep_quiet e he).2)
    have hd1 : (trustRegionStep prob model cm s).2.param_.trust_box_size =
        Dbl.fin (d * s.param_.trust_shrink_ratio) := by
      rw [f4, hd]; rfl
    have hρ : (trustRegionStep prob model cm s).2.param_.trust_shrink_ratio =
        s.param_.trust_shrink_ratio := by rw [f4]
    obtain ⟨g1, g2, g3, g4, g5, g6, g7, g8, g9, g10, g11⟩ :=
      ih (trustRegionStep prob model cm s).2 _ hd1 (fun i hi => hall (i + 1) (Nat.succ_lt_succ hi))
    refine ⟨?_, g2.trans f1, g3.trans f2, g4.trans f3, g5.trans f5, g6.trans f6, ?_, ?_, ?_,
      g10.trans c2, g11.trans hit⟩
    · show (stepIterate prob model cm n (trustRegionStep prob model cm s).2).param_ = _
      rw [g1, hρ, f4]
      simp only [BasicTrustRegionSQPParameters.mk.injEq, Dbl.fin.injEq, true_and, and_true]
      rw [pow_succ]; ring
    · show (stepIterate prob model cm n (trustRegionStep prob model cm s).2).results_.n_qp_solves
        = _
      rw [g7, hq]; push_cast; ring
    · show (stepIterate prob model cm n (trustRegionStep prob model cm s).2).trace.countP _ = _
      rw [g8, hqc]; omega
    · show (stepIterate prob model cm n (trustRegionStep prob model cm s).2).trace.countP _ = _
      rw [g9, c1]; omega

/-- A trust-region loop whose first `k` steps are rejected with the trust
box still large enough, and whose trust box is too small after them, is left
by its condition after exactly these `k` steps. -/
theorem trustRegionLoop_shrinks (prob : OptProb) (model : Model) (cm : Convexified) :
    ∀ (k : Nat) (s : SQPState) (fuel : Nat),
      (∀ j, j < k →
        (trustRegionStep prob model cm (stepIterate prob model cm j s)).1 = StepKind.shrunk ∧
        Dbl.ge (stepIterate prob model cm j s).param_.trust_box_size
          (Dbl.fin (stepIterate prob model cm j s).param_.min_trust_box_size) = true) →
      ¬ Dbl.ge (stepIterate prob model cm k s).param_.trust_box_size
          (Dbl.fin (stepIterate prob model cm k s).param_.min_trust_box_size) = true →
      k < fuel →
      trustRegionLoop prob model cm fuel s =
        some (InnerExit.fallthrough, stepIterate prob model cm k s) := by
  intro k
  induction k with
  | zero =>
    intro s fuel _ hex hf
    obtain ⟨n, rfl⟩ : ∃ n, fuel = n + 1 := ⟨fuel - 1, by omega⟩
    exact trustRegionLoop_exit prob model cm n s hex
  | succ m ih =>
    intro s fuel hall hex hf
    obtain ⟨n, rfl⟩ : ∃ n, fuel = n + 1 := ⟨fuel - 1, by omega⟩
    obtain ⟨h0, hc0⟩ := hall 0 (Nat.succ_pos m)
    rw [trustRegionLoop_pass prob model cm n s hc0]
    have h0' : (trustRegionStep prob model cm s).1 = StepKind.shrunk := h0
    rw [h0']
    exact ih (trustRegionStep prob model cm s).2 n
      (fun j hj => hall (j + 1) (Nat.succ_lt_succ hj)) hex (by omega)

theorem isQpSolve_inStep (e : Event) (h : e.isQpSolve = true) : e.inStep = true := by
  cases e <;> simp_all [Event.isQpSolve, Event.inStep]

theorem isShrunk_inStep (e : Event) (h : e.isShrunk = true) : e.inStep = true := by
  cases e <;> simp_all [Event.isShrunk, Event.inStep]

theorem isAccepted_inStep (e : Event) (h : e.isAccepted = true) : e.inStep = true := by
  cases e <;> simp_all [Event.isAccepted, Event.inStep]

/-- The state in which the first trust-region loop of a run is entered. -/
theorem firstIterate_fields (prob : OptProb) (o : BasicTrustRegionSQP) :
    (firstIterate prob o).param_ = o.param_ ∧
    (firstIterate prob o).callbacks_ = o.callbacks_ ∧
    (firstIterate prob o).retval = OptStatus.INVALID ∧
    (firstIterate prob o).results_.x = prob.getClosestFeasiblePoint o.results_.x ∧
    (firstIterate prob o).results_.n_qp_solves = o.results_.n_qp_solves ∧
    (firstIterate prob o).trace.countP Event.isQpSolve = 0 ∧
    (firstIterate prob o).trace.countP Event.isShrunk = 0 ∧
    (firstIterate prob o).trace.countP Event.isAccepted = 0 ∧
    (firstIterate prob o).trace.countP Event.isSqpIteration = 1 := by
  obtain ⟨g1, g2, g3, g4, g5⟩ := startState_fields prob o
  obtain ⟨i1, i2, i3⟩ := iterationStart_frame prob 1 ((startState prob o).emit (Event.meritStage 0))
  obtain ⟨-, -, -, b4, b5⟩ := bootstrap_frame prob
    (callCallbacks (((startState prob o).emit (Event.meritStage 0)).emit (Event.sqpIteration 1)))
  obtain ⟨boot, htr, hboot, -⟩ :=
    iterationStart_trace prob 1 ((startState prob o).emit (Event.meritStage 0))
  have hcount : ∀ c : Event → Bool, (∀ e, c e = true → e.inStep = true) →
      (firstIterate prob o).trace.countP c = 0 := by
    intro c hc
    have h1 := countP_outside c hc _ _
      (iterationStart_outside prob 1 ((startState prob o).emit (Event.meritStage 0)))
    have h2 := countP_outside c hc _ _
      (extendsBy_emit (fun e => !e.inStep) (startState prob o) (Event.meritStage 0) rfl)
    have h3 : (startState prob o).trace.countP c = 0 :=
      countP_eq_zero_of_forall _ _ (fun e he => by
        cases hce : c e
        · rfl
        · have h1 := hc e hce
          rcases g5 e he with h | h <;> rw [h] at h1 <;> simp [Event.inStep] at h1)
    unfold firstIterate
    rw [h1, h2, h3]
  refine ⟨i1.trans g1, i2.trans g2, i3.trans g3, ?_, ?_, ?_, ?_, ?_, ?_⟩
  · unfold firstIterate
    rw [b4]
    show (startState prob o).results_.x = _
    rw [g4]
  · unfold firstIterate
    rw [b5]
    show (startState prob o).results_.n_qp_solves = _
    rw [g4]
  · exact hcount Event.isQpSolve isQpSolve_inStep
  · exact hcount Event.isShrunk isShrunk_inStep
  · exact hcount Event.isAccepted isAccepted_inStep
  · unfold firstIterate
    rw [htr]
    have hb : boot.countP Event.isSqpIteration = 0 :=
      countP_eq_zero_of_forall _ _ (fun e he => by
        rcases hboot e he with h | h <;> rw [h] <;> rfl)
    have hs0 : (startState prob o).trace.countP Event.isSqpIteration = 0 :=
      countP_eq_zero_of_forall _ _ (fun e he => by rcases g5 e he with h | h <;> rw [h] <;> rfl)
    have hcb : (((startState prob o).emit (Event.meritStage 0)).callbacks_.map
        (fun cb => Event.callback cb
          ((startState prob o).emit (Event.meritStage 0)).results_)).countP
        Event.isSqpIteration = 0 :=
      countP_eq_zero_of_forall _ _ (fun e he => by
        obtain ⟨cb, -, rfl⟩ := List.mem_map.mp he; rfl)
    rw [List.countP_append, List.countP_cons, List.countP_append, hb, hcb]
    simp [SQPState.emit, List.countP_append, hs0, Event.isSqpIteration]

/-- On a problem without constraints, the first trust-region loop of a run
started with no violation stored is entered with no violation stored. -/
theorem firstIterate_cnt_viols (prob : OptProb) (o : BasicTrustRegionSQP)
    (hcn : prob.constraints = []) (hv : o.results_.cnt_viols = []) :
    (firstIterate prob o).results_.cnt_viols = [] := by
  have g4 := (startState_fields prob o).2.2.2.1
  cases hf : (callCallbacks (((startState prob o).emit (Event.meritStage 0)).emit
      (Event.sqpIteration 1))).fresh
  · unfold firstIterate
    rw [(bootstrap_fresh prob _).1 hf]
    show (startState prob o).results_.cnt_viols = []
    rw [g4]; exact hv
  · unfold firstIterate
    rw [((bootstrap_fresh prob _).2 hf).2.1, hcn]
    rfl

/-- A run whose first trust-region loop is left by its condition with a tiny
trust box and no violation stored returns `OPT_CONVERGED` from there. -/
theorem optimize_of_first_loop_tiny (prob : OptProb) (model : Model) (fuel : Nat)
    (o : BasicTrustRegionSQP) (t : SQPState) (hx : o.results_.x ≠ [])
    (hN : 1 ≤ o.param_.max_merit_coeff_increases)
    (hloop : trustRegionLoop prob model (convexify prob (firstIterate prob o)) fuel
      (firstIterate prob o) = some (InnerExit.fallthrough, t))
    (htiny : Dbl.lt t.param_.trust_box_size (Dbl.fin t.param_.min_trust_box_size) = true)
    (hv : t.results_.cnt_viols = []) :
    optimize prob model fuel o =
      some (Run.returned OptStatus.OPT_CONVERGED
        (cleanup ((({ t with retval := OptStatus.OPT_CONVERGED } : SQPState).emit
          Event.tiny).emit Event.satisfied))) := by
  have hxl : ¬ o.results_.x.length = 0 := by
    intro h; exact hx (List.length_eq_zero.mp h)
  obtain ⟨n, rfl⟩ : ∃ n, fuel = n + 1 := by
    cases fuel with
    | zero => simp [trustRegionLoop] at hloop
    | succ n => exact ⟨n, rfl⟩
  have hm : (0 : Int) < (startState prob o).param_.max_merit_coeff_increases := by
    rw [(startState_fields prob o).1]; omega
  have hit : sqpIteration prob model (n + 1) 1 ((startState prob o).emit (Event.meritStage 0)) =
      some (IterExit.penaltyadjustment,
        ({ t with retval := OptStatus.OPT_CONVERGED } : SQPState).emit Event.tiny) := by
    unfold sqpIteration
    simp only []
    have hl : trustRegionLoop prob model
        (convexify prob (bootstrap prob (callCallbacks
          (((startState prob o).emit (Event.meritStage 0)).emit (Event.sqpIteration 1)))))
        (n + 1) (bootstrap prob (callCallbacks
          (((startState prob o).emit (Event.meritStage 0)).emit (Event.sqpIteration 1)))) =
        some (InnerExit.fallthrough, t) := hloop
    rw [hl]
    rcases afterTrustRegionLoop_cases 1 t with ⟨-, c⟩ | ⟨c0, -, -⟩ | ⟨c0, -, -⟩
    · simp only [c]
    · rw [htiny] at c0; cases c0
    · rw [htiny] at c0; cases c0
  have hsq : sqpLoop prob model (n + 1) (n + 1) 1 ((startState prob o).emit (Event.meritStage 0)) =
      some (SqpExit.penaltyadjustment,
        ({ t with retval := OptStatus.OPT_CONVERGED } : SQPState).emit Event.tiny) := by
    rw [sqpLoop_succ, hit]
  have hpa : penaltyAdjustment
      (({ t with retval := OptStatus.OPT_CONVERGED } : SQPState).emit Event.tiny) =
      (true, (({ t with retval := OptStatus.OPT_CONVERGED } : SQPState).emit
        Event.tiny).emit Event.satisfied) := by
    unfold penaltyAdjustment
    rw [if_pos]
    left
    show t.results_.cnt_viols.isEmpty = true
    rw [hv]; rfl
  have hml : meritLoop prob model (n + 1) (n + 1) 0 (startState prob o) =
      some ((({ t with retval := OptStatus.OPT_CONVERGED } : SQPState).emit
        Event.tiny).emit Event.satisfied) := by
    rw [meritLoop_pass prob model (n + 1) n 0 _ hm, hsq]
    simp only [hpa, if_true]
  unfold optimize
  rw [if_neg hxl, hml]
  rfl

/-- With `ρ < 1` and `0 < min ≤ d`, there is a least `k` with
`d · ρ^k < min`. -/
theorem exists_least_shrinks (d ρ min : ℚ) (hρ1 : ρ < 1) (hmin : 0 < min) (hd : min ≤ d) :
    ∃ k : Nat, d * ρ ^ k < min ∧ ∀ j, j < k → min ≤ d * ρ ^ j := by
  have hd0 : 0 < d := lt_of_lt_of_le hmin hd
  have hex : ∃ n : Nat, d * ρ ^ n < min := by
    obtain ⟨n, hn⟩ := exists_pow_lt_of_lt_one (div_pos hmin hd0) hρ1
    refine ⟨n, ?_⟩
    have := mul_lt_mul_of_pos_left hn hd0
    rwa [mul_div_cancel₀ _ hd0.ne'] at this
  classical
  exact ⟨Nat.find hex, Nat.find_spec hex, fun j hj => not_lt.mp (Nat.find_min hex hj)⟩

/-- The final calls of the callbacks aside, the record of a run is the
record at the label `cleanup`. -/
theorem cleanup_countP (c : Event → Bool) (s3 : SQPState) (h3 : s3.retval ≠ OptStatus.INVALID)
    (hcb : ∀ cb r, c (Event.callback cb r) = false) :
    (cleanup s3).trace.countP c = s3.trace.countP c := by
  rw [(cleanup_fields s3 h3).2.2.2.2.2.2.2.2.2.2, List.countP_append]
  have : (s3.callbacks_.map fun cb => Event.callback cb
      { s3.results_ with status := s3.retval, total_cost := vecSum s3.results_.cost_vals }).countP c
      = 0 :=
    countP_eq_zero_of_forall c _ (fun e he => by
      obtain ⟨cb, -, rfl⟩ := List.mem_map.mp he
      exact hcb _ _)
  omega

/-- The run in which every step of the first trust-region loop is rejected
until the trust box, shrunk `k` times from `d0`, is below
`min_trust_box_size`. -/
theorem optimize_shrinks (prob : OptProb) (model : Model) (o : BasicTrustRegionSQP) (d0 : ℚ)
    (k fuel : Nat) (hx : o.results_.x ≠ []) (hcn : prob.constraints = [])
    (hv : o.results_.cnt_viols = []) (hN : 1 ≤ o.param_.max_merit_coeff_increases)
    (hΔ : o.param_.trust_box_size = Dbl.fin d0)
    (hk : d0 * o.param_.trust_shrink_ratio ^ k < o.param_.min_trust_box_size)
    (hleast : ∀ j, j < k → o.param_.min_trust_box_size ≤ d0 * o.param_.trust_shrink_ratio ^ j)
    (hshrink : ∀ j, j < k →
      (trustRegionStep prob model (convexify prob (firstIterate prob o))
        (stepIterate prob model (convexify prob (firstIterate prob o)) j
          (firstIterate prob o))).1 = StepKind.shrunk)
    (hfuel : k < fuel) :
    ∃ s, optimize prob model fuel o = some (Run.returned OptStatus.OPT_CONVERGED s) ∧
      s.results_.x = prob.getClosestFeasiblePoint o.results_.x ∧
      s.results_.n_qp_solves = o.results_.n_qp_solves + k ∧
      s.trace.countP Event.isQpSolve = k ∧ s.trace.countP Event.isShrunk = k ∧
      s.trace.countP Event.isAccepted = 0 ∧ s.trace.countP Event.isSqpIteration = 1 ∧
      s.param_.trust_box_size = Dbl.fin (d0 * o.param_.trust_shrink_ratio ^ k) := by
  obtain ⟨p1, p2, p3, p4, p5, p6, p7, p8, p9⟩ := firstIterate_fields prob o
  have hΔ1 : (firstIterate prob o).param_.trust_box_size = Dbl.fin d0 := by rw [p1]; exact hΔ
  have hstate : ∀ j, j ≤ k →
      (stepIterate prob model (convexify prob (firstIterate prob o)) j
        (firstIterate prob o)).param_ =
        { o.param_ with trust_box_size := Dbl.fin (d0 * o.param_.trust_shrink_ratio ^ j) } := by
    intro j hj
    have h := (stepIterate_shrunk prob model _ j (firstIterate prob o) d0 hΔ1
      (fun i hi => hshrink i (lt_of_lt_of_le hi hj))).1
    rw [h, p1]
  obtain ⟨-, t2, -, t4, -, -, t7, t8, t9, t10, t11⟩ :=
    stepIterate_shrunk prob model _ k (firstIterate prob o) d0 hΔ1 hshrink
  have hloop := trustRegionLoop_shrinks prob model (convexify prob (firstIterate prob o)) k
    (firstIterate prob o) fuel
    (fun j hj => ⟨hshrink j hj, by
      rw [hstate j (le_of_lt hj)]
      simpa [Dbl.ge, Dbl.le] using hleast j hj⟩)
    (by
      rw [hstate k (le_refl k)]
      simpa [Dbl.ge, Dbl.le] using hk)
    hfuel
  have htiny : Dbl.lt
      (stepIterate prob model (convexify prob (firstIterate prob o)) k
        (firstIterate prob o)).param_.trust_box_size
      (Dbl.fin (stepIterate prob model (convexify prob (firstIterate prob o)) k
        (firstIterate prob o)).param_.min_trust_box_size) = true := by
    rw [hstate k (le_refl k)]
    simpa [Dbl.lt] using hk
  have hv2 : (stepIterate prob model (convexify prob (firstIterate prob o)) k
      (firstIterate prob o)).results_.cnt_viols = [] := by
    rw [t4]; exact firstIterate_cnt_viols prob o hcn hv
  have hrun := optimize_of_first_loop_tiny prob model fuel o _ hx hN hloop htiny hv2
  have hpk := hstate k (le_refl k)
  refine ⟨_, hrun, ?_⟩
  generalize stepIterate prob model (convexify prob (firstIterate prob o)) k
    (firstIterate prob o) = t at *
  have h3 : ((({ t with retval := OptStatus.OPT_CONVERGED } : SQPState).emit
      Event.tiny).emit Event.satisfied).retval ≠ OptStatus.INVALID := by
    show OptStatus.OPT_CONVERGED ≠ OptStatus.INVALID
    decide
  obtain ⟨c1, -, -, -, -, c6, -, -, -, c10, -⟩ := cleanup_fields _ h3
  have hcnt : ∀ c : Event → Bool, c Event.tiny = false → c Event.satisfied = false →
      (∀ cb r, c (Event.callback cb r) = false) →
      (cleanup ((({ t with retval := OptStatus.OPT_CONVERGED } : SQPState).emit
        Event.tiny).emit Event.satisfied)).trace.countP c = t.trace.countP c := by
    intro c h1 h2 hcb
    rw [cleanup_countP c _ h3 hcb]
    simp [SQPState.emit, List.countP_append, h1, h2]
  refine ⟨?_, ?_, ?_, ?_, ?_, ?_, ?_⟩
  · rw [c6]
    show t.results_.x = _
    rw [t2, p4]
  · rw [c10]
    show t.results_.n_qp_solves = _
    rw [t7, p5]
  · rw [hcnt Event.isQpSolve rfl rfl (fun _ _ => rfl), t8, p6]; omega
  · rw [hcnt Event.isShrunk rfl rfl (fun _ _ => rfl), t9, p7]; omega
  · rw [hcnt Event.isAccepted rfl rfl (fun _ _ => rfl), t10, p8]
  · rw [hcnt Event.isSqpIteration rfl rfl (fun _ _ => rfl), t11, p9]
  · rw [c1]
    show t.param_.trust_box_size = _
    rw [hpk]

/-- On `flatProb` at `x = 0`, with the default thresholds, every step of
`shiftModel 1` is rejected: the model promises an improvement of 1 and the
cost does not change. -/
theorem flat_step_shrunk (s : SQPState) (cm : Convexified) (hcx : cm.x = [0])
    (hcc : cm.cost_models = convexifyCosts flatProb.costs [0]) (hcn : cm.cnt_models = [])
    (hx : s.results_.x = [0]) (hc : s.results_.cost_vals = [1]) (hv : s.results_.cnt_viols = [])
    (h1 : s.param_.improve_ratio_threshold = 1 / 4)
    (h2 : s.param_.min_approx_improve = 1 / 10000)
    (h3 : s.param_.min_approx_improve_frac = Dbl.ninf) :
    (trustRegionStep flatProb (shiftModel 1) cm s).1 = StepKind.shrunk := by
  rw [trustRegionStep_shrunk_iff]
  have hs : (solveTrustBox flatProb (shiftModel 1) cm s).1 = (CvxOptStatus.CVX_SOLVED, [1]) := by
    rw [solveTrustBox_fst, hcx]
    norm_num [shiftModel]
  refine ⟨by rw [hs], ?_⟩
  obtain ⟨a1, a2, a3, a4, -⟩ := solveTrustBox_frame flatProb (shiftModel 1) cm s
  have key : ∀ (r : OptResults) (μ : ℚ), r.x = [0] → r.cost_vals = [1] → r.cnt_viols = [] →
      BasicTrustRegionSQPResults.update r [1] (convexifyCosts flatProb.costs [0]) []
        flatProb.constraints flatProb.costs μ =
      { model_var_vals := [1], model_cost_vals := [0], model_cnt_viols := [],
        new_x := [1], new_cost_vals := [1], old_cost_vals := [1], new_cnt_viols := [],
        old_cnt_viols := [], old_merit := 1, model_merit := 0, new_merit := 1,
        approx_merit_improve := 1, exact_merit_improve := 0,
        merit_improve_ratio := Dbl.fin 0, merit_error_coeff := μ } := by
    intro r μ r1 r2 r3
    norm_num [BasicTrustRegionSQPResults.update, r1, r2, r3, flatProb, flatCost,
      evaluateCosts, evaluateModelCosts, evaluateConstraintViols, evaluateModelCntViols,
      convexifyCosts, vecSum, Dbl.fdiv]
  have hrep : stepReport flatProb (shiftModel 1) cm s =
      { model_var_vals := [1], model_cost_vals := [0], model_cnt_viols := [],
        new_x := [1], new_cost_vals := [1], old_cost_vals := [1], new_cnt_viols := [],
        old_cnt_viols := [], old_merit := 1, model_merit := 0, new_merit := 1,
        approx_merit_improve := 1, exact_merit_improve := 0,
        merit_improve_ratio := Dbl.fin 0, merit_error_coeff := s.param_.merit_error_coeff } := by
    unfold stepReport buildReport
    simp only []
    rw [hs, a1, hcc, hcn]
    exact key _ _ (a2.trans hx) (a3.trans hc) (a4.trans hv)
  rw [hrep]
  norm_num [stepDecision, h1, h2, h3, Dbl.fdiv, Dbl.lt]

/-- Counterexample to C19 as stated.  On `flatProb`, which has no constraint,
with `trust_shrink_ratio = 0.1`, `min_trust_box_size = 1e-4` and `Δ₀ = 1`:
with `max_merit_coeff_increases = 0` the run makes no solve and returns
`OPT_PENALTY_ITERATION_LIMIT`; and with the default cap and a backend whose
solve fails the run makes one solve, none of them solved, and returns
`OPT_FAILED`.  In both runs every solved step is rejected, as there is none,
and the least `k` with `Δ₀ · ρ^k < min_trust_box_size` is 5. -/
theorem shrink_counterexample :
    flatProb.constraints = [] ∧
    (0 : ℚ) < noStageParams.trust_shrink_ratio ∧ noStageParams.trust_shrink_ratio < 1 ∧
    0 < noStageParams.min_trust_box_size ∧ noStageParams.trust_box_size = Dbl.fin 1 ∧
    noStageParams.min_trust_box_size ≤ 1 ∧
    (1 * noStageParams.trust_shrink_ratio ^ 5 < noStageParams.min_trust_box_size ∧
      ∀ j, j < 5 → noStageParams.min_trust_box_size ≤ 1 * noStageParams.trust_shrink_ratio ^ j) ∧
    (∃ s, optimize flatProb (shiftModel 0) 1 (freshOptimizer noStageParams []) =
        some (Run.returned OptStatus.OPT_PENALTY_ITERATION_LIMIT s) ∧
      s.trace.countP Event.isQpSolve = 0 ∧ s.trace.countP Event.isReport = 0) ∧
    (unitBoxParams.trust_shrink_ratio = noStageParams.trust_shrink_ratio ∧
      unitBoxParams.min_trust_box_size = noStageParams.min_trust_box_size ∧
      unitBoxParams.trust_box_size = noStageParams.trust_box_size ∧
      1 ≤ unitBoxParams.max_merit_coeff_increases) ∧
    (∃ s, optimize flatProb failingModel 1 (freshOptimizer unitBoxParams []) =
        some (Run.returned OptStatus.OPT_FAILED s) ∧
      s.results_.n_qp_solves = 1 ∧ s.trace.countP Event.isFailedSolve = 1) := by
  refine ⟨rfl, ?_, ?_, ?_, rfl, ?_, ⟨?_, ?_⟩, ?_, ⟨rfl, rfl, rfl, by decide⟩, ?_⟩
  · norm_num [noStageParams, unitBoxParams, BasicTrustRegionSQPParameters.defaults]
  · norm_num [noStageParams, unitBoxParams, BasicTrustRegionSQPParameters.defaults]
  · norm_num [noStageParams, unitBoxParams, BasicTrustRegionSQPParameters.defaults]
  · norm_num [noStageParams, unitBoxParams, BasicTrustRegionSQPParameters.defaults]
  · norm_num [noStageParams, unitBoxParams, BasicTrustRegionSQPParameters.defaults]
  · intro j hj
    interval_cases j <;>
      norm_num [noStageParams, unitBoxParams, BasicTrustRegionSQPParameters.defaults]
  · obtain ⟨s, h, -, -, hr, hq, -⟩ := run_no_stage_counts
    exact ⟨s, h, hq, hr⟩
  · obtain ⟨s, h, hc, hq, -⟩ := run_failed_counts
    exact ⟨s, h, hq, hc⟩

/-- C19, amended: take a problem without constraints and a run of `optimize`
started with no violation stored, with `max_merit_coeff_increases ≥ 1`,
`trust_shrink_ratio < 1`, `min_trust_box_size > 0` and an initial trust box
`Δ₀ ≥ min_trust_box_size`.  If every step of the first trust-region loop
made while the shrunk trust box is still `≥ min_trust_box_size` is solved
and falls in the shrink branch, then there is a least `k` with
`Δ₀ · ρ^k < min_trust_box_size`, and with more than `k` passes allowed the
run returns `OPT_CONVERGED` after exactly `k` solves, all rejected, none
accepted, in its first SQP iteration, with `results.x` the starting point
and the trust box `Δ₀ · ρ^k`.  For the defaults `Δ₀ = 0.1`, `ρ = 0.1`,
`min_trust_box_size = 1e-4`, `k = 4`. -/
theorem shrink_until_tiny (prob : OptProb) (model : Model) (o : BasicTrustRegionSQP) (d0 : ℚ)
    (hx : o.results_.x ≠ []) (hcn : prob.constraints = [])
    (hv : o.results_.cnt_viols = []) (hN : 1 ≤ o.param_.max_merit_coeff_increases)
    (hρ1 : o.param_.trust_shrink_ratio < 1) (hmin : 0 < o.param_.min_trust_box_size)
    (hΔ : o.param_.trust_box_size = Dbl.fin d0) (hd0 : o.param_.min_trust_box_size ≤ d0)
    (hshrink : ∀ j : Nat,
      o.param_.min_trust_box_size ≤ d0 * o.param_.trust_shrink_ratio ^ j →
      (trustRegionStep prob model (convexify prob (firstIterate prob o))
        (stepIterate prob model (convexify prob (firstIterate prob o)) j
          (firstIterate prob o))).1 = StepKind.shrunk) :
    (∃ k : Nat,
      (d0 * o.param_.trust_shrink_ratio ^ k < o.param_.min_trust_box_size ∧
        ∀ j, j < k → o.param_.min_trust_box_size ≤ d0 * o.param_.trust_shrink_ratio ^ j) ∧
      ∀ fuel, k < fuel →
        ∃ s, optimize prob model fuel o = some (Run.returned OptStatus.OPT_CONVERGED s) ∧
          s.results_.x = prob.getClosestFeasiblePoint o.results_.x ∧
          s.results_.n_qp_solves = o.results_.n_qp_solves + k ∧
          s.trace.countP Event.isQpSolve = k ∧ s.trace.countP Event.isShrunk = k ∧
          s.trace.countP Event.isAccepted = 0 ∧ s.trace.countP Event.isSqpIteration = 1 ∧
          s.param_.trust_box_size = Dbl.fin (d0 * o.param_.trust_shrink_ratio ^ k)) ∧
    (BasicTrustRegionSQPParameters.defaults.trust_box_size = Dbl.fin (1 / 10) ∧
      (1 / 10 * BasicTrustRegionSQPParameters.defaults.trust_shrink_ratio ^ 4 <
        BasicTrustRegionSQPParameters.defaults.min_trust_box_size ∧
      ∀ j, j < 4 → BasicTrustRegionSQPParameters.defaults.min_trust_box_size ≤
        1 / 10 * BasicTrustRegionSQPParameters.defaults.trust_shrink_ratio ^ j)) := by
  constructor
  · obtain ⟨k, hk, hleast⟩ := exists_least_shrinks d0 _ _ hρ1 hmin hd0
    refine ⟨k, ⟨hk, hleast⟩, ?_⟩
    intro fuel hfuel
    exact optimize_shrinks prob model o d0 k fuel hx hcn hv hN hΔ hk hleast
      (fun j hj => hshrink j (hleast j hj)) hfuel
  · refine ⟨rfl, ?_, ?_⟩
    · norm_num [BasicTrustRegionSQPParameters.defaults]
    · intro j hj
      interval_cases j <;> norm_num [BasicTrustRegionSQPParameters.defaults]

/-- The state in which the first trust-region loop of the run of the
witness is entered. -/
theorem flat_firstIterate :
    (firstIterate flatProb (freshOptimizer BasicTrustRegionSQPParameters.defaults [])).results_.x
      = [0] ∧
    (firstIterate flatProb
      (freshOptimizer BasicTrustRegionSQPParameters.defaults [])).results_.cost_vals = [1] ∧
    (firstIterate flatProb
      (freshOptimizer BasicTrustRegionSQPParameters.defaults [])).results_.cnt_viols = [] ∧
    (firstIterate flatProb (freshOptimizer BasicTrustRegionSQPParameters.defaults [])).param_ =
      BasicTrustRegionSQPParameters.defaults := by
  norm_num [firstIterate, bootstrap, callCallbacks, startState, freshOptimizer, flatProb,
    flatCost, SQPState.emit, SQPState.assert, evaluateCosts, evaluateConstraintViols]

/-- Witness for C19 as amended: on `flatProb` with the default parameters
every step of `shiftModel 1` is rejected, and the run returns
`OPT_CONVERGED` after the 4 solves that bring the trust box from `0.1` below
`1e-4`. -/
theorem shrink_until_tiny_witness :
    ∃ s, optimize flatProb (shiftModel 1) 5
        (freshOptimizer BasicTrustRegionSQPParameters.defaults []) =
      some (Run.returned OptStatus.OPT_CONVERGED s) ∧
      s.results_.x = [0] ∧ s.results_.n_qp_solves = 4 ∧
      s.trace.countP Event.isShrunk = 4 ∧ s.trace.countP Event.isAccepted = 0 := by
  obtain ⟨f1, f2, f3, f4⟩ := flat_firstIterate
  have hΔ : (firstIterate flatProb
      (freshOptimizer BasicTrustRegionSQPParameters.defaults [])).param_.trust_box_size =
      Dbl.fin (1 / 10) := by rw [f4]; rfl
  have hall : ∀ j : Nat,
      (trustRegionStep flatProb (shiftModel 1)
        (convexify flatProb
          (firstIterate flatProb (freshOptimizer BasicTrustRegionSQPParameters.defaults [])))
        (stepIterate flatProb (shiftModel 1)
          (convexify flatProb
            (firstIterate flatProb (freshOptimizer BasicTrustRegionSQPParameters.defaults [])))
          j (firstIterate flatProb
            (freshOptimizer BasicTrustRegionSQPParameters.defaults [])))).1 =
        StepKind.shrunk := by
    intro j
    induction j using Nat.strong_induction_on with
    | _ j ih =>
      obtain ⟨g1, g2, g3, g4, -⟩ := stepIterate_shrunk flatProb (shiftModel 1) _ j _ _ hΔ ih
      refine flat_step_shrunk _ _ ?_ ?_ ?_ (g2.trans f1) (g3.trans f2) (g4.trans f3) ?_ ?_ ?_
      · show (firstIterate flatProb _).results_.x = [0]
        exact f1
      · show convexifyCosts flatProb.costs (firstIterate flatProb _).results_.x = _
        rw [f1]
      · rfl
      · rw [g1, f4]; rfl
      · rw [g1, f4]; rfl
      · rw [g1, f4]; rfl
  obtain ⟨⟨k, hk, hrun⟩, -, h4, h4least⟩ := shrink_until_tiny flatProb (shiftModel 1)
    (freshOptimizer BasicTrustRegionSQPParameters.defaults []) (1 / 10)
    (by simp [freshOptimizer]) rfl rfl (by decide)
    (by norm_num [freshOptimizer, BasicTrustRegionSQPParameters.defaults])
    (by norm_num [freshOptimizer, BasicTrustRegionSQPParameters.defaults]) rfl
    (by norm_num [freshOptimizer, BasicTrustRegionSQPParameters.defaults])
    (fun j _ => hall j)
  have hk4 : k = 4 := by
    rcases lt_trichotomy k 4 with h | h | h
    · exact absurd hk.1 (not_lt.mpr (h4least k h))
    · exact h
    · exact absurd h4 (not_lt.mpr (hk.2 4 h))
  subst hk4
  obtain ⟨s, h1, h2, h3, -, h5, h6, -⟩ := hrun 5 (by decide)
  refine ⟨s, h1, h2, ?_, h5, h6⟩
  rw [h3]
  simp [freshOptimizer]

/-! ## Re-running from the point returned (C20) -/

/-- A larger trust box has a lower lower bound. -/
theorem Dbl.lo_mono (x v : ℚ) (d0 d1 l : Dbl) (h : Dbl.le d0 d1 = true)
    (hv : Dbl.le (Dbl.fmax (Dbl.sub (Dbl.fin x) d0) l) (Dbl.fin v) = true) :
    Dbl.le (Dbl.fmax (Dbl.sub (Dbl.fin x) d1) l) (Dbl.fin v) = true := by
  cases d0 <;> cases d1 <;> cases l <;>
    simp_all [Dbl.le, Dbl.lt, Dbl.fmax, Dbl.sub, Dbl.add, Dbl.neg] <;>
    (try split_ifs at hv ⊢) <;> (try simp_all [Dbl.le]) <;> (try linarith)

/-- A larger trust box has a higher upper bound. -/
theorem Dbl.up_mono (x v : ℚ) (d0 d1 u : Dbl) (h : Dbl.le d0 d1 = true)
    (hv : Dbl.le (Dbl.fin v) (Dbl.fmin (Dbl.add (Dbl.fin x) d0) u) = true) :
    Dbl.le (Dbl.fin v) (Dbl.fmin (Dbl.add (Dbl.fin x) d1) u) = true := by
  cases d0 <;> cases d1 <;> cases u <;>
    simp_all [Dbl.le, Dbl.lt, Dbl.fmin, Dbl.sub, Dbl.add, Dbl.neg] <;>
    (try split_ifs at hv ⊢) <;> (try simp_all [Dbl.le]) <;> (try linarith)

theorem setTrustBoxConstraints_getD (x : DblVec) (d : Dbl) (lb ub : List Dbl) (i : Nat)
    (hi : i < x.length) :
    (setTrustBoxConstraints x d lb ub).1.length = x.length ∧
    (setTrustBoxConstraints x d lb ub).1.getD i Dbl.ninf =
      Dbl.fmax (Dbl.sub (Dbl.fin (x.getD i 0)) d) (lb.getD i Dbl.ninf) ∧
    (setTrustBoxConstraints x d lb ub).2.getD i Dbl.pinf =
      Dbl.fmin (Dbl.add (Dbl.fin (x.getD i 0)) d) (ub.getD i Dbl.pinf) := by
  simp [setTrustBoxConstraints, List.getD_eq_getElem?_getD, List.getElem?_range hi]

/-- Values within the bounds of a trust box are within the bounds of every
larger trust box around the same point. -/
theorem withinBounds_mono (x : DblVec) (d0 d1 : Dbl) (lb ub : List Dbl) (w : DblVec)
    (h : Dbl.le d0 d1 = true)
    (hw : withinBounds (setTrustBoxConstraints x d0 lb ub).1
      (setTrustBoxConstraints x d0 lb ub).2 w) :
    withinBounds (setTrustBoxConstraints x d1 lb ub).1 (setTrustBoxConstraints x d1 lb ub).2 w := by
  have hl0 : (setTrustBoxConstraints x d0 lb ub).1.length = x.length := by
    simp [setTrustBoxConstraints]
  have hl1 : (setTrustBoxConstraints x d1 lb ub).1.length = x.length := by
    simp [setTrustBoxConstraints]
  obtain ⟨hlen, hall⟩ := hw
  refine ⟨by rw [hl1]; rw [hl0] at hlen; exact hlen, ?_⟩
  intro i hi
  rw [hl1] at hi
  obtain ⟨-, a1, a2⟩ := setTrustBoxConstraints_getD x d0 lb ub i hi
  obtain ⟨-, b1, b2⟩ := setTrustBoxConstraints_getD x d1 lb ub i hi
  have h0 := hall i (by rw [hl0]; exact hi)
  rw [a1, a2] at h0
  rw [b1, b2]
  exact ⟨Dbl.lo_mono _ _ _ _ _ h h0.1, Dbl.up_mono _ _ _ _ _ h h0.2⟩

/-- The convex models depend on the point and the penalty coefficient
only. -/
theorem convexify_congr (prob : OptProb) (s t : SQPState) (hx : t.results_.x = s.results_.x)
    (hμ : t.param_.merit_error_coeff = s.param_.merit_error_coeff) :
    convexify prob t = convexify prob s := by
  unfold convexify
  rw [hx, hμ]

/-- An invariant kept by every pass of the body of the trust-region loop,
each made with the models convexified at its own state, holds when the loop
is left. -/
theorem trustRegionLoop_inv (prob : OptProb) (model : Model) (I : SQPState → Prop)
    (hstep : ∀ s, I s → I (trustRegionStep prob model (convexify prob s) s).2) :
    ∀ fuel s e t, I s → trustRegionLoop prob model (convexify prob s) fuel s = some (e, t) →
      I t := by
  intro fuel
  induction fuel with
  | zero => intro s e t _ h; simp [trustRegionLoop] at h
  | succ n ih =>
    intro s e t hI h
    by_cases hc : Dbl.ge s.param_.trust_box_size (Dbl.fin s.param_.min_trust_box_size) = true
    · rw [trustRegionLoop_pass prob model _ n s hc] at h
      cases hk : (trustRegionStep prob model (convexify prob s) s).1 <;> rw [hk] at h <;>
        simp only [Option.some.injEq, Prod.mk.injEq] at h
      · rw [← h.2]; exact hstep s hI
      · rw [← h.2]; exact hstep s hI
      · rw [← h.2]; exact hstep s hI
      · obtain ⟨hs, hd⟩ := (trustRegionStep_shrunk_iff prob model _ s).mp hk
        obtain ⟨f1, -, -, f4, -⟩ := trustRegionStep_shrink_state prob model _ s hs hd
        have hcm : convexify prob (trustRegionStep prob model (convexify prob s) s).2 =
            convexify prob s := convexify_congr prob _ _ f1 (by rw [f4])
        have h2 : trustRegionLoop prob model
            (convexify prob (trustRegionStep prob model (convexify prob s) s).2) n
            (trustRegionStep prob model (convexify prob s) s).2 = some (e, t) := by
          rw [hcm]; exact h
        exact ih _ _ _ (hstep s hI) h2
      · rw [← h.2]; exact hstep s hI
    · rw [trustRegionLoop_exit prob model _ n s hc] at h
      simp only [Option.some.injEq, Prod.mk.injEq] at h
      rw [← h.2]; exact hI

/-- The same for the SQP loop, from the state in which its first
trust-region loop is entered. -/
theorem sqpLoop_inv (prob : OptProb) (model : Model) (I : SQPState → Prop)
    (hstep : ∀ s, I s → I (trustRegionStep prob model (convexify prob s) s).2)
    (hpre : ∀ iter s, I s → I (bootstrap prob (callCallbacks (s.emit (Event.sqpIteration iter)))))
    (hafter : ∀ iter s, I s → I (afterTrustRegionLoop iter s).2) (fuel : Nat) :
    ∀ k iter s e t, I (bootstrap prob (callCallbacks (s.emit (Event.sqpIteration iter)))) →
      sqpLoop prob model fuel k iter s = some (e, t) → I t := by
  intro k
  induction k with
  | zero => intro iter s e t _ h; simp [sqpLoop] at h
  | succ n ih =>
    intro iter s e t hI h
    rw [sqpLoop_succ] at h
    cases hi : sqpIteration prob model fuel iter s with
    | none => rw [hi] at h; simp at h
    | some r =>
      obtain ⟨y, v⟩ := r
      obtain ⟨e2, w, hw, hcase⟩ := sqpIteration_eq prob model fuel iter s y v hi
      have h1 := trustRegionLoop_inv prob model I hstep fuel _ e2 w hI hw
      have hv : I v := by
        rcases hcase with ⟨-, -, ht⟩ | ⟨-, -, ht⟩ | ⟨-, ht⟩
        · rw [ht]; exact h1
        · rw [ht]; exact h1
        · have : v = (afterTrustRegionLoop iter w).2 := by rw [← ht]
          rw [this]; exact hafter iter w h1
      rw [hi] at h
      cases y <;> simp only [Option.some.injEq, Prod.mk.injEq] at h
      · rw [← h.2]; exact hv
      · rw [← h.2]; exact hv
      · exact ih _ _ _ _ (hpre _ _ hv) h

/-- The same for the merit loop, when it makes a pass at all. -/
theorem meritLoop_inv (prob : OptProb) (model : Model) (I : SQPState → Prop)
    (hstep : ∀ s, I s → I (trustRegionStep prob model (convexify prob s) s).2)
    (hpre : ∀ iter s, I s → I (bootstrap prob (callCallbacks (s.emit (Event.sqpIteration iter)))))
    (hafter : ∀ iter s, I s → I (afterTrustRegionLoop iter s).2)
    (hstage : ∀ m s, I s → I (s.emit (Event.meritStage m)))
    (hpa : ∀ s, I s → I (penaltyAdjustment s).2)
    (hlimit : ∀ s, I s → I (({ s with retval := OptStatus.OPT_PENALTY_ITERATION_LIMIT } :
      SQPState).emit Event.penaltyLimit)) (fuel : Nat) :
    ∀ k m s t, m < s.param_.max_merit_coeff_increases →
      I (bootstrap prob
        (callCallbacks ((s.emit (Event.meritStage m)).emit (Event.sqpIteration 1)))) →
      meritLoop prob model fuel k m s = some t → I t := by
  intro k
  induction k with
  | zero => intro m s t _ _ h; simp [meritLoop] at h
  | succ n ih =>
    intro m s t hm hI h
    rw [meritLoop_pass prob model fuel n m s hm] at h
    cases hq : sqpLoop prob model fuel fuel 1 (s.emit (Event.meritStage m)) with
    | none => rw [hq] at h; simp at h
    | some r =>
      obtain ⟨x, u⟩ := r
      have hu := sqpLoop_inv prob model I hstep hpre hafter fuel fuel 1 _ x u hI hq
      rw [hq] at h
      cases x
      · simp only [Option.some.injEq] at h
        rw [← h]; exact hu
      · simp only [] at h
        split_ifs at h
        · simp only [Option.some.injEq] at h
          rw [← h]; exact hpa u hu
        · have hu2 := hpa u hu
          by_cases hm2 : m + 1 < (penaltyAdjustment u).2.param_.max_merit_coeff_increases
          · exact ih _ _ _ hm2 (hpre 1 _ (hstage (m + 1) _ hu2)) h
          · cases n with
            | zero => simp [meritLoop] at h
            | succ n2 =>
              rw [meritLoop_limit prob model fuel n2 _ _ hm2] at h
              simp only [Option.some.injEq] at h
              rw [← h]; exact hlimit _ hu2

/-- A state with current values whose record ends with events that are
neither the gate of line 613 nor the passed test of line 662. -/
theorem gateInv_of_appended (prob : OptProb) (model : Model) (t : SQPState)
    (hEv : t.evaluated prob) (l L : List Event) (htr : t.trace = l ++ L) (hne : L ≠ [])
    (hall : ∀ e ∈ L, e ≠ Event.convergedApprox ∧ e ≠ Event.satisfied) :
    t.gateInv prob model := by
  have hlast : t.trace.getLast? = some (L.getLast hne) := by
    rw [htr, List.getLast?_append_of_ne_nil _ hne, List.getLast?_eq_getLast _ hne]
  have hmem := hall _ (List.getLast_mem hne)
  refine ⟨hEv, ?_, ?_⟩
  · intro h
    rw [hlast] at h
    exact absurd (Option.some.inj h) hmem.1
  · rintro ⟨pre, h⟩
    have h2 : t.trace.getLast? = some Event.satisfied := by
      rw [h, show pre ++ [Event.convergedApprox, Event.satisfied] =
        (pre ++ [Event.convergedApprox]) ++ [Event.satisfied] by simp, List.getLast?_concat]
    rw [hlast] at h2
    exact absurd (Option.some.inj h2) hmem.2

/-- The exact values of a report are those at its trial point. -/
theorem stepReport_new_vals (prob : OptProb) (model : Model) (cm : Convexified) (s : SQPState) :
    (stepReport prob model cm s).new_cost_vals =
      evaluateCosts prob.costs (stepReport prob model cm s).new_x ∧
    (stepReport prob model cm s).new_cnt_viols =
      evaluateConstraintViols prob.constraints (stepReport prob model cm s).new_x :=
  ⟨rfl, rfl⟩

/-- A pass of the body of the trust-region loop keeps the stored values
current. -/
theorem trustRegionStep_evaluated (prob : OptProb) (model : Model) (cm : Convexified)
    (s : SQPState) (hEv : s.evaluated prob) :
    (trustRegionStep prob model cm s).2.evaluated prob := by
  unfold SQPState.evaluated at hEv ⊢
  by_cases hs : (solveTrustBox prob model cm s).1.1 = CvxOptStatus.CVX_SOLVED
  · cases hd : stepDecision s.param_ (stepReport prob model cm s)
    · obtain ⟨h1, h2, h3, -⟩ := trustRegionStep_converged_state prob model cm s hs (Or.inl hd)
      rw [h1, h2, h3]; exact hEv
    · obtain ⟨h1, h2, h3, -⟩ := trustRegionStep_converged_state prob model cm s hs (Or.inr hd)
      rw [h1, h2, h3]; exact hEv
    · obtain ⟨h1, h2, h3, -⟩ := trustRegionStep_shrink_state prob model cm s hs hd
      rw [h1, h2, h3]; exact hEv
    · obtain ⟨h1, h2, h3, -⟩ := trustRegionStep_accept_state prob model cm s hs hd
      rw [h1, h2, h3]
      exact stepReport_new_vals prob model cm s
  · rw [trustRegionStep_failed prob model cm s hs]
    obtain ⟨-, a2, a3, a4, -⟩ := solveTrustBox_frame prob model cm s
    show (solveTrustBox prob model cm s).2.results_.cost_vals = _ ∧
      (solveTrustBox prob model cm s).2.results_.cnt_viols = _
    rw [a2, a3, a4]; exact hEv

/-- The last event recorded by a pass of the body of the trust-region
loop. -/
theorem trustRegionStep_last (prob : OptProb) (model : Model) (cm : Convexified)
    (s : SQPState) :
    (trustRegionStep prob model cm s).2.trace.getLast? =
      some (if (solveTrustBox prob model cm s).1.1 = CvxOptStatus.CVX_SOLVED then
        (stepDecision s.param_ (stepReport prob model cm s)).event
      else Event.qpSolve (solveTrustBox prob model cm s).1.1) := by
  obtain ⟨pre, post, -, -, htr⟩ := trustRegionStep_trace prob model cm s
  rw [htr]
  by_cases hs : (solveTrustBox prob model cm s).1.1 = CvxOptStatus.CVX_SOLVED
  · rw [if_pos hs, if_pos hs, ← List.append_assoc, ← List.append_assoc, List.getLast?_concat]
  · rw [if_neg hs, if_neg hs, List.append_nil, List.getLast?_concat]

theorem gateInv_step (prob : OptProb) (model : Model) (s : SQPState)
    (hI : s.gateInv prob model) :
    (trustRegionStep prob model (convexify prob s) s).2.gateInv prob model := by
  have hlast := trustRegionStep_last prob model (convexify prob s) s
  refine ⟨trustRegionStep_evaluated prob model _ s hI.1, ?_, ?_⟩
  · intro h
    rw [hlast] at h
    have h := Option.some.inj h
    by_cases hs : (solveTrustBox prob model (convexify prob s) s).1.1 = CvxOptStatus.CVX_SOLVED
    · rw [if_pos hs] at h
      have hd : stepDecision s.param_ (stepReport prob model (convexify prob s) s) =
          Decision.convergedApprox := by
        cases hd : stepDecision s.param_ (stepReport prob model (convexify prob s) s) <;>
          rw [hd] at h <;> simp [Decision.event] at h
      obtain ⟨h1, -, -, h4, -⟩ :=
        trustRegionStep_converged_state prob model _ s hs (Or.inl hd)
      exact ⟨s, hI.1, hs, hd, h1.symm, h4.symm⟩
    · rw [if_neg hs] at h
      cases h
  · rintro ⟨pre, h⟩
    have h2 : (trustRegionStep prob model (convexify prob s) s).2.trace.getLast? =
        some Event.satisfied := by
      rw [h, show pre ++ [Event.convergedApprox, Event.satisfied] =
        (pre ++ [Event.convergedApprox]) ++ [Event.satisfied] by simp, List.getLast?_concat]
    rw [hlast] at h2
    have h2 := Option.some.inj h2
    by_cases hs : (solveTrustBox prob model (convexify prob s) s).1.1 = CvxOptStatus.CVX_SOLVED
    · rw [if_pos hs] at h2
      cases hd : stepDecision s.param_ (stepReport prob model (convexify prob s) s) <;>
        rw [hd] at h2 <;> simp [Decision.event] at h2
    · rw [if_neg hs] at h2
      cases h2

theorem gateInv_pre (prob : OptProb) (model : Model) (iter : Int) (s : SQPState)
    (hI : s.gateInv prob model) :
    (bootstrap prob (callCallbacks (s.emit (Event.sqpIteration iter)))).gateInv prob model := by
  obtain ⟨boot, htr, hboot, -⟩ := iterationStart_trace prob iter s
  refine gateInv_of_appended prob model _ ?_ s.trace _ htr (by simp) ?_
  · cases hf : (callCallbacks (s.emit (Event.sqpIteration iter))).fresh
    · rw [(bootstrap_fresh prob _).1 hf]
      exact hI.1
    · obtain ⟨b1, b2, -⟩ := (bootstrap_fresh prob _).2 hf
      exact ⟨by rw [b1, (bootstrap_frame prob _).2.2.2.1],
        by rw [b2, (bootstrap_frame prob _).2.2.2.1]⟩
  · intro e he
    rcases List.mem_cons.mp he with h | h
    · rw [h]; exact ⟨by simp, by simp⟩
    · rcases List.mem_append.mp h with h | h
      · obtain ⟨cb, -, rfl⟩ := List.mem_map.mp h
        exact ⟨by simp, by simp⟩
      · rcases hboot e h with h | h <;> rw [h] <;> exact ⟨by simp, by simp⟩

theorem gateInv_after (prob : OptProb) (model : Model) (iter : Int) (s : SQPState)
    (hI : s.gateInv prob model) : (afterTrustRegionLoop iter s).2.gateInv prob model := by
  rcases afterTrustRegionLoop_cases iter s with ⟨-, c⟩ | ⟨-, -, c⟩ | ⟨-, -, c⟩ <;> rw [c]
  · exact gateInv_of_appended prob model _ hI.1 s.trace [Event.tiny] rfl (by simp)
      (by intro e he; rw [List.mem_singleton.mp he]; exact ⟨by simp, by simp⟩)
  · exact gateInv_of_appended prob model _ hI.1 s.trace [Event.iterationLimit] rfl (by simp)
      (by intro e he; rw [List.mem_singleton.mp he]; exact ⟨by simp, by simp⟩)
  · exact hI

theorem gateInv_pa (prob : OptProb) (model : Model) (s : SQPState)
    (hI : s.gateInv prob model) : (penaltyAdjustment s).2.gateInv prob model := by
  rcases penaltyAdjustment_cases s with ⟨-, c⟩ | ⟨-, c⟩ <;> rw [c]
  · refine ⟨hI.1, ?_, ?_⟩
    · intro h
      have : (s.emit Event.satisfied).trace.getLast? = some Event.satisfied :=
        List.getLast?_concat _
      rw [this] at h
      cases h
    · rintro ⟨pre, h⟩
      have h1 : s.trace ++ [Event.satisfied] =
          (pre ++ [Event.convergedApprox]) ++ [Event.satisfied] := by
        rw [List.append_assoc]; exact h
      have h2 : s.trace = pre ++ [Event.convergedApprox] := List.append_cancel_right h1
      have h3 : s.trace.getLast? = some Event.convergedApprox := by
        rw [h2, List.getLast?_concat]
      obtain ⟨u, u1, u2, u3, u4, u5⟩ := hI.2.1 h3
      exact ⟨u, u1, u2, u3, u4, u5⟩
  · obtain ⟨-, -, e3, -, e5⟩ := escalate_fields s
    refine gateInv_of_appended prob model _ ?_ s.trace [Event.escalated] e5 (by simp)
      (by intro e he; rw [List.mem_singleton.mp he]; exact ⟨by simp, by simp⟩)
    unfold SQPState.evaluated
    rw [e3]; exact hI.1

/-- The first trust-region loop of a run started with no value stored is
entered with current values. -/
theorem firstIterate_evaluated (prob : OptProb) (model : Model) (o : BasicTrustRegionSQP)
    (hcv : o.results_.cost_vals = []) (hcn : o.results_.cnt_viols = []) :
    (firstIterate prob o).evaluated prob ∧ (firstIterate prob o).gateInv prob model := by
  have g4 := (startState_fields prob o).2.2.2.1
  have hf : (callCallbacks (((startState prob o).emit (Event.meritStage 0)).emit
      (Event.sqpIteration 1))).fresh = true := by
    show ((startState prob o).results_.cost_vals.isEmpty &&
      (startState prob o).results_.cnt_viols.isEmpty) = true
    rw [g4]
    simp [hcv, hcn]
  obtain ⟨b1, b2, -⟩ := (bootstrap_fresh prob _).2 hf
  have hEv : (firstIterate prob o).evaluated prob := by
    unfold firstIterate
    exact ⟨by rw [b1, (bootstrap_frame prob _).2.2.2.1],
      by rw [b2, (bootstrap_frame prob _).2.2.2.1]⟩
  refine ⟨hEv, ?_⟩
  obtain ⟨boot, htr, hboot, -⟩ :=
    iterationStart_trace prob 1 ((startState prob o).emit (Event.meritStage 0))
  refine gateInv_of_appended prob model _ hEv _ _ htr (by simp) ?_
  intro e he
  rcases List.mem_cons.mp he with h | h
  · rw [h]; exact ⟨by simp, by simp⟩
  · rcases List.mem_append.mp h with h | h
    · obtain ⟨cb, -, rfl⟩ := List.mem_map.mp h
      exact ⟨by simp, by simp⟩
    · rcases hboot e h with h | h <;> rw [h] <;> exact ⟨by simp, by simp⟩

/-- At the label `cleanup` of a run started with no value stored that makes
a pass of the merit loop, the values are current, and a record that ends
with the gate of line 613 followed by the passed test of line 662 means that
the gate fired at the final point with the final parameters. -/
theorem meritLoop_gateInv (prob : OptProb) (model : Model) (fuel : Nat)
    (o : BasicTrustRegionSQP) (s3 : SQPState)
    (hcv : o.results_.cost_vals = []) (hcn : o.results_.cnt_viols = [])
    (hN : 1 ≤ o.param_.max_merit_coeff_increases)
    (hm : meritLoop prob model fuel fuel 0 (startState prob o) = some s3) :
    s3.gateInv prob model := by
  have hm0 : (0 : Int) < (startState prob o).param_.max_merit_coeff_increases := by
    rw [(startState_fields prob o).1]; omega
  refine meritLoop_inv prob model (fun t => t.gateInv prob model)
    (gateInv_step prob model) (gateInv_pre prob model) (gateInv_after prob model)
    ?_ (gateInv_pa prob model) ?_ fuel fuel 0 _ s3 hm0
    (firstIterate_evaluated prob model o hcv hcn).2 hm
  · intro m s hI
    exact gateInv_of_appended prob model _ hI.1 s.trace [Event.meritStage m] rfl (by simp)
      (by intro e he; rw [List.mem_singleton.mp he]; exact ⟨by simp, by simp⟩)
  · intro s hI
    exact gateInv_of_appended prob model _ hI.1 s.trace [Event.penaltyLimit] rfl (by simp)
      (by intro e he; rw [List.mem_singleton.mp he]; exact ⟨by simp, by simp⟩)

/-- The merits of a report. -/
theorem stepReport_merits (prob : OptProb) (model : Model) (s : SQPState) :
    (stepReport prob model (convexify prob s) s).approx_merit_improve =
      (vecSum s.results_.cost_vals + s.param_.merit_error_coeff * vecSum s.results_.cnt_viols) -
        modelMerit (convexify prob s) (solveTrustBox prob model (convexify prob s) s).1.2 := by
  obtain ⟨a1, -, a3, a4, -⟩ := solveTrustBox_frame prob model (convexify prob s) s
  unfold stepReport buildReport BasicTrustRegionSQPResults.update modelMerit
  simp only []
  rw [a1, a3, a4]
  rfl

/-- A run whose first solve succeeds and fires the gate of line 613, at a
point where the test of line 662 passes, returns `OPT_CONVERGED` from
there. -/
theorem optimize_of_first_step_gate (prob : OptProb) (model : Model) (fuel : Nat)
    (o : BasicTrustRegionSQP) (hx : o.results_.x ≠ [])
    (hN : 1 ≤ o.param_.max_merit_coeff_increases) (hfuel : 1 ≤ fuel)
    (hge : Dbl.ge o.param_.trust_box_size (Dbl.fin o.param_.min_trust_box_size) = true)
    (hs : (solveTrustBox prob model (convexify prob (firstIterate prob o))
      (firstIterate prob o)).1.1 = CvxOptStatus.CVX_SOLVED)
    (hd : stepDecision (firstIterate prob o).param_
      (stepReport prob model (convexify prob (firstIterate prob o)) (firstIterate prob o)) =
      Decision.convergedApprox)
    (hsat : (firstIterate prob o).results_.cnt_viols.isEmpty = true ∨
      vecMax (firstIterate prob o).results_.cnt_viols < o.param_.cnt_tolerance) :
    optimize prob model fuel o =
      some (Run.returned OptStatus.OPT_CONVERGED
        (cleanup ((trustRegionStep prob model (convexify prob (firstIterate prob o))
          (firstIterate prob o)).2.emit Event.satisfied))) := by
  have hxl : ¬ o.results_.x.length = 0 := by
    intro h; exact hx (List.length_eq_zero.mp h)
  obtain ⟨n, rfl⟩ : ∃ n, fuel = n + 1 := ⟨fuel - 1, by omega⟩
  obtain ⟨p1, -⟩ := firstIterate_fields prob o
  have hm : (0 : Int) < (startState prob o).param_.max_merit_coeff_increases := by
    rw [(startState_fields prob o).1]; omega
  obtain ⟨c1, c2, c3, c4, c5, -⟩ :=
    trustRegionStep_converged_state prob model _ (firstIterate prob o) hs (Or.inl hd)
  have hkind : (trustRegionStep prob model (convexify prob (firstIterate prob o))
      (firstIterate prob o)).1 = StepKind.convergedApprox := by
    rw [trustRegionStep_fst_solved prob model _ _ hs, hd]; rfl
  have hloop : trustRegionLoop prob model (convexify prob (firstIterate prob o)) (n + 1)
      (firstIterate prob o) = some (InnerExit.penaltyadjustment,
        (trustRegionStep prob model (convexify prob (firstIterate prob o))
          (firstIterate prob o)).2) := by
    rw [trustRegionLoop_pass prob model _ n _ (by rw [p1]; exact hge), hkind]
  have hit : sqpIteration prob model (n + 1) 1 ((startState prob o).emit (Event.meritStage 0)) =
      some (IterExit.penaltyadjustment,
        (trustRegionStep prob model (convexify prob (firstIterate prob o))
          (firstIterate prob o)).2) := by
    unfold sqpIteration
    simp only []
    have hl : trustRegionLoop prob model
        (convexify prob (bootstrap prob (callCallbacks
          (((startState prob o).emit (Event.meritStage 0)).emit (Event.sqpIteration 1)))))
        (n + 1) (bootstrap prob (callCallbacks
          (((startState prob o).emit (Event.meritStage 0)).emit (Event.sqpIteration 1)))) =
        some (InnerExit.penaltyadjustment,
          (trustRegionStep prob model (convexify prob (firstIterate prob o))
            (firstIterate prob o)).2) := hloop
    rw [hl]
  have hsq : sqpLoop prob model (n + 1) (n + 1) 1 ((startState prob o).emit (Event.meritStage 0)) =
      some (SqpExit.penaltyadjustment,
        (trustRegionStep prob model (convexify prob (firstIterate prob o))
          (firstIterate prob o)).2) := by
    rw [sqpLoop_succ, hit]
  have hpa : penaltyAdjustment
      (trustRegionStep prob model (convexify prob (firstIterate prob o))
        (firstIterate prob o)).2 =
      (true, (trustRegionStep prob model (convexify prob (firstIterate prob o))
        (firstIterate prob o)).2.emit Event.satisfied) := by
    unfold penaltyAdjustment
    rw [if_pos]
    rw [c3, c4, p1]
    exact hsat
  have hml : meritLoop prob model (n + 1) (n + 1) 0 (startState prob o) =
      some ((trustRegionStep prob model (convexify prob (firstIterate prob o))
        (firstIterate prob o)).2.emit Event.satisfied) := by
    rw [meritLoop_pass prob model (n + 1) n 0 _ hm, hsq]
    simp only [hpa, if_true]
  unfold optimize
  rw [if_neg hxl, hml]
  show some (Run.returned (trustRegionStep prob model (convexify prob (firstIterate prob o))
    (firstIterate prob o)).2.retval _) = _
  rw [c5]

/-- A step that fires the gate of line 613 records no acceptance. -/
theorem trustRegionStep_gate_counts (prob : OptProb) (model : Model) (cm : Convexified)
    (s : SQPState) (hs : (solveTrustBox prob model cm s).1.1 = CvxOptStatus.CVX_SOLVED)
    (hd : stepDecision s.param_ (stepReport prob model cm s) = Decision.convergedApprox) :
    (trustRegionStep prob model cm s).2.trace.countP Event.isAccepted =
      s.trace.countP Event.isAccepted := by
  obtain ⟨pre, post, hpre, hpost, htr⟩ := trustRegionStep_trace prob model cm s
  have h3 : pre.countP Event.isAccepted = 0 :=
    countP_eq_zero_of_forall _ _ (fun e he => by rw [hpre e he]; rfl)
  have h4 : post.countP Event.isAccepted = 0 :=
    countP_eq_zero_of_forall _ _ (fun e he => by obtain ⟨h, rfl⟩ := hpost e he; rfl)
  rw [htr, if_pos hs, hd]
  simp [List.countP_append, h3, h4, Event.isAccepted, Decision.event]

theorem sameRun_min_approx_improve (p q : BasicTrustRegionSQPParameters) (h : p.sameRun q) :
    q.min_approx_improve = p.min_approx_improve := by
  unfold BasicTrustRegionSQPParameters.sameRun at h
  rw [h]

/-- C20, amended: let the backend minimise the convex subproblem.  If a run
of `optimize` started right after `initialize` returns `OPT_CONVERGED` at
`x*` because the gate `approx_merit_improve < min_approx_improve` fired (the
record ends, before the final callbacks, with this gate and the passed test
of line 662), with the penalty coefficient at its initial value and a final
trust box not smaller than the initial one, which is
`≥ min_trust_box_size`, and `x*` is not empty and feasible
(`getClosestFeasiblePoint x* = x*`), then a re-run initialised at `x*` with
the parameter values of the first run, if its first solve succeeds, returns
`OPT_CONVERGED` at the same `x*` after one SQP iteration and one solve, with
no step accepted, for every bound `≥ 1` on the loop passes. -/
theorem rerun_converges (prob : OptProb) (model : Model) (fuel fuel2 : Nat)
    (o o2 : BasicTrustRegionSQP) (s : SQPState) (hmin : model.minimises prob)
    (hcv : o.results_.cost_vals = []) (hcn : o.results_.cnt_viols = [])
    (hrun : optimize prob model fuel o = some (Run.returned OptStatus.OPT_CONVERGED s))
    (hgate : ∃ pre, s.trace = pre ++ [Event.convergedApprox, Event.satisfied] ++
      o.callbacks_.map (fun cb => Event.callback cb s.results_))
    (hμ : s.param_.merit_error_coeff = o.param_.merit_error_coeff)
    (hΔ : Dbl.le o.param_.trust_box_size s.param_.trust_box_size = true)
    (hΔmin : Dbl.ge o.param_.trust_box_size (Dbl.fin o.param_.min_trust_box_size) = true)
    (hfeas : prob.getClosestFeasiblePoint s.results_.x = s.results_.x)
    (hx : s.results_.x ≠ [])
    (h2x : o2.results_.x = s.results_.x) (h2cv : o2.results_.cost_vals = [])
    (h2cn : o2.results_.cnt_viols = []) (h2p : o2.param_ = o.param_)
    (hsolve : (solveTrustBox prob model (convexify prob (firstIterate prob o2))
      (firstIterate prob o2)).1.1 = CvxOptStatus.CVX_SOLVED)
    (hfuel2 : 1 ≤ fuel2) :
    ∃ s2, optimize prob model fuel2 o2 = some (Run.returned OptStatus.OPT_CONVERGED s2) ∧
      s2.results_.x = s.results_.x ∧ s2.trace.countP Event.isSqpIteration = 1 ∧
      s2.trace.countP Event.isAccepted = 0 ∧ s2.trace.countP Event.isQpSolve = 1 := by
  obtain ⟨s3, hm, hr, hs, h3⟩ := optimize_cleanup_state prob model fuel o _ s hrun
  obtain ⟨g1, g2, -, -, -⟩ := startState_fields prob o
  -- the first run made a pass of the merit loop
  have hN : 1 ≤ o.param_.max_merit_coeff_increases := by
    by_contra hcon
    have hm0 : ¬ (0 : Int) < (startState prob o).param_.max_merit_coeff_increases := by
      rw [g1]; omega
    cases fuel with
    | zero => simp [meritLoop] at hm
    | succ n =>
      rw [meritLoop_limit prob model (n + 1) n 0 _ hm0] at hm
      simp only [Option.some.injEq] at hm
      rw [← hm] at hr
      cases hr
  have hI := meritLoop_gateInv prob model fuel o s3 hcv hcn hN hm
  obtain ⟨hfr, hcb⟩ := meritLoop_runFrame prob model fuel fuel 0 _ s3 hm
  rw [g1] at hfr
  rw [g2] at hcb
  obtain ⟨c1, -, -, -, -, c6, -, -, -, -, c11⟩ := cleanup_fields s3 h3
  have hres := cleanup_results s3 h3
  -- the record at the label `cleanup` ends with the gate and the passed test
  have htr3 : ∃ pre, s3.trace = pre ++ [Event.convergedApprox, Event.satisfied] := by
    obtain ⟨pre, hp⟩ := hgate
    refine ⟨pre, ?_⟩
    have : s.trace = s3.trace ++ o.callbacks_.map (fun cb => Event.callback cb s.results_) := by
      rw [hs, c11, hres, hcb]
    rw [this] at hp
    exact List.append_cancel_right hp
  obtain ⟨u, uEv, usolved, udec, ux, up⟩ := hI.2.2 htr3
  have hsx : s.results_.x = s3.results_.x := by rw [hs, c6]
  have hsp : s.param_ = s3.param_ := by rw [hs, c1]
  -- the state in which the re-run makes its first solve
  obtain ⟨p1, -, -, p4, -, p6, -, p8, p9⟩ := firstIterate_fields prob o2
  have pEv := (firstIterate_evaluated prob model o2 h2cv h2cn).1
  have hpx : (firstIterate prob o2).results_.x = u.results_.x := by
    rw [p4, h2x, hfeas, hsx, ux]
  have hpμ : (firstIterate prob o2).param_.merit_error_coeff = u.param_.merit_error_coeff := by
    rw [p1, h2p, up, ← hsp, hμ]
  have hcm : convexify prob (firstIterate prob o2) = convexify prob u :=
    convexify_congr prob _ _ hpx hpμ
  -- the predicted improvement of the re-run is not larger
  obtain ⟨-, hmin1⟩ := hmin u usolved
  obtain ⟨hin2, -⟩ := hmin (firstIterate prob o2) hsolve
  have hle : Dbl.le (firstIterate prob o2).param_.trust_box_size u.param_.trust_box_size = true := by
    rw [p1, h2p, up, ← hsp]; exact hΔ
  rw [hpx] at hin2
  have hin1 := withinBounds_mono _ _ _ _ _ _ hle hin2
  have hmm := hmin1 _ hin1
  have happrox1 := stepReport_merits prob model u
  have happrox2 := stepReport_merits prob model (firstIterate prob o2)
  have hold : vecSum (firstIterate prob o2).results_.cost_vals +
      (firstIterate prob o2).param_.merit_error_coeff *
        vecSum (firstIterate prob o2).results_.cnt_viols =
      vecSum u.results_.cost_vals + u.param_.merit_error_coeff * vecSum u.results_.cnt_viols := by
    rw [pEv.1, pEv.2, uEv.1, uEv.2, hpx, hpμ]
  have hmai : (firstIterate prob o2).param_.min_approx_improve = u.param_.min_approx_improve := by
    rw [p1, h2p, up, sameRun_min_approx_improve _ _ hfr]
  have hdec2 : stepDecision (firstIterate prob o2).param_
      (stepReport prob model (convexify prob (firstIterate prob o2)) (firstIterate prob o2)) =
      Decision.convergedApprox := by
    rw [stepDecision_convergedApprox_iff] at udec ⊢
    rw [happrox1] at udec
    rw [happrox2, hold, hmai, hcm]
    rw [hcm] at hmm
    linarith
  -- the test of line 662 passes as in the first run
  have hsat : (firstIterate prob o2).results_.cnt_viols.isEmpty = true ∨
      vecMax (firstIterate prob o2).results_.cnt_viols < o2.param_.cnt_tolerance := by
    have h1 := (meritLoop_retval prob model fuel fuel 0 _ s3 hm).2.1 hr.symm
    have hv : (firstIterate prob o2).results_.cnt_viols = s3.results_.cnt_viols := by
      rw [pEv.2, hI.1.2, hpx, ux]
    rw [hv, h2p, ← (sameRun_fields _ _ hfr).2.2.2.1]
    exact h1
  have hrun2 := optimize_of_first_step_gate prob model fuel2 o2 (by rw [h2x]; exact hx)
    (by rw [h2p]; exact hN) hfuel2 (by rw [h2p]; exact hΔmin) hsolve hdec2 hsat
  refine ⟨_, hrun2, ?_⟩
  obtain ⟨t1, -, -, -, t5, -⟩ :=
    trustRegionStep_converged_state prob model _ (firstIterate prob o2) hsolve (Or.inl hdec2)
  have hq := trustRegionStep_count_qpSolve prob model (convexify prob (firstIterate prob o2))
    (firstIterate prob o2)
  have ha := trustRegionStep_gate_counts prob model _ (firstIterate prob o2) hsolve hdec2
  have hit := countP_of_extends Event.inStep Event.isSqpIteration _ _
    (trustRegionStep_extends prob model (convexify prob (firstIterate prob o2))
      (firstIterate prob o2)) (fun e he => (inStep_quiet e he).2)
  generalize (trustRegionStep prob model (convexify prob (firstIterate prob o2))
    (firstIterate prob o2)).2 = t at *
  have h3' : (t.emit Event.satisfied).retval ≠ OptStatus.INVALID := by
    show t.retval ≠ OptStatus.INVALID
    rw [t5]; decide
  have hcnt : ∀ c : Event → Bool, c Event.satisfied = false →
      (∀ cb r, c (Event.callback cb r) = false) →
      (cleanup (t.emit Event.satisfied)).trace.countP c = t.trace.countP c := by
    intro c h2 hcb2
    rw [cleanup_countP c _ h3' hcb2]
    simp [SQPState.emit, List.countP_append, h2]
  refine ⟨?_, ?_, ?_, ?_⟩
  · rw [(cleanup_fields _ h3').2.2.2.2.2.1]
    show t.results_.x = _
    rw [t1, hpx, ux, hsx]
  · rw [hcnt Event.isSqpIteration rfl (fun _ _ => rfl), hit, p9]
  · rw [hcnt Event.isAccepted rfl (fun _ _ => rfl), ha, p8]
  · rw [hcnt Event.isQpSolve rfl (fun _ _ => rfl), hq, p6]


/-- Within `[lo, up]` no point is nearer to 3 than `clampTo 3 lo up`. -/
theorem clampTo_minimal (l u : Dbl) (w : ℚ) (h1 : Dbl.le l (Dbl.fin w) = true)
    (h2 : Dbl.le (Dbl.fin w) u = true) : (clampTo 3 l u - 3) ^ 2 ≤ (w - 3) ^ 2 := by
  cases l <;> cases u <;> simp [Dbl.le] at h1 h2 <;> simp only [clampTo] <;>
    (try split_ifs) <;> nlinarith

theorem quadMinModel_solved_length (i : Int) (x : DblVec) (μ : ℚ) (lo up : List Dbl)
    (h : (quadMinModel.optimize i x μ lo up).1 = CvxOptStatus.CVX_SOLVED) : lo.length = 1 := by
  rcases lo with _ | ⟨l, _ | ⟨l2, lt⟩⟩ <;> rcases up with _ | ⟨u, _ | ⟨u2, ut⟩⟩ <;>
    simp [quadMinModel] at h ⊢

/-- The backend `quadMinModel` minimises the convex subproblem of every
problem in one unbounded variable whose objective is `(v₀ - 3)²`. -/
theorem quadMinModel_minimises_of (prob : OptProb) (hlb : prob.lower_bounds = [Dbl.ninf])
    (hub : prob.upper_bounds = [Dbl.pinf])
    (hmerit : ∀ s vals, modelMerit (convexify prob s) vals = (vals.getD 0 0 - 3) ^ 2) :
    quadMinModel.minimises prob := by
  intro s hs
  rw [solveTrustBox_fst] at hs ⊢
  rcases hx : s.results_.x with _ | ⟨a, _ | ⟨b, t⟩⟩
  · rw [hx] at hs
    simp [setTrustBoxConstraints, quadMinModel] at hs
  · rw [hx] at hs
    have hbox : setTrustBoxConstraints [a] s.param_.trust_box_size prob.lower_bounds
        prob.upper_bounds =
        ([Dbl.fmax (Dbl.sub (Dbl.fin a) s.param_.trust_box_size) Dbl.ninf],
          [Dbl.fmin (Dbl.add (Dbl.fin a) s.param_.trust_box_size) Dbl.pinf]) := by
      simp [setTrustBoxConstraints, hlb, hub, List.range, List.range.loop]
    rw [hbox] at hs ⊢
    generalize Dbl.fmax (Dbl.sub (Dbl.fin a) s.param_.trust_box_size) Dbl.ninf = l at *
    generalize Dbl.fmin (Dbl.add (Dbl.fin a) s.param_.trust_box_size) Dbl.pinf = u at *
    by_cases hc : Dbl.le l (Dbl.fin (clampTo 3 l u)) = true ∧
        Dbl.le (Dbl.fin (clampTo 3 l u)) u = true
    · have hsol : quadMinModel.optimize s.results_.n_qp_solves (convexify prob s).x
          (convexify prob s).merit_error_coeff [l] [u] =
          (CvxOptStatus.CVX_SOLVED, [clampTo 3 l u]) := by
        simp only [quadMinModel]
        rw [if_pos hc]
      rw [hsol]
      refine ⟨⟨by simp, ?_⟩, ?_⟩
      · intro i hi
        have hi0 : i = 0 := by simpa using hi
        subst hi0
        simpa using hc
      · intro w hw
        rw [hmerit, hmerit]
        have h0 := hw.2 0 (by simp)
        simp only [List.getD_cons_zero] at h0 ⊢
        exact clampTo_minimal l u _ h0.1 h0.2
    · have hsol : (quadMinModel.optimize s.results_.n_qp_solves (convexify prob s).x
          (convexify prob s).merit_error_coeff [l] [u]).1 = CvxOptStatus.CVX_INFEASIBLE := by
        simp only [quadMinModel]
        rw [if_neg hc]
      rw [hsol] at hs
      cases hs
  · rw [hx] at hs
    have := quadMinModel_solved_length _ _ _ _ _ hs
    simp [setTrustBoxConstraints] at this

theorem quadMinModel_minimises : quadMinModel.minimises quadProb :=
  quadMinModel_minimises_of quadProb rfl rfl (fun s vals => by
    simp [modelMerit, convexify, quadProb, quadCost, evaluateModelCosts, evaluateModelCntViols,
      convexifyCosts, convexifyConstraints, vecSum])

theorem quadMinModel_minimises_spike : quadMinModel.minimises spikeProb :=
  quadMinModel_minimises_of spikeProb rfl rfl (fun s vals => by
    simp [modelMerit, convexify, spikeProb, spikeCost, evaluateModelCosts, evaluateModelCntViols,
      convexifyCosts, convexifyConstraints, vecSum])

set_option maxRecDepth 8000 in
set_option maxHeartbeats 2000000 in
theorem run_limit_first : ∃ s, optimize quadProb quadMinModel 1 (freshOptimizerAt [0] oneIterParams) =
      some (Run.returned OptStatus.OPT_SCO_ITERATION_LIMIT s) ∧ s.results_.x = [1] ∧
      s.trace.countP Event.isAccepted = 1 := by
  norm_num [optimize, startState, meritLoop, sqpLoop, sqpIteration, trustRegionLoop,
    afterTrustRegionLoop, bootstrap, callCallbacks, cleanup, penaltyAdjustment, escalate,
    freshOptimizerAt, trustRegionStep, solveTrustBox, buildReport, applyDecision, stepDecision,
    convexify, quadProb, quadMinModel, clampTo, quadCost, unitBoxParams, oneIterParams,
    BasicTrustRegionSQPParameters.defaults, BasicTrustRegionSQPResults.update, SQPState.assert,
    SQPState.emit, evaluateCosts, evaluateModelCosts, evaluateConstraintViols,
    evaluateModelCntViols, convexifyCosts, convexifyConstraints, cntsToCosts, vecSum, vecMax, Dbl.fdiv,
    Dbl.lt, Dbl.le, Dbl.ge, Dbl.mul, Dbl.sub, Dbl.add, Dbl.neg, Dbl.fmax, Dbl.fmin,
    setTrustBoxConstraints, adjustTrustRegion,
    cvx_failed_ne_solved, opt_failed_ne_invalid, opt_converged_ne_invalid,
    opt_sco_limit_ne_invalid, opt_penalty_limit_ne_invalid, List.countP_cons,
    Event.isAccepted, List.range, List.range.loop]

set_option maxRecDepth 8000 in
set_option maxHeartbeats 2000000 in
theorem run_limit_second : ∃ s, optimize quadProb quadMinModel 1 (freshOptimizerAt [1] oneIterParams) =
      some (Run.returned OptStatus.OPT_SCO_ITERATION_LIMIT s) ∧ s.results_.x = [2] ∧
      s.trace.countP Event.isAccepted = 1 := by
  norm_num [optimize, startState, meritLoop, sqpLoop, sqpIteration, trustRegionLoop,
    afterTrustRegionLoop, bootstrap, callCallbacks, cleanup, penaltyAdjustment, escalate,
    freshOptimizerAt, trustRegionStep, solveTrustBox, buildReport, applyDecision, stepDecision,
    convexify, quadProb, quadMinModel, clampTo, quadCost, unitBoxParams, oneIterParams,
    BasicTrustRegionSQPParameters.defaults, BasicTrustRegionSQPResults.update, SQPState.assert,
    SQPState.emit, evaluateCosts, evaluateModelCosts, evaluateConstraintViols,
    evaluateModelCntViols, convexifyCosts, convexifyConstraints, cntsToCosts, vecSum, vecMax, Dbl.fdiv,
    Dbl.lt, Dbl.le, Dbl.ge, Dbl.mul, Dbl.sub, Dbl.add, Dbl.neg, Dbl.fmax, Dbl.fmin,
    setTrustBoxConstraints, adjustTrustRegion,
    cvx_failed_ne_solved, opt_failed_ne_invalid, opt_converged_ne_invalid,
    opt_sco_limit_ne_invalid, opt_penalty_limit_ne_invalid, List.countP_cons,
    Event.isAccepted, List.range, List.range.loop]

set_option maxRecDepth 16000 in
set_option maxHeartbeats 4000000 in
theorem run_quad_converged : ∃ s, optimize quadProb quadMinModel 4 (freshOptimizerAt [0] unitBoxParams) =
      some (Run.returned OptStatus.OPT_CONVERGED s) ∧ s.results_.x = [3] ∧
      s.trace.countP Event.isAccepted = 3 ∧
      s.param_.trust_box_size = Dbl.fin (27 / 8) ∧
      s.param_.merit_error_coeff = 10 ∧
      s.trace = s.trace.dropLast.dropLast ++ [Event.convergedApprox, Event.satisfied] := by
  norm_num [optimize, startState, meritLoop, sqpLoop, sqpIteration, trustRegionLoop,
    afterTrustRegionLoop, bootstrap, callCallbacks, cleanup, penaltyAdjustment, escalate,
    freshOptimizerAt, trustRegionStep, solveTrustBox, buildReport, applyDecision, stepDecision,
    convexify, quadProb, quadMinModel, clampTo, quadCost, unitBoxParams, oneIterParams,
    BasicTrustRegionSQPParameters.defaults, BasicTrustRegionSQPResults.update, SQPState.assert,
    SQPState.emit, evaluateCosts, evaluateModelCosts, evaluateConstraintViols,
    evaluateModelCntViols, convexifyCosts, convexifyConstraints, cntsToCosts, vecSum, vecMax, Dbl.fdiv,
    Dbl.lt, Dbl.le, Dbl.ge, Dbl.mul, Dbl.sub, Dbl.add, Dbl.neg, Dbl.fmax, Dbl.fmin,
    setTrustBoxConstraints, adjustTrustRegion,
    cvx_failed_ne_solved, opt_failed_ne_invalid, opt_converged_ne_invalid,
    opt_sco_limit_ne_invalid, opt_penalty_limit_ne_invalid, List.countP_cons,
    Event.isAccepted, List.range, List.range.loop, List.dropLast]

set_option maxRecDepth 16000 in
set_option maxHeartbeats 4000000 in
theorem run_spike_first : ∃ s, optimize spikeProb quadMinModel 6 (freshOptimizerAt [0] unitBoxParams) =
      some (Run.returned OptStatus.OPT_CONVERGED s) ∧ s.results_.x = [1] ∧
      s.trace.countP Event.isAccepted = 1 ∧ s.trace.countP Event.isShrunk = 5 := by
  norm_num [optimize, startState, meritLoop, sqpLoop, sqpIteration, trustRegionLoop,
    afterTrustRegionLoop, bootstrap, callCallbacks, cleanup, penaltyAdjustment, escalate,
    freshOptimizerAt, trustRegionStep, solveTrustBox, buildReport, applyDecision, stepDecision,
    convexify, spikeProb, quadMinModel, clampTo, spikeCost, unitBoxParams,
    BasicTrustRegionSQPParameters.defaults, BasicTrustRegionSQPResults.update, SQPState.assert,
    SQPState.emit, evaluateCosts, evaluateModelCosts, evaluateConstraintViols,
    evaluateModelCntViols, convexifyCosts, convexifyConstraints, cntsToCosts, vecSum, vecMax, Dbl.fdiv,
    Dbl.lt, Dbl.le, Dbl.ge, Dbl.mul, Dbl.sub, Dbl.add, Dbl.neg, Dbl.fmax, Dbl.fmin,
    setTrustBoxConstraints, adjustTrustRegion,
    cvx_failed_ne_solved, opt_failed_ne_invalid, opt_converged_ne_invalid,
    opt_sco_limit_ne_invalid, opt_penalty_limit_ne_invalid, List.countP_cons,
    Event.isAccepted, Event.isShrunk, List.range, List.range.loop]

set_option maxRecDepth 16000 in
set_option maxHeartbeats 4000000 in
theorem run_spike_second : ∃ s, optimize spikeProb quadMinModel 3 (freshOptimizerAt [1] unitBoxParams) =
      some (Run.returned OptStatus.OPT_CONVERGED s) ∧ s.results_.x = [3] ∧
      s.trace.countP Event.isAccepted = 2 ∧ s.trace.countP Event.isSqpIteration = 3 := by
  norm_num [optimize, startState, meritLoop, sqpLoop, sqpIteration, trustRegionLoop,
    afterTrustRegionLoop, bootstrap, callCallbacks, cleanup, penaltyAdjustment, escalate,
    freshOptimizerAt, trustRegionStep, solveTrustBox, buildReport, applyDecision, stepDecision,
    convexify, spikeProb, quadMinModel, clampTo, spikeCost, unitBoxParams,
    BasicTrustRegionSQPParameters.defaults, BasicTrustRegionSQPResults.update, SQPState.assert,
    SQPState.emit, evaluateCosts, evaluateModelCosts, evaluateConstraintViols,
    evaluateModelCntViols, convexifyCosts, convexifyConstraints, cntsToCosts, vecSum, vecMax, Dbl.fdiv,
    Dbl.lt, Dbl.le, Dbl.ge, Dbl.mul, Dbl.sub, Dbl.add, Dbl.neg, Dbl.fmax, Dbl.fmin,
    setTrustBoxConstraints, adjustTrustRegion,
    cvx_failed_ne_solved, opt_failed_ne_invalid, opt_converged_ne_invalid,
    opt_sco_limit_ne_invalid, opt_penalty_limit_ne_invalid, List.countP_cons,
    Event.isAccepted, Event.isSqpIteration, List.range, List.range.loop]

/-- Counterexample to C20 as stated, with the backend `quadMinModel`, which
is deterministic and minimises the convex subproblem of both problems.  On
`spikeProb` the run from `x = 0` accepts the step to 1, rejects five steps
from there and returns `OPT_CONVERGED` at `x* = 1`; the re-run initialised
at `x* = 1` with the same parameters accepts two steps and returns
`OPT_CONVERGED` at 3.  On `quadProb` with `max_iter = 1` the run from
`x = 0` returns `x* = 1` at the iteration limit, and the re-run from
`x* = 1` accepts a step and returns 2. -/
theorem rerun_counterexample :
    quadMinModel.minimises spikeProb ∧ quadMinModel.minimises quadProb ∧
    (∀ (i j : Int) (x : DblVec) (μ : ℚ) (lo up : List Dbl),
      quadMinModel.optimize i x μ lo up = quadMinModel.optimize j x μ lo up) ∧
    (∃ s1 s2,
      optimize spikeProb quadMinModel 6 (freshOptimizerAt [0] unitBoxParams) =
        some (Run.returned OptStatus.OPT_CONVERGED s1) ∧
      optimize spikeProb quadMinModel 3 (freshOptimizerAt s1.results_.x unitBoxParams) =
        some (Run.returned OptStatus.OPT_CONVERGED s2) ∧
      s1.results_.x = [1] ∧ s2.results_.x = [3] ∧ s2.results_.x ≠ s1.results_.x ∧
      s2.trace.countP Event.isAccepted = 2 ∧ s2.trace.countP Event.isSqpIteration = 3) ∧
    (∃ s1 s2,
      optimize quadProb quadMinModel 1 (freshOptimizerAt [0] oneIterParams) =
        some (Run.returned OptStatus.OPT_SCO_ITERATION_LIMIT s1) ∧
      optimize quadProb quadMinModel 1 (freshOptimizerAt s1.results_.x oneIterParams) =
        some (Run.returned OptStatus.OPT_SCO_ITERATION_LIMIT s2) ∧
      s1.results_.x = [1] ∧ s2.results_.x = [2] ∧ s2.results_.x ≠ s1.results_.x ∧
      s2.trace.countP Event.isAccepted = 1) := by
  refine ⟨quadMinModel_minimises_spike, quadMinModel_minimises, fun _ _ _ _ _ _ => rfl, ?_, ?_⟩
  · obtain ⟨s1, h1, x1, -⟩ := run_spike_first
    obtain ⟨s2, h2, x2, a2, i2⟩ := run_spike_second
    refine ⟨s1, s2, h1, by rw [x1]; exact h2, x1, x2, ?_, a2, i2⟩
    rw [x1, x2]; decide
  · obtain ⟨s1, h1, x1, -⟩ := run_limit_first
    obtain ⟨s2, h2, x2, a2⟩ := run_limit_second
    refine ⟨s1, s2, h1, by rw [x1]; exact h2, x1, x2, ?_, a2⟩
    rw [x1, x2]; decide

/-- Witness for C20 as amended: on `quadProb` the run of `quadMinModel` from
`x = 0` accepts three steps and is declared converged at `x* = 3` by the
gate of line 613, with the trust box grown from 1 to 27/8; the re-run from
`x* = 3` converges at once at 3. -/
theorem rerun_converges_witness :
    ∃ s s2, optimize quadProb quadMinModel 4 (freshOptimizerAt [0] unitBoxParams) =
        some (Run.returned OptStatus.OPT_CONVERGED s) ∧
      optimize quadProb quadMinModel 1 (freshOptimizerAt s.results_.x unitBoxParams) =
        some (Run.returned OptStatus.OPT_CONVERGED s2) ∧
      s.results_.x = [3] ∧ s2.results_.x = s.results_.x ∧
      s2.trace.countP Event.isSqpIteration = 1 ∧ s2.trace.countP Event.isAccepted = 0 := by
  obtain ⟨s, h, hx, -, hΔ, hμ, htr⟩ := run_quad_converged
  have hsolve : (solveTrustBox quadProb quadMinModel
      (convexify quadProb (firstIterate quadProb (freshOptimizerAt s.results_.x unitBoxParams)))
      (firstIterate quadProb (freshOptimizerAt s.results_.x unitBoxParams))).1.1 =
      CvxOptStatus.CVX_SOLVED := by
    rw [hx]
    norm_num [solveTrustBox, firstIterate, bootstrap, callCallbacks, startState,
      freshOptimizerAt, quadProb, quadMinModel, clampTo, quadCost, unitBoxParams,
      BasicTrustRegionSQPParameters.defaults, SQPState.emit, SQPState.assert, convexify,
      setTrustBoxConstraints, evaluateCosts, evaluateConstraintViols, Dbl.sub, Dbl.add,
      Dbl.neg, Dbl.fmax, Dbl.fmin, Dbl.lt, Dbl.le, List.range, List.range.loop]
  obtain ⟨s2, h2, x2, i2, a2, -⟩ := rerun_converges quadProb quadMinModel 4 1
    (freshOptimizerAt [0] unitBoxParams) (freshOptimizerAt s.results_.x unitBoxParams) s
    quadMinModel_minimises rfl rfl h
    ⟨s.trace.dropLast.dropLast, by simpa [freshOptimizerAt] using htr⟩
    (by rw [hμ]; rfl)
    (by rw [hΔ]; norm_num [freshOptimizerAt, unitBoxParams, Dbl.le])
    (by norm_num [freshOptimizerAt, unitBoxParams, BasicTrustRegionSQPParameters.defaults,
      Dbl.ge, Dbl.le])
    rfl (by rw [hx]; simp) rfl rfl rfl rfl hsolve (le_refl 1)
  exact ⟨s, s2, h, h2, hx, x2, i2, a2⟩

/-! ## A vanishing predicted improvement (C22) -/

/-- C22: let `min_approx_improve > 1e-8` (the default `1e-4` is such a
value).  A solved step whose report has `|approx_merit_improve| ≤ 1e-8` takes
the branch of line 613: it is declared converged (`retval = OPT_CONVERGED`,
exit to the penalty adjustment) and neither `results.x` nor a parameter is
changed by a shrink or accept branch.  Whenever the step reaches the
shrink/accept test of lines 630–631 (the step is shrunk or accepted),
`approx_merit_improve ≥ min_approx_improve > 0`, so the denominator of
`merit_improve_ratio` is not zero and the ratio is the finite quotient
`exact_merit_improve / approx_merit_improve`. -/
theorem tiny_approx_gated (prob : OptProb) (model : Model) (cm : Convexified) (s : SQPState)
    (hmin : 1 / 100000000 < s.param_.min_approx_improve) :
    ((solveTrustBox prob model cm s).1.1 = CvxOptStatus.CVX_SOLVED →
      |(stepReport prob model cm s).approx_merit_improve| ≤ 1 / 100000000 →
      stepDecision s.param_ (stepReport prob model cm s) = Decision.convergedApprox ∧
      (trustRegionStep prob model cm s).1 = StepKind.convergedApprox ∧
      (trustRegionStep prob model cm s).2.retval = OptStatus.OPT_CONVERGED ∧
      (trustRegionStep prob model cm s).2.results_.x = s.results_.x ∧
      (trustRegionStep prob model cm s).2.param_ = s.param_ ∧
      ∀ fuel, Dbl.ge s.param_.trust_box_size (Dbl.fin s.param_.min_trust_box_size) = true →
        trustRegionLoop prob model cm (fuel + 1) s =
          some (InnerExit.penaltyadjustment, (trustRegionStep prob model cm s).2)) ∧
    ((trustRegionStep prob model cm s).1 = StepKind.shrunk ∨
        (trustRegionStep prob model cm s).1 = StepKind.accepted →
      s.param_.min_approx_improve ≤ (stepReport prob model cm s).approx_merit_improve ∧
      0 < (stepReport prob model cm s).approx_merit_improve ∧
      (stepReport prob model cm s).approx_merit_improve ≠ 0 ∧
      (stepReport prob model cm s).merit_improve_ratio =
        Dbl.fin ((stepReport prob model cm s).exact_merit_improve /
          (stepReport prob model cm s).approx_merit_improve)) ∧
    1 / 100000000 < BasicTrustRegionSQPParameters.defaults.min_approx_improve := by
  refine ⟨?_, ?_, by norm_num [BasicTrustRegionSQPParameters.defaults]⟩
  · intro hs habs
    have hlt : (stepReport prob model cm s).approx_merit_improve < s.param_.min_approx_improve :=
      lt_of_le_of_lt (le_trans (le_abs_self _) habs) hmin
    have hd := (stepDecision_convergedApprox_iff s.param_ _).mpr hlt
    have hk : (trustRegionStep prob model cm s).1 = StepKind.convergedApprox := by
      rw [trustRegionStep_fst_solved prob model cm s hs, hd]; rfl
    obtain ⟨e1, -, -, e4, e5, -⟩ :=
      trustRegionStep_converged_state prob model cm s hs (Or.inl hd)
    refine ⟨hd, hk, e5, e1, e4, ?_⟩
    intro fuel hc
    rw [trustRegionLoop_pass prob model cm fuel s hc, hk]
  · intro hk
    have hge : s.param_.min_approx_improve ≤ (stepReport prob model cm s).approx_merit_improve := by
      rcases hk with hk | hk
      · obtain ⟨-, hd⟩ := (trustRegionStep_shrunk_iff prob model cm s).mp hk
        exact not_lt.mp ((stepDecision_shrink_iff _ _).mp hd).1
      · obtain ⟨-, hd⟩ := (trustRegionStep_accepted_iff prob model cm s).mp hk
        exact not_lt.mp ((stepDecision_accept_iff _ _).mp hd).1
    have hpos : 0 < (stepReport prob model cm s).approx_merit_improve :=
      lt_of_lt_of_le (lt_trans (by norm_num) hmin) hge
    refine ⟨hge, hpos, ne_of_gt hpos, ?_⟩
    rw [stepReport_ratio]
    simp [Dbl.fdiv, ne_of_gt hpos]

/-- Witness for C22: with the default `min_approx_improve = 1e-4`, the step
of `shiftModel 0` on the flat cost predicts the improvement `0` and is
declared converged, and the accepted step on `(x - 3)²` has the predicted
improvement `5` and the ratio `5 / 5`. -/
theorem tiny_approx_gated_witness :
    (trustRegionStep flatProb (shiftModel 0) (convexify flatProb (flatState unitBoxParams))
      (flatState unitBoxParams)).1 = StepKind.convergedApprox ∧
    (stepReport quadProb (shiftModel 1) (convexify quadProb (quadState unitBoxParams))
      (quadState unitBoxParams)).merit_improve_ratio = Dbl.fin (5 / 5) := by
  have hmin : ∀ p : OptProb, ∀ x : SQPState, x.param_ = unitBoxParams →
      (1 : ℚ) / 100000000 < x.param_.min_approx_improve := by
    intro p x hx
    rw [hx]
    norm_num [unitBoxParams, BasicTrustRegionSQPParameters.defaults]
  have hacc : (trustRegionStep quadProb (shiftModel 1)
      (convexify quadProb (quadState unitBoxParams)) (quadState unitBoxParams)).1 =
      StepKind.accepted := by
    rw [trustRegionStep_accepted_iff]
    refine ⟨quad_step_solved _, ?_⟩
    rw [stepDecision_accept_iff, quad_step_report]
    norm_num [quadState, unitBoxParams, BasicTrustRegionSQPParameters.defaults, Dbl.fdiv, Dbl.lt]
  refine ⟨((tiny_approx_gated flatProb (shiftModel 0) _ (flatState unitBoxParams)
      (hmin flatProb _ rfl)).1 (flat_step_solved 0 _)
      (by rw [flat_step_report]; norm_num)).2.1, ?_⟩
  have h := ((tiny_approx_gated quadProb (shiftModel 1) _ (quadState unitBoxParams)
      (hmin quadProb _ rfl)).2.1 (Or.inr hacc)).2.2.2
  rw [h, quad_step_report]

/-! ## The merit of the stored iterate (C27) -/

/-- The merits of a report are the merit of the stored iterate and that of
the trial point, with the current penalty coefficient. -/
theorem stepReport_stored (prob : OptProb) (model : Model) (cm : Convexified) (s : SQPState) :
    (stepReport prob model cm s).old_merit = s.storedMerit ∧
    (stepReport prob model cm s).new_merit =
      vecSum (stepReport prob model cm s).new_cost_vals +
        s.param_.merit_error_coeff * vecSum (stepReport prob model cm s).new_cnt_viols ∧
    (stepReport prob model cm s).exact_merit_improve =
      (stepReport prob model cm s).old_merit - (stepReport prob model cm s).new_merit := by
  obtain ⟨a1, -, a3, a4, -⟩ := solveTrustBox_frame prob model cm s
  refine ⟨?_, ?_, rfl⟩
  · unfold stepReport buildReport BasicTrustRegionSQPResults.update SQPState.storedMerit
    simp only []
    rw [a1, a3, a4]
  · unfold stepReport buildReport BasicTrustRegionSQPResults.update
    simp only []
    rw [a1]

/-- No pass of the body of the trust-region loop increases the merit of the
stored iterate, and none changes the penalty coefficient. -/
theorem trustRegionStep_storedMerit (prob : OptProb) (model : Model) (cm : Convexified)
    (s : SQPState) :
    (trustRegionStep prob model cm s).2.storedMerit ≤ s.storedMerit ∧
    (trustRegionStep prob model cm s).2.param_.merit_error_coeff = s.param_.merit_error_coeff := by
  have hμ := (sameStage_fields _ _ (trustRegionStep_stageFrame prob model cm s).1).1
  refine ⟨?_, hμ⟩
  unfold SQPState.storedMerit
  rw [hμ]
  by_cases hs : (solveTrustBox prob model cm s).1.1 = CvxOptStatus.CVX_SOLVED
  · cases hd : stepDecision s.param_ (stepReport prob model cm s)
    · obtain ⟨-, h2, h3, -⟩ := trustRegionStep_converged_state prob model cm s hs (Or.inl hd)
      rw [h2, h3]
    · obtain ⟨-, h2, h3, -⟩ := trustRegionStep_converged_state prob model cm s hs (Or.inr hd)
      rw [h2, h3]
    · obtain ⟨-, h2, h3, -⟩ := trustRegionStep_shrink_state prob model cm s hs hd
      rw [h2, h3]
    · obtain ⟨-, h2, h3, -⟩ := trustRegionStep_accept_state prob model cm s hs hd
      rw [h2, h3]
      obtain ⟨-, -, he, -⟩ := (stepDecision_accept_iff _ _).mp hd
      obtain ⟨r1, r2, r3⟩ := stepReport_stored prob model cm s
      rw [r3, r1, r2] at he
      unfold SQPState.storedMerit at he
      linarith [not_lt.mp he]
  · rw [trustRegionStep_failed prob model cm s hs]
    obtain ⟨-, -, a3, a4, -⟩ := solveTrustBox_frame prob model cm s
    show vecSum (solveTrustBox prob model cm s).2.results_.cost_vals +
      s.param_.merit_error_coeff * vecSum (solveTrustBox prob model cm s).2.results_.cnt_viols ≤ _
    rw [a3, a4]

/-- On a problem without costs and constraints every evaluation is empty. -/
theorem evaluate_empty (prob : OptProb) (hc : prob.costs = []) (hn : prob.constraints = [])
    (x : DblVec) :
    evaluateCosts prob.costs x = [] ∧ evaluateConstraintViols prob.constraints x = [] := by
  rw [hc, hn]; exact ⟨rfl, rfl⟩

/-- The start of a pass of the SQP loop keeps the merit of the stored iterate
when the results hold values, and also when the problem is empty. -/
theorem iterationStart_storedMerit (prob : OptProb) (iter : Int) (s : SQPState)
    (h : s.fresh = false ∨ (prob.costs = [] ∧ prob.constraints = [])) :
    (bootstrap prob (callCallbacks (s.emit (Event.sqpIteration iter)))).storedMerit =
      s.storedMerit := by
  cases hf : s.fresh
  · have hb : bootstrap prob (callCallbacks (s.emit (Event.sqpIteration iter))) =
        callCallbacks (s.emit (Event.sqpIteration iter)) :=
      (bootstrap_fresh prob _).1 (by simpa [SQPState.fresh, callCallbacks, SQPState.emit] using hf)
    rw [hb]; rfl
  · rcases h with h | ⟨hc, hn⟩
    · rw [hf] at h; cases h
    · have hc2 : (callCallbacks (s.emit (Event.sqpIteration iter))).fresh = true := hf
      obtain ⟨b1, b2, -⟩ := (bootstrap_fresh prob _).2 hc2
      obtain ⟨e1, e2⟩ := evaluate_empty prob hc hn
        (callCallbacks (s.emit (Event.sqpIteration iter))).results_.x
      have hp := (iterationStart_frame prob iter s).1
      unfold SQPState.fresh at hf
      simp only [Bool.and_eq_true, List.isEmpty_iff] at hf
      unfold SQPState.storedMerit
      rw [b1, b2, e1, e2, hp, hf.1, hf.2]

theorem afterTrustRegionLoop_storedMerit (iter : Int) (s : SQPState) :
    (afterTrustRegionLoop iter s).2.storedMerit = s.storedMerit := by
  unfold SQPState.storedMerit
  rw [(afterTrustRegionLoop_frame iter s).1, (afterTrustRegionLoop_frame iter s).2.2]

/-- In the SQP loop of one penalty stage the merit of the stored iterate
never increases from the state in which the first trust-region loop of the
stage is entered, and the penalty coefficient stays as it is. -/
theorem sqpLoop_storedMerit (prob : OptProb) (model : Model) (fuel k : Nat) (iter : Int)
    (s : SQPState) (e : SqpExit) (t : SQPState)
    (h : sqpLoop prob model fuel k iter s = some (e, t)) :
    t.storedMerit ≤
      (bootstrap prob (callCallbacks (s.emit (Event.sqpIteration iter)))).storedMerit ∧
    t.param_.merit_error_coeff = s.param_.merit_error_coeff := by
  have hμ := (sameStage_fields _ _ (sqpLoop_stageFrame prob model fuel k iter s e t h).1).1
  refine ⟨?_, hμ⟩
  by_cases hP : prob.costs = [] ∧ prob.constraints = []
  · exact sqpLoop_rel_first prob model (fun a b => b.storedMerit ≤ a.storedMerit)
      (fun a => le_refl _) (fun a b c h1 h2 => le_trans h2 h1)
      (fun cm a => (trustRegionStep_storedMerit prob model cm a).1)
      (fun it a => le_of_eq (iterationStart_storedMerit prob it a (Or.inr hP)))
      (fun it a => le_of_eq (afterTrustRegionLoop_storedMerit it a))
      fuel k iter s e t h
  · have hprob : prob.costs ≠ [] ∨ prob.constraints ≠ [] := by
      by_contra hcon
      push_neg at hcon
      exact hP hcon
    have hR := sqpLoop_rel_first prob model
      (fun a b => a.fresh = false → b.fresh = false ∧ b.storedMerit ≤ a.storedMerit)
      (fun a ha => ⟨ha, le_refl _⟩)
      (fun a b c h1 h2 ha => ⟨(h2 (h1 ha).1).1, le_trans (h2 (h1 ha).1).2 (h1 ha).2⟩)
      (fun cm a ha => ⟨trustRegionStep_fresh prob model cm hprob a ha,
        (trustRegionStep_storedMerit prob model cm a).1⟩)
      (fun it a ha => by
        have hb : bootstrap prob (callCallbacks (a.emit (Event.sqpIteration it))) =
            callCallbacks (a.emit (Event.sqpIteration it)) :=
          (bootstrap_fresh prob _).1
            (by simpa [SQPState.fresh, callCallbacks, SQPState.emit] using ha)
        refine ⟨?_, le_of_eq (iterationStart_storedMerit prob it a (Or.inl ha))⟩
        rw [hb]
        simpa [SQPState.fresh, callCallbacks, SQPState.emit] using ha)
      (fun it a ha => ⟨by
          unfold SQPState.fresh at ha ⊢
          rw [(afterTrustRegionLoop_frame it a).2.2]; exact ha,
        le_of_eq (afterTrustRegionLoop_storedMerit it a)⟩)
      fuel k iter s e t h
    have hnf : (bootstrap prob (callCallbacks (s.emit (Event.sqpIteration iter)))).fresh =
        false := by
      cases hf : (callCallbacks (s.emit (Event.sqpIteration iter))).fresh
      · rw [(bootstrap_fresh prob _).1 hf]; exact hf
      · obtain ⟨b1, b2, -⟩ := (bootstrap_fresh prob _).2 hf
        unfold SQPState.fresh
        rw [b1, b2]
        exact evaluated_not_fresh prob hprob _ _
    exact (hR hnf).2

/-- C27: on every accepted step of the trust-region loop,
`new_merit ≤ old_merit`, where `old_merit` is the L1 merit
`Σ cost_vals + μ · Σ cnt_viols` of the stored iterate before the step and
`new_merit` that of the stored iterate after it, both with the current `μ`,
which the step leaves as it is; no other step changes the stored values.
Hence in the SQP loop of one penalty stage the merit of the stored iterate
never increases from the first iterate of the stage on, and `μ` is
constant. -/
theorem accepted_merit_monotone (prob : OptProb) (model : Model) (cm : Convexified)
    (s : SQPState) (h : (trustRegionStep prob model cm s).1 = StepKind.accepted) :
    (stepReport prob model cm s).new_merit ≤ (stepReport prob model cm s).old_merit ∧
    (stepReport prob model cm s).old_merit = s.storedMerit ∧
    (stepReport prob model cm s).new_merit = (trustRegionStep prob model cm s).2.storedMerit ∧
    (trustRegionStep prob model cm s).2.param_.merit_error_coeff = s.param_.merit_error_coeff ∧
    (trustRegionStep prob model cm s).2.storedMerit ≤ s.storedMerit ∧
    (∀ (cm2 : Convexified) (u : SQPState),
      (trustRegionStep prob model cm2 u).1 ≠ StepKind.accepted →
      (trustRegionStep prob model cm2 u).2.storedMerit = u.storedMerit) ∧
    (∀ (fuel k : Nat) (iter : Int) (u : SQPState) (e : SqpExit) (t : SQPState),
      sqpLoop prob model fuel k iter u = some (e, t) →
      t.storedMerit ≤
        (bootstrap prob (callCallbacks (u.emit (Event.sqpIteration iter)))).storedMerit ∧
      t.param_.merit_error_coeff = u.param_.merit_error_coeff) := by
  obtain ⟨hs, hd⟩ := (trustRegionStep_accepted_iff prob model cm s).mp h
  obtain ⟨-, h2, h3, -⟩ := trustRegionStep_accept_state prob model cm s hs hd
  obtain ⟨r1, r2, r3⟩ := stepReport_stored prob model cm s
  obtain ⟨m1, m2⟩ := trustRegionStep_storedMerit prob model cm s
  have hnew : (stepReport prob model cm s).new_merit =
      (trustRegionStep prob model cm s).2.storedMerit := by
    rw [r2]
    unfold SQPState.storedMerit
    rw [h2, h3, m2]
  refine ⟨?_, r1, hnew, m2, m1, ?_, ?_⟩
  · rw [hnew, r1]; exact m1
  · intro cm2 u hk
    have hμ := (trustRegionStep_storedMerit prob model cm2 u).2
    unfold SQPState.storedMerit
    rw [hμ]
    by_cases hs2 : (solveTrustBox prob model cm2 u).1.1 = CvxOptStatus.CVX_SOLVED
    · cases hd2 : stepDecision u.param_ (stepReport prob model cm2 u)
      · obtain ⟨-, q2, q3, -⟩ := trustRegionStep_converged_state prob model cm2 u hs2 (Or.inl hd2)
        rw [q2, q3]
      · obtain ⟨-, q2, q3, -⟩ := trustRegionStep_converged_state prob model cm2 u hs2 (Or.inr hd2)
        rw [q2, q3]
      · obtain ⟨-, q2, q3, -⟩ := trustRegionStep_shrink_state prob model cm2 u hs2 hd2
        rw [q2, q3]
      · exact absurd ((trustRegionStep_accepted_iff prob model cm2 u).mpr ⟨hs2, hd2⟩) hk
    · rw [trustRegionStep_failed prob model cm2 u hs2]
      obtain ⟨-, -, a3, a4, -⟩ := solveTrustBox_frame prob model cm2 u
      show vecSum (solveTrustBox prob model cm2 u).2.results_.cost_vals +
        u.param_.merit_error_coeff * vecSum (solveTrustBox prob model cm2 u).2.results_.cnt_viols
          = _
      rw [a3, a4]
  · intro fuel k iter u e t hq
    exact sqpLoop_storedMerit prob model fuel k iter u e t hq

/-- Witness for C27: the accepted step on `(x - 3)²` from `x = 0` to `x = 1`
takes the merit of the stored iterate from 9 to 4. -/
theorem accepted_merit_monotone_witness :
    (trustRegionStep quadProb (shiftModel 1) (convexify quadProb (quadState unitBoxParams))
      (quadState unitBoxParams)).1 = StepKind.accepted ∧
    (stepReport quadProb (shiftModel 1) (convexify quadProb (quadState unitBoxParams))
      (quadState unitBoxParams)).new_merit ≤
    (stepReport quadProb (shiftModel 1) (convexify quadProb (quadState unitBoxParams))
      (quadState unitBoxParams)).old_merit ∧
    (stepReport quadProb (shiftModel 1) (convexify quadProb (quadState unitBoxParams))
      (quadState unitBoxParams)).old_merit = 9 ∧
    (stepReport quadProb (shiftModel 1) (convexify quadProb (quadState unitBoxParams))
      (quadState unitBoxParams)).new_merit = 4 := by
  have hacc : (trustRegionStep quadProb (shiftModel 1)
      (convexify quadProb (quadState unitBoxParams)) (quadState unitBoxParams)).1 =
      StepKind.accepted := by
    rw [trustRegionStep_accepted_iff]
    refine ⟨quad_step_solved _, ?_⟩
    rw [stepDecision_accept_iff, quad_step_report]
    norm_num [quadState, unitBoxParams, BasicTrustRegionSQPParameters.defaults, Dbl.fdiv, Dbl.lt]
  refine ⟨hacc, (accepted_merit_monotone _ _ _ _ hacc).1, ?_, ?_⟩ <;> rw [quad_step_report]

/-! ## The trust box after a penalty escalation (C28) -/

/-- The value `fmax(Δ, min / ρ · 1.5)` and its product with `ρ` are at least
`min`, for `0 < ρ ≤ 1` and `min ≥ 0`, whatever `Δ` is. -/
theorem Dbl.escalated_ge (d : Dbl) (ρ m : ℚ) (hρ0 : 0 < ρ) (hρ1 : ρ ≤ 1) (hm : 0 ≤ m) :
    Dbl.ge (Dbl.fmax d (Dbl.mul (Dbl.fdiv m ρ) (Dbl.fin (3 / 2)))) (Dbl.fin m) = true ∧
    Dbl.ge (Dbl.mul (Dbl.fmax d (Dbl.mul (Dbl.fdiv m ρ) (Dbl.fin (3 / 2)))) (Dbl.fin ρ))
      (Dbl.fin m) = true := by
  have hρ : ρ ≠ 0 := ne_of_gt hρ0
  have hv : Dbl.mul (Dbl.fdiv m ρ) (Dbl.fin (3 / 2)) = Dbl.fin (m / ρ * (3 / 2)) := by
    simp [Dbl.fdiv, hρ, Dbl.mul]
  have h1 : m ≤ m / ρ := by
    rw [le_div_iff₀ hρ0]
    nlinarith
  have h2 : m ≤ m / ρ * (3 / 2) := by linarith
  have h3 : m / ρ * (3 / 2) * ρ = m * (3 / 2) := by
    field_simp
    ring
  rw [hv]
  cases d with
  | fin a =>
    rw [Dbl.fmax_fin_fin]
    refine ⟨by simpa [Dbl.ge, Dbl.le] using le_trans h2 (le_max_right _ _), ?_⟩
    have h4 : m ≤ max a (m / ρ * (3 / 2)) * ρ := by
      have : m / ρ * (3 / 2) * ρ ≤ max a (m / ρ * (3 / 2)) * ρ :=
        mul_le_mul_of_nonneg_right (le_max_right _ _) (le_of_lt hρ0)
      linarith
    simpa [Dbl.mul, Dbl.ge, Dbl.le] using h4
  | pinf => simp [Dbl.fmax, Dbl.lt, Dbl.mul, Dbl.infMul, hρ, hρ0, Dbl.ge, Dbl.le]
  | ninf =>
    have h4 : m ≤ m / ρ * (3 / 2) * ρ := by linarith
    simp [Dbl.fmax, Dbl.lt, Dbl.mul, Dbl.ge, Dbl.le, h2, h4]
  | nan =>
    have h4 : m ≤ m / ρ * (3 / 2) * ρ := by linarith
    simp [Dbl.fmax, Dbl.mul, Dbl.ge, Dbl.le, h2, h4]

theorem Dbl.lt_false_of_ge (a b : Dbl) (h : Dbl.ge a b = true) : Dbl.lt a b = false := by
  cases a <;> cases b <;> simp_all [Dbl.ge, Dbl.le, Dbl.lt]

/-- The parameters with which the first trust-region loop of a pass of the
merit loop is entered. -/
theorem stageFirstIterate_param (prob : OptProb) (m : Int) (s : SQPState) :
    (stageFirstIterate prob m s).param_ = s.param_ :=
  (iterationStart_frame prob 1 (s.emit (Event.meritStage m))).1

/-- The trust-region loop never removes a solve from the record. -/
theorem trustRegionLoop_solves_mono (prob : OptProb) (model : Model) (cm : Convexified)
    (fuel : Nat) (s : SQPState) (e : InnerExit) (t : SQPState)
    (h : trustRegionLoop prob model cm fuel s = some (e, t)) :
    s.trace.countP Event.isQpSolve ≤ t.trace.countP Event.isQpSolve :=
  trustRegionLoop_rel prob model cm
    (fun a b => a.trace.countP Event.isQpSolve ≤ b.trace.countP Event.isQpSolve)
    (fun a => le_refl _) (fun a b c h1 h2 => le_trans h1 h2)
    (fun a => by
      show a.trace.countP Event.isQpSolve ≤
        (trustRegionStep prob model cm a).2.trace.countP Event.isQpSolve
      rw [trustRegionStep_count_qpSolve]; omega) fuel s e t h

/-- A trust-region loop entered with a trust box that passes the loop test
makes a solve; if that step is rejected and the shrunk box passes the test
again, it makes a second one. -/
theorem trustRegionLoop_solves_first (prob : OptProb) (model : Model) (cm : Convexified)
    (fuel : Nat) (s : SQPState) (e : InnerExit) (t : SQPState)
    (hc : Dbl.ge s.param_.trust_box_size (Dbl.fin s.param_.min_trust_box_size) = true)
    (h : trustRegionLoop prob model cm fuel s = some (e, t)) :
    s.trace.countP Event.isQpSolve + 1 ≤ t.trace.countP Event.isQpSolve ∧
    ((trustRegionStep prob model cm s).1 = StepKind.shrunk →
      Dbl.ge (trustRegionStep prob model cm s).2.param_.trust_box_size
        (Dbl.fin (trustRegionStep prob model cm s).2.param_.min_trust_box_size) = true →
      s.trace.countP Event.isQpSolve + 2 ≤ t.trace.countP Event.isQpSolve) := by
  cases fuel with
  | zero => simp [trustRegionLoop] at h
  | succ n =>
    rw [trustRegionLoop_pass prob model cm n s hc] at h
    have hcount := trustRegionStep_count_qpSolve prob model cm s
    cases hk : (trustRegionStep prob model cm s).1 <;> rw [hk] at h <;>
      simp only [Option.some.injEq, Prod.mk.injEq] at h
    · rw [← h.2, hcount]; simp
    · rw [← h.2, hcount]; simp
    · rw [← h.2, hcount]; simp
    · have hm := trustRegionLoop_solves_mono prob model cm n _ e t h
      refine ⟨by omega, ?_⟩
      intro _ hc2
      cases n with
      | zero => simp [trustRegionLoop] at h
      | succ n2 =>
        rw [trustRegionLoop_pass prob model cm n2 _ hc2] at h
        have hcount2 := trustRegionStep_count_qpSolve prob model cm
          (trustRegionStep prob model cm s).2
        cases hk2 : (trustRegionStep prob model cm (trustRegionStep prob model cm s).2).1 <;>
          rw [hk2] at h <;> simp only [Option.some.injEq, Prod.mk.injEq] at h
        · rw [← h.2, hcount2, hcount]
        · rw [← h.2, hcount2, hcount]
        · rw [← h.2, hcount2, hcount]
        · have hm2 := trustRegionLoop_solves_mono prob model cm n2 _ e t h
          omega
        · rw [← h.2, hcount2, hcount]
    · rw [← h.2, hcount]; simp

/-- C28: for `0 < trust_shrink_ratio ≤ 1` and `min_trust_box_size ≥ 0`, the
`trust_box_size` set by a penalty escalation, `Δ_new`, satisfies
`Δ_new ≥ min_trust_box_size` and
`Δ_new · trust_shrink_ratio ≥ min_trust_box_size`.  The next pass of the
merit loop enters its first trust-region loop with this box and the same
two parameters; the loop test passes, so the loop makes a solve; and when
that first step is rejected the shrunk box passes the loop test again and
fails the test "trust region is tiny", so the loop makes a second solve
instead of ending the stage. -/
theorem escalated_box_solves (prob : OptProb) (model : Model) (u : SQPState)
    (hρ0 : 0 < u.param_.trust_shrink_ratio) (hρ1 : u.param_.trust_shrink_ratio ≤ 1)
    (hmin : 0 ≤ u.param_.min_trust_box_size) :
    Dbl.ge (escalate u).param_.trust_box_size (Dbl.fin u.param_.min_trust_box_size) = true ∧
    Dbl.ge (Dbl.mul (escalate u).param_.trust_box_size (Dbl.fin u.param_.trust_shrink_ratio))
      (Dbl.fin u.param_.min_trust_box_size) = true ∧
    (∀ m : Int,
      (stageFirstIterate prob m (escalate u)).param_.trust_box_size =
        (escalate u).param_.trust_box_size ∧
      (stageFirstIterate prob m (escalate u)).param_.min_trust_box_size =
        u.param_.min_trust_box_size ∧
      (stageFirstIterate prob m (escalate u)).param_.trust_shrink_ratio =
        u.param_.trust_shrink_ratio ∧
      Dbl.ge (stageFirstIterate prob m (escalate u)).param_.trust_box_size
        (Dbl.fin (stageFirstIterate prob m (escalate u)).param_.min_trust_box_size) = true) ∧
    (∀ (m : Int) (cm : Convexified),
      (trustRegionStep prob model cm (stageFirstIterate prob m (escalate u))).1 =
        StepKind.shrunk →
      Dbl.ge (trustRegionStep prob model cm
          (stageFirstIterate prob m (escalate u))).2.param_.trust_box_size
        (Dbl.fin (trustRegionStep prob model cm
          (stageFirstIterate prob m (escalate u))).2.param_.min_trust_box_size) = true ∧
      Dbl.lt (trustRegionStep prob model cm
          (stageFirstIterate prob m (escalate u))).2.param_.trust_box_size
        (Dbl.fin (trustRegionStep prob model cm
          (stageFirstIterate prob m (escalate u))).2.param_.min_trust_box_size) = false) ∧
    (∀ (m : Int) (cm : Convexified) (fuel : Nat) (e : InnerExit) (t : SQPState),
      trustRegionLoop prob model cm fuel (stageFirstIterate prob m (escalate u)) = some (e, t) →
      (stageFirstIterate prob m (escalate u)).trace.countP Event.isQpSolve + 1 ≤
        t.trace.countP Event.isQpSolve ∧
      ((trustRegionStep prob model cm (stageFirstIterate prob m (escalate u))).1 =
          StepKind.shrunk →
        (stageFirstIterate prob m (escalate u)).trace.countP Event.isQpSolve + 2 ≤
          t.trace.countP Event.isQpSolve)) := by
  obtain ⟨-, f2, -⟩ := escalate_fields u
  obtain ⟨g1, g2⟩ := Dbl.escalated_ge u.param_.trust_box_size _ _ hρ0 hρ1 hmin
  have hpar : ∀ m : Int, (stageFirstIterate prob m (escalate u)).param_ = (escalate u).param_ :=
    fun m => stageFirstIterate_param prob m _
  have hmn : (escalate u).param_.min_trust_box_size = u.param_.min_trust_box_size := rfl
  have hrt : (escalate u).param_.trust_shrink_ratio = u.param_.trust_shrink_ratio := rfl
  have hge : ∀ m : Int, Dbl.ge (stageFirstIterate prob m (escalate u)).param_.trust_box_size
      (Dbl.fin (stageFirstIterate prob m (escalate u)).param_.min_trust_box_size) = true := by
    intro m
    rw [hpar, hmn, f2]; exact g1
  have hshr : ∀ (m : Int) (cm : Convexified),
      (trustRegionStep prob model cm (stageFirstIterate prob m (escalate u))).1 =
        StepKind.shrunk →
      Dbl.ge (trustRegionStep prob model cm
          (stageFirstIterate prob m (escalate u))).2.param_.trust_box_size
        (Dbl.fin (trustRegionStep prob model cm
          (stageFirstIterate prob m (escalate u))).2.param_.min_trust_box_size) = true := by
    intro m cm hk
    obtain ⟨hs, hd⟩ := (trustRegionStep_shrunk_iff prob model cm _).mp hk
    obtain ⟨-, -, -, e4, -⟩ := trustRegionStep_shrink_state prob model cm _ hs hd
    rw [e4]
    show Dbl.ge (Dbl.mul (stageFirstIterate prob m (escalate u)).param_.trust_box_size
        (Dbl.fin (stageFirstIterate prob m (escalate u)).param_.trust_shrink_ratio))
      (Dbl.fin (stageFirstIterate prob m (escalate u)).param_.min_trust_box_size) = true
    rw [hpar, hmn, hrt, f2]; exact g2
  refine ⟨by rw [f2]; exact g1, by rw [f2]; exact g2, ?_, ?_, ?_⟩
  · intro m
    refine ⟨by rw [hpar], by rw [hpar, hmn], by rw [hpar, hrt], hge m⟩
  · intro m cm hk
    exact ⟨hshr m cm hk, Dbl.lt_false_of_ge _ _ (hshr m cm hk)⟩
  · intro m cm fuel e t h
    obtain ⟨c1, c2⟩ := trustRegionLoop_solves_first prob model cm fuel _ e t (hge m) h
    exact ⟨c1, fun hk => c2 hk (hshr m cm hk)⟩

/-- Witness for C28: with the defaults (`trust_shrink_ratio = 0.1`,
`min_trust_box_size = 1e-4`) and a trust box shrunk to `1e-5`, the
escalation sets `trust_box_size` to `1.5e-3`, which is at least `1e-4` also
after one shrink. -/
theorem escalated_box_solves_witness :
    (escalate (flatState { unitBoxParams with trust_box_size := Dbl.fin (1 / 100000) })).param_.trust_box_size =
      Dbl.fin (3 / 2000) ∧
    Dbl.ge (escalate (flatState
        { unitBoxParams with trust_box_size := Dbl.fin (1 / 100000) })).param_.trust_box_size
      (Dbl.fin (flatState
        { unitBoxParams with trust_box_size := Dbl.fin (1 / 100000) }).param_.min_trust_box_size) =
      true ∧
    Dbl.ge (Dbl.mul (escalate (flatState
        { unitBoxParams with trust_box_size := Dbl.fin (1 / 100000) })).param_.trust_box_size
        (Dbl.fin (flatState
          { unitBoxParams with trust_box_size := Dbl.fin (1 / 100000) }).param_.trust_shrink_ratio))
      (Dbl.fin (flatState
        { unitBoxParams with trust_box_size := Dbl.fin (1 / 100000) }).param_.min_trust_box_size) =
      true := by
  have h := escalated_box_solves flatProb (shiftModel 0)
    (flatState { unitBoxParams with trust_box_size := Dbl.fin (1 / 100000) })
    (by norm_num [flatState, unitBoxParams, BasicTrustRegionSQPParameters.defaults])
    (by norm_num [flatState, unitBoxParams, BasicTrustRegionSQPParameters.defaults])
    (by norm_num [flatState, unitBoxParams, BasicTrustRegionSQPParameters.defaults])
  refine ⟨?_, h.1, h.2.1⟩
  norm_num [escalate, SQPState.emit, flatState, unitBoxParams,
    BasicTrustRegionSQPParameters.defaults, Dbl.fdiv, Dbl.mul, Dbl.fmax_fin_fin]

/-! ## The trust box contains the iterate (C30) -/

theorem Dbl.le_of_le_of_le (a b c : Dbl) (h1 : Dbl.le a b = true) (h2 : Dbl.le b c = true) :
    Dbl.le a c = true := by
  cases a <;> cases b <;> cases c <;> simp_all [Dbl.le]
  linarith

/-- A bound that is a number is not above `fmax` of anything and itself. -/
theorem Dbl.le_fmax_right (a b : Dbl) (hb : b ≠ Dbl.nan) : Dbl.le b (Dbl.fmax a b) = true := by
  cases a <;> cases b <;> (try rw [Dbl.fmax_fin_fin]) <;>
    simp_all [Dbl.fmax, Dbl.lt, Dbl.le]

/-- A bound that is a number is not below `fmin` of anything and itself. -/
theorem Dbl.fmin_le_right (a b : Dbl) (hb : b ≠ Dbl.nan) : Dbl.le (Dbl.fmin a b) b = true := by
  cases a <;> cases b <;> (try rw [Dbl.fmin_fin_fin]) <;>
    simp_all [Dbl.fmin, Dbl.lt, Dbl.le]

theorem Dbl.ne_nan_of_le_left (a b : Dbl) (h : Dbl.le a b = true) : a ≠ Dbl.nan := by
  intro ha
  rw [ha] at h
  cases b <;> simp [Dbl.le] at h

theorem Dbl.ne_nan_of_le_right (a b : Dbl) (h : Dbl.le a b = true) : b ≠ Dbl.nan := by
  intro hb
  rw [hb] at h
  cases a <;> simp [Dbl.le] at h

/-- With `Δ ≥ 0`, `x - Δ ≤ x ≤ x + Δ`. -/
theorem Dbl.sub_le_add_of_nonneg (x : ℚ) (d : Dbl) (hd : Dbl.ge d (Dbl.fin 0) = true) :
    Dbl.le (Dbl.sub (Dbl.fin x) d) (Dbl.fin x) = true ∧
    Dbl.le (Dbl.fin x) (Dbl.add (Dbl.fin x) d) = true := by
  cases d <;> simp_all [Dbl.ge, Dbl.le, Dbl.sub, Dbl.add, Dbl.neg]

/-- A trust box that passes the loop test with `min_trust_box_size ≥ 0` has
a size `≥ 0`. -/
theorem Dbl.nonneg_of_ge (d : Dbl) (m : ℚ) (hm : 0 ≤ m) (h : Dbl.ge d (Dbl.fin m) = true) :
    Dbl.ge d (Dbl.fin 0) = true := by
  cases d <;> simp_all [Dbl.ge, Dbl.le]
  linarith

/-- One entry of the trust box around a point within the bounds. -/
theorem trustBox_entry (x : ℚ) (d l u : Dbl) (hd : Dbl.ge d (Dbl.fin 0) = true)
    (hl : Dbl.le l (Dbl.fin x) = true) (hu : Dbl.le (Dbl.fin x) u = true) :
    Dbl.le (Dbl.fmax (Dbl.sub (Dbl.fin x) d) l) (Dbl.fin x) = true ∧
    Dbl.le (Dbl.fin x) (Dbl.fmin (Dbl.add (Dbl.fin x) d) u) = true ∧
    Dbl.le (Dbl.fmax (Dbl.sub (Dbl.fin x) d) l) (Dbl.fmin (Dbl.add (Dbl.fin x) d) u) = true ∧
    Dbl.le l (Dbl.fmax (Dbl.sub (Dbl.fin x) d) l) = true ∧
    Dbl.le (Dbl.fmin (Dbl.add (Dbl.fin x) d) u) u = true := by
  obtain ⟨h1, h2⟩ := Dbl.sub_le_add_of_nonneg x d hd
  have hln := Dbl.ne_nan_of_le_left _ _ hl
  have hun := Dbl.ne_nan_of_le_right _ _ hu
  have a1 : Dbl.le (Dbl.fmax (Dbl.sub (Dbl.fin x) d) l) (Dbl.fin x) = true :=
    (Dbl.fmax_le_iff _ _ _ (Dbl.ne_nan_of_le_left _ _ h1) hln).mpr ⟨h1, hl⟩
  have a2 : Dbl.le (Dbl.fin x) (Dbl.fmin (Dbl.add (Dbl.fin x) d) u) = true :=
    (Dbl.le_fmin_iff _ _ _ (Dbl.ne_nan_of_le_right _ _ h2) hun).mpr ⟨h2, hu⟩
  exact ⟨a1, a2, Dbl.le_of_le_of_le _ _ _ a1 a2, Dbl.le_fmax_right _ _ hln,
    Dbl.fmin_le_right _ _ hun⟩

/-- A pass of the body of the trust-region loop that does not accept its
step leaves `results.x` as it is. -/
theorem trustRegionStep_keeps_x (prob : OptProb) (model : Model) (cm : Convexified)
    (s : SQPState) (hk : (trustRegionStep prob model cm s).1 ≠ StepKind.accepted) :
    (trustRegionStep prob model cm s).2.results_.x = s.results_.x := by
  by_cases hs : (solveTrustBox prob model cm s).1.1 = CvxOptStatus.CVX_SOLVED
  · cases hd : stepDecision s.param_ (stepReport prob model cm s)
    · exact (trustRegionStep_converged_state prob model cm s hs (Or.inl hd)).1
    · exact (trustRegionStep_converged_state prob model cm s hs (Or.inr hd)).1
    · exact (trustRegionStep_shrink_state prob model cm s hs hd).1
    · exact absurd ((trustRegionStep_accepted_iff prob model cm s).mpr ⟨hs, hd⟩) hk
  · rw [trustRegionStep_failed prob model cm s hs]
    exact (solveTrustBox_frame prob model cm s).2.1

/-- With a backend that respects the bounds set for its solves, a pass of
the body of the trust-region loop keeps `results.x` within the bounds of the
problem. -/
theorem trustRegionStep_withinProblemBounds (prob : OptProb) (model : Model)
    (hm : model.respectsBox prob) (cm : Convexified) (s : SQPState)
    (hI : s.withinProblemBounds prob) :
    (trustRegionStep prob model cm s).2.withinProblemBounds prob := by
  by_cases hk : (trustRegionStep prob model cm s).1 = StepKind.accepted
  · obtain ⟨hs, hd⟩ := (trustRegionStep_accepted_iff prob model cm s).mp hk
    obtain ⟨hx, -⟩ := trustRegionStep_accept_state prob model cm s hs hd
    obtain ⟨hlen, hall⟩ := hm cm s hs
    obtain ⟨i1, i2, i3⟩ := hI
    have hl1 : (setTrustBoxConstraints s.results_.x s.param_.trust_box_size prob.lower_bounds
        prob.upper_bounds).1.length = s.results_.x.length := by
      simp [setTrustBoxConstraints]
    rw [hl1] at hlen hall
    have hnx := stepReport_new_x prob model cm s
    have hnl : (stepReport prob model cm s).new_x.length = s.results_.x.length := by
      rw [hnx, List.length_take]; exact min_eq_left hlen
    unfold SQPState.withinProblemBounds
    rw [hx, hnl]
    refine ⟨i1, i2, ?_⟩
    intro i hi
    obtain ⟨-, b1, b2⟩ := setTrustBoxConstraints_getD s.results_.x s.param_.trust_box_size
      prob.lower_bounds prob.upper_bounds i hi
    obtain ⟨c1, c2⟩ := hall i hi
    rw [b1] at c1
    rw [b2] at c2
    have hv : (stepReport prob model cm s).new_x.getD i 0 =
        (solveTrustBox prob model cm s).1.2.getD i 0 := by
      rw [hnx, List.getD_eq_getElem?_getD, List.getD_eq_getElem?_getD,
        List.getElem?_take_of_lt hi]
    rw [hv]
    obtain ⟨d1, d2⟩ := i3 i hi
    exact ⟨Dbl.le_of_le_of_le _ _ _
        (Dbl.le_fmax_right _ _ (Dbl.ne_nan_of_le_left _ _ d1)) c1,
      Dbl.le_of_le_of_le _ _ _ c2
        (Dbl.fmin_le_right _ _ (Dbl.ne_nan_of_le_right _ _ d2))⟩
  · unfold SQPState.withinProblemBounds
    rw [trustRegionStep_keeps_x prob model cm s hk]
    exact hI

/-- A state with the same `results.x` is within the bounds as well. -/
theorem withinProblemBounds_of_x (prob : OptProb) (s t : SQPState)
    (hx : t.results_.x = s.results_.x) (hI : s.withinProblemBounds prob) :
    t.withinProblemBounds prob := by
  unfold SQPState.withinProblemBounds
  rw [hx]
  exact hI

/-- With a backend that respects the bounds set for its solves, the merit
loop keeps `results.x` within the bounds of the problem. -/
theorem meritLoop_withinProblemBounds (prob : OptProb) (model : Model)
    (hm : model.respectsBox prob) (fuel k : Nat) (m : Int) (s t : SQPState)
    (h : meritLoop prob model fuel k m s = some t) (hI : s.withinProblemBounds prob) :
    t.withinProblemBounds prob :=
  meritLoop_rel prob model
    (fun a b => a.withinProblemBounds prob → b.withinProblemBounds prob)
    (fun a ha => ha) (fun a b c h1 h2 ha => h2 (h1 ha))
    (fun cm a ha => trustRegionStep_withinProblemBounds prob model hm cm a ha)
    (fun iter a ha => withinProblemBounds_of_x prob a _
      ((bootstrap_frame prob (callCallbacks (a.emit (Event.sqpIteration iter)))).2.2.2.1) ha)
    (fun iter a ha => withinProblemBounds_of_x prob a _
      (by rw [(afterTrustRegionLoop_frame iter a).2.2]) ha)
    (fun m a ha => withinProblemBounds_of_x prob a _ rfl ha)
    (fun a ha => withinProblemBounds_of_x prob a _
      (by rw [(penaltyAdjustment_results a).1]) ha)
    (fun a ha => withinProblemBounds_of_x prob a _ rfl ha)
    fuel k m s t h hI

/-- C30: for a point `x`, a trust-box size `Δ ≥ 0` and bounds with
`lb_i ≤ x_i ≤ ub_i` for all `i < |x|`, the trust box computed by
`setTrustBoxConstraints` contains `x`: `lbtrust_i ≤ x_i ≤ ubtrust_i`; so
`lbtrust_i ≤ ubtrust_i` (the box is not empty), and the box lies inside
`[lb, ub]`.  Hence, with a backend whose solved values respect the box set
for the solve: an accepted step from a point within the problem's bounds
leads to a point within them, the box of every solve of the trust-region
loop made at such a point (with `min_trust_box_size ≥ 0`) contains that
point, and a run that starts the merit loop (after
`getClosestFeasiblePoint`, line 497) within the bounds returns with
`results.x` within the bounds. -/
theorem trust_box_contains_x (x : DblVec) (d : Dbl) (lb ub : List Dbl)
    (hd : Dbl.ge d (Dbl.fin 0) = true)
    (hx : ∀ i, i < x.length →
      Dbl.le (lb.getD i Dbl.ninf) (Dbl.fin (x.getD i 0)) = true ∧
      Dbl.le (Dbl.fin (x.getD i 0)) (ub.getD i Dbl.pinf) = true) :
    (setTrustBoxConstraints x d lb ub).1.length = x.length ∧
    (setTrustBoxConstraints x d lb ub).2.length = x.length ∧
    (∀ i, i < x.length →
      Dbl.le ((setTrustBoxConstraints x d lb ub).1.getD i Dbl.ninf) (Dbl.fin (x.getD i 0)) =
        true ∧
      Dbl.le (Dbl.fin (x.getD i 0)) ((setTrustBoxConstraints x d lb ub).2.getD i Dbl.pinf) =
        true ∧
      Dbl.le ((setTrustBoxConstraints x d lb ub).1.getD i Dbl.ninf)
        ((setTrustBoxConstraints x d lb ub).2.getD i Dbl.pinf) = true ∧
      Dbl.le (lb.getD i Dbl.ninf) ((setTrustBoxConstraints x d lb ub).1.getD i Dbl.ninf) =
        true ∧
      Dbl.le ((setTrustBoxConstraints x d lb ub).2.getD i Dbl.pinf) (ub.getD i Dbl.pinf) =
        true) ∧
    withinBounds (setTrustBoxConstraints x d lb ub).1 (setTrustBoxConstraints x d lb ub).2 x ∧
    (∀ (prob : OptProb) (model : Model), model.respectsBox prob →
      (∀ (cm : Convexified) (s : SQPState), s.withinProblemBounds prob →
        ((trustRegionStep prob model cm s).1 = StepKind.accepted →
          (trustRegionStep prob model cm s).2.results_.x = (stepReport prob model cm s).new_x ∧
          (trustRegionStep prob model cm s).2.withinProblemBounds prob) ∧
        (0 ≤ s.param_.min_trust_box_size →
          Dbl.ge s.param_.trust_box_size (Dbl.fin s.param_.min_trust_box_size) = true →
          withinBounds
            (setTrustBoxConstraints s.results_.x s.param_.trust_box_size prob.lower_bounds
              prob.upper_bounds).1
            (setTrustBoxConstraints s.results_.x s.param_.trust_box_size prob.lower_bounds
              prob.upper_bounds).2 s.results_.x)) ∧
      (∀ (fuel : Nat) (o : BasicTrustRegionSQP) (r : OptStatus) (s : SQPState),
        (startState prob o).withinProblemBounds prob →
        optimize prob model fuel o = some (Run.returned r s) →
        s.withinProblemBounds prob)) := by
  have hbox : ∀ (y : DblVec) (e : Dbl) (l u : List Dbl),
      Dbl.ge e (Dbl.fin 0) = true →
      (∀ i, i < y.length →
        Dbl.le (l.getD i Dbl.ninf) (Dbl.fin (y.getD i 0)) = true ∧
        Dbl.le (Dbl.fin (y.getD i 0)) (u.getD i Dbl.pinf) = true) →
      ∀ i, i < y.length →
        Dbl.le ((setTrustBoxConstraints y e l u).1.getD i Dbl.ninf) (Dbl.fin (y.getD i 0)) =
          true ∧
        Dbl.le (Dbl.fin (y.getD i 0)) ((setTrustBoxConstraints y e l u).2.getD i Dbl.pinf) =
          true ∧
        Dbl.le ((setTrustBoxConstraints y e l u).1.getD i Dbl.ninf)
          ((setTrustBoxConstraints y e l u).2.getD i Dbl.pinf) = true ∧
        Dbl.le (l.getD i Dbl.ninf) ((setTrustBoxConstraints y e l u).1.getD i Dbl.ninf) =
          true ∧
        Dbl.le ((setTrustBoxConstraints y e l u).2.getD i Dbl.pinf) (u.getD i Dbl.pinf) =
          true := by
    intro y e l u he hy i hi
    obtain ⟨-, b1, b2⟩ := setTrustBoxConstraints_getD y e l u i hi
    rw [b1, b2]
    exact trustBox_entry _ e _ _ he (hy i hi).1 (hy i hi).2
  have hwithin : ∀ (y : DblVec) (e : Dbl) (l u : List Dbl),
      Dbl.ge e (Dbl.fin 0) = true →
      (∀ i, i < y.length →
        Dbl.le (l.getD i Dbl.ninf) (Dbl.fin (y.getD i 0)) = true ∧
        Dbl.le (Dbl.fin (y.getD i 0)) (u.getD i Dbl.pinf) = true) →
      withinBounds (setTrustBoxConstraints y e l u).1 (setTrustBoxConstraints y e l u).2 y := by
    intro y e l u he hy
    have hl1 : (setTrustBoxConstraints y e l u).1.length = y.length := by
      simp [setTrustBoxConstraints]
    refine ⟨le_of_eq hl1, ?_⟩
    intro i hi
    rw [hl1] at hi
    obtain ⟨c1, c2, -⟩ := hbox y e l u he hy i hi
    exact ⟨c1, c2⟩
  refine ⟨by simp [setTrustBoxConstraints], by simp [setTrustBoxConstraints],
    hbox x d lb ub hd hx, hwithin x d lb ub hd hx, ?_⟩
  intro prob model hm
  refine ⟨?_, ?_⟩
  · intro cm s hI
    refine ⟨?_, ?_⟩
    · intro hk
      obtain ⟨hs, hdec⟩ := (trustRegionStep_accepted_iff prob model cm s).mp hk
      exact ⟨(trustRegionStep_accept_state prob model cm s hs hdec).1,
        trustRegionStep_withinProblemBounds prob model hm cm s hI⟩
    · intro hmin hge
      exact hwithin _ _ _ _ (Dbl.nonneg_of_ge _ _ hmin hge) hI.2.2
  · intro fuel o r s hI h
    obtain ⟨s3, hml, -, hs, h3⟩ := optimize_cleanup_state prob model fuel o r s h
    have h3I := meritLoop_withinProblemBounds prob model hm fuel fuel 0 _ s3 hml hI
    rw [hs]
    exact withinProblemBounds_of_x prob s3 _ (cleanup_fields s3 h3).2.2.2.2.2.1 h3I

/-- Witness for C30: the one-variable problem of scenario S5, `x = 0.5`,
`Δ = 0.1`, bounds `[0, 1]`; the box `[0.4, 0.6]` contains `0.5`. -/
theorem trust_box_contains_x_witness :
    Dbl.le ((setTrustBoxConstraints [1 / 2] (Dbl.fin (1 / 10)) [Dbl.fin 0] [Dbl.fin 1]).1.getD 0
      Dbl.ninf) (Dbl.fin ((([1 / 2] : DblVec)).getD 0 0)) = true ∧
    Dbl.le (Dbl.fin ((([1 / 2] : DblVec)).getD 0 0))
      ((setTrustBoxConstraints [1 / 2] (Dbl.fin (1 / 10)) [Dbl.fin 0] [Dbl.fin 1]).2.getD 0
        Dbl.pinf) = true ∧
    setTrustBoxConstraints [1 / 2] (Dbl.fin (1 / 10)) [Dbl.fin 0] [Dbl.fin 1] =
      ([Dbl.fin (2 / 5)], [Dbl.fin (3 / 5)]) := by
  have h := (trust_box_contains_x [1 / 2] (Dbl.fin (1 / 10)) [Dbl.fin 0] [Dbl.fin 1]
    (by norm_num [Dbl.ge, Dbl.le])
    (by
      intro i hi
      have hi0 : i = 0 := by simpa using hi
      subst hi0
      norm_num [Dbl.le])).2.2.1 0 (by simp)
  refine ⟨h.1, h.2.1, ?_⟩
  norm_num [setTrustBoxConstraints, Dbl.sub, Dbl.add, Dbl.neg, Dbl.fmax_fin_fin,
    Dbl.fmin_fin_fin, List.range, List.range.loop]

/-! ## Solves and evaluations at the return (C29) -/

theorem isReport_inStep (e : Event) (h : e.isReport = true) : e.inStep = true := by
  cases e <;> simp_all [Event.isReport, Event.inStep]

/-- Along the merit loop every solve recorded is a solve that built a report
or a failed solve. -/
theorem meritLoop_solves_split (prob : OptProb) (model : Model) (fuel k : Nat) (m : Int)
    (s t : SQPState) (h : meritLoop prob model fuel k m s = some t) :
    (t.trace.countP Event.isQpSolve : Int) - s.trace.countP Event.isQpSolve =
      ((t.trace.countP Event.isReport : Int) - s.trace.countP Event.isReport) +
        ((t.trace.countP Event.isFailedSolve : Int) - s.trace.countP Event.isFailedSolve) := by
  have hout : ∀ a b : SQPState, a.extendsBy (fun e => !e.inStep) b →
      (b.trace.countP Event.isQpSolve : Int) - a.trace.countP Event.isQpSolve =
        ((b.trace.countP Event.isReport : Int) - a.trace.countP Event.isReport) +
          ((b.trace.countP Event.isFailedSolve : Int) - a.trace.countP Event.isFailedSolve) := by
    intro a b hab
    rw [countP_outside _ isQpSolve_inStep _ _ hab, countP_outside _ isReport_inStep _ _ hab,
      countP_outside _ isFailedSolve_inStep _ _ hab]
    ring
  refine meritLoop_rel prob model
    (fun s t => (t.trace.countP Event.isQpSolve : Int) - s.trace.countP Event.isQpSolve =
      ((t.trace.countP Event.isReport : Int) - s.trace.countP Event.isReport) +
        ((t.trace.countP Event.isFailedSolve : Int) - s.trace.countP Event.isFailedSolve))
    (fun s => by simp) (fun a b d h1 h2 => by linarith) ?_ ?_ ?_ ?_ ?_ ?_ fuel k m s t h
  · intro cm s
    show ((trustRegionStep prob model cm s).2.trace.countP Event.isQpSolve : Int) - _ = _
    rw [trustRegionStep_count_qpSolve, (trustRegionStep_count_report prob model cm s).1,
      trustRegionStep_count_failed]
    split_ifs <;> push_cast <;> ring
  · intro iter s
    exact hout _ _ (iterationStart_outside prob iter s)
  · intro iter s
    exact hout _ _ (afterTrustRegionLoop_outside iter s)
  · intro m s
    exact hout _ _ (extendsBy_emit _ s (Event.meritStage m) rfl)
  · intro s
    exact hout _ _ (penaltyAdjustment_outside s)
  · intro s
    exact hout s _ ⟨[Event.penaltyLimit], rfl, by simp [Event.inStep]⟩

theorem penaltyAdjustment_retval (s : SQPState) : (penaltyAdjustment s).2.retval = s.retval := by
  unfold penaltyAdjustment escalate SQPState.emit
  split_ifs <;> rfl

/-- Along the merit loop `retval` is `OPT_FAILED` only with a failed solve on
record. -/
theorem meritLoop_failed_retval (prob : OptProb) (model : Model) (fuel k : Nat) (m : Int)
    (s t : SQPState) (h : meritLoop prob model fuel k m s = some t)
    (hs : s.retval = OptStatus.OPT_FAILED → 0 < s.trace.countP Event.isFailedSolve) :
    t.retval = OptStatus.OPT_FAILED → 0 < t.trace.countP Event.isFailedSolve := by
  have hout : ∀ a b : SQPState, a.extendsBy (fun e => !e.inStep) b → b.retval = a.retval →
      (a.retval = OptStatus.OPT_FAILED → 0 < a.trace.countP Event.isFailedSolve) →
      b.retval = OptStatus.OPT_FAILED → 0 < b.trace.countP Event.isFailedSolve := by
    intro a b hab hr ha hb
    rw [countP_outside _ isFailedSolve_inStep _ _ hab]
    exact ha (hr ▸ hb)
  refine meritLoop_rel prob model
    (fun a b => (a.retval = OptStatus.OPT_FAILED → 0 < a.trace.countP Event.isFailedSolve) →
      b.retval = OptStatus.OPT_FAILED → 0 < b.trace.countP Event.isFailedSolve)
    (fun a ha => ha) (fun a b c h1 h2 ha => h2 (h1 ha)) ?_ ?_ ?_ ?_ ?_ ?_ fuel k m s t h hs
  · intro cm a ha hb
    have hcount := trustRegionStep_count_failed prob model cm a
    by_cases hsol : (solveTrustBox prob model cm a).1.1 = CvxOptStatus.CVX_SOLVED
    · rw [if_pos hsol] at hcount
      rw [hcount]
      cases hd : stepDecision a.param_ (stepReport prob model cm a)
      · have := (trustRegionStep_converged_state prob model cm a hsol (Or.inl hd)).2.2.2.2.1
        rw [this] at hb; cases hb
      · have := (trustRegionStep_converged_state prob model cm a hsol (Or.inr hd)).2.2.2.2.1
        rw [this] at hb; cases hb
      · have := (trustRegionStep_shrink_state prob model cm a hsol hd).2.2.2.2.1
        rw [this] at hb; simpa using ha hb
      · have := (trustRegionStep_accept_state prob model cm a hsol hd).2.2.2.2.1
        rw [this] at hb; simpa using ha hb
    · rw [if_neg hsol] at hcount
      rw [hcount]; omega
  · intro iter a
    exact hout _ _ (iterationStart_outside prob iter a) (iterationStart_frame prob iter a).2.2
  · intro iter a ha hb
    rw [countP_outside _ isFailedSolve_inStep _ _ (afterTrustRegionLoop_outside iter a)]
    rcases afterTrustRegionLoop_cases iter a with ⟨-, c⟩ | ⟨-, -, c⟩ | ⟨-, -, c⟩ <;>
      rw [c] at hb
    · cases hb
    · cases hb
    · exact ha hb
  · intro m a
    exact hout _ _ (extendsBy_emit _ a (Event.meritStage m) rfl) rfl
  · intro a
    exact hout _ _ (penaltyAdjustment_outside a) (penaltyAdjustment_retval a)
  · intro a _ hb
    cases hb

/-- C29: at the return of a run of `optimize` started right after
`initialize` (no cost value, no violation, both counters 0), with
`max_merit_coeff_increases ≥ 1` and a problem with at least one cost or
constraint: `n_qp_solves = n_func_evals − 1` when the status returned is not
`OPT_FAILED`, and `n_qp_solves = n_func_evals` when it is.  The record of
the run shows why: `n_qp_solves` is the number of solves, `n_func_evals` is
one more than the number of reports built, and the solves are those that
built a report and the failed ones, of which there is one exactly when the
status is `OPT_FAILED`. -/
theorem solves_vs_evals (prob : OptProb) (model : Model) (fuel : Nat)
    (o : BasicTrustRegionSQP) (r : OptStatus) (s : SQPState)
    (hq0 : o.results_.n_qp_solves = 0) (h0 : o.results_.n_func_evals = 0)
    (hcv : o.results_.cost_vals = []) (hcn : o.results_.cnt_viols = [])
    (hN : 1 ≤ o.param_.max_merit_coeff_increases)
    (hprob : prob.costs ≠ [] ∨ prob.constraints ≠ [])
    (h : optimize prob model fuel o = some (Run.returned r s)) :
    (r ≠ OptStatus.OPT_FAILED → s.results_.n_qp_solves = s.results_.n_func_evals - 1) ∧
    (r = OptStatus.OPT_FAILED → s.results_.n_qp_solves = s.results_.n_func_evals) ∧
    s.results_.status = r ∧
    s.results_.n_qp_solves = (s.trace.countP Event.isQpSolve : Int) ∧
    s.results_.n_func_evals = 1 + (s.trace.countP Event.isReport : Int) ∧
    s.trace.countP Event.isQpSolve =
      s.trace.countP Event.isReport + s.trace.countP Event.isFailedSolve ∧
    s.trace.countP Event.isFailedSolve = (if r = OptStatus.OPT_FAILED then 1 else 0) := by
  obtain ⟨s3, hm, hr, hs, h3⟩ := optimize_cleanup_state prob model fuel o r s h
  obtain ⟨g1, -, g3, g4, g5⟩ := startState_fields prob o
  have hnq0 : (startState prob o).results_.n_qp_solves = 0 := by rw [g4]; exact hq0
  have hnf0 : (startState prob o).results_.n_func_evals = 0 := by rw [g4]; exact h0
  have hfresh : (startState prob o).fresh = true := by
    unfold SQPState.fresh
    rw [g4]
    simp [hcv, hcn]
  have hm0 : (0 : Int) < (startState prob o).param_.max_merit_coeff_increases := by
    rw [g1]; omega
  have hbs : (startState prob o).trace.countP Event.isBootstrap = 0 :=
    countP_eq_zero_of_forall _ _ (fun e he => by rcases g5 e he with h | h <;> rw [h] <;> rfl)
  obtain ⟨zq, eq⟩ := run_countP_inStep prob o Event.isQpSolve isQpSolve_inStep s3 h3
  obtain ⟨zr, er⟩ := run_countP_inStep prob o Event.isReport isReport_inStep s3 h3
  obtain ⟨zf, ef⟩ := run_countP_inStep prob o Event.isFailedSolve isFailedSolve_inStep s3 h3
  have c1 := meritLoop_solves prob model Event.isQpSolve isQpSolve_inStep
    (trustRegionStep_count_qpSolve prob model) fuel fuel 0 _ s3 hm
  have c2 := meritLoop_evals prob model fuel fuel 0 _ s3 hm
  obtain ⟨-, c3⟩ := meritLoop_evaluated_first prob model hprob fuel fuel 0 _ s3 hm hm0 hfresh
  have c4 := meritLoop_solves_split prob model fuel fuel 0 _ s3 hm
  rw [hnq0, zq] at c1
  rw [hnf0, c3, hbs, zr] at c2
  rw [zq, zr, zf] at c4
  push_cast at c1 c2 c4
  have hfail : s3.trace.countP Event.isFailedSolve =
      (if r = OptStatus.OPT_FAILED then 1 else 0) := by
    rcases meritLoop_failed prob model fuel fuel 0 _ s3 zf hm with hz | ⟨u, cm2, hu, hns, ht⟩
    · have hnf : s3.retval ≠ OptStatus.OPT_FAILED := by
        intro hf
        have := meritLoop_failed_retval prob model fuel fuel 0 _ s3 hm
          (by rw [g3]; intro hc; cases hc) hf
        omega
      rw [hz, if_neg (by rw [hr]; exact hnf)]
    · have hret : s3.retval = OptStatus.OPT_FAILED := by rw [ht]
      obtain ⟨pre, hpre, htr⟩ := solveTrustBox_trace prob model cm2 u
      have hp0 : pre.countP Event.isFailedSolve = 0 :=
        countP_eq_zero_of_forall _ _ (fun e he => by rw [hpre e he]; rfl)
      have htr3 : s3.trace = (solveTrustBox prob model cm2 u).2.trace := by rw [ht]
      rw [htr3, htr, List.countP_append, List.countP_append, hu, hp0, if_pos (by rw [hr]; exact hret)]
      simp [Event.isFailedSolve, hns]
  obtain ⟨-, -, -, k4, -, -, -, -, k9, k10, -⟩ := cleanup_fields s3 h3
  have hnq : s.results_.n_qp_solves = (s3.trace.countP Event.isQpSolve : Int) := by
    rw [hs, k10]; linarith
  have hnf : s.results_.n_func_evals = 1 + (s3.trace.countP Event.isReport : Int) := by
    rw [hs, k9]; linarith
  have hsplit : s3.trace.countP Event.isQpSolve =
      s3.trace.countP Event.isReport + s3.trace.countP Event.isFailedSolve := by
    have : (s3.trace.countP Event.isQpSolve : Int) =
        (s3.trace.countP Event.isReport : Int) + s3.trace.countP Event.isFailedSolve := by
      linarith
    exact_mod_cast this
  have hqs : s.trace.countP Event.isQpSolve = s3.trace.countP Event.isQpSolve := by rw [hs, eq]
  have hrs : s.trace.countP Event.isReport = s3.trace.countP Event.isReport := by rw [hs, er]
  have hfs : s.trace.countP Event.isFailedSolve = s3.trace.countP Event.isFailedSolve := by
    rw [hs, ef]
  refine ⟨?_, ?_, by rw [hs, k4, hr], by rw [hqs]; exact hnq, by rw [hrs]; exact hnf,
    by rw [hqs, hrs, hfs]; exact hsplit, by rw [hfs]; exact hfail⟩
  · intro hne
    rw [if_neg hne] at hfail
    rw [hnq, hnf, hsplit, hfail]
    push_cast; ring
  · intro he
    rw [if_pos he] at hfail
    rw [hnq, hnf, hsplit, hfail]
    push_cast; ring

/-- Witness for C29: the run of `shiftModel 0` on `constrainedProb 0` returns
`OPT_CONVERGED` with one solve and two evaluations; the run of
`failingModel` on `flatProb` returns `OPT_FAILED` with one solve and one
evaluation. -/
theorem solves_vs_evals_witness :
    (∃ s, optimize (constrainedProb 0) (shiftModel 0) 1 (freshOptimizer unitBoxParams [7]) =
        some (Run.returned OptStatus.OPT_CONVERGED s) ∧
      s.results_.n_qp_solves = s.results_.n_func_evals - 1 ∧ s.results_.n_qp_solves = 1) ∧
    (∃ s, optimize flatProb failingModel 1 (freshOptimizer unitBoxParams []) =
        some (Run.returned OptStatus.OPT_FAILED s) ∧
      s.results_.n_qp_solves = s.results_.n_func_evals ∧ s.results_.n_qp_solves = 1) := by
  constructor
  · obtain ⟨s, h, hq, -⟩ := run_converged_counts
    exact ⟨s, h, (solves_vs_evals (constrainedProb 0) _ _ _ _ s rfl rfl rfl rfl (by decide)
      (Or.inl (by simp [constrainedProb, flatProb])) h).1 (by decide), hq⟩
  · obtain ⟨s, h, -, hq, -⟩ := run_failed_counts
    exact ⟨s, h, (solves_vs_evals flatProb _ _ _ _ s rfl rfl rfl rfl (by decide)
      (Or.inl (by simp [flatProb])) h).2.1 rfl, hq⟩

/-! ## The first-iteration evaluation, where it is made (C21) -/

theorem inStep_notBootstrap (e : Event) (h : e.inStep = true) : e.notBootstrap = true := by
  cases e <;> simp_all [Event.inStep, Event.notBootstrap, Event.isBootstrap]

theorem isControl_notBootstrap (e : Event) (h : e.isControl = true) :
    e.notBootstrap = true := by
  cases e <;> simp_all [Event.isControl, Event.notBootstrap, Event.isBootstrap]

theorem isBootstrap_of_ne (e : Event) (h : e ≠ Event.bootstrap) : e.isBootstrap = false := by
  cases e <;> simp_all [Event.isBootstrap]

/-- The start of a pass of the SQP loop on results that hold values makes no
first-iteration evaluation. -/
theorem iterationStart_notBootstrap (prob : OptProb) (iter : Int) (s : SQPState)
    (hf : s.fresh = false) :
    (bootstrap prob (callCallbacks (s.emit (Event.sqpIteration iter)))).fresh = false ∧
    s.extendsBy Event.notBootstrap
      (bootstrap prob (callCallbacks (s.emit (Event.sqpIteration iter)))) := by
  have hb : bootstrap prob (callCallbacks (s.emit (Event.sqpIteration iter))) =
      callCallbacks (s.emit (Event.sqpIteration iter)) :=
    (bootstrap_fresh prob _).1 (by simpa [SQPState.fresh, callCallbacks, SQPState.emit] using hf)
  rw [hb]
  refine ⟨by simpa [SQPState.fresh, callCallbacks, SQPState.emit] using hf, ?_⟩
  exact extendsBy_trans _ _ _ _ (extendsBy_emit _ s (Event.sqpIteration iter) rfl)
    (extendsBy_callCallbacks _ _ (fun _ _ => rfl))

/-- From the state in which the first trust-region loop of a run is entered
on, on a problem with a cost or a constraint, the merit loop records no
first-iteration evaluation and no failure of its assertion. -/
theorem meritLoop_notBootstrap (prob : OptProb) (model : Model)
    (hprob : prob.costs ≠ [] ∨ prob.constraints ≠ []) (fuel k : Nat) (m : Int)
    (s t : SQPState) (h : meritLoop prob model fuel k m s = some t)
    (hm : m < s.param_.max_merit_coeff_increases)
    (hf : (stageFirstIterate prob m s).fresh = false) :
    (stageFirstIterate prob m s).extendsBy Event.notBootstrap t := by
  have hR := meritLoop_rel_first prob model
    (fun a b => a.fresh = false → b.fresh = false ∧ a.extendsBy Event.notBootstrap b)
    (fun a ha => ⟨ha, extendsBy_refl _ a⟩)
    (fun a b c h1 h2 ha =>
      ⟨(h2 (h1 ha).1).1, extendsBy_trans _ _ _ _ (h1 ha).2 (h2 (h1 ha).1).2⟩)
    (fun cm a ha => ⟨trustRegionStep_fresh prob model cm hprob a ha,
      extendsBy_mono _ _ inStep_notBootstrap _ _ (trustRegionStep_extends prob model cm a)⟩)
    (fun iter a ha => iterationStart_notBootstrap prob iter a ha)
    (fun iter a ha => ⟨by
        unfold SQPState.fresh at ha ⊢
        rw [(afterTrustRegionLoop_frame iter a).2.2]; exact ha,
      extendsBy_mono _ _ isControl_notBootstrap _ _ (afterTrustRegionLoop_control iter a)⟩)
    (fun m a ha => ⟨ha, extendsBy_emit _ a (Event.meritStage m) rfl⟩)
    (fun a ha => ⟨by
        unfold SQPState.fresh at ha ⊢
        rw [(penaltyAdjustment_results a).1]; exact ha,
      extendsBy_mono _ _ isControl_notBootstrap _ _ (penaltyAdjustment_control a)⟩)
    (fun a ha => ⟨ha, ⟨[Event.penaltyLimit], rfl, by simp [Event.notBootstrap, Event.isBootstrap]⟩⟩)
    fuel k m s t h hm
  exact (hR hf).2

/-- The first pass of the SQP loop of a run started right after `initialize`:
the evaluation is made, its assertion holds, and what is recorded. -/
theorem firstIterate_bootstrap (prob : OptProb) (o : BasicTrustRegionSQP)
    (hcv : o.results_.cost_vals = []) (hcn : o.results_.cnt_viols = [])
    (h0 : o.results_.n_func_evals = 0) :
    (firstIterate prob o).results_.cost_vals =
      evaluateCosts prob.costs (prob.getClosestFeasiblePoint o.results_.x) ∧
    (firstIterate prob o).results_.cnt_viols =
      evaluateConstraintViols prob.constraints (prob.getClosestFeasiblePoint o.results_.x) ∧
    (firstIterate prob o).results_.n_func_evals = 1 ∧
    (firstIterate prob o).trace =
      (startState prob o).trace ++ [Event.meritStage 0, Event.sqpIteration 1] ++
        o.callbacks_.map (fun cb => Event.callback cb (startState prob o).results_) ++
        [Event.bootstrap] := by
  obtain ⟨-, g2, -, g4, -⟩ := startState_fields prob o
  have h1 : (startState prob o).results_.cost_vals = [] := by rw [g4]; exact hcv
  have h2 : (startState prob o).results_.cnt_viols = [] := by rw [g4]; exact hcn
  have h3 : (startState prob o).results_.n_func_evals = 0 := by rw [g4]; exact h0
  have h4 : (startState prob o).results_.x = prob.getClosestFeasiblePoint o.results_.x := by
    rw [g4]
  unfold firstIterate
  generalize startState prob o = u at g2 h1 h2 h3 h4 ⊢
  simp [bootstrap, callCallbacks, SQPState.emit, SQPState.assert, h1, h2, h3, h4, g2]

theorem firstIterate_eq_stage (prob : OptProb) (o : BasicTrustRegionSQP) :
    firstIterate prob o = stageFirstIterate prob 0 (startState prob o) := rfl

/-- C21: take a run of `optimize` that returns, started right after
`initialize` (no cost value, no violation, `n_func_evals = 0`) on a problem
with at least one cost or constraint.  The assertion `n_func_evals == 0` of
line 519 fails nowhere in the run.  When `max_merit_coeff_increases ≥ 1`,
the first-iteration evaluation is made exactly once, in the first pass of
the SQP loop of the first pass of the merit loop: the record of the run
starts with that pass, its calls of the callbacks and the evaluation, which
stores the exact `cost_vals` and `cnt_viols` at `x` and takes
`n_func_evals` from 0 to 1, and nothing recorded after it, in any pass of
either loop, is such an evaluation.  When `max_merit_coeff_increases ≤ 0`
there is no pass of the SQP loop and no evaluation. -/
theorem bootstrap_once (prob : OptProb) (model : Model) (fuel : Nat)
    (o : BasicTrustRegionSQP) (r : OptStatus) (s : SQPState)
    (hcv : o.results_.cost_vals = []) (hcn : o.results_.cnt_viols = [])
    (h0 : o.results_.n_func_evals = 0)
    (hprob : prob.costs ≠ [] ∨ prob.constraints ≠ [])
    (h : optimize prob model fuel o = some (Run.returned r s)) :
    Event.assertFailed 519 ∉ s.trace ∧
    (1 ≤ o.param_.max_merit_coeff_increases →
      s.trace.countP Event.isBootstrap = 1 ∧
      (firstIterate prob o).results_.cost_vals =
        evaluateCosts prob.costs (firstIterate prob o).results_.x ∧
      (firstIterate prob o).results_.cnt_viols =
        evaluateConstraintViols prob.constraints (firstIterate prob o).results_.x ∧
      (startState prob o).results_.n_func_evals = 0 ∧
      (firstIterate prob o).results_.n_func_evals = 1 ∧
      ∃ rest, s.trace =
          (startState prob o).trace ++ [Event.meritStage 0, Event.sqpIteration 1] ++
            o.callbacks_.map (fun cb => Event.callback cb (startState prob o).results_) ++
            [Event.bootstrap] ++ rest ∧
        (∀ e ∈ (startState prob o).trace, e.isSqpIteration = false ∧ e.isBootstrap = false) ∧
        ∀ e ∈ rest, e ≠ Event.bootstrap ∧ e ≠ Event.assertFailed 519) ∧
    (o.param_.max_merit_coeff_increases ≤ 0 →
      s.trace.countP Event.isBootstrap = 0 ∧ s.trace.countP Event.isSqpIteration = 0) := by
  obtain ⟨s3, hm, -, hs, h3⟩ := optimize_cleanup_state prob model fuel o r s h
  obtain ⟨g1, g2, -, g4, g5⟩ := startState_fields prob o
  obtain ⟨b1, b2, b3, b4⟩ := firstIterate_bootstrap prob o hcv hcn h0
  have hx := (firstIterate_fields prob o).2.2.2.1
  have hctr := (cleanup_fields s3 h3).2.2.2.2.2.2.2.2.2.2
  have hstart : ∀ e ∈ (startState prob o).trace,
      e.isSqpIteration = false ∧ e.isBootstrap = false ∧ e ≠ Event.assertFailed 519 := by
    intro e he
    rcases g5 e he with h | h <;> rw [h] <;> simp [Event.isSqpIteration, Event.isBootstrap]
  have hcb : ∀ (l : List Nat) (res : OptResults),
      ∀ e ∈ l.map (fun cb => Event.callback cb res),
        e.isSqpIteration = false ∧ e.isBootstrap = false ∧ e ≠ Event.bootstrap ∧
          e ≠ Event.assertFailed 519 := by
    intro l res e he
    obtain ⟨cb, -, rfl⟩ := List.mem_map.mp he
    simp [Event.isSqpIteration, Event.isBootstrap]
  by_cases hN : 1 ≤ o.param_.max_merit_coeff_increases
  · have hm0 : (0 : Int) < (startState prob o).param_.max_merit_coeff_increases := by
      rw [g1]; omega
    have hnf : (stageFirstIterate prob 0 (startState prob o)).fresh = false := by
      rw [← firstIterate_eq_stage]
      unfold SQPState.fresh
      rw [b1, b2]
      exact evaluated_not_fresh prob hprob _ _
    obtain ⟨l, hl, hall⟩ := meritLoop_notBootstrap prob model hprob fuel fuel 0 _ s3 hm hm0 hnf
    rw [← firstIterate_eq_stage, b4] at hl
    have hrest : ∀ e ∈ l ++ s3.callbacks_.map (fun cb => Event.callback cb
        { s3.results_ with status := s3.retval, total_cost := vecSum s3.results_.cost_vals }),
        e ≠ Event.bootstrap ∧ e ≠ Event.assertFailed 519 := by
      intro e he
      rcases List.mem_append.mp he with he | he
      · have := hall e he
        constructor
        · intro hc; rw [hc] at this; simp [Event.notBootstrap, Event.isBootstrap] at this
        · intro hc; rw [hc] at this; simp [Event.notBootstrap, Event.isBootstrap] at this
      · exact (hcb _ _ e he).2.2
    have htrace : s.trace =
        (startState prob o).trace ++ [Event.meritStage 0, Event.sqpIteration 1] ++
          o.callbacks_.map (fun cb => Event.callback cb (startState prob o).results_) ++
          [Event.bootstrap] ++
          (l ++ s3.callbacks_.map (fun cb => Event.callback cb
            { s3.results_ with status := s3.retval,
                               total_cost := vecSum s3.results_.cost_vals })) := by
      rw [hs, hctr, hl, List.append_assoc]
    refine ⟨?_, fun _ => ⟨?_, ?_, ?_, ?_, b3, _, htrace, fun e he => ⟨(hstart e he).1,
      (hstart e he).2.1⟩, hrest⟩, fun hle => absurd hle (by omega)⟩
    · rw [htrace]
      intro hmem
      simp only [List.mem_append, List.mem_cons, List.mem_singleton, List.not_mem_nil,
        or_false] at hmem
      rcases hmem with (((hmem | hmem) | hmem) | hmem) | hmem
      · exact (hstart _ hmem).2.2 rfl
      · rcases hmem with hmem | hmem <;> cases hmem
      · exact (hcb _ _ _ hmem).2.2.2 rfl
      · cases hmem
      · exact (hrest _ (List.mem_append.mpr hmem)).2 rfl
    · rw [htrace]
      have z1 : (startState prob o).trace.countP Event.isBootstrap = 0 :=
        countP_eq_zero_of_forall _ _ (fun e he => (hstart e he).2.1)
      have z2 : (o.callbacks_.map
          (fun cb => Event.callback cb (startState prob o).results_)).countP
          Event.isBootstrap = 0 :=
        countP_eq_zero_of_forall _ _ (fun e he => (hcb _ _ e he).2.1)
      have z3 : (l ++ s3.callbacks_.map (fun cb => Event.callback cb
          { s3.results_ with status := s3.retval,
                             total_cost := vecSum s3.results_.cost_vals })).countP
          Event.isBootstrap = 0 :=
        countP_eq_zero_of_forall _ _ (fun e he => isBootstrap_of_ne e (hrest e he).1)
      simp only [List.countP_append, z1, z2, z3]
      simp [Event.isBootstrap]
    · rw [b1, hx]
    · rw [b2, hx]
    · rw [g4]; exact h0
  · have hm0 : ¬ (0 : Int) < (startState prob o).param_.max_merit_coeff_increases := by
      rw [g1]; omega
    have htr3 : s3.trace = (startState prob o).trace ++ [Event.penaltyLimit] ∧
        s3.callbacks_ = o.callbacks_ := by
      cases fuel with
      | zero => simp [meritLoop] at hm
      | succ n =>
        rw [meritLoop_limit prob model (n + 1) n 0 _ hm0] at hm
        simp only [Option.some.injEq] at hm
        rw [← hm]
        exact ⟨rfl, g2⟩
    have htrace : s.trace = (startState prob o).trace ++ [Event.penaltyLimit] ++
        s3.callbacks_.map (fun cb => Event.callback cb
          { s3.results_ with status := s3.retval,
                             total_cost := vecSum s3.results_.cost_vals }) := by
      rw [hs, hctr, htr3.1]
    refine ⟨?_, fun h1 => absurd h1 hN, fun _ => ⟨?_, ?_⟩⟩
    · rw [htrace]
      intro hmem
      simp only [List.mem_append, List.mem_singleton] at hmem
      rcases hmem with (hmem | hmem) | hmem
      · exact (hstart _ hmem).2.2 rfl
      · cases hmem
      · exact (hcb _ _ _ hmem).2.2.2 rfl
    · rw [htrace]
      refine countP_eq_zero_of_forall _ _ ?_
      intro e he
      simp only [List.mem_append, List.mem_singleton] at he
      rcases he with (he | he) | he
      · exact (hstart e he).2.1
      · rw [he]; rfl
      · exact (hcb _ _ e he).2.1
    · rw [htrace]
      refine countP_eq_zero_of_forall _ _ ?_
      intro e he
      simp only [List.mem_append, List.mem_singleton] at he
      rcases he with (he | he) | he
      · exact (hstart e he).1
      · rw [he]; rfl
      · exact (hcb _ _ e he).1

/-- Witness for C21: the run of `shiftModel 0` on `constrainedProb 0`,
started right after `initialize`, makes the evaluation once and the
assertion of line 519 does not fail. -/
theorem bootstrap_once_witness :
    ∃ s, optimize (constrainedProb 0) (shiftModel 0) 1 (freshOptimizer unitBoxParams [7]) =
        some (Run.returned OptStatus.OPT_CONVERGED s) ∧
      Event.assertFailed 519 ∉ s.trace ∧ s.trace.countP Event.isBootstrap = 1 := by
  obtain ⟨s, h, -⟩ := run_converged_counts
  have hb := bootstrap_once (constrainedProb 0) _ _ _ _ s rfl rfl rfl
    (Or.inl (by simp [constrainedProb, flatProb])) h
  exact ⟨s, h, hb.1, (hb.2.1 (by decide)).1⟩

/-! ## The header of the logs (C23) -/

theorem logFlags_append (l1 l2 : List Event) : logFlags (l1 ++ l2) = logFlags l1 ++ logFlags l2 :=
  List.filterMap_append _ _ _

/-- Events that are no log records carry no header flag. -/
theorem logFlags_eq_nil (l : List Event) (h : ∀ e ∈ l, ∀ b, e ≠ Event.logRecord b) :
    logFlags l = [] := by
  unfold logFlags
  rw [List.filterMap_eq_nil_iff]
  intro e he
  cases e <;> simp
  exact h _ he _ rfl

/-- The header flags recorded by one pass of the body of the trust-region
loop with logging enabled: one record when the solve succeeded, flagged by
the test `n_func_evals == 1` on the counter as it is before the step. -/
theorem trustRegionStep_logFlags (prob : OptProb) (model : Model) (cm : Convexified)
    (s : SQPState) (hlog : s.param_.log_results = true) :
    logFlags (trustRegionStep prob model cm s).2.trace =
      logFlags s.trace ++
        (if (solveTrustBox prob model cm s).1.1 = CvxOptStatus.CVX_SOLVED then
          [decide (s.results_.n_func_evals = 1)]
        else []) := by
  obtain ⟨pre, hpre, htr⟩ := solveTrustBox_trace prob model cm s
  obtain ⟨a1, -, -, -, a5, -⟩ := solveTrustBox_frame prob model cm s
  have hp : logFlags pre = [] :=
    logFlags_eq_nil _ (fun e he b hb => by rw [hpre e he] at hb; cases hb)
  by_cases hs : (solveTrustBox prob model cm s).1.1 = CvxOptStatus.CVX_SOLVED
  · have hl : (solveTrustBox prob model cm s).2.param_.log_results = true := by rw [a1]; exact hlog
    have hrep : (buildReport prob cm (solveTrustBox prob model cm s).1.2
        (solveTrustBox prob model cm s).2).2.trace =
        (solveTrustBox prob model cm s).2.trace ++
          [Event.report (stepReport prob model cm s),
            Event.logRecord (decide (s.results_.n_func_evals = 1))] := by
      simp [buildReport, stepReport, SQPState.emit, hl, a5]
    have hdec : ∀ (u : SQPState) (rep : BasicTrustRegionSQPResults),
        (applyDecision u rep).2.trace = u.trace ++ [(stepDecision u.param_ rep).event] := by
      intro u rep
      unfold applyDecision
      cases stepDecision u.param_ rep <;> rfl
    rw [trustRegionStep_solved prob model cm s hs, if_pos hs, hdec, hrep, htr]
    simp only [logFlags_append, hp]
    cases stepDecision _ (stepReport prob model cm s) <;> simp [logFlags, Decision.event]
  · rw [trustRegionStep_failed prob model cm s hs, if_neg hs]
    show logFlags (solveTrustBox prob model cm s).2.trace = _
    rw [htr]
    simp only [logFlags_append, hp]
    simp [logFlags]

/-- A part of the run that records no event of the trust-region steps
records no log record. -/
theorem logFlags_outside (s t : SQPState) (h : s.extendsBy (fun e => !e.inStep) t) :
    logFlags t.trace = logFlags s.trace := by
  obtain ⟨l, hl, hall⟩ := h
  rw [hl, logFlags_append, logFlags_eq_nil l, List.append_nil]
  intro e he b hb
  have := hall e he
  rw [hb] at this
  simp [Event.inStep] at this

theorem sameRun_log_results (p q : BasicTrustRegionSQPParameters) (h : p.sameRun q) :
    q.log_results = p.log_results := by
  unfold BasicTrustRegionSQPParameters.sameRun at h
  rw [h]

/-- The first record carries the header flag and no later one does: the
list of flags written so far, with the counter of evaluations one above
their number. -/
theorem headerInv_step (n : Nat) (flags : List Bool) (nfe : Int)
    (h1 : nfe = 1 + (flags.length : Int)) (h2 : flags.length = n)
    (h3 : flags = (List.range n).map fun i => decide (i = 0)) :
    nfe + 1 = 1 + ((flags ++ [decide (nfe = 1)]).length : Int) ∧
    (flags ++ [decide (nfe = 1)]).length = n + 1 ∧
    flags ++ [decide (nfe = 1)] = (List.range (n + 1)).map fun i => decide (i = 0) := by
  refine ⟨by simp [h1]; ring, by simp [h2], ?_⟩
  rw [List.range_succ, List.map_append, ← h3]
  have : decide (nfe = 1) = decide (n = 0) := by
    rw [h1, h2]
    by_cases hn : n = 0
    · simp [hn]
    · have : ¬ (1 + (n : Int) = 1) := by omega
      simp [hn, this]
  simp [this]

/-- With logging enabled, from results that hold values on, the merit loop
keeps the header flags in step with the counter of evaluations and with the
reports. -/
theorem meritLoop_header (prob : OptProb) (model : Model)
    (hprob : prob.costs ≠ [] ∨ prob.constraints ≠ []) (fuel k : Nat) (m : Int)
    (s t : SQPState) (h : meritLoop prob model fuel k m s = some t)
    (hm : m < s.param_.max_merit_coeff_increases)
    (hlog : (stageFirstIterate prob m s).param_.log_results = true)
    (hf : (stageFirstIterate prob m s).fresh = false)
    (hn : (stageFirstIterate prob m s).results_.n_func_evals =
      1 + ((logFlags (stageFirstIterate prob m s).trace).length : Int))
    (hr : (logFlags (stageFirstIterate prob m s).trace).length =
      (stageFirstIterate prob m s).trace.countP Event.isReport)
    (hfl : logFlags (stageFirstIterate prob m s).trace =
      (List.range ((stageFirstIterate prob m s).trace.countP Event.isReport)).map
        fun i => decide (i = 0)) :
    logFlags t.trace =
      (List.range (t.trace.countP Event.isReport)).map fun i => decide (i = 0) := by
  have hkeep : ∀ a b : SQPState, a.extendsBy (fun e => !e.inStep) b →
      b.param_.log_results = a.param_.log_results → b.fresh = a.fresh →
      b.results_.n_func_evals = a.results_.n_func_evals →
      (a.param_.log_results = true ∧ a.fresh = false ∧
        a.results_.n_func_evals = 1 + ((logFlags a.trace).length : Int) ∧
        (logFlags a.trace).length = a.trace.countP Event.isReport ∧
        logFlags a.trace =
          (List.range (a.trace.countP Event.isReport)).map fun i => decide (i = 0)) →
      (b.param_.log_results = true ∧ b.fresh = false ∧
        b.results_.n_func_evals = 1 + ((logFlags b.trace).length : Int) ∧
        (logFlags b.trace).length = b.trace.countP Event.isReport ∧
        logFlags b.trace =
          (List.range (b.trace.countP Event.isReport)).map fun i => decide (i = 0)) := by
    intro a b hab hl hfr hne ⟨j1, j2, j3, j4, j5⟩
    rw [logFlags_outside a b hab, countP_outside _ isReport_inStep _ _ hab, hl, hfr, hne]
    exact ⟨j1, j2, j3, j4, j5⟩
  have hR := meritLoop_rel_first prob model
    (fun a b =>
      (a.param_.log_results = true ∧ a.fresh = false ∧
        a.results_.n_func_evals = 1 + ((logFlags a.trace).length : Int) ∧
        (logFlags a.trace).length = a.trace.countP Event.isReport ∧
        logFlags a.trace =
          (List.range (a.trace.countP Event.isReport)).map fun i => decide (i = 0)) →
      (b.param_.log_results = true ∧ b.fresh = false ∧
        b.results_.n_func_evals = 1 + ((logFlags b.trace).length : Int) ∧
        (logFlags b.trace).length = b.trace.countP Event.isReport ∧
        logFlags b.trace =
          (List.range (b.trace.countP Event.isReport)).map fun i => decide (i = 0)))
    (fun a ha => ha) (fun a b c h1 h2 ha => h2 (h1 ha)) ?_ ?_ ?_ ?_ ?_ ?_
    fuel k m s t h hm
  · exact (hR ⟨hlog, hf, hn, hr, hfl⟩).2.2.2.2
  · intro cm a
    rintro ⟨j1, j2, j3, j4, j5⟩
    have hl2 : (trustRegionStep prob model cm a).2.param_.log_results = true := by
      rw [sameRun_log_results _ _ (stageFrame_runFrame _ _
        (trustRegionStep_stageFrame prob model cm a)).1]
      exact j1
    have hflags := trustRegionStep_logFlags prob model cm a j1
    have hrep := (trustRegionStep_count_report prob model cm a).1
    have hnfe := (trustRegionStep_counters prob model cm a).2
    refine ⟨hl2, trustRegionStep_fresh prob model cm hprob a j2, ?_⟩
    by_cases hs : (solveTrustBox prob model cm a).1.1 = CvxOptStatus.CVX_SOLVED
    · rw [if_pos hs] at hflags hrep hnfe
      rw [hflags, hrep, hnfe]
      exact headerInv_step _ _ _ j3 j4 (by rw [← j5])
    · rw [if_neg hs] at hflags hrep hnfe
      rw [hflags, hrep, hnfe, List.append_nil, add_zero, add_zero]
      exact ⟨j3, j4, j5⟩
  · intro iter a ha
    have hfa := ha.2.1
    have hb : bootstrap prob (callCallbacks (a.emit (Event.sqpIteration iter))) =
        callCallbacks (a.emit (Event.sqpIteration iter)) :=
      (bootstrap_fresh prob _).1 (by simpa [SQPState.fresh, callCallbacks, SQPState.emit] using hfa)
    refine hkeep _ _ (iterationStart_outside prob iter a) ?_ ?_ ?_ ha
    · rw [(iterationStart_frame prob iter a).1]
    · rw [hb]; rfl
    · rw [hb]; rfl
  · intro iter a ha
    refine hkeep _ _ (afterTrustRegionLoop_outside iter a) ?_ ?_ ?_ ha
    · rw [(afterTrustRegionLoop_frame iter a).1]
    · unfold SQPState.fresh; rw [(afterTrustRegionLoop_frame iter a).2.2]
    · rw [(afterTrustRegionLoop_frame iter a).2.2]
  · intro m a ha
    exact hkeep _ _ (extendsBy_emit _ a (Event.meritStage m) rfl) rfl rfl rfl ha
  · intro a ha
    refine hkeep _ _ (penaltyAdjustment_outside a) ?_ ?_ ?_ ha
    · exact sameRun_log_results _ _ (penaltyAdjustment_runFrame a).1
    · unfold SQPState.fresh; rw [(penaltyAdjustment_results a).1]
    · rw [(penaltyAdjustment_results a).1]
  · intro a ha
    exact hkeep a _ ⟨[Event.penaltyLimit], rfl, by simp [Event.inStep]⟩ rfl rfl rfl ha

set_option maxRecDepth 16000 in
set_option maxHeartbeats 4000000 in
theorem run_logged_eval :
    ∃ s, optimize quadProb (shiftModel 1) 5 (freshOptimizer loggingParams []) =
        some (Run.returned OptStatus.OPT_CONVERGED s) ∧
      logFlags s.trace = [true, false, false, false] ∧ s.results_.x = [3] := by
  norm_num [optimize, startState, meritLoop, sqpLoop, sqpIteration, trustRegionLoop,
    afterTrustRegionLoop, bootstrap, callCallbacks, cleanup, penaltyAdjustment, escalate,
    freshOptimizer, trustRegionStep, solveTrustBox, buildReport, applyDecision, stepDecision,
    convexify, quadProb, shiftModel, quadCost, unitBoxParams, loggingParams,
    BasicTrustRegionSQPParameters.defaults, BasicTrustRegionSQPResults.update, SQPState.assert,
    SQPState.emit, evaluateCosts, evaluateModelCosts, evaluateConstraintViols,
    evaluateModelCntViols, convexifyCosts, convexifyConstraints, vecSum, vecMax, Dbl.fdiv,
    Dbl.lt, Dbl.le, Dbl.ge, Dbl.mul, setTrustBoxConstraints, adjustTrustRegion,
    cvx_failed_ne_solved, opt_failed_ne_invalid, opt_converged_ne_invalid,
    opt_sco_limit_ne_invalid, opt_penalty_limit_ne_invalid, logFlags, List.filterMap_cons]

/-- C23: take a run of `optimize` that returns, with logging enabled,
started right after `initialize` (no cost value, no violation,
`n_func_evals = 0`) on a problem with at least one cost or constraint.  One
record is written for each report built, and the header flag
`n_func_evals == 1` passed with record number `i` (from 0, in the order of
writing) is `true` for `i = 0` and `false` for every `i > 0`; so when a
record is written at all, exactly one record carries the header, and it is
the first. -/
theorem header_once (prob : OptProb) (model : Model) (fuel : Nat)
    (o : BasicTrustRegionSQP) (r : OptStatus) (s : SQPState)
    (hlog : o.param_.log_results = true)
    (hcv : o.results_.cost_vals = []) (hcn : o.results_.cnt_viols = [])
    (h0 : o.results_.n_func_evals = 0)
    (hprob : prob.costs ≠ [] ∨ prob.constraints ≠ [])
    (h : optimize prob model fuel o = some (Run.returned r s)) :
    (logFlags s.trace).length = s.trace.countP Event.isReport ∧
    logFlags s.trace =
      (List.range (s.trace.countP Event.isReport)).map (fun i => decide (i = 0)) ∧
    (∀ (i : Nat) (flag : Bool), (logFlags s.trace)[i]? = some flag → (flag = true ↔ i = 0)) ∧
    (logFlags s.trace ≠ [] →
      (logFlags s.trace).head? = some true ∧ (logFlags s.trace).count true = 1) := by
  obtain ⟨s3, hm, -, hs, h3⟩ := optimize_cleanup_state prob model fuel o r s h
  obtain ⟨g1, g2, -, g4, g5⟩ := startState_fields prob o
  have hstart : logFlags (startState prob o).trace = [] :=
    logFlags_eq_nil _ (fun e he b hb => by rcases g5 e he with h | h <;> rw [h] at hb <;> cases hb)
  obtain ⟨zr, er⟩ := run_countP_inStep prob o Event.isReport isReport_inStep s3 h3
  have hcbs : ∀ (l : List Nat) (res : OptResults),
      logFlags (l.map (fun cb => Event.callback cb res)) = [] := by
    intro l res
    refine logFlags_eq_nil _ ?_
    intro e he b hb
    obtain ⟨cb, -, rfl⟩ := List.mem_map.mp he
    cases hb
  have hcl : logFlags (cleanup s3).trace = logFlags s3.trace := by
    rw [(cleanup_fields s3 h3).2.2.2.2.2.2.2.2.2.2, logFlags_append, hcbs, List.append_nil]
  have hmain : logFlags s3.trace =
      (List.range (s3.trace.countP Event.isReport)).map (fun i => decide (i = 0)) := by
    by_cases hN : 1 ≤ o.param_.max_merit_coeff_increases
    · have hm0 : (0 : Int) < (startState prob o).param_.max_merit_coeff_increases := by
        rw [g1]; omega
      obtain ⟨b1, b2, b3, b4⟩ := firstIterate_bootstrap prob o hcv hcn h0
      have hfl : logFlags (firstIterate prob o).trace = [] := by
        rw [b4]
        simp only [logFlags_append, hstart, hcbs]
        simp [logFlags]
      have hrep : (firstIterate prob o).trace.countP Event.isReport = 0 := by
        have := countP_outside _ isReport_inStep _ _
          (iterationStart_outside prob 1 ((startState prob o).emit (Event.meritStage 0)))
        have h2 := countP_outside _ isReport_inStep _ _
          (extendsBy_emit (fun e => !e.inStep) (startState prob o) (Event.meritStage 0) rfl)
        unfold firstIterate
        rw [this, h2, zr]
      have hnf : (firstIterate prob o).fresh = false := by
        unfold SQPState.fresh
        rw [b1, b2]
        exact evaluated_not_fresh prob hprob _ _
      have hlg : (firstIterate prob o).param_.log_results = true := by
        rw [(firstIterate_fields prob o).1]; exact hlog
      refine meritLoop_header prob model hprob fuel fuel 0 _ s3 hm hm0 ?_ ?_ ?_ ?_ ?_
      · rw [← firstIterate_eq_stage]; exact hlg
      · rw [← firstIterate_eq_stage]; exact hnf
      · rw [← firstIterate_eq_stage, b3, hfl]; rfl
      · rw [← firstIterate_eq_stage, hfl, hrep]; rfl
      · rw [← firstIterate_eq_stage, hfl, hrep]; rfl
    · have hm0 : ¬ (0 : Int) < (startState prob o).param_.max_merit_coeff_increases := by
        rw [g1]; omega
      cases fuel with
      | zero => simp [meritLoop] at hm
      | succ n =>
        rw [meritLoop_limit prob model (n + 1) n 0 _ hm0] at hm
        simp only [Option.some.injEq] at hm
        have htr : s3.trace = (startState prob o).trace ++ [Event.penaltyLimit] := by
          rw [← hm]; rfl
        rw [htr, logFlags_append, hstart, List.countP_append, zr]
        simp [logFlags, Event.isReport]
  have hfin : logFlags s.trace =
      (List.range (s.trace.countP Event.isReport)).map (fun i => decide (i = 0)) := by
    rw [hs, hcl, er]; exact hmain
  refine ⟨by rw [hfin]; simp, hfin, ?_, ?_⟩
  · intro i flag hi
    rw [hfin, List.getElem?_map] at hi
    cases hr : (List.range (s.trace.countP Event.isReport))[i]? with
    | none => rw [hr] at hi; simp at hi
    | some j =>
      rw [hr] at hi
      have hj : j = i := by
        have := List.getElem?_eq_some_iff.mp hr
        obtain ⟨hlt, hval⟩ := this
        simpa using hval.symm
      simp only [Option.map_some', Option.some.injEq] at hi
      rw [← hi, hj]
      simp
  · intro hne
    rw [hfin] at hne ⊢
    cases hk : s.trace.countP Event.isReport with
    | zero => rw [hk] at hne; simp at hne
    | succ k =>
      have hsplit : (List.range (k + 1)).map (fun i => decide (i = 0)) =
          true :: List.replicate k false := by
        rw [List.range_succ_eq_map, List.map_cons, List.map_map]
        simp only [decide_True, List.cons.injEq, true_and]
        rw [List.eq_replicate_iff]
        refine ⟨by simp, ?_⟩
        intro b hb
        obtain ⟨j, -, rfl⟩ := List.mem_map.mp hb
        simp
      rw [hsplit]
      simp [List.count_cons, List.count_replicate]

/-- Witness for C23: the run of `shiftModel 1` on `(x - 3)²` with logging
enabled writes four records; the first carries the header, the others do
not. -/
theorem header_once_witness :
    ∃ s, optimize quadProb (shiftModel 1) 5 (freshOptimizer loggingParams []) =
        some (Run.returned OptStatus.OPT_CONVERGED s) ∧
      logFlags s.trace = [true, false, false, false] ∧
      (logFlags s.trace).count true = 1 := by
  obtain ⟨s, h, hf, -⟩ := run_logged_eval
  have hh := header_once quadProb _ _ _ _ s rfl rfl rfl rfl (Or.inl (by simp [quadProb])) h
  exact ⟨s, h, hf, (hh.2.2.2 (by rw [hf]; simp)).2⟩

/-! ## Vectors and blocks -/

theorem segment_nat (v : DblVec) (a n : Int) (a' n' : Nat) (ha : a = a') (hn : n = n')
    (h : a' + n' ≤ v.length) :
    segment v a n = some ((v.drop a').take n') := by
  subst ha; subst hn
  have h2 : (a' : Int) + (n' : Int) ≤ (v.length : Int) := by exact_mod_cast h
  simp [segment, h2]

theorem take_drop_eq_map (v : DblVec) (a n : Nat) (h : a + n ≤ v.length) :
    (v.drop a).take n = (List.range n).map fun i => v.getD (a + i) 0 := by
  apply List.ext_getElem?
  intro i
  by_cases hi : i < n
  · rw [List.getElem?_take_of_lt hi, List.getElem?_drop, List.getElem?_map,
      List.getElem?_range hi]
    have hlt : a + i < v.length := by omega
    simp [List.getD_eq_getElem?_getD, List.getElem?_eq_getElem hlt]
  · have h1 : ((v.drop a).take n)[i]? = none := by
      rw [List.getElem?_eq_none_iff]
      simp
      omega
    have h2 : ((List.range n).map fun i => v.getD (a + i) 0)[i]? = none := by
      rw [List.getElem?_eq_none_iff]
      simp
      omega
    rw [h1, h2]

theorem zipWith_map_range {α β γ : Type} (f : α → β → γ) (g : Nat → α) (k : Nat → β) (n : Nat) :
    List.zipWith f ((List.range n).map g) ((List.range n).map k) =
      (List.range n).map fun i => f (g i) (k i) := by
  rw [List.zipWith_map, List.zipWith_same]

/-- The velocity `vel_i = (v[i+1] − v[i]) · v[h+1+i]` of the source, on the
entries of `v`. -/
theorem JointVelErrCalculator_call_eq (c : JointVelErrCalculator) (v : DblVec) (h : Nat)
    (hlen : v.length = 2 * h) (hh : 1 ≤ h) :
    c.call v =
      some (((List.range (h - 1)).map fun i =>
            -(c.upper_tol_ -
              ((v.getD (i + 1) 0 - v.getD i 0) * v.getD (h + 1 + i) 0 - c.target_))) ++
        (List.range (h - 1)).map fun i =>
            c.lower_tol_ -
              ((v.getD (i + 1) 0 - v.getD i 0) * v.getD (h + 1 + i) 0 - c.target_)) := by
  have hhalf : ((v.length : Int) / 2) = (h : Int) := by
    rw [hlen]; push_cast; omega
  have hn : ((h : Int) - 1) = ((h - 1 : Nat) : Int) := by omega
  have s1 := segment_nat v 1 ((h : Int) - 1) 1 (h - 1) rfl hn (by omega)
  have s0 := segment_nat v 0 ((h : Int) - 1) 0 (h - 1) rfl hn (by omega)
  have s2 := segment_nat v ((h : Int) + 1) ((h : Int) - 1) (h + 1) (h - 1) (by push_cast; ring) hn
    (by omega)
  rw [take_drop_eq_map v 1 (h - 1) (by omega)] at s1
  rw [take_drop_eq_map v 0 (h - 1) (by omega)] at s0
  rw [take_drop_eq_map v (h + 1) (h - 1) (by omega)] at s2
  have hmod : v.length % 2 = 0 := by omega
  unfold JointVelErrCalculator.call
  rw [if_neg (by simp [hmod])]
  simp only [hhalf]
  rw [s1, s0, s2]
  simp only [zipWith_map_range, List.map_map]
  congr 1
  congr 1
  · apply List.map_congr_left
    intro i _
    simp [Nat.add_comm]
  · apply List.map_congr_left
    intro i _
    simp [Nat.add_comm]

theorem getElem?_map_range_append {α : Type} (f g : Nat → α) (n i : Nat) (hi : i < n) :
    ((List.range n).map f ++ (List.range n).map g)[i]? = some (f i) ∧
    ((List.range n).map f ++ (List.range n).map g)[n + i]? = some (g i) := by
  constructor
  · rw [List.getElem?_append_left (by simpa using hi), List.getElem?_map,
      List.getElem?_range hi]
    rfl
  · rw [List.getElem?_append_right (by simp)]
    simp [List.getElem?_range hi]

/-! ## `JointVelErrCalculator` (C24) -/

/-- The vector returned by `JointVelErrCalculator` on an input of even
length, entry by entry. -/
theorem JointVelErr_getElem (c : JointVelErrCalculator) (v : DblVec) (h : Nat)
    (hlen : v.length = 2 * h) (hh : 1 ≤ h) :
    ∃ out, c.call v = some out ∧ out.length = 2 * (h - 1) ∧
      ∀ i, i < h - 1 →
        out[i]? = some ((v.getD (i + 1) 0 - v.getD i 0) * v.getD (h + 1 + i) 0 -
          c.target_ - c.upper_tol_) ∧
        out[(h - 1) + i]? = some (c.lower_tol_ -
          ((v.getD (i + 1) 0 - v.getD i 0) * v.getD (h + 1 + i) 0 - c.target_)) := by
  refine ⟨_, JointVelErrCalculator_call_eq c v h hlen hh, by simp; omega, ?_⟩
  intro i hi
  obtain ⟨h1, h2⟩ := getElem?_map_range_append
    (fun i => -(c.upper_tol_ -
      ((v.getD (i + 1) 0 - v.getD i 0) * v.getD (h + 1 + i) 0 - c.target_)))
    (fun i => c.lower_tol_ -
      ((v.getD (i + 1) 0 - v.getD i 0) * v.getD (h + 1 + i) 0 - c.target_)) (h - 1) i hi
  refine ⟨?_, h2⟩
  rw [h1]
  congr 1
  ring

/-- C24: for every input `v` of even length `2h` with `h ≥ 1` (`h` joint
values followed by `h` inverse time steps), `JointVelErrCalculator` returns a
vector of length `2(h − 1)`; with `vel_i = (v[i+1] − v[i]) · v[h+1+i]`, its
entry `i < h − 1` is `vel_i − target − upper_tol` and its entry
`(h − 1) + i` is `lower_tol − (vel_i − target)`. -/
theorem JointVelErr_entries (c : JointVelErrCalculator) (v : DblVec) (h : Nat)
    (hlen : v.length = 2 * h) (hh : 1 ≤ h) :
    ∃ out, c.call v = some out ∧ out.length = 2 * (h - 1) ∧
      ∀ i, i < h - 1 →
        out[i]? = some ((v.getD (i + 1) 0 - v.getD i 0) * v.getD (h + 1 + i) 0 -
          c.target_ - c.upper_tol_) ∧
        out[(h - 1) + i]? = some (c.lower_tol_ -
          ((v.getD (i + 1) 0 - v.getD i 0) * v.getD (h + 1 + i) 0 - c.target_)) :=
  JointVelErr_getElem c v h hlen hh

/-- Witness for C24: four joint values `1, 2, 4, 7` with the inverse time
steps `5, 10, 100, 1000`, target 1 and tolerances `2` and `-3`: the
velocities are `10, 200, 3000`, and the six entries follow. -/
theorem JointVelErr_entries_witness :
    JointVelErrCalculator.call ⟨1, 2, -3⟩ [1, 2, 4, 7, 5, 10, 100, 1000] =
      some [7, 197, 2997, -12, -202, -3002] ∧
    ∃ out, JointVelErrCalculator.call ⟨1, 2, -3⟩ [1, 2, 4, 7, 5, 10, 100, 1000] = some out ∧
      out.length = 2 * (4 - 1) ∧ out[1]? = some ((4 - 2) * 100 - 1 - 2) := by
  refine ⟨by norm_num [JointVelErrCalculator.call, segment, List.zipWith], ?_⟩
  obtain ⟨out, h1, h2, h3⟩ :=
    JointVelErr_entries ⟨1, 2, -3⟩ [1, 2, 4, 7, 5, 10, 100, 1000] 4 rfl (by decide)
  refine ⟨out, h1, h2, ?_⟩
  have := (h3 1 (by decide)).1
  simpa using this

/-! ## Matrices filled row by row -/

/-- A loop over the rows `i < k` whose body rewrites entries of row `i`
only, each from the entry it replaces. -/
theorem foldlM_rows {α : Type} (F : MatrixX α → Nat → Option (MatrixX α)) (R C : Nat)
    (g : Nat → Nat → α → α) (n : Nat)
    (hF : ∀ m i, i < n → m.rows = R → m.cols = C →
      ∃ m2, F m i = some m2 ∧ m2.rows = R ∧ m2.cols = C ∧
        ∀ r c, m2.coeff r c = if r = i then g i c (m.coeff r c) else m.coeff r c) :
    ∀ k, k ≤ n → ∀ m0 : MatrixX α, m0.rows = R → m0.cols = C →
      ∃ m2, (List.range k).foldlM F m0 = some m2 ∧ m2.rows = R ∧ m2.cols = C ∧
        ∀ r c, m2.coeff r c = if r < k then g r c (m0.coeff r c) else m0.coeff r c := by
  intro k
  induction k with
  | zero =>
    intro _ m0 hR hC
    exact ⟨m0, rfl, hR, hC, fun r c => by simp⟩
  | succ k ih =>
    intro hk m0 hR hC
    obtain ⟨m1, e1, r1, c1, f1⟩ := ih (by omega) m0 hR hC
    obtain ⟨m2, e2, r2, c2, f2⟩ := hF m1 k (by omega) r1 c1
    refine ⟨m2, ?_, r2, c2, ?_⟩
    · rw [List.range_succ, List.foldlM_append, e1]
      simp [e2]
    · intro r c
      rw [f2, f1]
      by_cases hrk : r = k
      · subst hrk
        simp
      · by_cases hlt : r < k
        · have : r < k + 1 := by omega
          simp [hrk, hlt, this]
        · have : ¬ r < k + 1 := by omega
          simp [hrk, hlt, this]

theorem coeffAt_nat {α : Type} (v : List α) (i : Int) (k : Nat) (hi : i = k)
    (hk : k < v.length) : coeffAt v i = some v[k] := by
  subst hi
  simp [coeffAt, List.getElem?_eq_getElem hk]

theorem coeffAt_getD (v : DblVec) (i : Int) (k : Nat) (hi : i = k) (hk : k < v.length) :
    coeffAt v i = some (v.getD k 0) := by
  rw [coeffAt_nat v i k hi hk]
  simp [List.getD_eq_getElem?_getD, List.getElem?_eq_getElem hk]

theorem MatrixX.setCoeff_nat {α : Type} (m : MatrixX α) (i j : Int) (a b : Nat) (x : α)
    (hi : i = a) (hj : j = b) (ha : a < m.rows) (hb : b < m.cols) :
    m.setCoeff i j x =
      some { m with coeff := fun r c => if r = a ∧ c = b then x else m.coeff r c } := by
  subst hi; subst hj
  have h1 : (a : Int) < (m.rows : Int) := by exact_mod_cast ha
  have h2 : (b : Int) < (m.cols : Int) := by exact_mod_cast hb
  simp [MatrixX.setCoeff, h1, h2]

theorem MatrixX.coeffAt_entry {α : Type} (m : MatrixX α) (i j : Int) (a b : Nat)
    (hi : i = a) (hj : j = b) (ha : a < m.rows) (hb : b < m.cols) :
    m.coeffAt i j = some (m.coeff a b) := by
  subst hi; subst hj
  have h1 : (a : Int) < (m.rows : Int) := by exact_mod_cast ha
  have h2 : (b : Int) < (m.cols : Int) := by exact_mod_cast hb
  simp [MatrixX.coeffAt, h1, h2]

/-! ## `JointVelJacCalculator` (C25) -/

/-- The entry `(i, c)` of the velocity Jacobian at `v`, for the row `i` of
the top half. -/
theorem JointVelJac_row (v : DblVec) (h : Nat) (hlen : v.length = 2 * h) (jac : MatrixX ℚ)
    (i : Nat) (hi : i < h - 1) (hr : jac.rows = 2 * (h - 1)) (hc : jac.cols = 2 * h) :
    ∃ m2, JointVelJacCalculator.row v (h : Int) jac i = some m2 ∧
      m2.rows = 2 * (h - 1) ∧ m2.cols = 2 * h ∧
      ∀ r c, m2.coeff r c =
        if r = i then
          (fun (i c : Nat) (old : ℚ) =>
            if c = h + 1 + i then v.getD (i + 1) 0 - v.getD i 0
            else if c = i + 1 then v.getD (h + 1 + i) 0
            else if c = i then -v.getD (h + 1 + i) 0
            else old) i c (jac.coeff r c)
        else jac.coeff r c := by
  have ht : coeffAt v ((i : Int) + (h : Int) + 1) = some (v.getD (h + 1 + i) 0) :=
    coeffAt_getD v _ (h + 1 + i) (by push_cast; ring) (by omega)
  have ha : coeffAt v ((i : Int) + 1) = some (v.getD (i + 1) 0) :=
    coeffAt_getD v _ (i + 1) (by push_cast; ring) (by omega)
  have hb : coeffAt v (i : Int) = some (v.getD i 0) :=
    coeffAt_getD v _ i rfl (by omega)
  unfold JointVelJacCalculator.row
  simp only [ht, ha, hb]
  rw [MatrixX.setCoeff_nat jac _ _ i i _ rfl rfl (by omega) (by omega)]
  simp only []
  rw [MatrixX.setCoeff_nat _ _ _ i (i + 1) _ rfl (by push_cast; ring) (by simpa using (by omega))
    (by simpa using (by omega))]
  simp only []
  rw [MatrixX.setCoeff_nat _ _ _ i (h + 1 + i) _ rfl (by push_cast; ring)
    (by simpa using (by omega)) (by simpa using (by omega))]
  refine ⟨_, rfl, hr, hc, ?_⟩
  intro r c
  by_cases hri : r = i
  · subst hri
    by_cases h1 : c = h + 1 + r
    · simp [h1]
    · by_cases h2 : c = r + 1
      · simp [h1, h2]
      · by_cases h3 : c = r
        · simp [h1, h2, h3]
        · simp [h1, h2, h3]
  · simp [hri]

/-- The matrix returned by `JointVelJacCalculator`, entry by entry. -/
theorem JointVelJac_call_eq (v : DblVec) (h : Nat) (hlen : v.length = 2 * h) (hh : 1 ≤ h) :
    ∃ jac, JointVelJacCalculator.call v = some jac ∧
      jac.rows = 2 * (h - 1) ∧ jac.cols = 2 * h ∧
      ∀ i, i < h - 1 → ∀ c,
        jac.coeff i c =
          (if c = h + 1 + i then v.getD (i + 1) 0 - v.getD i 0
            else if c = i + 1 then v.getD (h + 1 + i) 0
            else if c = i then -v.getD (h + 1 + i) 0
            else 0) ∧
        jac.coeff ((h - 1) + i) c = -jac.coeff i c := by
  have hhalf : ((v.length : Int) / 2) = (h : Int) := by
    rw [hlen]; push_cast; omega
  have hz : MatrixX.Zero (0 : ℚ) (((h : Int) - 1) * 2) (v.length : Int) =
      some { rows := 2 * (h - 1), cols := 2 * h, coeff := fun _ _ => 0 } := by
    have h1 : (0 : Int) ≤ ((h : Int) - 1) * 2 := by omega
    have h2 : (((h : Int) - 1) * 2).toNat = 2 * (h - 1) := by omega
    have h3 : (2 * (h : Int)).toNat = 2 * h := by omega
    simp [MatrixX.Zero, h1, h2, h3, hlen]
  have hn : ((h : Int) - 1).toNat = h - 1 := by omega
  obtain ⟨m1, e1, r1, c1, f1⟩ := foldlM_rows (JointVelJacCalculator.row v (h : Int))
    (2 * (h - 1)) (2 * h)
    (fun (i c : Nat) (old : ℚ) =>
      if c = h + 1 + i then v.getD (i + 1) 0 - v.getD i 0
      else if c = i + 1 then v.getD (h + 1 + i) 0
      else if c = i then -v.getD (h + 1 + i) 0
      else old) (h - 1)
    (fun m i hi hr hc => JointVelJac_row v h hlen m i hi hr hc) (h - 1) (le_refl _)
    { rows := 2 * (h - 1), cols := 2 * h, coeff := fun _ _ => 0 } rfl rfl
  have hb : m1.bottomRowsNegTop ((h : Int) - 1) =
      some { m1 with
        coeff := fun r c =>
          if m1.rows - (h - 1) ≤ r ∧ r < m1.rows then -m1.coeff (r - (m1.rows - (h - 1))) c
          else m1.coeff r c } := by
    have h1 : (0 : Int) ≤ (h : Int) - 1 := by omega
    have h2 : (h : Int) - 1 ≤ (m1.rows : Int) := by rw [r1]; omega
    simp [MatrixX.bottomRowsNegTop, h1, h2, hn]
  refine ⟨{ m1 with
      coeff := fun r c =>
        if m1.rows - (h - 1) ≤ r ∧ r < m1.rows then -m1.coeff (r - (m1.rows - (h - 1))) c
        else m1.coeff r c }, ?_, r1, c1, ?_⟩
  · unfold JointVelJacCalculator.call
    simp only [hhalf, hz, hn, e1, hb]
  · intro i hi c
    have htop : m1.coeff i c =
        (if c = h + 1 + i then v.getD (i + 1) 0 - v.getD i 0
          else if c = i + 1 then v.getD (h + 1 + i) 0
          else if c = i then -v.getD (h + 1 + i) 0
          else 0) := by
      rw [f1, if_pos hi]
    have hnot : ¬ (m1.rows - (h - 1) ≤ i ∧ i < m1.rows) := by
      rw [r1]; omega
    have hyes : m1.rows - (h - 1) ≤ (h - 1) + i ∧ (h - 1) + i < m1.rows := by
      rw [r1]; omega
    have hidx : (h - 1) + i - (m1.rows - (h - 1)) = i := by
      rw [r1]; omega
    simp only [hnot, hyes, if_false, if_true, and_self, hidx, htop]

theorem addCoord_length (v : DblVec) (j : Nat) (s : ℚ) : (addCoord v j s).length = v.length := by
  simp [addCoord]

theorem addCoord_getD (v : DblVec) (j : Nat) (s : ℚ) (k : Nat) (hj : j < v.length) :
    (addCoord v j s).getD k 0 = v.getD k 0 + if k = j then s else 0 := by
  unfold addCoord
  rw [List.getD_eq_getElem?_getD, List.getD_eq_getElem?_getD, List.getElem?_set]
  by_cases hk : j = k
  · subst hk
    simp [hj, List.getD_eq_getElem?_getD]
  · have hk2 : ¬ k = j := fun h => hk h.symm
    simp [hk, hk2]

theorem getD_of_getElem? {α : Type} (l : List α) (i : Nat) (a d : α) (h : l[i]? = some a) :
    l.getD i d = a := by
  rw [List.getD_eq_getElem?_getD, h]; rfl

/-- C25: for every input `v` of even length `2h` with `h ≥ 1`,
`JointVelJacCalculator` returns a `2(h − 1) × 2h` matrix whose row
`i < h − 1` has `−v[h+1+i]` at column `i`, `v[h+1+i]` at column `i + 1`,
`v[i+1] − v[i]` at column `h + 1 + i` and 0 elsewhere, and whose row
`(h − 1) + i` is the negation of row `i`.  It is the exact Jacobian of
`JointVelErrCalculator`: for every coordinate `j < 2h` and every step `s`,
`JointVelErr(v + s·e_j) − JointVelErr(v)` is `s` times column `j` of the
matrix, entry by entry. -/
theorem JointVelJac_exact (c : JointVelErrCalculator) (v : DblVec) (h : Nat)
    (hlen : v.length = 2 * h) (hh : 1 ≤ h) :
    ∃ jac, JointVelJacCalculator.call v = some jac ∧
      jac.rows = 2 * (h - 1) ∧ jac.cols = 2 * h ∧
      (∀ i, i < h - 1 → ∀ col,
        jac.coeff i col =
          (if col = i then -v.getD (h + 1 + i) 0
            else if col = i + 1 then v.getD (h + 1 + i) 0
            else if col = h + 1 + i then v.getD (i + 1) 0 - v.getD i 0
            else 0) ∧
        jac.coeff ((h - 1) + i) col = -jac.coeff i col) ∧
      ∀ (j : Nat) (s : ℚ), j < 2 * h →
        ∃ e0 e1, c.call v = some e0 ∧ c.call (addCoord v j s) = some e1 ∧
          e0.length = 2 * (h - 1) ∧ e1.length = 2 * (h - 1) ∧
          ∀ r, r < 2 * (h - 1) → e1.getD r 0 - e0.getD r 0 = s * jac.coeff r j := by
  obtain ⟨jac, hj, hr, hc, hent⟩ := JointVelJac_call_eq v h hlen hh
  refine ⟨jac, hj, hr, hc, ?_, ?_⟩
  · intro i hi col
    refine ⟨?_, (hent i hi col).2⟩
    rw [(hent i hi col).1]
    split_ifs <;> first | rfl | (exfalso; omega)
  · intro j s hjlt
    have hjl : j < v.length := by omega
    obtain ⟨e0, h0, l0, f0⟩ := JointVelErr_getElem c v h hlen hh
    obtain ⟨e1, h1, l1, f1⟩ := JointVelErr_getElem c (addCoord v j s) h
      (by rw [addCoord_length]; exact hlen) hh
    refine ⟨e0, e1, h0, h1, l0, l1, ?_⟩
    intro r hrlt
    by_cases hrt : r < h - 1
    · rw [getD_of_getElem? _ _ _ _ (f1 r hrt).1, getD_of_getElem? _ _ _ _ (f0 r hrt).1,
        (hent r hrt j).1]
      simp only [addCoord_getD v j s _ hjl]
      split_ifs <;> first | (exfalso; omega) | ring
    · obtain ⟨i, hi, rfl⟩ : ∃ i, i < h - 1 ∧ r = (h - 1) + i := ⟨r - (h - 1), by omega, by omega⟩
      rw [getD_of_getElem? _ _ _ _ (f1 i hi).2, getD_of_getElem? _ _ _ _ (f0 i hi).2,
        (hent i hi j).2, (hent i hi j).1]
      simp only [addCoord_getD v j s _ hjl]
      split_ifs <;> first | (exfalso; omega) | ring

/-- Witness for C25: at `v = (1, 2, 4, 7, 5, 10, 100, 1000)` the top row 0 of
the Jacobian is `(−10, 10, 0, 0, 0, 2 − 1, 0, 0)`, and a step of `3` in the
coordinate 1 changes the error by `3` times the column 1. -/
theorem JointVelJac_exact_witness :
    ∃ jac, JointVelJacCalculator.call [1, 2, 4, 7, 5, 10, 100, 1000] = some jac ∧
      jac.rows = 6 ∧ jac.cols = 8 ∧
      jac.coeff 0 0 = -10 ∧ jac.coeff 0 1 = 10 ∧ jac.coeff 0 5 = 1 ∧ jac.coeff 3 0 = 10 ∧
      ∃ e0 e1, JointVelErrCalculator.call ⟨1, 2, -3⟩ [1, 2, 4, 7, 5, 10, 100, 1000] = some e0 ∧
        JointVelErrCalculator.call ⟨1, 2, -3⟩
          (addCoord [1, 2, 4, 7, 5, 10, 100, 1000] 1 3) = some e1 ∧
        e1.getD 0 0 - e0.getD 0 0 = 3 * jac.coeff 0 1 := by
  obtain ⟨jac, hj, hr, hc, hent, hex⟩ :=
    JointVelJac_exact ⟨1, 2, -3⟩ [1, 2, 4, 7, 5, 10, 100, 1000] 4 rfl (by decide)
  obtain ⟨e0, e1, h0, h1, -, -, hd⟩ := hex 1 3 (by decide)
  have a0 := (hent 0 (by decide) 0).1
  have a1 := (hent 0 (by decide) 1).1
  have a5 := (hent 0 (by decide) 5).1
  have a3 := (hent 0 (by decide) 0).2
  refine ⟨jac, hj, hr, hc, ?_, ?_, ?_, ?_, e0, e1, h0, h1, hd 0 (by decide)⟩
  · rw [a0]; norm_num
  · rw [a1]; norm_num
  · rw [a5]; norm_num
  · have : jac.coeff 3 0 = -jac.coeff 0 0 := a3
    rw [this, a0]; norm_num

/-! ## `JointAccErrCalculator` and `JointAccJacCalculator` (C26) -/

/-- The vector returned by `JointVelErrCalculator`, and its entries in the
top half. -/
theorem JointVelErr_top (c : JointVelErrCalculator) (v : DblVec) (h : Nat)
    (hlen : v.length = 2 * h) (hh : 1 ≤ h) :
    ∃ vels, c.call v = some vels ∧ vels.length = 2 * (h - 1) ∧
      ∀ i, i < h - 1 →
        vels.getD i 0 =
          (v.getD (i + 1) 0 - v.getD i 0) * v.getD (h + 1 + i) 0 - c.target_ - c.upper_tol_ := by
  obtain ⟨out, h1, h2, h3⟩ := JointVelErr_getElem c v h hlen hh
  exact ⟨out, h1, h2, fun i hi => getD_of_getElem? _ _ _ _ (h3 i hi).1⟩

/-- The vector returned by `JointAccErrCalculator`, entry by entry. -/
theorem JointAccErr_call_eq (c : JointAccErrCalculator) (v : DblVec) (h : Nat)
    (hlen : v.length = 2 * h) (hh : 2 ≤ h) :
    c.call v =
      some ((List.range (h - 2)).map fun i =>
        Dbl.sub
          (Dbl.fdiv
            (2 * ((v.getD (i + 2) 0 - v.getD (i + 1) 0) * v.getD (h + 2 + i) 0 -
              (v.getD (i + 1) 0 - v.getD i 0) * v.getD (h + 1 + i) 0))
            (v.getD (h + 1 + i) 0 + v.getD (h + 2 + i) 0))
          (Dbl.fin c.limit_)) := by
  obtain ⟨vels, hv, hvl, hve⟩ := JointVelErr_top c.vel_calc v h hlen (by omega)
  have hhalf : ((v.length : Int) / 2) = (h : Int) := by
    rw [hlen]; push_cast; omega
  have hn : ((h : Int) - 2) = ((h - 2 : Nat) : Int) := by omega
  have s1 := segment_nat vels 1 ((h : Int) - 2) 1 (h - 2) rfl hn (by omega)
  have s0 := segment_nat vels 0 ((h : Int) - 2) 0 (h - 2) rfl hn (by omega)
  have d1 := segment_nat v ((h : Int) + 1) ((h : Int) - 2) (h + 1) (h - 2) (by push_cast; ring) hn
    (by omega)
  have d2 := segment_nat v ((h : Int) + 2) ((h : Int) - 2) (h + 2) (h - 2) (by push_cast; ring) hn
    (by omega)
  rw [take_drop_eq_map vels 1 (h - 2) (by omega)] at s1
  rw [take_drop_eq_map vels 0 (h - 2) (by omega)] at s0
  rw [take_drop_eq_map v (h + 1) (h - 2) (by omega)] at d1
  rw [take_drop_eq_map v (h + 2) (h - 2) (by omega)] at d2
  have hmod : v.length % 2 = 0 := by omega
  unfold JointAccErrCalculator.call
  rw [if_neg (by simp [hmod])]
  simp only [hhalf, hv]
  rw [s1, s0, d1, d2]
  simp only [zipWith_map_range, List.map_map]
  congr 1
  apply List.map_congr_left
  intro i hi
  have hi2 : i < h - 2 := by simpa using hi
  simp only [Function.comp]
  rw [hve (1 + i) (by omega), hve (0 + i) (by omega)]
  congr 2
  · have e1 : 1 + i + 1 = i + 2 := by omega
    have e2 : h + 1 + (1 + i) = h + 2 + i := by omega
    have e3 : 0 + i + 1 = i + 1 := by omega
    have e4 : h + 1 + (0 + i) = h + 1 + i := by omega
    have e5 : 1 + i = i + 1 := by omega
    have e6 : 0 + i = i := by omega
    rw [e1, e2, e3, e4, e5, e6]
    ring

/-- The body of the loop of `JointAccJacCalculator` for the row `i`: the five
entries it writes. -/
theorem JointAccJac_row (v : DblVec) (h : Nat) (hlen : v.length = 2 * h) (vels : DblVec)
    (hvl : vels.length = 2 * (h - 1)) (vel_jac : MatrixX ℚ) (hjr : vel_jac.rows = 2 * (h - 1))
    (hjc : vel_jac.cols = 2 * h) (jac : MatrixX Dbl) (i : Nat) (hi : i < h - 2)
    (hr : jac.rows = h - 2) (hc : jac.cols = 2 * h) :
    ∃ m2, JointAccJacCalculator.row v (h : Int) vels vel_jac jac i = some m2 ∧
      m2.rows = h - 2 ∧ m2.cols = 2 * h ∧
      ∀ r c, m2.coeff r c =
        if r = i then
          (fun (i c : Nat) (old : Dbl) =>
            if c = h + 2 + i then
              Dbl.mul (Dbl.fin 2)
                (Dbl.sub
                  (Dbl.fdiv (vel_jac.coeff (i + 1) (h + 2 + i) - vel_jac.coeff i (h + 2 + i))
                    (v.getD (h + 1 + i) 0 + v.getD (h + 2 + i) 0))
                  (Dbl.fdiv (vels.getD (i + 1) 0 - vels.getD i 0)
                    (sq (v.getD (h + 1 + i) 0 + v.getD (h + 2 + i) 0))))
            else if c = h + 1 + i then
              Dbl.mul (Dbl.fin 2)
                (Dbl.sub
                  (Dbl.fdiv (vel_jac.coeff (i + 1) (h + 1 + i) - vel_jac.coeff i (h + 1 + i))
                    (v.getD (h + 1 + i) 0 + v.getD (h + 2 + i) 0))
                  (Dbl.fdiv (vels.getD (i + 1) 0 - vels.getD i 0)
                    (sq (v.getD (h + 1 + i) 0 + v.getD (h + 2 + i) 0))))
            else if c = i + 2 then
              Dbl.fdiv (2 * (vel_jac.coeff (i + 1) (i + 2) - vel_jac.coeff i (i + 2)))
                (v.getD (h + 1 + i) 0 + v.getD (h + 2 + i) 0)
            else if c = i + 1 then
              Dbl.fdiv (2 * (vel_jac.coeff (i + 1) (i + 1) - vel_jac.coeff i (i + 1)))
                (v.getD (h + 1 + i) 0 + v.getD (h + 2 + i) 0)
            else if c = i then
              Dbl.fdiv (2 * (vel_jac.coeff (i + 1) i - vel_jac.coeff i i))
                (v.getD (h + 1 + i) 0 + v.getD (h + 2 + i) 0)
            else old) i c (jac.coeff r c)
        else jac.coeff r c := by
  have ht1 : coeffAt v ((i : Int) + (h : Int) + 1) = some (v.getD (h + 1 + i) 0) :=
    coeffAt_getD v _ (h + 1 + i) (by push_cast; ring) (by omega)
  have ht2 : coeffAt v ((i : Int) + (h : Int) + 1 + 1) = some (v.getD (h + 2 + i) 0) :=
    coeffAt_getD v _ (h + 2 + i) (by push_cast; ring) (by omega)
  have hw1 : coeffAt vels ((i : Int) + 1) = some (vels.getD (i + 1) 0) :=
    coeffAt_getD vels _ (i + 1) (by push_cast; ring) (by omega)
  have hw0 : coeffAt vels (i : Int) = some (vels.getD i 0) :=
    coeffAt_getD vels _ i rfl (by omega)
  have hJ : ∀ (a b : Int) (r k : Nat), a = r → b = k → r < 2 * (h - 1) → k < 2 * h →
      vel_jac.coeffAt a b = some (vel_jac.coeff r k) := by
    intro a b r k ha hb hr2 hk
    exact MatrixX.coeffAt_entry vel_jac a b r k ha hb (by rw [hjr]; exact hr2) (by rw [hjc]; exact hk)
  have j0a := hJ ((i : Int) + 1) (i : Int) (i + 1) i (by push_cast; ring) rfl (by omega) (by omega)
  have j0b := hJ (i : Int) (i : Int) i i rfl rfl (by omega) (by omega)
  have j1a := hJ ((i : Int) + 1) ((i : Int) + 1) (i + 1) (i + 1) (by push_cast; ring)
    (by push_cast; ring) (by omega) (by omega)
  have j1b := hJ (i : Int) ((i : Int) + 1) i (i + 1) rfl (by push_cast; ring) (by omega) (by omega)
  have j2a := hJ ((i : Int) + 1) ((i : Int) + 2) (i + 1) (i + 2) (by push_cast; ring)
    (by push_cast; ring) (by omega) (by omega)
  have j2b := hJ (i : Int) ((i : Int) + 2) i (i + 2) rfl (by push_cast; ring) (by omega) (by omega)
  have j3a := hJ ((i : Int) + 1) ((i : Int) + (h : Int) + 1) (i + 1) (h + 1 + i)
    (by push_cast; ring) (by push_cast; ring) (by omega) (by omega)
  have j3b := hJ (i : Int) ((i : Int) + (h : Int) + 1) i (h + 1 + i) rfl
    (by push_cast; ring) (by omega) (by omega)
  have j4a := hJ ((i : Int) + 1) ((i : Int) + (h : Int) + 1 + 1) (i + 1) (h + 2 + i)
    (by push_cast; ring) (by push_cast; ring) (by omega) (by omega)
  have j4b := hJ (i : Int) ((i : Int) + (h : Int) + 1 + 1) i (h + 2 + i) rfl
    (by push_cast; ring) (by omega) (by omega)
  unfold JointAccJacCalculator.row
  simp only [ht1, ht2, hw1, hw0, j0a, j0b, j1a, j1b, j2a, j2b, j3a, j3b, j4a, j4b]
  rw [MatrixX.setCoeff_nat jac _ _ i i _ rfl rfl (by omega) (by omega)]
  simp only []
  rw [MatrixX.setCoeff_nat _ _ _ i (i + 1) _ rfl (by push_cast; ring) (by simpa using (by omega))
    (by simpa using (by omega))]
  simp only []
  rw [MatrixX.setCoeff_nat _ _ _ i (i + 2) _ rfl (by push_cast; ring) (by simpa using (by omega))
    (by simpa using (by omega))]
  simp only []
  rw [MatrixX.setCoeff_nat _ _ _ i (h + 1 + i) _ rfl (by push_cast; ring)
    (by simpa using (by omega)) (by simpa using (by omega))]
  simp only []
  rw [MatrixX.setCoeff_nat _ _ _ i (h + 2 + i) _ rfl (by push_cast; ring)
    (by simpa using (by omega)) (by simpa using (by omega))]
  refine ⟨_, rfl, hr, hc, ?_⟩
  intro r c
  by_cases hri : r = i
  · subst hri
    by_cases h1 : c = h + 2 + r
    · simp [h1]
    · by_cases h2 : c = h + 1 + r
      · simp [h1, h2]
      · by_cases h3 : c = r + 2
        · simp [h1, h2, h3]
        · by_cases h4 : c = r + 1
          · simp [h1, h2, h3, h4]
          · by_cases h5 : c = r
            · simp [h1, h2, h3, h4, h5]
            · simp [h1, h2, h3, h4, h5]
  · simp [hri]

/-- The matrix returned by `JointAccJacCalculator`, entry by entry. -/
theorem JointAccJac_call_eq (c : JointAccJacCalculator) (v : DblVec) (h : Nat)
    (hlen : v.length = 2 * h) (hh : 2 ≤ h) :
    ∃ jac, c.call v = some jac ∧ jac.rows = h - 2 ∧ jac.cols = 2 * h ∧
      ∀ i, i < h - 2 → ∀ col,
        jac.coeff i col =
          if col = h + 2 + i then
            Dbl.mul (Dbl.fin 2)
              (Dbl.sub
                (Dbl.fdiv (v.getD (i + 2) 0 - v.getD (i + 1) 0)
                  (v.getD (h + 1 + i) 0 + v.getD (h + 2 + i) 0))
                (Dbl.fdiv
                  ((v.getD (i + 2) 0 - v.getD (i + 1) 0) * v.getD (h + 2 + i) 0 -
                    (v.getD (i + 1) 0 - v.getD i 0) * v.getD (h + 1 + i) 0)
                  (sq (v.getD (h + 1 + i) 0 + v.getD (h + 2 + i) 0))))
          else if col = h + 1 + i then
            Dbl.mul (Dbl.fin 2)
              (Dbl.sub
                (Dbl.fdiv (-(v.getD (i + 1) 0 - v.getD i 0))
                  (v.getD (h + 1 + i) 0 + v.getD (h + 2 + i) 0))
                (Dbl.fdiv
                  ((v.getD (i + 2) 0 - v.getD (i + 1) 0) * v.getD (h + 2 + i) 0 -
                    (v.getD (i + 1) 0 - v.getD i 0) * v.getD (h + 1 + i) 0)
                  (sq (v.getD (h + 1 + i) 0 + v.getD (h + 2 + i) 0))))
          else if col = i + 2 then
            Dbl.fdiv (2 * v.getD (h + 2 + i) 0) (v.getD (h + 1 + i) 0 + v.getD (h + 2 + i) 0)
          else if col = i + 1 then
            Dbl.fdiv (2 * (-v.getD (h + 2 + i) 0 - v.getD (h + 1 + i) 0))
              (v.getD (h + 1 + i) 0 + v.getD (h + 2 + i) 0)
          else if col = i then
            Dbl.fdiv (2 * v.getD (h + 1 + i) 0) (v.getD (h + 1 + i) 0 + v.getD (h + 2 + i) 0)
          else Dbl.fin 0 := by
  obtain ⟨vels, hv, hvl, hve⟩ := JointVelErr_top c.vel_calc v h hlen (by omega)
  obtain ⟨vj, hvj, hjr, hjc, hent⟩ := JointVelJac_call_eq v h hlen (by omega)
  have hhalf : ((v.length : Int) / 2) = (h : Int) := by
    rw [hlen]; push_cast; omega
  have hz : MatrixX.Zero (Dbl.fin 0) ((h : Int) - 2) (v.length : Int) =
      some { rows := h - 2, cols := 2 * h, coeff := fun _ _ => Dbl.fin 0 } := by
    have h1 : (0 : Int) ≤ (h : Int) - 2 := by omega
    have h2 : ((h : Int) - 2).toNat = h - 2 := by omega
    have h3 : (2 * (h : Int)).toNat = 2 * h := by omega
    simp [MatrixX.Zero, h1, h2, h3, hlen]
  obtain ⟨m1, e1, r1, c1, f1⟩ := foldlM_rows
    (JointAccJacCalculator.row v (h : Int) vels vj) (h - 2) (2 * h)
    (fun (i c : Nat) (old : Dbl) =>
      if c = h + 2 + i then
        Dbl.mul (Dbl.fin 2)
          (Dbl.sub
            (Dbl.fdiv (vj.coeff (i + 1) (h + 2 + i) - vj.coeff i (h + 2 + i))
              (v.getD (h + 1 + i) 0 + v.getD (h + 2 + i) 0))
            (Dbl.fdiv (vels.getD (i + 1) 0 - vels.getD i 0)
              (sq (v.getD (h + 1 + i) 0 + v.getD (h + 2 + i) 0))))
      else if c = h + 1 + i then
        Dbl.mul (Dbl.fin 2)
          (Dbl.sub
            (Dbl.fdiv (vj.coeff (i + 1) (h + 1 + i) - vj.coeff i (h + 1 + i))
              (v.getD (h + 1 + i) 0 + v.getD (h + 2 + i) 0))
            (Dbl.fdiv (vels.getD (i + 1) 0 - vels.getD i 0)
              (sq (v.getD (h + 1 + i) 0 + v.getD (h + 2 + i) 0))))
      else if c = i + 2 then
        Dbl.fdiv (2 * (vj.coeff (i + 1) (i + 2) - vj.coeff i (i + 2)))
          (v.getD (h + 1 + i) 0 + v.getD (h + 2 + i) 0)
      else if c = i + 1 then
        Dbl.fdiv (2 * (vj.coeff (i + 1) (i + 1) - vj.coeff i (i + 1)))
          (v.getD (h + 1 + i) 0 + v.getD (h + 2 + i) 0)
      else if c = i then
        Dbl.fdiv (2 * (vj.coeff (i + 1) i - vj.coeff i i))
          (v.getD (h + 1 + i) 0 + v.getD (h + 2 + i) 0)
      else old) (h - 2)
    (fun m i hi hr hc => JointAccJac_row v h hlen vels hvl vj hjr hjc m i hi hr hc)
    (h - 2) (le_refl _)
    { rows := h - 2, cols := 2 * h, coeff := fun _ _ => Dbl.fin 0 } rfl rfl
  refine ⟨m1, ?_, r1, c1, ?_⟩
  · unfold JointAccJacCalculator.call
    simp only [hhalf, hz, hv, hvj, e1]
  · intro i hi col
    have a1 : vj.coeff (i + 1) (h + 2 + i) = v.getD (i + 2) 0 - v.getD (i + 1) 0 := by
      rw [(hent (i + 1) (by omega) _).1, if_pos (by omega)]
    have a2 : vj.coeff i (h + 2 + i) = 0 := by
      rw [(hent i (by omega) _).1, if_neg (by omega), if_neg (by omega), if_neg (by omega)]
    have a3 : vj.coeff (i + 1) (h + 1 + i) = 0 := by
      rw [(hent (i + 1) (by omega) _).1, if_neg (by omega), if_neg (by omega), if_neg (by omega)]
    have a4 : vj.coeff i (h + 1 + i) = v.getD (i + 1) 0 - v.getD i 0 := by
      rw [(hent i (by omega) _).1, if_pos rfl]
    have a5 : vj.coeff (i + 1) (i + 2) = v.getD (h + 2 + i) 0 := by
      rw [(hent (i + 1) (by omega) _).1, if_neg (by omega), if_pos rfl,
        show h + 1 + (i + 1) = h + 2 + i by omega]
    have a6 : vj.coeff i (i + 2) = 0 := by
      rw [(hent i (by omega) _).1, if_neg (by omega), if_neg (by omega), if_neg (by omega)]
    have a7 : vj.coeff (i + 1) (i + 1) = -v.getD (h + 2 + i) 0 := by
      rw [(hent (i + 1) (by omega) _).1, if_neg (by omega), if_neg (by omega), if_pos rfl,
        show h + 1 + (i + 1) = h + 2 + i by omega]
    have a8 : vj.coeff i (i + 1) = v.getD (h + 1 + i) 0 := by
      rw [(hent i (by omega) _).1, if_neg (by omega), if_pos rfl]
    have a9 : vj.coeff (i + 1) i = 0 := by
      rw [(hent (i + 1) (by omega) _).1, if_neg (by omega), if_neg (by omega), if_neg (by omega)]
    have a10 : vj.coeff i i = -v.getD (h + 1 + i) 0 := by
      rw [(hent i (by omega) _).1, if_neg (by omega), if_neg (by omega), if_pos rfl]
    have aw : vels.getD (i + 1) 0 - vels.getD i 0 =
        (v.getD (i + 2) 0 - v.getD (i + 1) 0) * v.getD (h + 2 + i) 0 -
          (v.getD (i + 1) 0 - v.getD i 0) * v.getD (h + 1 + i) 0 := by
      rw [hve (i + 1) (by omega), hve i (by omega)]
      have e2 : h + 1 + (i + 1) = h + 2 + i := by omega
      rw [e2]
      ring
    rw [f1, if_pos hi]
    simp only [a1, a2, a3, a4, a5, a6, a7, a8, a9, a10, aw, sub_zero, zero_sub, neg_neg]

/-- The derivative at `0` of the acceleration along a line on which each of
the five entries it reads moves at its own rate. -/
theorem hasDerivAt_acc (a1 a2 a3 a4 a5 d1 d2 d3 d4 d5 limit : ℚ) (hT : a4 + a5 ≠ 0) :
    HasDerivAt
      (fun t : ℚ =>
        2 * (((a3 + d3 * t) - (a2 + d2 * t)) * (a5 + d5 * t) -
          ((a2 + d2 * t) - (a1 + d1 * t)) * (a4 + d4 * t)) /
          ((a4 + d4 * t) + (a5 + d5 * t)) - limit)
      (2 * ((((d3 - d2) * a5 + (a3 - a2) * d5 - ((d2 - d1) * a4 + (a2 - a1) * d4)) *
          (a4 + a5) - ((a3 - a2) * a5 - (a2 - a1) * a4) * (d4 + d5)) / (a4 + a5) ^ 2)) 0 := by
  have hl : ∀ a d : ℚ, HasDerivAt (fun t : ℚ => a + d * t) d 0 := by
    intro a d
    simpa using ((hasDerivAt_id (0 : ℚ)).const_mul d).const_add a
  have hN := (((hl a3 d3).sub (hl a2 d2)).mul (hl a5 d5)).sub
    (((hl a2 d2).sub (hl a1 d1)).mul (hl a4 d4))
  have hD := (hl a4 d4).add (hl a5 d5)
  have hne : (a4 + d4 * 0) + (a5 + d5 * 0) ≠ 0 := by simpa using hT
  have hq := ((hN.const_mul 2).div hD hne).sub_const limit
  convert hq using 1
  simp only [mul_zero, add_zero]
  field_simp
  ring

theorem getD_map_range {α : Type} (f : Nat → α) (n i : Nat) (d : α) (hi : i < n) :
    ((List.range n).map f).getD i d = f i := by
  rw [List.getD_eq_getElem?_getD, List.getElem?_map, List.getElem?_range hi]
  rfl

theorem addCoord_getD_rate (v : DblVec) (j : Nat) (s : ℚ) (k : Nat) (hj : j < v.length) :
    (addCoord v j s).getD k 0 = v.getD k 0 + (if k = j then 1 else 0) * s := by
  rw [addCoord_getD v j s k hj]
  split_ifs <;> simp

/-- Where the divisor is not zero, the entry `i` of `JointAccErrCalculator`
is the quotient of the source. -/
theorem JointAccErr_entry (c : JointAccErrCalculator) (v : DblVec) (h i : Nat)
    (hlen : v.length = 2 * h) (hh : 2 ≤ h) (hi : i < h - 2)
    (hT : v.getD (h + 1 + i) 0 + v.getD (h + 2 + i) 0 ≠ 0) :
    ((c.call v).getD [])[i]? =
      some (Dbl.fin (2 * ((v.getD (i + 2) 0 - v.getD (i + 1) 0) * v.getD (h + 2 + i) 0 -
        (v.getD (i + 1) 0 - v.getD i 0) * v.getD (h + 1 + i) 0) /
          (v.getD (h + 1 + i) 0 + v.getD (h + 2 + i) 0) - c.limit_)) ∧
    c.entry v i =
      2 * ((v.getD (i + 2) 0 - v.getD (i + 1) 0) * v.getD (h + 2 + i) 0 -
        (v.getD (i + 1) 0 - v.getD i 0) * v.getD (h + 1 + i) 0) /
          (v.getD (h + 1 + i) 0 + v.getD (h + 2 + i) 0) - c.limit_ := by
  have hval : ∀ a b l : ℚ, b ≠ 0 →
      Dbl.sub (Dbl.fdiv a b) (Dbl.fin l) = Dbl.fin (a / b - l) := by
    intro a b l hb
    simp [Dbl.fdiv, hb, Dbl.sub, Dbl.add, Dbl.neg, sub_eq_add_neg]
  constructor
  · rw [JointAccErr_call_eq c v h hlen hh]
    simp only [Option.getD_some]
    rw [List.getElem?_map, List.getElem?_range hi]
    simp only [Option.map_some']
    rw [hval _ _ _ hT]
  · unfold JointAccErrCalculator.entry
    rw [JointAccErr_call_eq c v h hlen hh]
    simp only [Option.getD_some]
    rw [getD_map_range _ _ _ _ hi, hval _ _ _ hT]
    rfl

/-- The partial derivative of the entry `i` of `JointAccErrCalculator` with
respect to the coordinate `j`, where the divisor is not zero. -/
theorem JointAccErr_hasDerivAt (c : JointAccErrCalculator) (v : DblVec) (h i j : Nat)
    (hlen : v.length = 2 * h) (hh : 2 ≤ h) (hi : i < h - 2) (hj : j < 2 * h)
    (hT : v.getD (h + 1 + i) 0 + v.getD (h + 2 + i) 0 ≠ 0) :
    HasDerivAt (fun t : ℚ => c.entry (addCoord v j t) i)
      (2 * (((((if i + 2 = j then 1 else 0) - (if i + 1 = j then 1 else 0)) *
              v.getD (h + 2 + i) 0 +
            (v.getD (i + 2) 0 - v.getD (i + 1) 0) * (if h + 2 + i = j then 1 else 0) -
            (((if i + 1 = j then 1 else 0) - (if i = j then 1 else 0)) * v.getD (h + 1 + i) 0 +
              (v.getD (i + 1) 0 - v.getD i 0) * (if h + 1 + i = j then 1 else 0))) *
          (v.getD (h + 1 + i) 0 + v.getD (h + 2 + i) 0) -
          ((v.getD (i + 2) 0 - v.getD (i + 1) 0) * v.getD (h + 2 + i) 0 -
            (v.getD (i + 1) 0 - v.getD i 0) * v.getD (h + 1 + i) 0) *
            ((if h + 1 + i = j then 1 else 0) + (if h + 2 + i = j then 1 else 0))) /
        (v.getD (h + 1 + i) 0 + v.getD (h + 2 + i) 0) ^ 2)) 0 := by
  have hjl : j < v.length := by omega
  have hd := hasDerivAt_acc (v.getD i 0) (v.getD (i + 1) 0) (v.getD (i + 2) 0)
    (v.getD (h + 1 + i) 0) (v.getD (h + 2 + i) 0)
    (if i = j then 1 else 0) (if i + 1 = j then 1 else 0) (if i + 2 = j then 1 else 0)
    (if h + 1 + i = j then 1 else 0) (if h + 2 + i = j then 1 else 0) c.limit_ hT
  have hcont : ContinuousAt
      (fun t : ℚ => (v.getD (h + 1 + i) 0 + (if h + 1 + i = j then 1 else 0) * t) +
        (v.getD (h + 2 + i) 0 + (if h + 2 + i = j then 1 else 0) * t)) 0 := by
    fun_prop
  have hev := hcont.eventually_ne (by simpa using hT)
  refine hd.congr_of_eventuallyEq ?_
  filter_upwards [hev] with t ht
  have hT2 : (addCoord v j t).getD (h + 1 + i) 0 + (addCoord v j t).getD (h + 2 + i) 0 ≠ 0 := by
    rw [addCoord_getD_rate v j t _ hjl, addCoord_getD_rate v j t _ hjl]
    exact ht
  rw [(JointAccErr_entry c (addCoord v j t) h i (by rw [addCoord_length]; exact hlen) hh hi
    hT2).2]
  simp only [addCoord_getD_rate v j t _ hjl]

/-- Where the divisor is not zero, the entry `(i, j)` of the matrix of
`JointAccJacCalculator` is the number that `JointAccErr_hasDerivAt` gives
as the partial derivative. -/
theorem JointAccJac_entry (a1 a2 a3 a4 a5 : ℚ) (h i j : Nat) (hh : 2 ≤ h) (hT : a4 + a5 ≠ 0) :
    (if j = h + 2 + i then
        Dbl.mul (Dbl.fin 2)
          (Dbl.sub (Dbl.fdiv (a3 - a2) (a4 + a5))
            (Dbl.fdiv ((a3 - a2) * a5 - (a2 - a1) * a4) (sq (a4 + a5))))
      else if j = h + 1 + i then
        Dbl.mul (Dbl.fin 2)
          (Dbl.sub (Dbl.fdiv (-(a2 - a1)) (a4 + a5))
            (Dbl.fdiv ((a3 - a2) * a5 - (a2 - a1) * a4) (sq (a4 + a5))))
      else if j = i + 2 then Dbl.fdiv (2 * a5) (a4 + a5)
      else if j = i + 1 then Dbl.fdiv (2 * (-a5 - a4)) (a4 + a5)
      else if j = i then Dbl.fdiv (2 * a4) (a4 + a5)
      else Dbl.fin 0) =
    Dbl.fin
      (2 * (((((if i + 2 = j then 1 else 0) - (if i + 1 = j then 1 else 0)) * a5 +
            (a3 - a2) * (if h + 2 + i = j then 1 else 0) -
            (((if i + 1 = j then 1 else 0) - (if i = j then 1 else 0)) * a4 +
              (a2 - a1) * (if h + 1 + i = j then 1 else 0))) * (a4 + a5) -
          ((a3 - a2) * a5 - (a2 - a1) * a4) *
            ((if h + 1 + i = j then 1 else 0) + (if h + 2 + i = j then 1 else 0))) /
        (a4 + a5) ^ 2)) := by
  have hsq : sq (a4 + a5) ≠ 0 := by
    unfold sq
    exact mul_ne_zero hT hT
  have hval : ∀ p q r : ℚ,
      Dbl.mul (Dbl.fin 2) (Dbl.sub (Dbl.fdiv p (a4 + a5)) (Dbl.fdiv q (sq (a4 + a5)))) =
        Dbl.fin (2 * (p / (a4 + a5) - q / ((a4 + a5) * (a4 + a5)))) := by
    intro p q _
    simp [Dbl.fdiv, hT, hsq, Dbl.sub, Dbl.add, Dbl.neg, Dbl.mul, sub_eq_add_neg, sq]
  have hdiv : ∀ p : ℚ, Dbl.fdiv p (a4 + a5) = Dbl.fin (p / (a4 + a5)) := by
    intro p
    simp [Dbl.fdiv, hT]
  have key : ∀ (e3 e2 e1 e4 e5 : ℚ) (x : ℚ),
      (if i + 2 = j then (1 : ℚ) else 0) = e3 → (if i + 1 = j then (1 : ℚ) else 0) = e2 →
      (if i = j then (1 : ℚ) else 0) = e1 → (if h + 1 + i = j then (1 : ℚ) else 0) = e4 →
      (if h + 2 + i = j then (1 : ℚ) else 0) = e5 →
      x = 2 * ((((e3 - e2) * a5 + (a3 - a2) * e5 - ((e2 - e1) * a4 + (a2 - a1) * e4)) *
          (a4 + a5) - ((a3 - a2) * a5 - (a2 - a1) * a4) * (e4 + e5)) / (a4 + a5) ^ 2) →
      Dbl.fin x =
        Dbl.fin
          (2 * (((((if i + 2 = j then 1 else 0) - (if i + 1 = j then 1 else 0)) * a5 +
                (a3 - a2) * (if h + 2 + i = j then 1 else 0) -
                (((if i + 1 = j then 1 else 0) - (if i = j then 1 else 0)) * a4 +
                  (a2 - a1) * (if h + 1 + i = j then 1 else 0))) * (a4 + a5) -
              ((a3 - a2) * a5 - (a2 - a1) * a4) *
                ((if h + 1 + i = j then 1 else 0) + (if h + 2 + i = j then 1 else 0))) /
            (a4 + a5) ^ 2)) := by
    intro e3 e2 e1 e4 e5 x h3 h2 h1 h4 h5 hx
    rw [h3, h2, h1, h4, h5, hx]
  by_cases c5 : j = h + 2 + i
  · rw [if_pos c5, hval _ _ 0]
    refine key 0 0 0 0 1 _ (if_neg (by omega)) (if_neg (by omega)) (if_neg (by omega))
      (if_neg (by omega)) (if_pos c5.symm) ?_
    field_simp
    ring
  · by_cases c4 : j = h + 1 + i
    · rw [if_neg c5, if_pos c4, hval _ _ 0]
      refine key 0 0 0 1 0 _ (if_neg (by omega)) (if_neg (by omega)) (if_neg (by omega))
        (if_pos c4.symm) (if_neg (by omega)) ?_
      field_simp
      ring
    · by_cases c3 : j = i + 2
      · rw [if_neg c5, if_neg c4, if_pos c3, hdiv]
        refine key 1 0 0 0 0 _ (if_pos c3.symm) (if_neg (by omega)) (if_neg (by omega))
          (if_neg (by omega)) (if_neg (by omega)) ?_
        field_simp
        ring
      · by_cases c2 : j = i + 1
        · rw [if_neg c5, if_neg c4, if_neg c3, if_pos c2, hdiv]
          refine key 0 1 0 0 0 _ (if_neg (by omega)) (if_pos c2.symm) (if_neg (by omega))
            (if_neg (by omega)) (if_neg (by omega)) ?_
          field_simp
          ring
        · by_cases c1 : j = i
          · rw [if_neg c5, if_neg c4, if_neg c3, if_neg c2, if_pos c1, hdiv]
            refine key 0 0 1 0 0 _ (if_neg (by omega)) (if_neg (by omega)) (if_pos c1.symm)
              (if_neg (by omega)) (if_neg (by omega)) ?_
            field_simp
            ring
          · rw [if_neg c5, if_neg c4, if_neg c3, if_neg c2, if_neg c1]
            refine key 0 0 0 0 0 _ (if_neg (by omega)) (if_neg (by omega)) (if_neg (by omega))
              (if_neg (by omega)) (if_neg (by omega)) ?_
            simp

/-- C26: for every input `v` of even length `2h` with `h ≥ 2`, both
calculators return (no vector or matrix index is out of range): an error
vector of length `h − 2` and an `(h − 2) × 2h` matrix.  For every
`i < h − 2` with `v[h+1+i] + v[h+2+i] ≠ 0`, the entry `i` of the error is
`acc_i = 2(vel_{i+1} − vel_i) / (v[h+1+i] + v[h+2+i]) − limit` with
`vel_i = (v[i+1] − v[i]) · v[h+1+i]`, and every entry `(i, j)` of the matrix
is a number `q` that is the partial derivative at `v` of the entry `i` of
the error with respect to `v[j]` (the derivative of
`t ↦ JointAccErr(v + t·e_j)[i]` at `t = 0`, in the exact arithmetic of the
number model); `q = 0` for `j` outside the columns
`i, i+1, i+2, h+1+i, h+2+i`. -/
theorem JointAccJac_derivative (cE : JointAccErrCalculator) (cJ : JointAccJacCalculator)
    (v : DblVec) (h : Nat) (hlen : v.length = 2 * h) (hh : 2 ≤ h) :
    ∃ err jac, cE.call v = some err ∧ cJ.call v = some jac ∧
      err.length = h - 2 ∧ jac.rows = h - 2 ∧ jac.cols = 2 * h ∧
      ∀ i, i < h - 2 → v.getD (h + 1 + i) 0 + v.getD (h + 2 + i) 0 ≠ 0 →
        err[i]? = some (Dbl.fin
          (2 * ((v.getD (i + 2) 0 - v.getD (i + 1) 0) * v.getD (h + 2 + i) 0 -
            (v.getD (i + 1) 0 - v.getD i 0) * v.getD (h + 1 + i) 0) /
              (v.getD (h + 1 + i) 0 + v.getD (h + 2 + i) 0) - cE.limit_)) ∧
        ∀ j, j < 2 * h →
          ∃ q : ℚ, jac.coeff i j = Dbl.fin q ∧
            HasDerivAt (fun t : ℚ => cE.entry (addCoord v j t) i) q 0 ∧
            (j ≠ i → j ≠ i + 1 → j ≠ i + 2 → j ≠ h + 1 + i → j ≠ h + 2 + i → q = 0) := by
  obtain ⟨jac, hjac, hr, hc, hent⟩ := JointAccJac_call_eq cJ v h hlen hh
  have herr := JointAccErr_call_eq cE v h hlen hh
  refine ⟨_, jac, herr, hjac, by simp, hr, hc, ?_⟩
  intro i hi hT
  have he := (JointAccErr_entry cE v h i hlen hh hi hT).1
  rw [herr] at he
  refine ⟨he, ?_⟩
  intro j hj
  refine ⟨_, ?_, JointAccErr_hasDerivAt cE v h i j hlen hh hi hj hT, ?_⟩
  · rw [hent i hi j]
    exact JointAccJac_entry _ _ _ _ _ h i j hh hT
  · intro n1 n2 n3 n4 n5
    have z3 : (if i + 2 = j then (1 : ℚ) else 0) = 0 := if_neg (fun e => n3 e.symm)
    have z2 : (if i + 1 = j then (1 : ℚ) else 0) = 0 := if_neg (fun e => n2 e.symm)
    have z1 : (if i = j then (1 : ℚ) else 0) = 0 := if_neg (fun e => n1 e.symm)
    have z4 : (if h + 1 + i = j then (1 : ℚ) else 0) = 0 := if_neg (fun e => n4 e.symm)
    have z5 : (if h + 2 + i = j then (1 : ℚ) else 0) = 0 := if_neg (fun e => n5 e.symm)
    simp only [z1, z2, z3, z4, z5]
    simp

/-- Witness for C26: at `v = (1, 2, 4, 7, 5, 10, 100, 1000)` (`h = 4`) the
row 0 has the divisor `10 + 100`; the error is `2 (200 − 10) / 110 − limit`
and the entry `(0, 2)` of the matrix, `2 · 100 / 110`, is the partial
derivative with respect to `v[2]`. -/
theorem JointAccJac_derivative_witness :
    ∃ err jac, JointAccErrCalculator.call ⟨1, ⟨0, 0, 0⟩⟩ [1, 2, 4, 7, 5, 10, 100, 1000] =
        some err ∧
      JointAccJacCalculator.call ⟨⟨0, 0, 0⟩⟩ [1, 2, 4, 7, 5, 10, 100, 1000] = some jac ∧
      err[0]? = some (Dbl.fin (2 * (200 - 10) / 110 - 1)) ∧
      ∃ q : ℚ, jac.coeff 0 2 = Dbl.fin q ∧
        HasDerivAt (fun t : ℚ => JointAccErrCalculator.entry ⟨1, ⟨0, 0, 0⟩⟩
          (addCoord [1, 2, 4, 7, 5, 10, 100, 1000] 2 t) 0) q 0 := by
  obtain ⟨err, jac, h1, h2, -, -, -, h3⟩ := JointAccJac_derivative ⟨1, ⟨0, 0, 0⟩⟩ ⟨⟨0, 0, 0⟩⟩
    [1, 2, 4, 7, 5, 10, 100, 1000] 4 rfl (by decide)
  obtain ⟨e0, hq⟩ := h3 0 (by decide) (by norm_num)
  obtain ⟨q, q1, q2, -⟩ := hq 2 (by decide)
  refine ⟨err, jac, h1, h2, ?_, q, q1, q2⟩
  rw [e0]
  norm_num


/-! ## Sign and size of the joint velocity error -/

/-- The sum of the absolute values of a list built over `List.range`. -/
theorem sum_abs_map_range (f : Nat → ℚ) (n : Nat) :
    (((List.range n).map f).map fun x => |x|).sum =
      ((List.range n).map fun i => |f i|).sum := by
  rw [List.map_map]
  rfl

/-- C31: for every input `v` of even length `2h` with `h ≥ 1`, with
`vel_i = (v[i+1] − v[i]) · v[h+1+i]`: all `2(h − 1)` components of the vector
returned by `JointVelErrCalculator` are `≤ 0` if and only if
`lower_tol ≤ vel_i − target ≤ upper_tol` for every `i < h − 1`; and when both
tolerances are zero, entry `(h − 1) + i` is the negation of entry `i`, and
the sum of the absolute values of the entries is `2 · Σ |vel_i − target|`. -/
theorem JointVelErr_feasible_iff (c : JointVelErrCalculator) (v : DblVec) (h : Nat)
    (hlen : v.length = 2 * h) (hh : 1 ≤ h) :
    ∃ out, c.call v = some out ∧ out.length = 2 * (h - 1) ∧
      ((∀ k, k < 2 * (h - 1) → out.getD k 0 ≤ 0) ↔
        ∀ i, i < h - 1 →
          c.lower_tol_ ≤ (v.getD (i + 1) 0 - v.getD i 0) * v.getD (h + 1 + i) 0 - c.target_ ∧
          (v.getD (i + 1) 0 - v.getD i 0) * v.getD (h + 1 + i) 0 - c.target_ ≤ c.upper_tol_) ∧
      (c.upper_tol_ = 0 → c.lower_tol_ = 0 →
        (∀ i, i < h - 1 → out.getD ((h - 1) + i) 0 = -out.getD i 0) ∧
        (out.map fun x => |x|).sum =
          2 * ((List.range (h - 1)).map fun i =>
            |(v.getD (i + 1) 0 - v.getD i 0) * v.getD (h + 1 + i) 0 - c.target_|).sum) := by
  obtain ⟨out, hcall, hl, hent⟩ := JointVelErr_getElem c v h hlen hh
  have htop : ∀ i, i < h - 1 → out.getD i 0 =
      (v.getD (i + 1) 0 - v.getD i 0) * v.getD (h + 1 + i) 0 - c.target_ - c.upper_tol_ :=
    fun i hi => getD_of_getElem? _ _ _ 0 (hent i hi).1
  have hbot : ∀ i, i < h - 1 → out.getD ((h - 1) + i) 0 =
      c.lower_tol_ - ((v.getD (i + 1) 0 - v.getD i 0) * v.getD (h + 1 + i) 0 - c.target_) :=
    fun i hi => getD_of_getElem? _ _ _ 0 (hent i hi).2
  refine ⟨out, hcall, hl, ⟨?_, ?_⟩, ?_⟩
  · intro hall i hi
    have h1 := hall i (by omega)
    have h2 := hall ((h - 1) + i) (by omega)
    rw [htop i hi] at h1
    rw [hbot i hi] at h2
    constructor <;> linarith
  · intro hall k hk
    by_cases hk1 : k < h - 1
    · rw [htop k hk1]
      linarith [(hall k hk1).2]
    · obtain ⟨i, rfl⟩ : ∃ i, k = (h - 1) + i := ⟨k - (h - 1), by omega⟩
      have hi : i < h - 1 := by omega
      rw [hbot i hi]
      linarith [(hall i hi).1]
  · intro hu hlo
    refine ⟨?_, ?_⟩
    · intro i hi
      rw [htop i hi, hbot i hi, hu, hlo]
      ring
    · have e := JointVelErrCalculator_call_eq c v h hlen hh
      rw [hcall] at e
      rw [Option.some.injEq] at e
      rw [e, List.map_append, List.sum_append, sum_abs_map_range, sum_abs_map_range, hu, hlo,
        two_mul]
      congr 1
      · congr 1
        apply List.map_congr_left
        intro i _
        congr 1
        ring
      · congr 1
        apply List.map_congr_left
        intro i _
        rw [← abs_neg]
        congr 1
        ring

/-- Witness for C31: four joint values `1, 2, 4, 7` with the inverse time
steps `5, 10, 100, 1000` give the velocities `10, 200, 3000`; with target
`200` and both tolerances zero the six entries are `-190, 0, 2800` and their
negations, not all `≤ 0` (the first and third velocity miss the target), and
their absolute values add up to `2 · (190 + 0 + 2800)`. -/
theorem JointVelErr_feasible_iff_witness :
    ([1, 2, 4, 7, 5, 10, 100, 1000] : DblVec).length = 2 * 4 ∧ 1 ≤ 4 ∧
    JointVelErrCalculator.call ⟨200, 0, 0⟩ [1, 2, 4, 7, 5, 10, 100, 1000] =
      some [-190, 0, 2800, 190, 0, -2800] ∧
    ∃ out, JointVelErrCalculator.call ⟨200, 0, 0⟩ [1, 2, 4, 7, 5, 10, 100, 1000] = some out ∧
      out.length = 2 * (4 - 1) ∧
      ((∀ k, k < 2 * (4 - 1) → out.getD k 0 ≤ 0) ↔
        ∀ i, i < 4 - 1 →
          (0 : ℚ) ≤ (([1, 2, 4, 7, 5, 10, 100, 1000] : DblVec).getD (i + 1) 0 -
              ([1, 2, 4, 7, 5, 10, 100, 1000] : DblVec).getD i 0) *
            ([1, 2, 4, 7, 5, 10, 100, 1000] : DblVec).getD (4 + 1 + i) 0 - 200 ∧
          (([1, 2, 4, 7, 5, 10, 100, 1000] : DblVec).getD (i + 1) 0 -
              ([1, 2, 4, 7, 5, 10, 100, 1000] : DblVec).getD i 0) *
            ([1, 2, 4, 7, 5, 10, 100, 1000] : DblVec).getD (4 + 1 + i) 0 - 200 ≤ 0) ∧
      ((0 : ℚ) = 0 → (0 : ℚ) = 0 →
        (∀ i, i < 4 - 1 → out.getD ((4 - 1) + i) 0 = -out.getD i 0) ∧
        (out.map fun x => |x|).sum =
          2 * ((List.range (4 - 1)).map fun i =>
            |(([1, 2, 4, 7, 5, 10, 100, 1000] : DblVec).getD (i + 1) 0 -
                ([1, 2, 4, 7, 5, 10, 100, 1000] : DblVec).getD i 0) *
              ([1, 2, 4, 7, 5, 10, 100, 1000] : DblVec).getD (4 + 1 + i) 0 - 200|).sum) :=
  ⟨rfl, by decide,
    (JointVelErrCalculator_call_eq ⟨200, 0, 0⟩ [1, 2, 4, 7, 5, 10, 100, 1000] 4 rfl
      (by decide)).trans (by norm_num [List.range_succ]),
    JointVelErr_feasible_iff ⟨200, 0, 0⟩ [1, 2, 4, 7, 5, 10, 100, 1000] 4 rfl (by decide)⟩

/-! ## The two branches of the Cartesian velocity Jacobian -/

/-- With a TCP without translation, the link point `kin_link_->transform *
tcp_` is at the translation of `kin_link_->transform`. -/
theorem Isometry3d.mul_translation_of_zero (a b : Isometry3d) (hb : b.translation = 0) :
    (a.mul b).translation = a.translation := by
  unfold Isometry3d.mul
  simp [hb]

/-- With a TCP without translation the two branches compute the same pair of
Jacobians. -/
theorem CartVelJac_jacobians_eq (k : KinematicsTools) (c : CartVelJacCalculator)
    (htcp : c.tcp_.translation = 0) (dof_vals : DblVec) (n_dof : Int) :
    c.zeroTcpJacobians k dof_vals n_dof = c.tcpJacobians k dof_vals n_dof := by
  unfold CartVelJacCalculator.zeroTcpJacobians CartVelJacCalculator.tcpJacobians
  rw [Isometry3d.mul_translation_of_zero _ _ htcp]

/-- A block assignment at natural positions: it succeeds exactly when the
source has the size of the block, for a block inside the matrix. -/
theorem MatrixX.setBlock_nat (m src : MatrixX ℚ) (i j p q : Int) (a b r s : Nat)
    (hi : i = a) (hj : j = b) (hp : p = r) (hq : q = s)
    (hrow : a + r ≤ m.rows) (hcol : b + s ≤ m.cols) :
    m.setBlock i j p q src =
      if src.rows = r ∧ src.cols = s then
        some { m with
          coeff := fun x y =>
            if a ≤ x ∧ x < a + r ∧ b ≤ y ∧ y < b + s then src.coeff (x - a) (y - b)
            else m.coeff x y }
      else none := by
  subst hi hj hp hq
  unfold MatrixX.setBlock
  have t1 : ((a : Int) + (r : Int)).toNat = a + r := by omega
  have t2 : ((b : Int) + (s : Int)).toNat = b + s := by omega
  by_cases h : src.rows = r ∧ src.cols = s
  · rw [if_pos h, if_pos ⟨by omega, by omega, by omega, by omega, by omega, by omega,
      by omega, by omega⟩, t1, t2, Int.toNat_ofNat, Int.toNat_ofNat]
  · rw [if_neg h, if_neg]
    intro hh
    exact h ⟨by omega, by omega⟩

/-- The top rows of a matrix, for a natural number of rows. -/
theorem MatrixX.topRows_three (m : MatrixX ℚ) :
    m.topRows 3 = if 3 ≤ m.rows then some { m with rows := 3 } else none := by
  unfold MatrixX.topRows
  by_cases h : 3 ≤ m.rows
  · rw [if_pos h, if_pos ⟨by decide, by exact_mod_cast h⟩]; rfl
  · rw [if_neg h, if_neg (fun hh => h (by exact_mod_cast hh.2))]

/-- The four block assignments succeed exactly when both Jacobians have at
least three rows and `n` columns, and then give `[−J0, J1]` over
`[J0, −J1]`. -/
theorem CartVelJac_assignBlocks (out jac0 jac1 : MatrixX ℚ) (n : Nat)
    (hr : out.rows = 6) (hc : out.cols = 2 * n) :
    CartVelJacCalculator.assignBlocks out (n : Int) jac0 jac1 =
      if 3 ≤ jac0.rows ∧ jac0.cols = n ∧ 3 ≤ jac1.rows ∧ jac1.cols = n then
        some { rows := 6, cols := 2 * n, coeff := fun r j =>
          if r < 3 then
            if j < n then -jac0.coeff r j
            else if j < 2 * n then jac1.coeff r (j - n) else out.coeff r j
          else if r < 6 then
            if j < n then jac0.coeff (r - 3) j
            else if j < 2 * n then -jac1.coeff (r - 3) (j - n) else out.coeff r j
          else out.coeff r j }
      else none := by
  unfold CartVelJacCalculator.assignBlocks
  rw [MatrixX.topRows_three, MatrixX.topRows_three]
  by_cases h0 : 3 ≤ jac0.rows
  · by_cases h1 : 3 ≤ jac1.rows
    · rw [if_pos h0, if_pos h1]
      simp only []
      rw [MatrixX.setBlock_nat out _ 0 0 3 n 0 0 3 n rfl rfl rfl rfl (by omega) (by omega)]
      by_cases c0 : jac0.cols = n
      · rw [if_pos ⟨rfl, c0⟩]
        simp only []
        rw [MatrixX.setBlock_nat _ _ 0 n 3 n 0 n 3 n rfl rfl rfl rfl
          (by simp only []; omega) (by simp only []; omega)]
        by_cases c1 : jac1.cols = n
        · rw [if_pos ⟨rfl, c1⟩]
          simp only []
          rw [MatrixX.setBlock_nat _ _ 3 0 3 n 3 0 3 n rfl rfl rfl rfl
            (by simp only []; omega) (by simp only []; omega), if_pos ⟨rfl, c0⟩]
          simp only []
          rw [MatrixX.setBlock_nat _ _ 3 n 3 n 3 n 3 n rfl rfl rfl rfl
            (by simp only []; omega) (by simp only []; omega), if_pos ⟨rfl, c1⟩,
            if_pos ⟨h0, c0, h1, c1⟩]
          simp only [MatrixX.neg, hr, hc, Option.some.injEq, MatrixX.mk.injEq, true_and]
          funext x y
          simp only [Nat.sub_zero, Nat.zero_le, true_and, Nat.zero_add]
          split_ifs <;> first | rfl | (exfalso; omega)
        · rw [if_neg (fun hh => c1 hh.2), if_neg (fun hh => c1 hh.2.2.2)]
      · rw [if_neg (fun hh => c0 hh.2), if_neg (fun hh => c0 hh.2.1)]
    · rw [if_pos h0, if_neg h1, if_neg (fun hh => h1 hh.2.2.1)]
  · rw [if_neg h0, if_neg (fun hh : 3 ≤ jac0.rows ∧ _ => h0 hh.1)]

/-- On an input with at least `n` entries the general branch returns its
pair of Jacobians, at the first `n` and at the last `n` entries. -/
theorem CartVelJac_tcpJacobians_some (k : KinematicsTools) (c : CartVelJacCalculator)
    (dof_vals : DblVec) (n : Nat) (hn : n ≤ dof_vals.length) :
    c.tcpJacobians k dof_vals (n : Int) =
      some
        (k.jacobianChangeRefPoint
          (k.jacobianChangeBase
            (c.manip_.calcJacobian ((dof_vals.drop 0).take n) c.kin_link_.link_name)
            c.world_to_base_)
          ((c.world_to_base_.mul
            (c.manip_.calcFwdKin ((dof_vals.drop 0).take n) c.kin_link_.link_name)).linear.mulVec
              (c.kin_link_.transform.mul c.tcp_).translation),
        k.jacobianChangeRefPoint
          (k.jacobianChangeBase
            (c.manip_.calcJacobian ((dof_vals.drop (dof_vals.length - n)).take n)
              c.kin_link_.link_name)
            c.world_to_base_)
          ((c.world_to_base_.mul
            (c.manip_.calcFwdKin ((dof_vals.drop (dof_vals.length - n)).take n)
              c.kin_link_.link_name)).linear.mulVec
              (c.kin_link_.transform.mul c.tcp_).translation)) := by
  unfold CartVelJacCalculator.tcpJacobians
  rw [segment_nat dof_vals 0 n 0 n rfl rfl (by omega),
    segment_nat dof_vals _ n (dof_vals.length - n) n (by omega) rfl (by omega)]

/-- The matrix `CartVelJacCalculator::operator()` returns, from the pair of
Jacobians of the branch it takes. -/
theorem CartVelJac_call_eq (k : KinematicsTools) (c : CartVelJacCalculator)
    (dof_vals : DblVec) :
    c.call k dof_vals =
      match (if k.isZero c.tcp_.translation then
          c.zeroTcpJacobians k dof_vals c.manip_.numJoints
        else c.tcpJacobians k dof_vals c.manip_.numJoints) with
      | none => none
      | some (jac0, jac1) =>
        if 3 ≤ jac0.rows ∧ jac0.cols = c.manip_.numJoints ∧
            3 ≤ jac1.rows ∧ jac1.cols = c.manip_.numJoints then
          some { rows := 6, cols := 2 * c.manip_.numJoints, coeff := fun r j =>
            if r < 3 then
              if j < c.manip_.numJoints then -jac0.coeff r j
              else if j < 2 * c.manip_.numJoints then jac1.coeff r (j - c.manip_.numJoints)
              else 0
            else if r < 6 then
              if j < c.manip_.numJoints then jac0.coeff (r - 3) j
              else if j < 2 * c.manip_.numJoints then
                -jac1.coeff (r - 3) (j - c.manip_.numJoints)
              else 0
            else 0 }
        else none := by
  unfold CartVelJacCalculator.call
  have hz : MatrixX.Zero (0 : ℚ) 6 (2 * (c.manip_.numJoints : Int)) =
      some { rows := 6, cols := 2 * c.manip_.numJoints, coeff := fun _ _ => 0 } := by
    unfold MatrixX.Zero
    rw [if_pos ⟨by decide, by omega⟩]
    have t : (2 * (c.manip_.numJoints : Int)).toNat = 2 * c.manip_.numJoints := by omega
    rw [t]
    rfl
  simp only []
  rw [hz]
  simp only []
  split
  · rfl
  · rename_i jac0 jac1 hj
    rw [CartVelJac_assignBlocks _ jac0 jac1 c.manip_.numJoints rfl rfl]

/-- The matrix `CartVelJacCalculator::operator()` returns has six rows and
`2 n` columns and is `[−J0, J1]` over `[J0, −J1]`, for the Jacobians `J0`,
`J1` of the branch taken; rows 3–5 are the negation of rows 0–2. -/
theorem CartVelJac_rows (k : KinematicsTools) (c : CartVelJacCalculator)
    (dof_vals : DblVec) (out : MatrixX ℚ) (hout : c.call k dof_vals = some out) :
    out.rows = 6 ∧ out.cols = 2 * c.manip_.numJoints ∧
    (∃ jac0 jac1,
      (if k.isZero c.tcp_.translation then
          c.zeroTcpJacobians k dof_vals c.manip_.numJoints
        else c.tcpJacobians k dof_vals c.manip_.numJoints) = some (jac0, jac1) ∧
      ∀ r j, r < 3 → j < c.manip_.numJoints →
        out.coeff r j = -jac0.coeff r j ∧
        out.coeff r (c.manip_.numJoints + j) = jac1.coeff r j ∧
        out.coeff (r + 3) j = jac0.coeff r j ∧
        out.coeff (r + 3) (c.manip_.numJoints + j) = -jac1.coeff r j) ∧
    ∀ r j, r < 3 → j < 2 * c.manip_.numJoints → out.coeff (r + 3) j = -out.coeff r j := by
  rw [CartVelJac_call_eq] at hout
  split at hout
  · exact absurd hout (by simp)
  · rename_i jac0 jac1 hj
    split_ifs at hout with hd
    rw [Option.some.injEq] at hout
    subst hout
    refine ⟨rfl, rfl, ⟨jac0, jac1, hj, ?_⟩, ?_⟩
    · intro r j hr hj
      have a1 : r + 3 - 3 = r := by omega
      have a2 : c.manip_.numJoints + j - c.manip_.numJoints = j := by omega
      have b1 : ¬ r + 3 < 3 := by omega
      have b2 : r + 3 < 6 := by omega
      have b3 : ¬ c.manip_.numJoints + j < c.manip_.numJoints := by omega
      have b4 : c.manip_.numJoints + j < 2 * c.manip_.numJoints := by omega
      simp only [hr, hj, b1, b2, b3, b4, a1, a2, if_true, if_false, and_self]
    · intro r j hr hj
      have a1 : r + 3 - 3 = r := by omega
      have b1 : ¬ r + 3 < 3 := by omega
      have b2 : r + 3 < 6 := by omega
      simp only [hr, hj, b1, b2, a1, if_true, if_false]
      split_ifs <;> simp

/-- C32: in `CartVelJacCalculator::operator()`, when the translation of the
TCP is zero, `(kin_link_->transform * tcp_).translation()` equals
`kin_link_->transform.translation()`, so the branch for a TCP without
translation and the general branch compute the same Jacobians and
`operator()` returns the same matrix whichever of the two the test
`isZero()` selects, for every input; it returns a matrix whenever the input
has at least `n` entries and the Jacobians have at least three rows and `n`
columns.  For every calculator and in both branches the matrix returned is
`[−J0, J1]` over `[J0, −J1]`: its rows 3–5 are the negation of its rows
0–2. -/
theorem CartVelJac_branches_agree (k : KinematicsTools) (c : CartVelJacCalculator)
    (htcp : c.tcp_.translation = 0) (dof_vals : DblVec) :
    (c.kin_link_.transform.mul c.tcp_).translation = c.kin_link_.transform.translation ∧
    c.zeroTcpJacobians k dof_vals c.manip_.numJoints =
      c.tcpJacobians k dof_vals c.manip_.numJoints ∧
    c.call { k with isZero := fun _ => true } dof_vals =
      c.call { k with isZero := fun _ => false } dof_vals ∧
    c.call k dof_vals = c.call { k with isZero := fun _ => false } dof_vals ∧
    (c.manip_.numJoints ≤ dof_vals.length →
      (∀ q p, 3 ≤ (k.jacobianChangeRefPoint (k.jacobianChangeBase
            (c.manip_.calcJacobian q c.kin_link_.link_name) c.world_to_base_) p).rows ∧
          (k.jacobianChangeRefPoint (k.jacobianChangeBase
            (c.manip_.calcJacobian q c.kin_link_.link_name) c.world_to_base_) p).cols =
            c.manip_.numJoints) →
      ∃ out, c.call k dof_vals = some out) ∧
    ∀ (k2 : KinematicsTools) (c2 : CartVelJacCalculator) (d2 : DblVec) (out : MatrixX ℚ),
      c2.call k2 d2 = some out →
        out.rows = 6 ∧ out.cols = 2 * c2.manip_.numJoints ∧
        (∃ jac0 jac1,
          (if k2.isZero c2.tcp_.translation then
              c2.zeroTcpJacobians k2 d2 c2.manip_.numJoints
            else c2.tcpJacobians k2 d2 c2.manip_.numJoints) = some (jac0, jac1) ∧
          ∀ r j, r < 3 → j < c2.manip_.numJoints →
            out.coeff r j = -jac0.coeff r j ∧
            out.coeff r (c2.manip_.numJoints + j) = jac1.coeff r j ∧
            out.coeff (r + 3) j = jac0.coeff r j ∧
            out.coeff (r + 3) (c2.manip_.numJoints + j) = -jac1.coeff r j) ∧
        ∀ r j, r < 3 → j < 2 * c2.manip_.numJoints →
          out.coeff (r + 3) j = -out.coeff r j := by
  have hj := CartVelJac_jacobians_eq k c htcp dof_vals c.manip_.numJoints
  have hcall : ∀ k2 : KinematicsTools,
      k2.jacobianChangeBase = k.jacobianChangeBase →
      k2.jacobianChangeRefPoint = k.jacobianChangeRefPoint →
      c.call k2 dof_vals = c.call { k with isZero := fun _ => false } dof_vals := by
    intro k2 e1 e2
    have hj2 := CartVelJac_jacobians_eq k2 c htcp dof_vals c.manip_.numJoints
    rw [CartVelJac_call_eq, CartVelJac_call_eq, hj2, ite_self]
    simp only [Bool.false_eq_true, if_false]
    have e3 : c.tcpJacobians k2 dof_vals c.manip_.numJoints =
        c.tcpJacobians { k with isZero := fun _ => false } dof_vals c.manip_.numJoints := by
      unfold CartVelJacCalculator.tcpJacobians
      simp only [e1, e2]
    rw [e3]
  refine ⟨Isometry3d.mul_translation_of_zero _ _ htcp, hj, hcall _ rfl rfl, hcall k rfl rfl,
    ?_, fun k2 c2 d2 out h => CartVelJac_rows k2 c2 d2 out h⟩
  intro hn hdim
  rw [CartVelJac_call_eq, hj, ite_self, CartVelJac_tcpJacobians_some k c dof_vals _ hn]
  simp only []
  rw [if_pos ⟨(hdim _ _).1, (hdim _ _).2, (hdim _ _).1, (hdim _ _).2⟩]
  exact ⟨_, rfl⟩

/-- Witness for C32: the one-joint arm with a TCP turned by a quarter turn
and without translation, on the input `(1, 2)`.  The reference point is
`(1, 2, 3)` in both branches, the Jacobians have the entries `r + 2` and
`r + 3`, and the matrix returned is the same whether the test for zero is
forced to succeed or to fail. -/
theorem CartVelJac_branches_agree_witness :
    turnedTcpCalc.tcp_.translation = 0 ∧
    turnedTcpCalc.call { plainTools with isZero := fun _ => true } [1, 2] =
      turnedTcpCalc.call { plainTools with isZero := fun _ => false } [1, 2] ∧
    (turnedTcpCalc.call plainTools [1, 2]).map
        (fun m => (m.rows, m.cols,
          (List.range 6).map fun r => (List.range 2).map fun j => m.coeff r j)) =
      some (6, 2, [[-2, 3], [-3, 4], [-4, 5], [2, -3], [3, -4], [4, -5]]) :=
  ⟨rfl, (CartVelJac_branches_agree plainTools turnedTcpCalc rfl [1, 2]).2.2.1, by
    rw [CartVelJac_call_eq]
    simp [plainTools, turnedTcpCalc, sliderArm, CartVelJacCalculator.zeroTcpJacobians,
      segment, Isometry3d.mul, List.range_succ]
    norm_num⟩

end sco
